import Mathlib

/-!
# ParallelStrategyBacktester: the trading-simulation core

A shallow embedding of `src/BacktestingLib/TradingManager.cpp`, of the simulator
of `src/BacktestingLib/StrategyTester.cpp` and of `calculateBars` of
`src/BacktestingLib/MarketDataManager.cpp`, and the theorems settled about them.

Conventions of the embedding

* The program is embedded twice as far as its numbers go.  In the embedding of
  the whole manager, `double`/`float`/`price`/`volume` values are exact
  rationals: this is the program in exact arithmetic, where rounding does not
  exist.  A quotient keeps the IEEE outcome of a division by zero (`XNum.pinf`,
  `XNum.ninf`, `XNum.nan`), zeros being positive.
* The ledger `AccountBalanceManager` and the reduction of the optimizer are
  embedded a second time in the arithmetic the program runs in (namespace
  `IEEE`): `double` is binary64 and `float` binary32, every operation rounds to
  nearest, ties to even, with signed zeros, infinities and NaN, and the margin
  level is the `double` quotient narrowed to `float`.  What a statement about
  the ledger's numbers owes to exact arithmetic is decided there.
* `assert` is compiled out (`NDEBUG`, the release configuration the program
  asks to be run with): a failed condition has no effect on the state.
* A `std::list` node is a pair of its address and the `Position` it stores; a
  `PositionsIterator` is such a node, and two iterators are equal when their
  addresses are.
* `std::push_heap`, `std::pop_heap` and `std::make_heap` are library routines:
  they are a parameter `H : StdHeap` of the embedding, constrained by the
  contract the C++ standard gives them.  `refHeap` is one such implementation.
* Time points and durations are whole numbers of milliseconds.
* A strategy is a value of `ATS σ`: its hooks are functions of the state of the
  strategy and of the manager behind its broker connection, and return the
  broker calls they make, in order.  An operation whose behaviour is undefined
  in the source (`closePosition` of an id that is not in the map, the front of
  an empty tick vector) has the result `none`.
-/

set_option autoImplicit false

namespace BackTesting

/-! ## Numbers -/

/-- Value of a floating-point quotient in exact arithmetic. -/
inductive XNum where
  | fin (q : ℚ)
  | pinf
  | ninf
  | nan
deriving DecidableEq

namespace XNum

/-- Sum of two values, as `operator+` on `double`. -/
def add : XNum → XNum → XNum
  | fin a, fin b => fin (a + b)
  | nan, _ => nan
  | _, nan => nan
  | pinf, ninf => nan
  | ninf, pinf => nan
  | pinf, _ => pinf
  | _, pinf => pinf
  | ninf, _ => ninf
  | _, ninf => ninf

/-- Quotient of two values, as `operator/` on `double` (zeros are positive). -/
def div : XNum → XNum → XNum
  | fin a, fin b =>
    if b = 0 then (if 0 < a then pinf else if a < 0 then ninf else nan)
    else fin (a / b)
  | nan, _ => nan
  | _, nan => nan
  | fin _, pinf => fin 0
  | fin _, ninf => fin 0
  | pinf, fin b => if 0 ≤ b then pinf else ninf
  | ninf, fin b => if 0 ≤ b then ninf else pinf
  | pinf, pinf => nan
  | pinf, ninf => nan
  | ninf, pinf => nan
  | ninf, ninf => nan

/-- Comparison `a <= b`, false whenever an operand is NaN. -/
def le : XNum → XNum → Bool
  | nan, _ => false
  | _, nan => false
  | ninf, _ => true
  | _, pinf => true
  | fin a, fin b => decide (a ≤ b)
  | fin _, ninf => false
  | pinf, fin _ => false
  | pinf, ninf => false

/-- Comparison `a > b`, false whenever an operand is NaN. -/
def gt : XNum → XNum → Bool
  | nan, _ => false
  | _, nan => false
  | pinf, pinf => false
  | pinf, _ => true
  | ninf, _ => false
  | fin _, pinf => false
  | fin _, ninf => true
  | fin a, fin b => decide (b < a)

end XNum

/-! ## Shared data types -/

/-- Modelled from the spec: the `Tick` record of the `AlgoTrading` module, whose
declaration is not part of the sources at hand. -/
structure Tick where
  timestamp : Int
  bid : ℚ
  ask : ℚ
  volume : ℚ
  flags : Nat
deriving DecidableEq

/-- Modelled from the spec: the `Order` record of the `AlgoTrading` module. -/
structure Order where
  is_long : Bool
  volume : ℚ
  stoploss : ℚ
  takeprofit : ℚ
  comment : String
deriving DecidableEq

/-- Modelled from the spec: the `Position` record of the `AlgoTrading` module;
the fields are in the order of the constructor call in `tryCreatePosition`. -/
structure Position where
  id : Nat
  open_time : Int
  open_price : ℚ
  volume : ℚ
  is_long : Bool
  comment : String
  stoploss : ℚ
  takeprofit : ℚ
deriving DecidableEq

/-- Modelled from the spec: `Position::hasStoploss`, a stop-loss of 0 is absent. -/
def Position.hasStoploss (p : Position) : Bool := decide (p.stoploss ≠ 0)

/-- Modelled from the spec: `Position::hasTakeprofit`, a take-profit of 0 is absent. -/
def Position.hasTakeprofit (p : Position) : Bool := decide (p.takeprofit ≠ 0)

/-- Modelled from the spec: the `Trade::CloseType` enumeration. -/
inductive CloseType where
  | STOPLOSS
  | TAKEPROFIT
  | MANUAL
  | FORCED
deriving DecidableEq

/-- Modelled from the spec: the `Trade` record of the `AlgoTrading` module; the
fields are in the order of the constructor call in `closePosition`. -/
structure Trade where
  open_time : Int
  close_time : Int
  open_price : ℚ
  close_price : ℚ
  volume : ℚ
  is_long : Bool
  close_type : CloseType
  comment : String
deriving DecidableEq

/-- Modelled from the spec: `Trade::calculateProfit`,
`(close_price - open_price) * volume` for a long and
`(open_price - close_price) * volume` for a short. -/
def Trade.calculateProfit (t : Trade) : ℚ :=
  if t.is_long then (t.close_price - t.open_price) * t.volume
  else (t.open_price - t.close_price) * t.volume

/-- The account properties of a simulation. -/
structure AccountProperties where
  account_balance : ℚ := 10000
  leverage : Nat := 50
  stop_out_level : ℚ := 1 / 2
  stop_out_warning_level : ℚ := 55 / 100
deriving DecidableEq

/-- State of the account. -/
inductive AccountState where
  | OK
  | NONPOSITIVE_ACCOUNT_BALANCE
  | MARGIN_CALL
  | MARGIN_CALL_WARNING
deriving DecidableEq

/-! ## AccountBalanceManager -/

/-- The ledger in exact arithmetic: the private fields of `AccountBalanceManager`,
its numbers read as rationals.  `IEEE.AccountBalanceManager` is the same ledger
with its `double` and `float` fields. -/
structure AccountBalanceManager where
  _stop_out_level : ℚ
  _stop_out_warning_level : ℚ
  _account_balance : ℚ
  _leverage : Nat
  _open_position_equity : ℚ := 0
  _long_positions_expanses : ℚ := 0
  _long_volume : ℚ := 0
  _short_positions_expanses : ℚ := 0
  _short_volume : ℚ := 0
deriving DecidableEq

namespace AccountBalanceManager

/-- Constructor `AccountBalanceManager(const AccountProperties&)`. -/
def ofProperties (properties : AccountProperties) : AccountBalanceManager :=
  { _stop_out_level := properties.stop_out_level
    _stop_out_warning_level := properties.stop_out_warning_level
    _account_balance := properties.account_balance
    _leverage := properties.leverage }

def getBalance (a : AccountBalanceManager) : ℚ := a._account_balance

def getTotalEquity (a : AccountBalanceManager) : ℚ :=
  a._account_balance + a._open_position_equity

def getTotalExpenses (a : AccountBalanceManager) : ℚ :=
  a._long_positions_expanses + a._short_positions_expanses

def getUsedMargin (a : AccountBalanceManager) : XNum :=
  XNum.div (.fin a.getTotalExpenses) (.fin a._leverage)

def calculateRequiredMargin (a : AccountBalanceManager) (volume open_price : ℚ) : XNum :=
  XNum.div (.fin (volume * open_price)) (.fin a._leverage)

/-- `getMarginLevel` in exact arithmetic: the quotient, not narrowed to `float`
(`IEEE.AccountBalanceManager.getMarginLevel` is). -/
def getMarginLevel (a : AccountBalanceManager) : XNum :=
  XNum.div (.fin a.getTotalEquity) a.getUsedMargin

def canOrderBeProcessed (a : AccountBalanceManager) (volume open_price close_price : ℚ) : Bool :=
  let price_difference := close_price - open_price
  let price_difference := if price_difference < 0 then price_difference * -1 else price_difference
  let new_equity := a.getTotalEquity - volume * price_difference
  let new_used_margin := XNum.add a.getUsedMargin (a.calculateRequiredMargin volume open_price)
  let after_processing_margin_level := XNum.div (.fin new_equity) new_used_margin
  XNum.gt after_processing_margin_level (.fin a._stop_out_level)

/-- `addPosition` in exact arithmetic: the sums are not rounded
(`IEEE.AccountBalanceManager.addPosition` rounds them to `double`). -/
def addPosition (a : AccountBalanceManager) (pos : Position) : AccountBalanceManager :=
  if pos.is_long then
    { a with
      _long_volume := a._long_volume + pos.volume
      _long_positions_expanses := a._long_positions_expanses + pos.volume * pos.open_price }
  else
    { a with
      _short_volume := a._short_volume + pos.volume
      _short_positions_expanses := a._short_positions_expanses + pos.volume * pos.open_price }

/-- `realizePosition` in exact arithmetic: the differences and the new balance
are not rounded (`IEEE.AccountBalanceManager.realizePosition` rounds them to
`double`). -/
def realizePosition (a : AccountBalanceManager) (trade : Trade) : AccountBalanceManager :=
  let a1 : AccountBalanceManager :=
    if trade.is_long then
      { a with
        _long_volume := a._long_volume - trade.volume
        _long_positions_expanses := a._long_positions_expanses - trade.volume * trade.open_price }
    else
      { a with
        _short_volume := a._short_volume - trade.volume
        _short_positions_expanses := a._short_positions_expanses - trade.volume * trade.open_price }
  { a1 with _account_balance := a1._account_balance + trade.calculateProfit }

def updateOpenPositionEquity (a : AccountBalanceManager) (tick : Tick) : AccountBalanceManager :=
  let long_profit := tick.bid * a._long_volume - a._long_positions_expanses
  let short_profit := a._short_positions_expanses - tick.ask * a._short_volume
  { a with _open_position_equity := long_profit + short_profit }

/-- The state classification of `AccountBalanceManager::onTick`, on the ledger
whose open-position equity is already updated, in exact arithmetic: the margin
level is compared as a rational with the rational levels
(`IEEE.AccountBalanceManager.classify` compares the `float` level with the
`float` levels). -/
def classify (a : AccountBalanceManager) : AccountState :=
  if a._account_balance ≤ 0 then AccountState.NONPOSITIVE_ACCOUNT_BALANCE
  else
    let margin_level := a.getMarginLevel
    if XNum.le margin_level (.fin a._stop_out_level) then AccountState.MARGIN_CALL
    else if XNum.le margin_level (.fin a._stop_out_warning_level) then
      AccountState.MARGIN_CALL_WARNING
    else AccountState.OK

def onTick (a : AccountBalanceManager) (tick : Tick) : AccountState × AccountBalanceManager :=
  let a1 := a.updateOpenPositionEquity tick
  (a1.classify, a1)

end AccountBalanceManager

/-! ## The heap routines of the standard library -/

/-- A comparator usable with the heap routines: a strict weak ordering. -/
structure StrictWeak {α : Type} (comp : α → α → Bool) : Prop where
  irrefl : ∀ a, comp a a = false
  trans : ∀ a b c, comp a b = true → comp b c = true → comp a c = true
  neg_trans : ∀ a b c, comp a b = false → comp b c = false → comp a c = false

/-- The heap property `std::is_heap`: no element is above its parent. -/
def IsHeap {α : Type} (comp : α → α → Bool) (l : List α) : Prop :=
  ∀ (i : Nat) (a b : α), 0 < i → l[(i - 1) / 2]? = some a → l[i]? = some b → comp a b = false

/-- The routines `std::push_heap`, `std::pop_heap` and `std::make_heap` on a
whole vector, with the contract of the C++ standard: given a comparator that is
a strict weak ordering and their precondition, they permute the vector into a
heap; `pop_heap` moves the former front to the back. -/
structure StdHeap where
  push_heap : {α : Type} → (α → α → Bool) → List α → List α
  pop_heap : {α : Type} → (α → α → Bool) → List α → List α
  make_heap : {α : Type} → (α → α → Bool) → List α → List α
  push_heap_spec : ∀ {α : Type} (comp : α → α → Bool) (l : List α) (x : α),
    StrictWeak comp → IsHeap comp l →
      IsHeap comp (push_heap comp (l ++ [x])) ∧ (push_heap comp (l ++ [x])).Perm (l ++ [x])
  pop_heap_spec : ∀ {α : Type} (comp : α → α → Bool) (x : α) (l : List α),
    StrictWeak comp → IsHeap comp (x :: l) →
      ∃ l1, pop_heap comp (x :: l) = l1 ++ [x] ∧ IsHeap comp l1 ∧ l1.Perm l
  make_heap_spec : ∀ {α : Type} (comp : α → α → Bool) (l : List α),
    StrictWeak comp → IsHeap comp (make_heap comp l) ∧ (make_heap comp l).Perm l

/-! ## PositionIteratorQueue and PriceEventManager -/

/-- A node of the `std::list` of positions: its address and the position. -/
structure Node where
  addr : Nat
  val : Position
deriving DecidableEq

/-- Alias for iterator of the list of positions. -/
abbrev PositionsIterator := Node

namespace PositionIteratorQueue

def push (H : StdHeap) (comp : PositionsIterator → PositionsIterator → Bool)
    (heap : List PositionsIterator) (iter : PositionsIterator) : List PositionsIterator :=
  H.push_heap comp (heap ++ [iter])

def update (H : StdHeap) (comp : PositionsIterator → PositionsIterator → Bool)
    (heap : List PositionsIterator) : List PositionsIterator :=
  H.make_heap comp heap

def remove (H : StdHeap) (comp : PositionsIterator → PositionsIterator → Bool)
    (heap : List PositionsIterator) (iter : PositionsIterator) :
    Bool × List PositionsIterator :=
  if heap.any (fun i => i.addr == iter.addr) then
    (true, update H comp (heap.eraseP (fun i => i.addr == iter.addr)))
  else (false, heap)

/-- The vector left by `pop` on a non-empty queue (the popped iterator is its front). -/
def pop (H : StdHeap) (comp : PositionsIterator → PositionsIterator → Bool)
    (heap : List PositionsIterator) : List PositionsIterator :=
  (H.pop_heap comp heap).dropLast

end PositionIteratorQueue

/-- The template arguments of a `PriceEventManager`. -/
structure EventTraits where
  LongCompT : PositionsIterator → PositionsIterator → Bool
  ShortCompT : PositionsIterator → PositionsIterator → Bool
  LongPositionPredicate : ℚ → Position → Bool
  ShortPositionPredicate : ℚ → Position → Bool

/-- The two queues of a `PriceEventManager`. -/
structure PriceEventManager where
  _long_positions : List PositionsIterator := []
  _short_positions : List PositionsIterator := []
deriving DecidableEq

namespace PriceEventManager

def add (H : StdHeap) (T : EventTraits) (m : PriceEventManager) (iter : PositionsIterator) :
    PriceEventManager :=
  if iter.val.is_long then
    { m with _long_positions := PositionIteratorQueue.push H T.LongCompT m._long_positions iter }
  else
    { m with _short_positions := PositionIteratorQueue.push H T.ShortCompT m._short_positions iter }

/-- The manager after `remove`, with the value `result` that is asserted to be true. -/
def remove (H : StdHeap) (T : EventTraits) (m : PriceEventManager) (iter : PositionsIterator) :
    Bool × PriceEventManager :=
  if iter.val.is_long then
    let r := PositionIteratorQueue.remove H T.LongCompT m._long_positions iter
    (r.1, { m with _long_positions := r.2 })
  else
    let r := PositionIteratorQueue.remove H T.ShortCompT m._short_positions iter
    (r.1, { m with _short_positions := r.2 })

end PriceEventManager

/-! ## TradingManager -/

def IteratorLongStoplossComparer (left right : PositionsIterator) : Bool :=
  decide (left.val.stoploss < right.val.stoploss)

def IteratorLongTakeprofitComparer (left right : PositionsIterator) : Bool :=
  decide (left.val.takeprofit > right.val.takeprofit)

def IteratorShortStoplossComparer (left right : PositionsIterator) : Bool :=
  decide (left.val.stoploss > right.val.stoploss)

def IteratorShortTakeprofitComparer (left right : PositionsIterator) : Bool :=
  decide (left.val.takeprofit < right.val.takeprofit)

def LongStoplossPredicate (current_p : ℚ) (pos : Position) : Bool :=
  decide (current_p ≤ pos.stoploss)

def ShortStoplossPredicate (current_p : ℚ) (pos : Position) : Bool :=
  decide (current_p ≥ pos.stoploss)

def LongTakeprofitPredicate (current_p : ℚ) (pos : Position) : Bool :=
  decide (current_p ≥ pos.takeprofit)

def ShortTakeprofitPredicate (current_p : ℚ) (pos : Position) : Bool :=
  decide (current_p ≤ pos.takeprofit)

def StoplossManager : EventTraits :=
  { LongCompT := IteratorLongStoplossComparer
    ShortCompT := IteratorShortStoplossComparer
    LongPositionPredicate := LongStoplossPredicate
    ShortPositionPredicate := ShortStoplossPredicate }

def TakeprofitManager : EventTraits :=
  { LongCompT := IteratorLongTakeprofitComparer
    ShortCompT := IteratorShortTakeprofitComparer
    LongPositionPredicate := LongTakeprofitPredicate
    ShortPositionPredicate := ShortTakeprofitPredicate }

/-- The private fields of `TradingManager`; the handlers of the two event
managers are the functions `stoplossHandler` and `takeprofitHandler`. -/
structure TradingManager where
  _new_id : Nat
  _positions : List Node
  _trades : List Trade
  _current_tick : Tick
  _position_iterators_by_id : List (Nat × PositionsIterator)
  _stoploss_manager : PriceEventManager
  _takeprofit_manager : PriceEventManager
  _account_manager : AccountBalanceManager
deriving DecidableEq

/-- Address given to a newly allocated list node: one no live node has. -/
def freshAddr (l : List Node) : Nat :=
  (l.map (fun n => n.addr)).foldr max 0 + 1

/-- Lookup `m[id]` in the id map; `none` stands for the singular iterator that
`operator[]` creates for an unknown id. -/
def mapFind (m : List (Nat × PositionsIterator)) (id : Nat) : Option PositionsIterator :=
  (m.find? (fun e => e.1 == id)).map (fun e => e.2)

/-- Assignment `m[id] = iter` in the id map. -/
def mapAssign (m : List (Nat × PositionsIterator)) (id : Nat) (iter : PositionsIterator) :
    List (Nat × PositionsIterator) :=
  (id, iter) :: m.filter (fun e => !(e.1 == id))

/-- Removal `m.erase(m.find(id))` from the id map. -/
def mapErase (m : List (Nat × PositionsIterator)) (id : Nat) :
    List (Nat × PositionsIterator) :=
  m.filter (fun e => !(e.1 == id))

/-- The two event managers of a `TradingManager`. -/
inductive EventKind where
  | stoploss
  | takeprofit
deriving DecidableEq

def EventKind.traits : EventKind → EventTraits
  | .stoploss => StoplossManager
  | .takeprofit => TakeprofitManager

/-- The comparator of the queue of one side. -/
def EventKind.comp (k : EventKind) (is_long : Bool) : PositionsIterator → PositionsIterator → Bool :=
  if is_long then k.traits.LongCompT else k.traits.ShortCompT

/-- The predicate `checkEvents` is instantiated with for one side. -/
def EventKind.predicate (k : EventKind) (is_long : Bool) : ℚ → Position → Bool :=
  if is_long then k.traits.LongPositionPredicate else k.traits.ShortPositionPredicate

namespace TradingManager

/-- Constructor `TradingManager(const AccountProperties&)`; `_new_id` and
`_current_tick` have no initializer, their first values are arguments. -/
def init (properties : AccountProperties) (new_id : Nat) (current_tick : Tick) :
    TradingManager :=
  { _new_id := new_id % 2 ^ 64
    _positions := []
    _trades := []
    _current_tick := current_tick
    _position_iterators_by_id := []
    _stoploss_manager := {}
    _takeprofit_manager := {}
    _account_manager := AccountBalanceManager.ofProperties properties }

def getBalance (tm : TradingManager) : ℚ := tm._account_manager.getBalance

def getEquity (tm : TradingManager) : ℚ := tm._account_manager.getTotalEquity

def getCurrentTime (tm : TradingManager) : Int := tm._current_tick.timestamp

def getPosition (tm : TradingManager) (id : Nat) : Option Position :=
  (mapFind tm._position_iterators_by_id id).map (fun n => n.val)

def unregisterPositionEvents (H : StdHeap) (tm : TradingManager) (iter : PositionsIterator) :
    TradingManager :=
  let tm1 :=
    if iter.val.hasStoploss then
      { tm with _stoploss_manager := (tm._stoploss_manager.remove H StoplossManager iter).2 }
    else tm
  if iter.val.hasTakeprofit then
    { tm1 with _takeprofit_manager := (tm1._takeprofit_manager.remove H TakeprofitManager iter).2 }
  else tm1

def registerPositionEvents (H : StdHeap) (tm : TradingManager) (iter : PositionsIterator) :
    TradingManager :=
  let tm1 :=
    if iter.val.hasStoploss then
      { tm with _stoploss_manager := tm._stoploss_manager.add H StoplossManager iter }
    else tm
  if iter.val.hasTakeprofit then
    { tm1 with _takeprofit_manager := tm1._takeprofit_manager.add H TakeprofitManager iter }
  else tm1

/-- The trade that `closePosition(iter, ct)` records. -/
def tradeOf (tm : TradingManager) (pos : Position) (ct : CloseType) : Trade :=
  { open_time := pos.open_time
    close_time := tm._current_tick.timestamp
    open_price := pos.open_price
    close_price := if pos.is_long then tm._current_tick.bid else tm._current_tick.ask
    volume := pos.volume
    is_long := pos.is_long
    close_type := ct
    comment := pos.comment }

/-- The overload `closePosition(PositionsIterator, Trade::CloseType)`. -/
def closePosition (tm : TradingManager) (iter : PositionsIterator) (ct : CloseType) :
    TradingManager :=
  let pos := iter.val
  let trade := tm.tradeOf pos ct
  { tm with
    _trades := tm._trades ++ [trade]
    _account_manager := tm._account_manager.realizePosition trade
    _position_iterators_by_id := mapErase tm._position_iterators_by_id pos.id
    _positions := tm._positions.eraseP (fun n => n.addr == iter.addr) }

def forcedClosePosition (H : StdHeap) (tm : TradingManager) (iter : PositionsIterator) :
    TradingManager :=
  (tm.unregisterPositionEvents H iter).closePosition iter CloseType.FORCED

/-- The loop of `closeAllPositions(Trade::CloseType)`, at most `fuel` rounds. -/
def closeAllPositionsLoop (H : StdHeap) (ct : CloseType) : Nat → TradingManager → TradingManager
  | 0, tm => tm
  | fuel + 1, tm =>
    match tm._positions with
    | [] => tm
    | iter :: _ =>
      closeAllPositionsLoop H ct fuel ((tm.unregisterPositionEvents H iter).closePosition iter ct)

/-- The overload `closeAllPositions(Trade::CloseType)`: each round erases one
position, so as many rounds as there are positions empty the list. -/
def closeAllPositionsWith (H : StdHeap) (tm : TradingManager) (ct : CloseType) : TradingManager :=
  closeAllPositionsLoop H ct tm._positions.length tm

def closeAllPositions (H : StdHeap) (tm : TradingManager) : TradingManager :=
  tm.closeAllPositionsWith H CloseType.FORCED

/-- The handler given to `_stoploss_manager`. -/
def stoplossHandler (H : StdHeap) (tm : TradingManager) (iter : PositionsIterator) :
    TradingManager :=
  let tm1 :=
    { tm with _takeprofit_manager := (tm._takeprofit_manager.remove H TakeprofitManager iter).2 }
  tm1.closePosition iter CloseType.STOPLOSS

/-- The handler given to `_takeprofit_manager`. -/
def takeprofitHandler (H : StdHeap) (tm : TradingManager) (iter : PositionsIterator) :
    TradingManager :=
  let tm1 :=
    { tm with _stoploss_manager := (tm._stoploss_manager.remove H StoplossManager iter).2 }
  tm1.closePosition iter CloseType.TAKEPROFIT

/-- The overload `closePosition(Position::Id)`; `none` when the id is not in
the map, where the source dereferences a singular iterator. -/
def closePositionById (H : StdHeap) (tm : TradingManager) (id : Nat) : Option TradingManager :=
  match mapFind tm._position_iterators_by_id id with
  | none => none
  | some position_iter =>
    some ((tm.unregisterPositionEvents H position_iter).closePosition position_iter
      CloseType.FORCED)

/-- The member `tryCreatePosition`: the returned flag, the id written to the
output parameter (if any) and the manager afterwards.  The block
`if (!order.is_long) { price open_price = ...; price eventual_close_price = ...; }`
declares two locals of its own, which end with the block: the prices of the
enclosing scope are the ones used. -/
def tryCreatePosition (H : StdHeap) (tm : TradingManager) (order : Order) :
    Bool × Option Nat × TradingManager :=
  let open_price := tm._current_tick.ask
  let eventual_close_price := tm._current_tick.bid
  if !tm._account_manager.canOrderBeProcessed order.volume open_price eventual_close_price then
    (false, none, tm)
  else
    let position : Position :=
      { id := tm._new_id
        open_time := tm._current_tick.timestamp
        open_price := open_price
        volume := order.volume
        is_long := order.is_long
        comment := order.comment
        stoploss := order.stoploss
        takeprofit := order.takeprofit }
    let position_iter : PositionsIterator := { addr := freshAddr tm._positions, val := position }
    let tm1 : TradingManager :=
      { tm with
        _new_id := (tm._new_id + 1) % 2 ^ 64
        _positions := position_iter :: tm._positions
        _position_iterators_by_id :=
          mapAssign tm._position_iterators_by_id position.id position_iter
        _account_manager := tm._account_manager.addPosition position }
    (true, some position.id, tm1.registerPositionEvents H position_iter)

def manager (tm : TradingManager) : EventKind → PriceEventManager
  | .stoploss => tm._stoploss_manager
  | .takeprofit => tm._takeprofit_manager

/-- The queue of one side of one event manager. -/
def queue (tm : TradingManager) (k : EventKind) (is_long : Bool) : List PositionsIterator :=
  if is_long then (tm.manager k)._long_positions else (tm.manager k)._short_positions

def setQueue (tm : TradingManager) (k : EventKind) (is_long : Bool)
    (q : List PositionsIterator) : TradingManager :=
  match k, is_long with
  | .stoploss, true => { tm with _stoploss_manager := { tm._stoploss_manager with _long_positions := q } }
  | .stoploss, false => { tm with _stoploss_manager := { tm._stoploss_manager with _short_positions := q } }
  | .takeprofit, true => { tm with _takeprofit_manager := { tm._takeprofit_manager with _long_positions := q } }
  | .takeprofit, false => { tm with _takeprofit_manager := { tm._takeprofit_manager with _short_positions := q } }

/-- The handler an event manager was constructed with. -/
def handler (H : StdHeap) : EventKind → TradingManager → PositionsIterator → TradingManager
  | .stoploss => stoplossHandler H
  | .takeprofit => takeprofitHandler H

/-- The loop of `PriceEventManager::checkEvents` on the queue of one side, at most
`fuel` rounds: while the queue is not empty and the predicate holds of its top,
pop it and hand it to the handler. -/
def checkEventsLoop (H : StdHeap) (k : EventKind) (is_long : Bool) (p : ℚ) :
    Nat → TradingManager → TradingManager
  | 0, tm => tm
  | fuel + 1, tm =>
    match tm.queue k is_long with
    | [] => tm
    | top :: rest =>
      if k.predicate is_long p top.val then
        checkEventsLoop H k is_long p fuel
          (handler H k
            (tm.setQueue k is_long (PositionIteratorQueue.pop H (k.comp is_long) (top :: rest)))
            top)
      else tm

/-- The member `checkEvents`: each round pops one entry, so as many rounds as the
queue has entries end the loop. -/
def checkEvents (H : StdHeap) (k : EventKind) (is_long : Bool) (p : ℚ) (tm : TradingManager) :
    TradingManager :=
  checkEventsLoop H k is_long p (tm.queue k is_long).length tm

/-- The member `PriceEventManager::onTick` of one of the two event managers. -/
def eventsOnTick (H : StdHeap) (k : EventKind) (tick : Tick) (tm : TradingManager) :
    TradingManager :=
  checkEvents H k false tick.ask (checkEvents H k true tick.bid tm)

def onTick (H : StdHeap) (tm : TradingManager) (tick : Tick) : AccountState × TradingManager :=
  let tm1 := { tm with _current_tick := tick }
  let tm2 := eventsOnTick H .stoploss tick tm1
  let tm3 := eventsOnTick H .takeprofit tick tm2
  let r := tm3._account_manager.onTick tick
  let tm4 := { tm3 with _account_manager := r.2 }
  match r.1 with
  | AccountState.NONPOSITIVE_ACCOUNT_BALANCE => (r.1, tm4.closeAllPositionsWith H CloseType.FORCED)
  | AccountState.MARGIN_CALL =>
    match tm4._positions with
    | [] => (r.1, tm4)
    | iter :: _ => (r.1, tm4.forcedClosePosition H iter)
  | _ => (r.1, tm4)

end TradingManager

/-! ## A reference implementation of the heap routines -/

/-- The vector in decreasing priority, which is a heap. -/
def sortDesc {α : Type} (comp : α → α → Bool) (l : List α) : List α :=
  l.insertionSort (fun a b => comp a b = false)

/-- A reference implementation of the heap routines: the vector is put in
decreasing priority, `pop_heap` doing so with all but the former front. -/
def refHeap : StdHeap where
  push_heap := fun comp l => sortDesc comp l
  pop_heap := fun comp l =>
    match l with
    | [] => []
    | x :: t => sortDesc comp t ++ [x]
  make_heap := fun comp l => sortDesc comp l
  push_heap_spec := by
    intro α comp l x hc _
    haveI : IsTrans α (fun a b => comp a b = false) := ⟨hc.neg_trans⟩
    haveI : IsTotal α (fun a b => comp a b = false) := ⟨fun a b => by
      cases hab : comp a b
      · exact Or.inl rfl
      · cases hba : comp b a
        · exact Or.inr rfl
        · exact absurd (hc.trans a b a hab hba) (by simp [hc.irrefl a])⟩
    refine ⟨?_, List.perm_insertionSort _ _⟩
    intro i a b hi ha hb
    obtain ⟨hi1, rfl⟩ := List.getElem?_eq_some.mp ha
    obtain ⟨hi2, rfl⟩ := List.getElem?_eq_some.mp hb
    exact List.pairwise_iff_getElem.mp
      (List.sorted_insertionSort (fun a b => comp a b = false) (l ++ [x])) _ _ hi1 hi2 (by omega)
  pop_heap_spec := by
    intro α comp x l hc _
    haveI : IsTrans α (fun a b => comp a b = false) := ⟨hc.neg_trans⟩
    haveI : IsTotal α (fun a b => comp a b = false) := ⟨fun a b => by
      cases hab : comp a b
      · exact Or.inl rfl
      · cases hba : comp b a
        · exact Or.inr rfl
        · exact absurd (hc.trans a b a hab hba) (by simp [hc.irrefl a])⟩
    refine ⟨sortDesc comp l, rfl, ?_, List.perm_insertionSort _ _⟩
    intro i a b hi ha hb
    obtain ⟨hi1, rfl⟩ := List.getElem?_eq_some.mp ha
    obtain ⟨hi2, rfl⟩ := List.getElem?_eq_some.mp hb
    exact List.pairwise_iff_getElem.mp
      (List.sorted_insertionSort (fun a b => comp a b = false) l) _ _ hi1 hi2 (by omega)
  make_heap_spec := by
    intro α comp l hc
    haveI : IsTrans α (fun a b => comp a b = false) := ⟨hc.neg_trans⟩
    haveI : IsTotal α (fun a b => comp a b = false) := ⟨fun a b => by
      cases hab : comp a b
      · exact Or.inl rfl
      · cases hba : comp b a
        · exact Or.inr rfl
        · exact absurd (hc.trans a b a hab hba) (by simp [hc.irrefl a])⟩
    refine ⟨?_, List.perm_insertionSort _ _⟩
    intro i a b hi ha hb
    obtain ⟨hi1, rfl⟩ := List.getElem?_eq_some.mp ha
    obtain ⟨hi2, rfl⟩ := List.getElem?_eq_some.mp hb
    exact List.pairwise_iff_getElem.mp
      (List.sorted_insertionSort (fun a b => comp a b = false) l) _ _ hi1 hi2 (by omega)

/-! ## Reachable states -/

/-- The managers reached from a fresh one by the public operations
`tryCreatePosition`, `closePosition(id)` on an id of the map,
`closeAllPositions` and `onTick`. -/
inductive Reachable (H : StdHeap) : TradingManager → Prop
  | init (properties : AccountProperties) (new_id : Nat) (current_tick : Tick) :
      Reachable H (TradingManager.init properties new_id current_tick)
  | tryCreatePosition {tm : TradingManager} (order : Order) :
      Reachable H tm → Reachable H (tm.tryCreatePosition H order).2.2
  | closePosition {tm tm1 : TradingManager} (id : Nat) :
      Reachable H tm → tm.closePositionById H id = some tm1 → Reachable H tm1
  | closeAllPositions {tm : TradingManager} :
      Reachable H tm → Reachable H (tm.closeAllPositions H)
  | onTick {tm : TradingManager} (tick : Tick) :
      Reachable H tm → Reachable H (tm.onTick H tick).2

/-- Whether a position carries the price an event manager watches. -/
def EventKind.has : EventKind → Position → Bool
  | .stoploss, p => p.hasStoploss
  | .takeprofit, p => p.hasTakeprofit

/-- Whether a node belongs in the queue of one side of one event manager. -/
def queued (k : EventKind) (is_long : Bool) (n : Node) : Bool :=
  (n.val.is_long == is_long) && k.has n.val

/-- Sum of the volumes of the positions of one side. -/
def sideVolume (is_long : Bool) (l : List Node) : ℚ :=
  ((l.filter (fun n => n.val.is_long == is_long)).map (fun n => n.val.volume)).sum

/-- Sum of `volume * open_price` over the positions of one side. -/
def sideExpense (is_long : Bool) (l : List Node) : ℚ :=
  ((l.filter (fun n => n.val.is_long == is_long)).map
    (fun n => n.val.volume * n.val.open_price)).sum

/-! ## Concrete inputs -/

/-- The account of the admission scenario: balance 1000, leverage 50. -/
def smallAccount : AccountProperties :=
  { account_balance := 1000, leverage := 50 }

/-- An order of volume 100000 without stop-loss and take-profit. -/
def bigOrder : Order :=
  { is_long := true, volume := 100000, stoploss := 0, takeprofit := 0, comment := "" }

/-- A tick with bid 1 and ask 2. -/
def tickBid1Ask2 : Tick :=
  { timestamp := 0, bid := 1, ask := 2, volume := 0, flags := 0 }

/-- A short order of volume 1000 without stop-loss and take-profit. -/
def shortOrder : Order :=
  { is_long := false, volume := 1000, stoploss := 0, takeprofit := 0, comment := "" }

/-! ## Invariants of the manager -/

/-- The two queues of an event manager are heaps under their comparators and hold
exactly the nodes of `l` that belong in them. -/
def ManagerInv (k : EventKind) (l : List Node) (m : PriceEventManager) : Prop :=
  (IsHeap (k.comp true) m._long_positions ∧
    m._long_positions.Perm (l.filter (queued k true))) ∧
  (IsHeap (k.comp false) m._short_positions ∧
    m._short_positions.Perm (l.filter (queued k false)))

/-- What every reachable manager satisfies: live nodes have distinct addresses,
the four queues hold exactly the nodes that belong in them, the ledger's
aggregates are the sums over the open positions, and the id map sends ids to
live nodes carrying them. -/
structure Inv (tm : TradingManager) : Prop where
  nodup : (tm._positions.map (fun n => n.addr)).Nodup
  stoploss : ManagerInv .stoploss tm._positions tm._stoploss_manager
  takeprofit : ManagerInv .takeprofit tm._positions tm._takeprofit_manager
  long_volume : tm._account_manager._long_volume = sideVolume true tm._positions
  long_expense : tm._account_manager._long_positions_expanses = sideExpense true tm._positions
  short_volume : tm._account_manager._short_volume = sideVolume false tm._positions
  short_expense : tm._account_manager._short_positions_expanses = sideExpense false tm._positions
  map_valid : ∀ e ∈ tm._position_iterators_by_id, e.2 ∈ tm._positions ∧ e.1 = e.2.val.id

/-- The close type a handler records. -/
def EventKind.closeType : EventKind → CloseType
  | .stoploss => CloseType.STOPLOSS
  | .takeprofit => CloseType.TAKEPROFIT

/-- The manager `tm1` is `tm` after the close of the node `x` with close type
`ct`: the node is erased from the book, one trade is appended, the ledger
realizes that trade and the id of the position leaves the map. -/
structure Closes (tm : TradingManager) (x : Node) (ct : CloseType) (tm1 : TradingManager) :
    Prop where
  positions : tm1._positions = tm._positions.erase x
  trades : tm1._trades = tm._trades ++ [tm.tradeOf x.val ct]
  account : tm1._account_manager = tm._account_manager.realizePosition (tm.tradeOf x.val ct)
  tick : tm1._current_tick = tm._current_tick
  new_id : tm1._new_id = tm._new_id
  map : tm1._position_iterators_by_id = mapErase tm._position_iterators_by_id x.val.id

/-- The manager `tm1` is `tm` after the live nodes of `closed` were closed, in
that order, each with the close type paired with it: they left the book, their
trades were appended in that order at the current tick, and the balance grew by
their profits; the ledger's leverage and levels did not move. -/
structure ClosesAll (tm : TradingManager) (closed : List (Node × CloseType))
    (tm1 : TradingManager) : Prop where
  positions :
    tm1._positions = tm._positions.filter (fun n => decide (n ∉ closed.map Prod.fst))
  trades : tm1._trades = tm._trades ++ closed.map (fun e => tm.tradeOf e.1.val e.2)
  balance : tm1._account_manager._account_balance =
    tm._account_manager._account_balance +
      (closed.map (fun e => (tm.tradeOf e.1.val e.2).calculateProfit)).sum
  leverage : tm1._account_manager._leverage = tm._account_manager._leverage
  stop_out_level : tm1._account_manager._stop_out_level = tm._account_manager._stop_out_level
  stop_out_warning_level :
    tm1._account_manager._stop_out_warning_level = tm._account_manager._stop_out_warning_level
  tick : tm1._current_tick = tm._current_tick
  new_id : tm1._new_id = tm._new_id
  nodup : (closed.map Prod.fst).Nodup
  mem : ∀ e ∈ closed, e.1 ∈ tm._positions

namespace TradingManager

/-- The manager as `onTick` starts: the current tick is replaced. -/
def withTick (tm : TradingManager) (tick : Tick) : TradingManager :=
  { tm with _current_tick := tick }

/-- The manager in `onTick` once both event managers have run. -/
def afterEvents (H : StdHeap) (tm : TradingManager) (tick : Tick) : TradingManager :=
  eventsOnTick H .takeprofit tick (eventsOnTick H .stoploss tick (tm.withTick tick))

/-- The manager in `onTick` once the ledger has been updated with the tick. -/
def afterLedger (H : StdHeap) (tm : TradingManager) (tick : Tick) : TradingManager :=
  { tm.afterEvents H tick with
    _account_manager := ((tm.afterEvents H tick)._account_manager.onTick tick).2 }

end TradingManager

/-- The positions `onTick` force-closes, by the state the ledger returned: all of
them, the front one, or none. -/
def forcedOf (state : AccountState) (positions : List Node) : List Node :=
  match state with
  | AccountState.NONPOSITIVE_ACCOUNT_BALANCE => positions
  | AccountState.MARGIN_CALL => positions.take 1
  | _ => []

/-- The manager of a fresh default account after a short order of volume 1000 was
placed at a tick of bid 1 and ask 2. -/
def shortBook : TradingManager :=
  ((TradingManager.init {} 0 tickBid1Ask2).tryCreatePosition refHeap shortOrder).2.2

/-- A long order of volume 100 with stop-loss 0.95 and take-profit 1.05. -/
def longOrder : Order :=
  { is_long := true, volume := 100, stoploss := 95 / 100, takeprofit := 105 / 100, comment := "" }

/-- A tick with bid 1 and ask 1. -/
def tickAt1 : Tick :=
  { timestamp := 0, bid := 1, ask := 1, volume := 0, flags := 0 }

/-- A tick with bid 1.06 and ask 1.07. -/
def tickUp : Tick :=
  { timestamp := 1, bid := 106 / 100, ask := 107 / 100, volume := 0, flags := 0 }

/-- The position the long order of volume 100 opens at an ask of 1. -/
def longPosition (new_id : Nat) : Position :=
  { id := new_id % 2 ^ 64, open_time := 0, open_price := 1, volume := 100, is_long := true,
    comment := "", stoploss := 95 / 100, takeprofit := 105 / 100 }

/-- The manager of a fresh default account after the long order of volume 100
was placed at a tick of bid 1 and ask 1: one open position, in the long
stop-loss queue and in the long take-profit queue. -/
def longBook (new_id : Nat) : TradingManager :=
  { _new_id := (new_id % 2 ^ 64 + 1) % 2 ^ 64
    _positions := [⟨1, longPosition new_id⟩]
    _trades := []
    _current_tick := tickAt1
    _position_iterators_by_id := [(new_id % 2 ^ 64, ⟨1, longPosition new_id⟩)]
    _stoploss_manager := { _long_positions := [⟨1, longPosition new_id⟩] }
    _takeprofit_manager := { _long_positions := [⟨1, longPosition new_id⟩] }
    _account_manager :=
      { _stop_out_level := 1 / 2
        _stop_out_warning_level := 55 / 100
        _account_balance := 10000
        _leverage := 50
        _long_positions_expanses := 100
        _long_volume := 100 } }

/-- The trade recorded when the long position of volume 100 is closed by its
take-profit at the tick of bid 1.06. -/
def longTrade : Trade :=
  { open_time := 0, close_time := 1, open_price := 1, close_price := 106 / 100, volume := 100,
    is_long := true, close_type := CloseType.TAKEPROFIT, comment := "" }

/-- The manager `longBook` after the tick of bid 1.06 and ask 1.07. -/
def longBookAfterTickUp (new_id : Nat) : TradingManager :=
  { _new_id := (new_id % 2 ^ 64 + 1) % 2 ^ 64
    _positions := []
    _trades := [longTrade]
    _current_tick := tickUp
    _position_iterators_by_id := []
    _stoploss_manager := {}
    _takeprofit_manager := {}
    _account_manager :=
      { _stop_out_level := 1 / 2
        _stop_out_warning_level := 55 / 100
        _account_balance := 10006
        _leverage := 50 } }

/-- A tick with bid 1.1998 and ask 1.2000. -/
def tickOpen : Tick :=
  { timestamp := 0, bid := 11998 / 10000, ask := 12 / 10, volume := 0, flags := 0 }

/-- A tick with bid 1.1989 and ask 1.1995. -/
def tickDown : Tick :=
  { timestamp := 1, bid := 11989 / 10000, ask := 11995 / 10000, volume := 0, flags := 0 }

/-- A long order of volume 1000 with stop-loss 1.1990 and take-profit 1.2020. -/
def slOrder : Order :=
  { is_long := true, volume := 1000, stoploss := 1199 / 1000, takeprofit := 1202 / 1000,
    comment := "" }

/-- The position the long order of volume 1000 opens at an ask of 1.2000. -/
def slPosition (new_id : Nat) : Position :=
  { id := new_id % 2 ^ 64, open_time := 0, open_price := 12 / 10, volume := 1000,
    is_long := true, comment := "", stoploss := 1199 / 1000, takeprofit := 1202 / 1000 }

/-- The manager of a fresh default account after the long order of volume 1000
was placed at the tick of ask 1.2000. -/
def slBook (new_id : Nat) : TradingManager :=
  { _new_id := (new_id % 2 ^ 64 + 1) % 2 ^ 64
    _positions := [⟨1, slPosition new_id⟩]
    _trades := []
    _current_tick := tickOpen
    _position_iterators_by_id := [(new_id % 2 ^ 64, ⟨1, slPosition new_id⟩)]
    _stoploss_manager := { _long_positions := [⟨1, slPosition new_id⟩] }
    _takeprofit_manager := { _long_positions := [⟨1, slPosition new_id⟩] }
    _account_manager :=
      { _stop_out_level := 1 / 2
        _stop_out_warning_level := 55 / 100
        _account_balance := 10000
        _leverage := 50
        _long_positions_expanses := 1200
        _long_volume := 1000 } }

/-- The trade recorded when the long position of volume 1000 is closed by its
stop-loss at the tick of bid 1.1989. -/
def slTrade : Trade :=
  { open_time := 0, close_time := 1, open_price := 12 / 10, close_price := 11989 / 10000,
    volume := 1000, is_long := true, close_type := CloseType.STOPLOSS, comment := "" }

/-- The manager `slBook` after the tick of bid 1.1989 and ask 1.1995. -/
def slBookAfterTickDown (new_id : Nat) : TradingManager :=
  { _new_id := (new_id % 2 ^ 64 + 1) % 2 ^ 64
    _positions := []
    _trades := [slTrade]
    _current_tick := tickDown
    _position_iterators_by_id := []
    _stoploss_manager := {}
    _takeprofit_manager := {}
    _account_manager :=
      { _stop_out_level := 1 / 2
        _stop_out_warning_level := 55 / 100
        _account_balance := 10000 - 11 / 10
        _leverage := 50 } }

/-- The trade recorded when the long position of volume 100 is closed through
`closePosition(id)` at the tick of bid 1. -/
def longTradeById : Trade :=
  { open_time := 0, close_time := 0, open_price := 1, close_price := 1, volume := 100,
    is_long := true, close_type := CloseType.FORCED, comment := "" }

/-- The manager `longBook` after `closePosition(id)` on the id of its position. -/
def longBookClosedById (new_id : Nat) : TradingManager :=
  { _new_id := (new_id % 2 ^ 64 + 1) % 2 ^ 64
    _positions := []
    _trades := [longTradeById]
    _current_tick := tickAt1
    _position_iterators_by_id := []
    _stoploss_manager := {}
    _takeprofit_manager := {}
    _account_manager :=
      { _stop_out_level := 1 / 2
        _stop_out_warning_level := 55 / 100
        _account_balance := 10000
        _leverage := 50 } }

/-! ## The classification of a tick, as specified -/

/-- The classification of a tick in the words of the specification, on a ledger
whose open-position equity is current: a non-positive balance is
NONPOSITIVE_ACCOUNT_BALANCE; otherwise the margin level
`total_equity / used_margin`, taken to be +infinity when the used margin is 0,
is compared with the stop-out level and then with the warning level. -/
def AccountBalanceManager.classifyAsSpecified (a : AccountBalanceManager) : AccountState :=
  if a._account_balance ≤ 0 then AccountState.NONPOSITIVE_ACCOUNT_BALANCE
  else
    let used_margin : ℚ := a.getTotalExpenses / a._leverage
    if used_margin = 0 then AccountState.OK
    else
      let margin_level : ℚ := a.getTotalEquity / used_margin
      if margin_level ≤ a._stop_out_level then AccountState.MARGIN_CALL
      else if margin_level ≤ a._stop_out_warning_level then AccountState.MARGIN_CALL_WARNING
      else AccountState.OK

/-- A short position of volume 100 whose open price is 0. -/
def shortAtZero : Position :=
  { id := 0, open_time := 0, open_price := 0, volume := 100, is_long := false, comment := "",
    stoploss := 0, takeprofit := 0 }

/-- The ledger of a default account after `addPosition(shortAtZero)`. -/
def ledgerShortAtZero : AccountBalanceManager :=
  (AccountBalanceManager.ofProperties {}).addPosition shortAtZero

/-- A tick with bid 200 and ask 200. -/
def tickAt200 : Tick :=
  { timestamp := 1, bid := 200, ask := 200, volume := 0, flags := 0 }

/-! ## The margin-call scenario -/

/-- A long order of volume 20000 without stop-loss and take-profit, commented "first". -/
def marginOrder1 : Order :=
  { is_long := true, volume := 20000, stoploss := 0, takeprofit := 0, comment := "first" }

/-- A long order of volume 20000 without stop-loss and take-profit, commented "second". -/
def marginOrder2 : Order :=
  { is_long := true, volume := 20000, stoploss := 0, takeprofit := 0, comment := "second" }

/-- The position the order commented "first" opens at an ask of 1, with id 0. -/
def marginPosition1 : Position :=
  { id := 0, open_time := 0, open_price := 1, volume := 20000, is_long := true,
    comment := "first", stoploss := 0, takeprofit := 0 }

/-- The position the order commented "second" opens at an ask of 1, with id 1. -/
def marginPosition2 : Position :=
  { id := 1, open_time := 0, open_price := 1, volume := 20000, is_long := true,
    comment := "second", stoploss := 0, takeprofit := 0 }

/-- The manager of an account of balance 1000 and leverage 50 after the order
commented "first" was placed at the tick of bid 1 and ask 1. -/
def marginBook1 : TradingManager :=
  { _new_id := 1
    _positions := [⟨1, marginPosition1⟩]
    _trades := []
    _current_tick := tickAt1
    _position_iterators_by_id := [(0, ⟨1, marginPosition1⟩)]
    _stoploss_manager := {}
    _takeprofit_manager := {}
    _account_manager :=
      { _stop_out_level := 1 / 2
        _stop_out_warning_level := 55 / 100
        _account_balance := 1000
        _leverage := 50
        _long_positions_expanses := 20000
        _long_volume := 20000 } }

/-- The manager `marginBook1` after the order commented "second" was placed at
the same tick: the second position is at the front of the list. -/
def marginBook2 : TradingManager :=
  { _new_id := 2
    _positions := [⟨2, marginPosition2⟩, ⟨1, marginPosition1⟩]
    _trades := []
    _current_tick := tickAt1
    _position_iterators_by_id := [(1, ⟨2, marginPosition2⟩), (0, ⟨1, marginPosition1⟩)]
    _stoploss_manager := {}
    _takeprofit_manager := {}
    _account_manager :=
      { _stop_out_level := 1 / 2
        _stop_out_warning_level := 55 / 100
        _account_balance := 1000
        _leverage := 50
        _long_positions_expanses := 40000
        _long_volume := 40000 } }

/-- A tick with bid 0.98 and ask 0.99. -/
def tickDrop : Tick :=
  { timestamp := 1, bid := 98 / 100, ask := 99 / 100, volume := 0, flags := 0 }

/-- The trade recorded when the position commented "second" is closed at the
tick of bid 0.98. -/
def marginTrade : Trade :=
  { open_time := 0, close_time := 1, open_price := 1, close_price := 98 / 100, volume := 20000,
    is_long := true, close_type := CloseType.FORCED, comment := "second" }

/-- The manager `marginBook2` after the tick of bid 0.98. -/
def marginBookAfterTickDrop : TradingManager :=
  { _new_id := 2
    _positions := [⟨1, marginPosition1⟩]
    _trades := [marginTrade]
    _current_tick := tickDrop
    _position_iterators_by_id := [(0, ⟨1, marginPosition1⟩)]
    _stoploss_manager := {}
    _takeprofit_manager := {}
    _account_manager :=
      { _stop_out_level := 1 / 2
        _stop_out_warning_level := 55 / 100
        _account_balance := 600
        _leverage := 50
        _open_position_equity := -800
        _long_positions_expanses := 20000
        _long_volume := 20000 } }

/-! ## Sequences of calls -/

/-- A call of a public member of `TradingManager` that changes it. -/
inductive Call where
  | tryCreatePosition (order : Order)
  | closePosition (id : Nat)
  | closeAllPositions
  | onTick (tick : Tick)
deriving DecidableEq

/-- The effect of one call: the id `tryCreatePosition` wrote to its output
parameter, if it did, and the manager afterwards; `none` where `closePosition`
is given an id that is not in the map. -/
def Call.apply (H : StdHeap) (tm : TradingManager) : Call → Option (Option Nat × TradingManager)
  | .tryCreatePosition order => some (tm.tryCreatePosition H order).2
  | .closePosition id => (tm.closePositionById H id).map (fun tm1 => (none, tm1))
  | .closeAllPositions => some (none, tm.closeAllPositions H)
  | .onTick tick => some (none, (tm.onTick H tick).2)

namespace TradingManager

/-- The effect of a sequence of calls: the ids the successful `tryCreatePosition`
calls returned, in order, and the manager afterwards. -/
def after (H : StdHeap) : List Call → TradingManager → Option (List Nat × TradingManager)
  | [], tm => some ([], tm)
  | c :: cs, tm =>
    match c.apply H tm with
    | none => none
    | some r =>
      match after H cs r.2 with
      | none => none
      | some r1 => some (r.1.toList ++ r1.1, r1.2)

end TradingManager

/-- The calls that opened and closed the position of `longBook` by its id. -/
def openCloseCalls : List Call :=
  [Call.tryCreatePosition longOrder, Call.closePosition 0]
/-! ## The strategy interface and the simulator -/

/-- The results of the trading, `TradingManager::Results`. -/
structure Results where
  account_balance : ℚ
  total_equity : ℚ
  unclosed_positions : List Position
  trades : List Trade
deriving DecidableEq

/-- The member `TradingManager::end`, which finalizes the simulation and returns
the results. -/
def TradingManager.end_ (tm : TradingManager) : Results :=
  { account_balance := tm._account_manager.getBalance
    total_equity := tm._account_manager.getTotalEquity
    unclosed_positions := tm._positions.map (fun n => n.val)
    trades := tm._trades }

/-- The enumeration `ATS::ReturnCode`. -/
inductive ReturnCode where
  | OK
  | STOP
deriving DecidableEq

/-- The value of a return code: `OK = 0`, `STOP = -1`. -/
def ReturnCode.toInt : ReturnCode → Int
  | .OK => 0
  | .STOP => -1

/-- A call of `SimulatedBrokerConnection` that changes the manager it forwards
to; the other members of the connection are queries. -/
inductive BrokerCall where
  | tryCreatePosition (order : Order)
  | closePosition (positionId : Nat)
  | closeAllPositions
deriving DecidableEq

/-- The member of `TradingManager` a broker call forwards to. -/
def BrokerCall.toCall : BrokerCall → Call
  | .tryCreatePosition order => Call.tryCreatePosition order
  | .closePosition positionId => Call.closePosition positionId
  | .closeAllPositions => Call.closeAllPositions

/-- The manager after the broker calls of a hook, in order; `none` where one of
them closes an id that is not in the map. -/
def applyCalls (H : StdHeap) (tm : TradingManager) (calls : List BrokerCall) :
    Option TradingManager :=
  (tm.after H (calls.map BrokerCall.toCall)).map Prod.snd

/-- The interface `ATS` of an automatic trading system, for a strategy whose
state is a value of `σ`.  A hook is given the state of the strategy and the
manager behind its broker connection, all of which it may query; it returns its
result, the new state of the strategy and the calls it made through the
connection, in order.  `end_` is the hook `end`. -/
structure ATS (σ : Type) where
  onTick : σ → TradingManager → Tick → Int × σ × List BrokerCall
  start : σ → TradingManager → ReturnCode × σ × List BrokerCall
  onMarginCallWarning : σ → TradingManager → σ × List BrokerCall
  end_ : σ → TradingManager → σ × List BrokerCall

/-- The steps in which a simulation happens. -/
inductive SimulationPeriod where
  | TICK
  | S1
  | S5
  | S10
  | S30
  | MIN1
deriving DecidableEq

namespace Backtesting

/-- Durations of the simulation periods, in milliseconds. -/
def timeframe_durations : SimulationPeriod → Int
  | .TICK => 1
  | .S1 => 1000
  | .S5 => 5000
  | .S10 => 10000
  | .S30 => 30000
  | .MIN1 => 60000

end Backtesting

/-- The fields of `StrategyTester` a run reads; time points are counted in
milliseconds. -/
structure StrategyTester where
  _ticks_ptr : List Tick
  _period : SimulationPeriod
  _account_properties : AccountProperties
deriving DecidableEq

namespace StrategyTester

/-- The member `handleTick`: whether the simulation should continue, the manager
and the state of the strategy afterwards. -/
def handleTick {σ : Type} (H : StdHeap) (robot : ATS σ) (trading_manager : TradingManager)
    (st : σ) (tick : Tick) : Option (Bool × TradingManager × σ) :=
  let r := trading_manager.onTick H tick
  match r.1 with
  | AccountState.NONPOSITIVE_ACCOUNT_BALANCE => some (false, r.2, st)
  | state =>
    let w : Option (TradingManager × σ) :=
      if state = AccountState.MARGIN_CALL_WARNING then
        let m := robot.onMarginCallWarning st r.2
        (applyCalls H r.2 m.2).map (fun tm1 => (tm1, m.1))
      else some (r.2, st)
    match w with
    | none => none
    | some (tm1, st1) =>
      let o := robot.onTick st1 tm1 tick
      match applyCalls H tm1 o.2.2 with
      | none => none
      | some tm2 => some (decide (o.1 ≠ ReturnCode.STOP.toInt), tm2, o.2.1)

/-- The loop of `goThroughTicks(trading_manager, robot)` over the ticks that are
left; the flag tells whether it ran to the end of the ticks (`true`) or left
through `break`. -/
def goThroughTicks {σ : Type} (H : StdHeap) (robot : ATS σ) :
    List Tick → TradingManager → σ → Option (Bool × TradingManager × σ)
  | [], tm, st => some (true, tm, st)
  | tick :: rest, tm, st =>
    match handleTick H robot tm st tick with
    | none => none
    | some (false, tm1, st1) => some (false, tm1, st1)
    | some (true, tm1, st1) => goThroughTicks H robot rest tm1 st1

/-- The loop of `goThroughTicks(period, trading_manager, robot)` over the ticks
that are left, with the current `wait_for_timestamp`. -/
def goThroughTicksPeriod {σ : Type} (H : StdHeap) (robot : ATS σ) (duration : Int) :
    List Tick → Int → TradingManager → σ → Option (Bool × TradingManager × σ)
  | [], _, tm, st => some (true, tm, st)
  | tick :: rest, wait_for_timestamp, tm, st =>
    if tick.timestamp < wait_for_timestamp then
      goThroughTicksPeriod H robot duration rest wait_for_timestamp tm st
    else
      match handleTick H robot tm st tick with
      | none => none
      | some (false, tm1, st1) => some (false, tm1, st1)
      | some (true, tm1, st1) =>
        goThroughTicksPeriod H robot duration rest (wait_for_timestamp + duration) tm1 st1

/-- The tick loop of `run`, by the period of the tester; with a period other than
TICK it starts from the timestamp of the front tick, which an empty tick vector
does not have. -/
def goThrough {σ : Type} (H : StdHeap) (tester : StrategyTester) (robot : ATS σ)
    (tm : TradingManager) (st : σ) : Option (Bool × TradingManager × σ) :=
  if tester._period = SimulationPeriod.TICK then goThroughTicks H robot tester._ticks_ptr tm st
  else
    match tester._ticks_ptr with
    | [] => none
    | front :: _ =>
      goThroughTicksPeriod H robot (Backtesting.timeframe_durations tester._period)
        tester._ticks_ptr front.timestamp tm st

/-- The end of `run` once the tick loop is left: `robot.end()`, then the results
of the manager. -/
def finish {σ : Type} (H : StdHeap) (robot : ATS σ) (tm : TradingManager) (st : σ) :
    Option (Results × σ) :=
  let e := robot.end_ st tm
  match applyCalls H tm e.2 with
  | none => none
  | some tm3 => some (tm3.end_, e.1)

/-- The member `run`: the results and the final state of the strategy.  The
manager is constructed with the values `new_id` and `current_tick` in the two
fields that have no initializer. -/
def run {σ : Type} (H : StdHeap) (tester : StrategyTester) (robot : ATS σ) (st : σ)
    (new_id : Nat) (current_tick : Tick) : Option (Results × σ) :=
  let trading_manager := TradingManager.init tester._account_properties new_id current_tick
  let s := robot.start st trading_manager
  match applyCalls H trading_manager s.2.2 with
  | none => none
  | some tm1 =>
    if s.1 = ReturnCode.STOP then some (tm1.end_, s.2.1)
    else
      match goThrough H tester robot tm1 s.2.1 with
      | none => none
      | some r => finish H robot r.2.1 r.2.2

end StrategyTester
/-- The manager `tm1` is `tm` after some sequence of calls. -/
def Follows (H : StdHeap) (tm tm1 : TradingManager) : Prop :=
  ∃ (cs : List Call) (ids : List Nat), tm.after H cs = some (ids, tm1)

/-! ## The scenario of a strategy that trades in its `end` hook -/

/-- An account of balance 1, with the default leverage and levels. -/
def tinyAccount : AccountProperties :=
  { account_balance := 1 }

/-- A long order of volume 10 with stop-loss 0.9. -/
def lossOrder : Order :=
  { is_long := true, volume := 10, stoploss := 9 / 10, takeprofit := 0, comment := "" }

/-- A short order of volume 10 without stop-loss and take-profit. -/
def gainOrder : Order :=
  { is_long := false, volume := 10, stoploss := 0, takeprofit := 0, comment := "" }

/-- A long order of volume 1 without stop-loss and take-profit. -/
def lateOrder : Order :=
  { is_long := true, volume := 1, stoploss := 0, takeprofit := 0, comment := "" }

/-- A tick with bid 0.5 and ask 0.5. -/
def tickHalf : Tick :=
  { timestamp := 1, bid := 1 / 2, ask := 1 / 2, volume := 0, flags := 0 }

/-- The position `lossOrder` opens at an ask of 1, with id 0. -/
def lossPosition : Position :=
  { id := 0, open_time := 0, open_price := 1, volume := 10, is_long := true, comment := "",
    stoploss := 9 / 10, takeprofit := 0 }

/-- The position `gainOrder` opens at an ask of 1, with id 1. -/
def gainPosition : Position :=
  { id := 1, open_time := 0, open_price := 1, volume := 10, is_long := false, comment := "",
    stoploss := 0, takeprofit := 0 }

/-- The position `lateOrder` opens at an ask of 0.5, with id 2. -/
def latePosition : Position :=
  { id := 2, open_time := 1, open_price := 1 / 2, volume := 1, is_long := true, comment := "",
    stoploss := 0, takeprofit := 0 }

/-- The manager of `tinyAccount` after `lossOrder` was placed at the tick of bid 1
and ask 1. -/
def tinyBook1 : TradingManager :=
  { _new_id := 1
    _positions := [⟨1, lossPosition⟩]
    _trades := []
    _current_tick := tickAt1
    _position_iterators_by_id := [(0, ⟨1, lossPosition⟩)]
    _stoploss_manager := { _long_positions := [⟨1, lossPosition⟩] }
    _takeprofit_manager := {}
    _account_manager :=
      { _stop_out_level := 1 / 2
        _stop_out_warning_level := 55 / 100
        _account_balance := 1
        _leverage := 50
        _long_positions_expanses := 10
        _long_volume := 10 } }

/-- The manager `tinyBook1` after `gainOrder` was placed at the same tick. -/
def tinyBook2 : TradingManager :=
  { _new_id := 2
    _positions := [⟨2, gainPosition⟩, ⟨1, lossPosition⟩]
    _trades := []
    _current_tick := tickAt1
    _position_iterators_by_id := [(1, ⟨2, gainPosition⟩), (0, ⟨1, lossPosition⟩)]
    _stoploss_manager := { _long_positions := [⟨1, lossPosition⟩] }
    _takeprofit_manager := {}
    _account_manager :=
      { _stop_out_level := 1 / 2
        _stop_out_warning_level := 55 / 100
        _account_balance := 1
        _leverage := 50
        _long_positions_expanses := 10
        _long_volume := 10
        _short_positions_expanses := 10
        _short_volume := 10 } }

/-- The trade of `lossPosition`, closed by its stop-loss at the bid 0.5. -/
def lossTrade : Trade :=
  { open_time := 0, close_time := 1, open_price := 1, close_price := 1 / 2, volume := 10,
    is_long := true, close_type := CloseType.STOPLOSS, comment := "" }

/-- The trade of `gainPosition`, force-closed at the ask 0.5. -/
def gainTrade : Trade :=
  { open_time := 0, close_time := 1, open_price := 1, close_price := 1 / 2, volume := 10,
    is_long := false, close_type := CloseType.FORCED, comment := "" }

/-- The manager `tinyBook2` in `onTick` of the tick of bid 0.5, once the stop-loss
of `lossPosition` has fired. -/
def tinyBookFired : TradingManager :=
  { _new_id := 2
    _positions := [⟨2, gainPosition⟩]
    _trades := [lossTrade]
    _current_tick := tickHalf
    _position_iterators_by_id := [(1, ⟨2, gainPosition⟩)]
    _stoploss_manager := {}
    _takeprofit_manager := {}
    _account_manager :=
      { _stop_out_level := 1 / 2
        _stop_out_warning_level := 55 / 100
        _account_balance := -4
        _leverage := 50
        _short_positions_expanses := 10
        _short_volume := 10 } }

/-- The manager `tinyBook2` after the tick of bid 0.5 and ask 0.5. -/
def tinyBookEnd : TradingManager :=
  { _new_id := 2
    _positions := []
    _trades := [lossTrade, gainTrade]
    _current_tick := tickHalf
    _position_iterators_by_id := []
    _stoploss_manager := {}
    _takeprofit_manager := {}
    _account_manager :=
      { _stop_out_level := 1 / 2
        _stop_out_warning_level := 55 / 100
        _account_balance := 1
        _leverage := 50
        _open_position_equity := 5 } }

/-- The manager `tinyBookEnd` after `lateOrder` was placed. -/
def tinyBookLate : TradingManager :=
  { _new_id := 3
    _positions := [⟨1, latePosition⟩]
    _trades := [lossTrade, gainTrade]
    _current_tick := tickHalf
    _position_iterators_by_id := [(2, ⟨1, latePosition⟩)]
    _stoploss_manager := {}
    _takeprofit_manager := {}
    _account_manager :=
      { _stop_out_level := 1 / 2
        _stop_out_warning_level := 55 / 100
        _account_balance := 1
        _leverage := 50
        _open_position_equity := 5
        _long_positions_expanses := 1 / 2
        _long_volume := 1 } }

/-- A strategy without state: at a tick where the book is empty and no trade is
recorded it places `lossOrder` and `gainOrder`, and in `end` it places
`lateOrder`. -/
def reopenAtEnd : ATS Unit where
  onTick := fun st tm _ =>
    match tm._positions, tm._trades with
    | [], [] =>
      (0, st, [BrokerCall.tryCreatePosition lossOrder, BrokerCall.tryCreatePosition gainOrder])
    | _, _ => (0, st, [])
  start := fun st _ => (ReturnCode.OK, st, [])
  onMarginCallWarning := fun st _ => (st, [])
  end_ := fun st _ => (st, [BrokerCall.tryCreatePosition lateOrder])

/-- A tester of `tinyAccount` over the tick of bid 1 and the tick of bid 0.5, with
the period TICK. -/
def tinyTester : StrategyTester :=
  { _ticks_ptr := [tickAt1, tickHalf]
    _period := SimulationPeriod.TICK
    _account_properties := tinyAccount }

/-! ## The scenario of a close after the ledger update of the tick -/

/-- A tick with bid 1.01 and ask 1.02. -/
def tickQuiet : Tick :=
  { timestamp := 1, bid := 101 / 100, ask := 102 / 100, volume := 0, flags := 0 }

/-- The manager `longBook 0` after the tick of bid 1.01 and ask 1.02, which fires
no event: the open-position equity is the unrealized profit 1 of the position. -/
def longBookQuiet : TradingManager :=
  { _new_id := 1
    _positions := [⟨1, longPosition 0⟩]
    _trades := []
    _current_tick := tickQuiet
    _position_iterators_by_id := [(0, ⟨1, longPosition 0⟩)]
    _stoploss_manager := { _long_positions := [⟨1, longPosition 0⟩] }
    _takeprofit_manager := { _long_positions := [⟨1, longPosition 0⟩] }
    _account_manager :=
      { _stop_out_level := 1 / 2
        _stop_out_warning_level := 55 / 100
        _account_balance := 10000
        _leverage := 50
        _open_position_equity := 1
        _long_positions_expanses := 100
        _long_volume := 100 } }

/-- The trade recorded when the long position of volume 100 is closed through
`closePosition(id)` at the tick of bid 1.01. -/
def longTradeQuiet : Trade :=
  { open_time := 0, close_time := 1, open_price := 1, close_price := 101 / 100, volume := 100,
    is_long := true, close_type := CloseType.FORCED, comment := "" }

/-- The manager `longBookQuiet` after `closePosition(0)`. -/
def longBookQuietClosed : TradingManager :=
  { _new_id := 1
    _positions := []
    _trades := [longTradeQuiet]
    _current_tick := tickQuiet
    _position_iterators_by_id := []
    _stoploss_manager := {}
    _takeprofit_manager := {}
    _account_manager :=
      { _stop_out_level := 1 / 2
        _stop_out_warning_level := 55 / 100
        _account_balance := 10001
        _leverage := 50
        _open_position_equity := 1 } }

/-! ## Bars -/

/-- Modelled from the spec: the `Bar` record of the `AlgoTrading` module, whose
declaration is not part of the sources at hand; `open_` is its field `open`, and
`tick_volume` counts the ticks that contributed. -/
structure Bar where
  open_timestamp : Int
  open_ : ℚ
  high : ℚ
  low : ℚ
  close : ℚ
  tick_volume : Nat
deriving DecidableEq

/-- Modelled from the spec: `Bar::openBar`, which opens the bar from a tick:
open, high, low and close are the price of the tick, its bid, the open timestamp
is the timestamp of the tick and the tick volume is 1. -/
def Bar.openBar (tick : Tick) : Bar :=
  { open_timestamp := tick.timestamp
    open_ := tick.bid
    high := tick.bid
    low := tick.bid
    close := tick.bid
    tick_volume := 1 }

/-- Modelled from the spec: `Bar::addTick`, which folds a tick into the bar: the
high is the maximum, the low the minimum, the close the price of the tick, and
the tick volume grows by 1. -/
def Bar.addTick (bar : Bar) (tick : Tick) : Bar :=
  { bar with
    high := max bar.high tick.bid
    low := min bar.low tick.bid
    close := tick.bid
    tick_volume := bar.tick_volume + 1 }

/-- Modelled from the spec: the enumeration `Timeframe` of the `AlgoTrading`
module, with the members the specification and the tests name. -/
inductive Timeframe where
  | MIN1
  | MIN5
  | MIN15
deriving DecidableEq

/-- Modelled from the spec: the table `timeframe_durations` of the durations of
the timeframes, in milliseconds. -/
def timeframe_durations : Timeframe → Int
  | .MIN1 => 60000
  | .MIN5 => 300000
  | .MIN15 => 900000

/-- The loop of `calculateBars` over the ticks that are left, with the bar being
built and the bars pushed so far. -/
def calculateBarsLoop (tf_duration : Int) : List Tick → Bar → List Bar → List Bar
  | [], bar, bars => bars ++ [bar]
  | tick :: rest, bar, bars =>
    if tick.timestamp - bar.open_timestamp ≥ tf_duration then
      calculateBarsLoop tf_duration rest (Bar.openBar tick) (bars ++ [bar])
    else calculateBarsLoop tf_duration rest (bar.addTick tick) bars

/-- The function `calculateBars`, which calculates bars from ticks. -/
def calculateBars (timeframe : Timeframe) (ticks : List Tick) : List Bar :=
  match ticks with
  | [] => []
  | front :: rest =>
    calculateBarsLoop (timeframe_durations timeframe) rest (Bar.openBar front) []

/-- The loop of `calculateBars` with, next to every bar, the ticks that were
folded into it, in order. -/
def foldedBarsLoop (tf_duration : Int) :
    List Tick → Bar × List Tick → List (Bar × List Tick) → List (Bar × List Tick)
  | [], cur, done => done ++ [cur]
  | tick :: rest, cur, done =>
    if tick.timestamp - cur.1.open_timestamp ≥ tf_duration then
      foldedBarsLoop tf_duration rest (Bar.openBar tick, [tick]) (done ++ [cur])
    else foldedBarsLoop tf_duration rest (cur.1.addTick tick, cur.2 ++ [tick]) done

/-- The bars of `calculateBars` with, next to every bar, the ticks that were
folded into it. -/
def foldedBars (timeframe : Timeframe) (ticks : List Tick) : List (Bar × List Tick) :=
  match ticks with
  | [] => []
  | front :: rest =>
    foldedBarsLoop (timeframe_durations timeframe) rest (Bar.openBar front, [front]) []

/-- The ticks of the bucketing test: 20 ticks 30 seconds apart from the time
point `now`, all at bid 1 and ask 2. -/
def bucketTicks (now : Int) : List Tick :=
  (List.range 20).map
    (fun (i : Nat) =>
      { timestamp := now + 30000 * (i : Int), bid := 1, ask := 2, volume := 1, flags := 2 })

/-- The bar `e.1` is the fold of the ticks `e.2`: it opens at the timestamp and
the price of the first, closes at the price of the last, counts them, and its
low and high bracket its open and its close. -/
def IsFold (e : Bar × List Tick) : Prop :=
  e.2.head?.map (fun t => t.timestamp) = some e.1.open_timestamp ∧
  e.2.head?.map (fun t => t.bid) = some e.1.open_ ∧
  e.2.getLast?.map (fun t => t.bid) = some e.1.close ∧
  e.1.tick_volume = e.2.length ∧
  e.1.low ≤ e.1.open_ ∧ e.1.open_ ≤ e.1.high ∧ e.1.low ≤ e.1.close ∧ e.1.close ≤ e.1.high

/-- The timestamps of the ticks `e.2` lie in the interval of the bar `e.1`. -/
def InWindow (d : Int) (e : Bar × List Tick) : Prop :=
  ∀ t ∈ e.2, e.1.open_timestamp ≤ t.timestamp ∧ t.timestamp < e.1.open_timestamp + d

/-! ## MarketDataManager -/

/-- The value of a `size_t` converted to `int`: the value modulo `2^32`, taken
in the range of a 32-bit signed integer. -/
def intOfSize (n : Nat) : Int :=
  if n % 2 ^ 32 < 2 ^ 31 then ((n % 2 ^ 32 : Nat) : Int)
  else ((n % 2 ^ 32 : Nat) : Int) - 2 ^ 32

/-- The value of an `int` converted to `size_t`: the value modulo `2^64`. -/
def sizeOfInt (i : Int) : Nat :=
  (i % 2 ^ 64).toNat

/-- The loop of `find_index_of_bar_before` over the bars from index `i` on; the
result `i - 1` is computed in `size_t` and returned as `int`. -/
def find_index_of_bar_before_loop (tp : Int) : List Bar → Nat → Int
  | [], i => intOfSize ((i + (2 ^ 64 - 1)) % 2 ^ 64)
  | bar :: rest, i =>
    if bar.open_timestamp > tp then intOfSize ((i + (2 ^ 64 - 1)) % 2 ^ 64)
    else find_index_of_bar_before_loop tp rest (i + 1)

/-- The member `find_index_of_bar_before`. -/
def find_index_of_bar_before (bars : List Bar) (tp : Int) : Int :=
  find_index_of_bar_before_loop tp bars 0

/-- The function `vector_slice`, which creates a view of a vector between the
given indexes or throws `std::out_of_range`. -/
def vector_slice {α : Type} (data : List α) (start end_ : Int) : Except String (List α) :=
  if start < 0 ∨ start ≥ data.length ∨ end_ < 0 ∨ end_ > data.length ∨ start > end_ then
    Except.error "Invalid indices"
  else Except.ok ((data.drop start.toNat).take (end_ - start).toNat)

/-- The fields of `MarketDataManager`; the bars of `_bars` are kept in the map
that points to them. -/
structure MarketDataManager where
  _ticks : List Tick
  _first_tick_time : Int
  _last_tick_time : Int
  _bars_by_timeframe : List (Timeframe × List Bar)
deriving DecidableEq

namespace MarketDataManager

/-- The constructor `MarketDataManager(const Ticks&)`; it reads the front and the
back of the tick vector, which an empty vector does not have. -/
def ofTicks (ticks : List Tick) : Option MarketDataManager :=
  match ticks.head?, ticks.getLast? with
  | some front, some back =>
    some
      { _ticks := ticks
        _first_tick_time := front.timestamp
        _last_tick_time := back.timestamp
        _bars_by_timeframe := [] }
  | _, _ => none

def try_get_existing_bars (m : MarketDataManager) (timeframe : Timeframe) :
    Option (List Bar) :=
  (m._bars_by_timeframe.find? (fun e => e.1 == timeframe)).map (fun e => e.2)

/-- The member `create_bars`: the bars of the timeframe and the manager that
holds them. -/
def create_bars (m : MarketDataManager) (timeframe : Timeframe) :
    List Bar × MarketDataManager :=
  match m._bars_by_timeframe.find? (fun e => e.1 == timeframe) with
  | some e => (e.2, m)
  | none =>
    let bars_emplaced := calculateBars timeframe m._ticks
    (bars_emplaced,
      { m with _bars_by_timeframe := (timeframe, bars_emplaced) :: m._bars_by_timeframe })

/-- The member `getLastBarsBefore`: `Except.error` where `vector_slice` throws,
`Except.ok none` where it returns false and leaves the output parameter as it
was, `Except.ok (some view)` where it returns true with the view stored; and the
manager afterwards.  `last_bar_index - count_of_bars + 1` is computed in
`size_t` and stored in an `int`. -/
def getLastBarsBefore (m : MarketDataManager) (time_frame : Timeframe) (before : Int)
    (count_of_bars : Nat) : Except String (Option (List Bar)) × MarketDataManager :=
  if before ≤ m._first_tick_time ∨ before > m._last_tick_time then (Except.ok none, m)
  else
    let r : List Bar × MarketDataManager :=
      match m.try_get_existing_bars time_frame with
      | some bars => (bars, m)
      | none => m.create_bars time_frame
    let last_bar_index := find_index_of_bar_before r.1 before
    let first_bar_index :=
      intOfSize ((sizeOfInt last_bar_index + (2 ^ 64 - count_of_bars % 2 ^ 64) + 1) % 2 ^ 64)
    if first_bar_index < 0 then (Except.ok none, r.2)
    else
      match vector_slice r.1 first_bar_index (last_bar_index + 1) with
      | Except.error e => (Except.error e, r.2)
      | Except.ok view => (Except.ok (some view), r.2)

end MarketDataManager

/-- Modelled from the spec: the binary search the bar lookup may be replaced by,
with the tie-breaking of the linear scan: it looks for the first index whose
`open_timestamp` is strictly greater than `tp`, in at most `fuel` halvings of
the range `[lo, hi)`. -/
def upperBoundLoop (bars : List Bar) (tp : Int) : Nat → Nat → Nat → Nat
  | 0, lo, _ => lo
  | fuel + 1, lo, hi =>
    if lo < hi then
      let mid := lo + (hi - lo) / 2
      match bars[mid]? with
      | some bar =>
        if bar.open_timestamp > tp then upperBoundLoop bars tp fuel lo mid
        else upperBoundLoop bars tp fuel (mid + 1) hi
      | none => lo
    else lo

/-- Modelled from the spec: the index the binary search returns, one less than
the first index whose `open_timestamp` is strictly greater than `tp`. -/
def binarySearchBefore (bars : List Bar) (tp : Int) : Int :=
  (upperBoundLoop bars tp bars.length 0 bars.length : Nat) - 1

/-- A tick at the time point 0. -/
def tickT0 : Tick :=
  { timestamp := 0, bid := 1, ask := 2, volume := 1, flags := 2 }

/-- A tick at the time point of one minute. -/
def tickT1 : Tick :=
  { timestamp := 60000, bid := 1, ask := 2, volume := 1, flags := 2 }

/-- The manager of the two ticks one minute apart, with an empty cache. -/
def twoTickData : MarketDataManager :=
  { _ticks := [tickT0, tickT1]
    _first_tick_time := 0
    _last_tick_time := 60000
    _bars_by_timeframe := [] }

/-- The manager `twoTickData` once the bars of MIN1 are cached. -/
def twoTickDataCached : MarketDataManager :=
  { _ticks := [tickT0, tickT1]
    _first_tick_time := 0
    _last_tick_time := 60000
    _bars_by_timeframe := [(Timeframe.MIN1, [Bar.openBar tickT0, Bar.openBar tickT1])] }

/-- The cache of the manager holds, for a timeframe, the bars `calculateBars`
derives from the ticks. -/
def CacheOk (m : MarketDataManager) : Prop :=
  ∀ e ∈ m._bars_by_timeframe, e.2 = calculateBars e.1 m._ticks

/-- The ticks the loop of `goThroughTicks(period, ...)` hands to `handleTick` as
long as no call of it leaves the loop: the loop with the call of `handleTick`
left out, from the ticks that are left and the current `wait_for_timestamp`. -/
def StrategyTester.delivered (duration : Int) : List Tick → Int → List Tick
  | [], _ => []
  | tick :: rest, wait_for_timestamp =>
    if tick.timestamp < wait_for_timestamp then
      StrategyTester.delivered duration rest wait_for_timestamp
    else tick :: StrategyTester.delivered duration rest (wait_for_timestamp + duration)

/-- A call of a hook of the strategy, with what it returned. -/
inductive Hook where
  | start (code : ReturnCode)
  | onTick (tick : Tick) (code : Int)
  | onMarginCallWarning
  | end_
deriving DecidableEq

/-- The strategy `robot` that keeps, next to its state, the list of the calls of
its hooks so far, in order. -/
def ATS.logged {σ : Type} (robot : ATS σ) : ATS (σ × List Hook) where
  onTick := fun s tm tick =>
    let r := robot.onTick s.1 tm tick
    (r.1, (r.2.1, s.2 ++ [Hook.onTick tick r.1]), r.2.2)
  start := fun s tm =>
    let r := robot.start s.1 tm
    (r.1, (r.2.1, s.2 ++ [Hook.start r.1]), r.2.2)
  onMarginCallWarning := fun s tm =>
    let r := robot.onMarginCallWarning s.1 tm
    ((r.1, s.2 ++ [Hook.onMarginCallWarning]), r.2)
  end_ := fun s tm =>
    let r := robot.end_ s.1 tm
    ((r.1, s.2 ++ [Hook.end_]), r.2)

/-- A strategy without state that makes no call and returns OK from every hook. -/
def idleRobot : ATS Unit where
  onTick := fun st _ _ => (0, st, [])
  start := fun st _ => (ReturnCode.OK, st, [])
  onMarginCallWarning := fun st _ => (st, [])
  end_ := fun st _ => (st, [])

/-- A strategy without state that makes no call and returns STOP from `start`. -/
def stopAtStart : ATS Unit where
  onTick := fun st _ _ => (0, st, [])
  start := fun st _ => (ReturnCode.STOP, st, [])
  onMarginCallWarning := fun st _ => (st, [])
  end_ := fun st _ => (st, [])

/-- A tick of bid 1 and ask 1 at the time point `timestamp`. -/
def tickAt (timestamp : Int) : Tick :=
  { timestamp := timestamp, bid := 1, ask := 1, volume := 0, flags := 0 }

/-- Three ticks: at 0, at 10000 and one millisecond later. -/
def lateTicks : List Tick :=
  [tickAt 0, tickAt 10000, tickAt 10001]

/-- A tester of a default account over `lateTicks`, with the period S1. -/
def lateTester : StrategyTester :=
  { _ticks_ptr := lateTicks, _period := SimulationPeriod.S1, _account_properties := {} }

/-- A list of hook calls none of which ends the tick loop: margin-call warnings
and calls of `onTick` that did not return STOP. -/
def QuietHooks (l : List Hook) : Prop :=
  ∀ h ∈ l, h = Hook.onMarginCallWarning ∨
    ∃ (t : Tick) (c : Int), h = Hook.onTick t c ∧ c ≠ ReturnCode.STOP.toInt

/-! ## The optimizer -/

/-- The fields of `StrategyOptimizer`, for strategies whose state is a value of
`σ` and parameters of type `Param_T`; the factory method gives the strategy and
its initial state. -/
structure StrategyOptimizer (σ Param_T : Type) where
  _strategy_tester_ptr : StrategyTester
  _factory_method : Param_T → ATS σ × σ

namespace StrategyOptimizer

/-- The lambda `transform` of `findBestParameters`, which transforms parameters
into a pair of results and parameters; `none` where the run is undefined. -/
def transform {σ Param_T : Type} (H : StdHeap) (o : StrategyOptimizer σ Param_T) (new_id : Nat)
    (current_tick : Tick) (params : Param_T) : Option (Results × Param_T) :=
  let aos := o._factory_method params
  (o._strategy_tester_ptr.run H aos.1 aos.2 new_id current_tick).map
    (fun results => (results.1, params))

/-- The lambda `reduce` of `findBestParameters`, which reduces two pairs of
results and parameters, the balances being rationals (`IEEE.reduce` compares
`double` balances, among which a NaN). -/
def reduce {Param_T : Type} (a b : Results × Param_T) : Results × Param_T :=
  if a.1.account_balance > b.1.account_balance then a else b

/-- The reduction `std::transform_reduce` performs in input order, as with the
sequential policy: from the initial value, each element is transformed and
reduced into the value so far. -/
def transform_reduce {Param_T : Type} (f : Param_T → Option (Results × Param_T)) :
    List Param_T → Results × Param_T → Option (Results × Param_T)
  | [], init => some init
  | params :: rest, init =>
    match f params with
    | none => none
    | some b => transform_reduce f rest (reduce init b)

/-- The member `findBestParametersSeq`; the initial value of the reduction is the
value-initialized pair `std::pair<TradingResults, Param_T>()`. -/
def findBestParametersSeq {σ Param_T : Type} [Inhabited Param_T] (H : StdHeap)
    (o : StrategyOptimizer σ Param_T) (new_id : Nat) (current_tick : Tick)
    (combinations : List Param_T) : Option (Results × Param_T) :=
  transform_reduce (o.transform H new_id current_tick) combinations
    ({ account_balance := 0, total_equity := 0, unclosed_positions := [], trades := [] }, default)

end StrategyOptimizer

/-- A strategy without state, by the volume it trades: at a tick where the book
is empty and no trade is recorded it places a long order of that volume with
stop-loss 0.9. -/
def loser (volume : ℚ) : ATS Unit where
  onTick := fun st tm _ =>
    match tm._positions, tm._trades with
    | [], [] =>
      (0, st, [BrokerCall.tryCreatePosition
        { is_long := true, volume := volume, stoploss := 9 / 10, takeprofit := 0, comment := "" }])
    | _, _ => (0, st, [])
  start := fun st _ => (ReturnCode.OK, st, [])
  onMarginCallWarning := fun st _ => (st, [])
  end_ := fun st _ => (st, [])

/-- The manager `tinyBook1` after the tick of bid 0.5 and ask 0.5, at which the
stop-loss of `lossPosition` fires. -/
def tinyBookLost : TradingManager :=
  { _new_id := 1
    _positions := []
    _trades := [lossTrade]
    _current_tick := tickHalf
    _position_iterators_by_id := []
    _stoploss_manager := {}
    _takeprofit_manager := {}
    _account_manager :=
      { _stop_out_level := 1 / 2
        _stop_out_warning_level := 55 / 100
        _account_balance := -4
        _leverage := 50 } }

/-- The optimizer of the strategies `loser` over the tester of `tinyAccount`. -/
def loserOptimizer : StrategyOptimizer Unit ℚ :=
  { _strategy_tester_ptr := tinyTester, _factory_method := fun volume => (loser volume, ()) }

/-- The optimizer over the tester of the three ticks whose factory gives, for
every parameter, the strategy that does nothing. -/
def idleOptimizer : StrategyOptimizer Unit Nat :=
  { _strategy_tester_ptr := lateTester, _factory_method := fun _ => (idleRobot, ()) }

/-- The value `closePosition(iter, ct)` asserts before it erases from the id map,
`by_id_iterator == _position_iterators_by_id.end()`, where `by_id_iterator` is
`_position_iterators_by_id.find(pos.id)`. -/
def TradingManager.closePositionAssertion (tm : TradingManager) (iter : PositionsIterator) :
    Bool :=
  (mapFind tm._position_iterators_by_id iter.val.id).isNone

/-- The id map holds the open positions: the id of every live node is a key of the
map, which sends it to the node, and no key occurs twice. -/
structure MapComplete (tm : TradingManager) : Prop where
  find : ∀ n ∈ tm._positions, mapFind tm._position_iterators_by_id n.val.id = some n
  keys : (tm._position_iterators_by_id.map Prod.fst).Nodup

/-- The call that opens the position of `longBook`. -/
def openCalls : List Call :=
  [Call.tryCreatePosition longOrder]

/-- A strategy without state: at a tick where the book is empty and no trade is
recorded it places `longOrder`, which it leaves open. -/
def opener : ATS Unit where
  onTick := fun st tm _ =>
    match tm._positions, tm._trades with
    | [], [] => (0, st, [BrokerCall.tryCreatePosition longOrder])
    | _, _ => (0, st, [])
  start := fun st _ => (ReturnCode.OK, st, [])
  onMarginCallWarning := fun st _ => (st, [])
  end_ := fun st _ => (st, [])

/-- A tester of a default account over the single tick of bid 1 and ask 1, with
the period TICK. -/
def oneTickTester : StrategyTester :=
  { _ticks_ptr := [tickAt1], _period := SimulationPeriod.TICK, _account_properties := {} }

/-! ## The CSV parser -/

/-- The state of a `std::istream` over a character buffer: the characters not yet
extracted and the state bits `eofbit` and `failbit` (`badbit` is never set on a
buffer held in memory). -/
structure IStream where
  buf : List Char
  eofbit : Bool := false
  failbit : Bool := false
deriving DecidableEq

/-- Standard-library behaviour, `std::basic_ios::good()`: no state bit is set. -/
def IStream.good (s : IStream) : Bool :=
  !s.eofbit && !s.failbit

/-- Standard-library behaviour, `std::basic_istream::peek()`: on a stream that is
not good the sentry sets `failbit` and the result is end-of-file (`none`);
otherwise the next character is returned without being extracted, and when there
is none, `eofbit` is set and the result is end-of-file. -/
def IStream.peek (s : IStream) : Option Char × IStream :=
  if s.good then
    match s.buf with
    | [] => (none, { s with eofbit := true })
    | c :: _ => (some c, s)
  else (none, { s with failbit := true })

/-- Standard-library behaviour, `std::getline(is, str)`: when the stream is not
good the sentry sets `failbit` and `str` is left as it was; otherwise `str` is
erased and characters are extracted and appended up to a newline, which is
extracted and not appended; when the buffer ends first, `eofbit` is set, and also
`failbit` when nothing was extracted. -/
def getline (s : IStream) (str : List Char) : List Char × IStream :=
  if s.good then
    match s.buf.dropWhile (fun c => c != '\n') with
    | [] =>
      (s.buf.takeWhile (fun c => c != '\n'),
        { buf := [], eofbit := true, failbit := s.buf.isEmpty })
    | _ :: rest => (s.buf.takeWhile (fun c => c != '\n'), { s with buf := rest })
  else (str, { s with failbit := true })

/-- Standard-library behaviour, `std::ranges::views::split(line, delimiter)`: the
pieces of `line` between the delimiters; an empty line has no piece. -/
def viewsSplit (line : List Char) (delimiter : Char) : List (List Char) :=
  if line = [] then [] else line.splitOn delimiter

/-- A `Row`: the pieces of the line it was made from and their number; a
default-constructed row holds no pieces and the count 0. -/
structure Row where
  _splitted_row : Option (List (List Char)) := none
  _current_column_count : Int := 0
deriving DecidableEq

/-- The constructor `Row(SplittedRow splitted_row)`. -/
def Row.ofSplit (splitted_row : List (List Char)) : Row :=
  { _splitted_row := some splitted_row, _current_column_count := splitted_row.length }

/-- The `CSVParser` over a stream; `_is` is the stream `_is_ptr` points to. -/
structure CSVParser where
  _is : IStream
  _column_count : Nat
  _delimiter : Char
deriving DecidableEq

/-- The constructor `CSVParser(is_ptr, column_count, delimiter, skip_first_line)`:
with `skip_first_line` one line is read into a local string and dropped. -/
def CSVParser.ofStream (is : IStream) (column_count : Nat) (delimiter : Char)
    (skip_first_line : Bool) : CSVParser :=
  { _is := if skip_first_line then (getline is []).2 else is
    _column_count := column_count
    _delimiter := delimiter }

/-- A `RowStream`: the parser it reads from, the pointer field of the source, and
the line read last. -/
structure RowStream where
  _parser_ptr : CSVParser
  _current_line : List Char := []
deriving DecidableEq

/-- `CSVParser::getRowStream()`. -/
def CSVParser.getRowStream (parser : CSVParser) : RowStream :=
  { _parser_ptr := parser }

/-- `RowStream::operator>>(Row& row)`: `getline` into `_current_line`, then the row
of the pieces of `_current_line`. -/
def RowStream.read (rs : RowStream) : Row × RowStream :=
  let r := getline rs._parser_ptr._is rs._current_line
  (Row.ofSplit (viewsSplit r.1 rs._parser_ptr._delimiter),
    { _parser_ptr := { rs._parser_ptr with _is := r.2 }, _current_line := r.1 })

/-- `RowStream::operator bool()`: `good() && peek() != '\n'`, with the stream as
`peek` leaves it. -/
def RowStream.toBool (rs : RowStream) : Bool × RowStream :=
  if rs._parser_ptr._is.good then
    let p := rs._parser_ptr._is.peek
    (p.1 != some '\n', { rs with _parser_ptr := { rs._parser_ptr with _is := p.2 } })
  else (false, rs)

/-- The loop `while (row_stream) { row_stream >> row; ... }`, which gives the rows
read in order; `none` when `fuel` rounds do not finish it. -/
def RowStream.readAll : Nat → RowStream → Option (List Row × RowStream)
  | 0, _ => none
  | fuel + 1, rs =>
    if rs.toBool.1 then
      (RowStream.readAll fuel rs.toBool.2.read.2).map
        fun out => (rs.toBool.2.read.1 :: out.1, out.2)
    else some ([], rs.toBool.2)

/-- The function `countRows()` of the test, over the text `csvTest`: the number of
reads of the loop over a parser of 7 columns with the tabulator as delimiter that
skips the first line. -/
def countRows (fuel : Nat) (csvTest : List Char) : Option Nat :=
  (RowStream.readAll fuel
    (CSVParser.ofStream { buf := csvTest } 7 '\t' true).getRowStream).map
      fun out => out.1.length

/-- The text of a header line and data lines, each ended by a newline. -/
def csvText (header : List Char) (lines : List (List Char)) : List Char :=
  header ++ '\n' :: (lines.map fun l => l ++ ['\n']).flatten

/-- The header line of the fixture `csvTest`. -/
def csvTestHeader : List Char :=
  "<DATE>\t<TIME>\t<BID>\t<ASK>\t<LAST>\t<VOLUME>\t<FLAGS>".toList

/-- The seven data lines of the fixture `csvTest`. -/
def csvTestLines : List (List Char) :=
  [ "2022.11.10\t15:00:00.017\t0.86682\t0.86712\t\t\t6".toList,
    "2022.11.10\t15:00:00.228\t0.86681\t0.86710\t\t\t6".toList,
    "2022.11.10\t15:00:00.525\t0.86677\t0.86707\t\t\t6".toList,
    "2022.11.10\t15:00:00.787\t0.86679\t0.86709\t\t\t6".toList,
    "2022.11.10\t15:00:01.049\t0.86682\t0.86712\t\t\t6".toList,
    "2022.11.10\t15:00:01.273\t0.86680\t0.86711\t\t\t6".toList,
    "2022.11.10\t15:00:01.596\t0.86682\t0.86713\t\t\t6".toList ]

/-! ## The cells of a row and the tick parser -/

/-- The exceptions of the parsers: `EndOfStreamException`, `CanNotOpenFileError` and
`std::format_error`, which derive from `std::runtime_error`, and
`std::bad_optional_access`, which does not. -/
inductive ParseError where
  | EndOfStreamException
  | CanNotOpenFileError
  | format_error
  | bad_optional_access
deriving DecidableEq

/-- Whether `catch (const std::runtime_error&)` catches the exception. -/
def ParseError.isRuntimeError : ParseError → Bool
  | ParseError.bad_optional_access => false
  | _ => true

/-- Standard-library behaviour, the result of `std::from_chars(first, last, value)`:
`ok v ptr` when a text of `ptr` characters at the start matched the pattern of a
number and its value `v` was stored in `value`; `invalid_argument` when nothing
matched, and `result_out_of_range` when the matched number cannot be represented;
in both cases `value` is left as it was. -/
inductive FromChars (T : Type) where
  | ok (value : T) (ptr : Nat)
  | invalid_argument
  | result_out_of_range (ptr : Nat)
deriving DecidableEq

/-- Modelled from the spec: the values of the enumerators of `ChangeFlag`,
`{ASK, BID, ASK_AND_BID, VOLUME}`, of the `AlgoTrading` module, whose declaration
is not part of the sources at hand. -/
structure ChangeFlagValues where
  ASK_AND_BID : Nat
  ASK : Nat
  BID : Nat
  VOLUME : Nat

/-- Standard-library behaviour, the functions the tick parser calls, together with
the values of the enumerators of `ChangeFlag`: `std::from_chars` for `double` and
for `int`, and `std::chrono::parse` with the format `%Y.%m.%d %H:%M:%S`, which
gives no time when the stream fails. -/
structure TextLib extends ChangeFlagValues where
  from_chars_double : List Char → FromChars ℚ
  from_chars_int : List Char → FromChars Int
  parse : List Char → Option Int

/-- A `Cell`: a view of the text of the cell. -/
structure Cell where
  _sv : List Char
deriving DecidableEq

/-- `Cell::toNumber(T& value)`: the result and `value` after the call. -/
def Cell.toNumber {T : Type} (from_chars : List Char → FromChars T) (cell : Cell) (value : T) :
    Bool × T :=
  if cell._sv.isEmpty then (false, value)
  else
    match from_chars cell._sv with
    | FromChars.ok v ptr => (if ptr ≠ cell._sv.length then false else true, v)
    | FromChars.invalid_argument => (false, value)
    | FromChars.result_out_of_range _ => (false, value)

/-- `Cell::toNumberOrDefault(T default_value)`. -/
def Cell.toNumberOrDefault {T : Type} (from_chars : List Char → FromChars T) (cell : Cell)
    (default_value : T) : T :=
  if cell._sv.isEmpty then default_value
  else
    match from_chars cell._sv with
    | FromChars.ok v ptr => if ptr ≠ cell._sv.length then default_value else v
    | FromChars.invalid_argument => default_value
    | FromChars.result_out_of_range _ => default_value

/-- The cell text is non-empty and is entirely one valid number, of value `x`:
`from_chars` matches all of it. -/
def Cell.isNumber {T : Type} (from_chars : List Char → FromChars T) (cell : Cell) (x : T) :
    Prop :=
  cell._sv ≠ [] ∧ from_chars cell._sv = FromChars.ok x cell._sv.length

/-- A `CellStream`: the cells from `_start_it` up to `_end_it`. -/
structure CellStream where
  _cells : List (List Char)
deriving DecidableEq

/-- `Row::getCellStream()`: the stream over `_splitted_row.value()`. -/
def Row.getCellStream (row : Row) : Except ParseError CellStream :=
  match row._splitted_row with
  | none => Except.error ParseError.bad_optional_access
  | some splitted_row => Except.ok { _cells := splitted_row }

/-- `CellStream::next()`: the next cell and the stream after it. -/
def CellStream.next (cs : CellStream) : Except ParseError (Cell × CellStream) :=
  match cs._cells with
  | [] => Except.error ParseError.EndOfStreamException
  | cell :: rest => Except.ok ({ _sv := cell }, { _cells := rest })

/-- The `CSVParser` constructor over a path; `file` is the text of the file at the
path, `none` when it cannot be opened. -/
def CSVParser.ofPath (file : Option (List Char)) (column_count : Nat) (delimiter : Char)
    (skip_first_line : Bool) : Except ParseError CSVParser :=
  match file with
  | none => Except.error ParseError.CanNotOpenFileError
  | some text =>
    Except.ok (CSVParser.ofStream { buf := text } column_count delimiter skip_first_line)

/-- The `TickParser`. -/
structure TickParser where
  _intermediate_tick : Tick
deriving DecidableEq

/-- The constructor `TickParser()`, at the time `now` of the system clock. -/
def TickParser.new (L : TextLib) (now : Int) : TickParser :=
  { _intermediate_tick :=
      { timestamp := now, bid := 0, ask := 0, volume := 0, flags := L.ASK_AND_BID } }

/-- `TickParser::getFlags(cell)`; the local `flag_value` is read only after
`toNumber` stored it. -/
def TickParser.getFlags (L : TextLib) (cell : Cell) : Except ParseError Nat :=
  if (cell.toNumber L.from_chars_int 0).1 = false then Except.error ParseError.format_error
  else if (cell.toNumber L.from_chars_int 0).2 = L.ASK_AND_BID then Except.ok L.ASK_AND_BID
  else if (cell.toNumber L.from_chars_int 0).2 = L.ASK then Except.ok L.ASK
  else if (cell.toNumber L.from_chars_int 0).2 = L.BID then Except.ok L.BID
  else if (cell.toNumber L.from_chars_int 0).2 = L.VOLUME then Except.ok L.VOLUME
  else Except.error ParseError.format_error

/-- `TickParser::convertToTime(timestamp)`. -/
def TickParser.convertToTime (L : TextLib) (timestamp : List Char) : Except ParseError Int :=
  match L.parse timestamp with
  | none => Except.error ParseError.format_error
  | some tp => Except.ok tp

/-- `TickParser::createTick(row)`: the tick returned or the exception thrown, and the
parser with `_intermediate_tick` as the call leaves it. -/
def TickParser.createTick (L : TextLib) (p : TickParser) (row : Row) :
    Except ParseError Tick × TickParser :=
  match row.getCellStream with
  | Except.error e => (Except.error e, p)
  | Except.ok cs0 =>
  match cs0.next with
  | Except.error e => (Except.error e, p)
  | Except.ok (date, cs1) =>
  match cs1.next with
  | Except.error e => (Except.error e, p)
  | Except.ok (time, cs2) =>
  match TickParser.convertToTime L (date._sv ++ ' ' :: time._sv) with
  | Except.error e => (Except.error e, p)
  | Except.ok tp =>
  let t1 : Tick := { p._intermediate_tick with timestamp := tp }
  match cs2.next with
  | Except.error e => (Except.error e, { _intermediate_tick := t1 })
  | Except.ok (bid, cs3) =>
  let t2 : Tick := { t1 with bid := bid.toNumberOrDefault L.from_chars_double t1.bid }
  match cs3.next with
  | Except.error e => (Except.error e, { _intermediate_tick := t2 })
  | Except.ok (ask, cs4) =>
  let t3 : Tick := { t2 with ask := ask.toNumberOrDefault L.from_chars_double t2.ask }
  match cs4.next with
  | Except.error e => (Except.error e, { _intermediate_tick := t3 })
  | Except.ok (_, cs5) =>
  match cs5.next with
  | Except.error e => (Except.error e, { _intermediate_tick := t3 })
  | Except.ok (cell, cs6) =>
  let t4 : Tick := { t3 with volume := cell.toNumberOrDefault L.from_chars_double t3.volume }
  match cs6.next with
  | Except.error e => (Except.error e, { _intermediate_tick := t4 })
  | Except.ok (flags, _) =>
  match TickParser.getFlags L flags with
  | Except.error e => (Except.error e, { _intermediate_tick := t4 })
  | Except.ok f => (Except.ok { t4 with flags := f }, { _intermediate_tick := { t4 with flags := f } })

/-- The loop of `TickParser::getTicks` with its `catch`: the ticks of the rows read,
up to the first row at which `createTick` throws; an exception that is a
`std::runtime_error` ends the loop with the ticks made so far, any other leaves
`getTicks`; `none` when `fuel` rounds do not finish the loop. -/
def TickParser.getTicksLoop (L : TextLib) :
    Nat → TickParser → RowStream → List Tick → Option (Except ParseError (List Tick) × TickParser)
  | 0, _, _, _ => none
  | fuel + 1, p, rs, ticks =>
    if rs.toBool.1 then
      match p.createTick L rs.toBool.2.read.1 with
      | (Except.ok tick, p1) =>
        TickParser.getTicksLoop L fuel p1 rs.toBool.2.read.2 (ticks ++ [tick])
      | (Except.error e, p1) =>
        some (if e.isRuntimeError then Except.ok ticks else Except.error e, p1)
    else some (Except.ok ticks, p)

/-- `TickParser::getTicks(path)`; `file` is the text of the file at the path, `none`
when it cannot be opened. -/
def TickParser.getTicks (L : TextLib) (fuel : Nat) (p : TickParser) (file : Option (List Char)) :
    Option (Except ParseError (List Tick) × TickParser) :=
  match CSVParser.ofPath file 6 '\t' true with
  | Except.error e => some (if e.isRuntimeError then Except.ok [] else Except.error e, p)
  | Except.ok parser => TickParser.getTicksLoop L fuel p parser.getRowStream []

/-- The ticks `createTick` makes of the rows in order, up to the first row at which
it throws, with the `catch` of `getTicks`. -/
def TickParser.ticksOfRows (L : TextLib) :
    TickParser → List Row → List Tick → Except ParseError (List Tick) × TickParser
  | p, [], ticks => (Except.ok ticks, p)
  | p, row :: rows, ticks =>
    match p.createTick L row with
    | (Except.ok tick, p1) => TickParser.ticksOfRows L p1 rows (ticks ++ [tick])
    | (Except.error e, p1) => (if e.isRuntimeError then Except.ok ticks else Except.error e, p1)

/-- The number a text of decimal digits denotes. -/
def digitsValue (ds : List Char) : Nat :=
  ds.foldl (fun n c => 10 * n + (c.toNat - 48)) 0

/-- A reference for the pattern of `std::from_chars` for `double` in the default
format: an optional minus sign, decimal digits with an optional point, at least
one digit, and an optional exponent. It gives the digits as an integer, the power
of ten that scales them and the number of characters matched. The texts of
infinities and NaNs have no value in the exact arithmetic and are left out. -/
def refDecimal (s : List Char) : Option (Int × Int × Nat) :=
  let neg := s.head? == some '-'
  let s1 := if neg then s.tail else s
  let ip := s1.takeWhile Char.isDigit
  let s2 := s1.dropWhile Char.isDigit
  let dot := s2.head? == some '.'
  let fp := if dot then s2.tail.takeWhile Char.isDigit else []
  if ip.isEmpty && fp.isEmpty then none
  else
    let s3 := if dot then s2.tail.dropWhile Char.isDigit else s2
    let n := (if neg then 1 else 0) + ip.length + (if dot then 1 + fp.length else 0)
    let m : Int := (if neg then -1 else 1) * (digitsValue (ip ++ fp) : Int)
    let hasE := s3.head? == some 'e' || s3.head? == some 'E'
    let esign := s3.tail.head? == some '-' || s3.tail.head? == some '+'
    let eneg := s3.tail.head? == some '-'
    let ed := (if esign then s3.tail.tail else s3.tail).takeWhile Char.isDigit
    if hasE && !ed.isEmpty then
      some (m, (if eneg then -1 else 1) * (digitsValue ed : Int) - (fp.length : Int),
        n + 1 + (if esign then 1 else 0) + ed.length)
    else some (m, -(fp.length : Int), n)

/-- A reference for `std::from_chars` for `double`, in exact arithmetic. -/
def refFromCharsDouble (s : List Char) : FromChars ℚ :=
  match refDecimal s with
  | none => FromChars.invalid_argument
  | some (m, e, n) => FromChars.ok ((m : ℚ) * (10 : ℚ) ^ e) n

/-- A reference for `std::from_chars` for `int` in base 10: an optional minus sign
and decimal digits, at least one; a value outside the 32-bit range is not stored. -/
def refFromCharsInt (s : List Char) : FromChars Int :=
  let neg := s.head? == some '-'
  let ds := (if neg then s.tail else s).takeWhile Char.isDigit
  let v : Int := (if neg then -1 else 1) * (digitsValue ds : Int)
  let n := (if neg then 1 else 0) + ds.length
  if ds.isEmpty then FromChars.invalid_argument
  else if v < -2147483648 ∨ 2147483647 < v then FromChars.result_out_of_range n
  else FromChars.ok v n

/-- One field of a time: up to `width` decimal digits, at least one; the value and
the rest of the text. -/
def refField (width : Nat) (s : List Char) : Option (Nat × List Char) :=
  let ds := (s.take width).takeWhile Char.isDigit
  if ds.isEmpty then none else some (digitsValue ds, s.drop ds.length)

/-- The text after the character `c`, which it has to start with. -/
def refSkip (c : Char) (s : List Char) : Option (List Char) :=
  match s with
  | [] => none
  | d :: rest => if d = c then some rest else none

/-- The days from 1970-01-01 to the day `d` of the month `m` of the year `y`. -/
def daysFromCivil (y m d : Int) : Int :=
  let y1 := if m ≤ 2 then y - 1 else y
  let era := y1 / 400
  let yoe := y1 - era * 400
  let doy := (153 * (if 2 < m then m - 3 else m + 9) + 2) / 5 + d - 1
  let doe := yoe * 365 + yoe / 4 - yoe / 100 + doy
  era * 146097 + doe - 719468

/-- The last day of the month `m` of the year `y`. -/
def lastDayOfMonth (y m : Nat) : Nat :=
  if m = 2 then (if y % 4 = 0 ∧ (y % 100 ≠ 0 ∨ y % 400 = 0) then 29 else 28)
  else if m = 4 ∨ m = 6 ∨ m = 9 ∨ m = 11 then 30
  else 31

/-- A reference for `std::chrono::parse` with the format `%Y.%m.%d %H:%M:%S`: the
fields of a valid date and time of day, the seconds with an optional fraction, of
which the milliseconds are kept; the time in milliseconds since 1970-01-01. -/
def refParse (s : List Char) : Option Int :=
  (refField 4 s).bind fun (y, s) =>
  (refSkip '.' s).bind fun s =>
  (refField 2 s).bind fun (m, s) =>
  (refSkip '.' s).bind fun s =>
  (refField 2 s).bind fun (d, s) =>
  (refField 2 (s.dropWhile Char.isWhitespace)).bind fun (h, s) =>
  (refSkip ':' s).bind fun s =>
  (refField 2 s).bind fun (mi, s) =>
  (refSkip ':' s).bind fun s =>
  (refField 2 s).bind fun (sec, s) =>
  let frac := if s.head? == some '.' then (s.tail.takeWhile Char.isDigit).take 3 else []
  let ms := digitsValue (frac ++ List.replicate (3 - frac.length) '0')
  if 1 ≤ m ∧ m ≤ 12 ∧ 1 ≤ d ∧ d ≤ lastDayOfMonth y m ∧ h ≤ 23 ∧ mi ≤ 59 ∧ sec ≤ 59 then
    some ((((daysFromCivil y m d * 24 + h) * 60 + mi) * 60 + sec) * 1000 + ms)
  else none

/-- A reference library: the references above, and the values 6, 4, 2 and 16 for
the enumerators of `ChangeFlag`; the fixture of the parser test carries the flag 6
in every row. -/
def refText : TextLib :=
  { from_chars_double := refFromCharsDouble
    from_chars_int := refFromCharsInt
    parse := refParse
    ASK_AND_BID := 6
    ASK := 4
    BID := 2
    VOLUME := 16 }

/-- A data line with the bid 1 and the ask 1. -/
def tickLineA : List Char :=
  "2022.11.10\t15:00:00.017\t1\t1\t\t\t6".toList

/-- A data line that ends after its bid, 2. -/
def tickLineB : List Char :=
  "2022.11.10\t15:00:00.228\t2".toList

/-- A data line with an empty bid cell and the ask 1. -/
def tickLineC : List Char :=
  "2022.11.10\t15:00:00.525\t\t1\t\t\t6".toList

/-- A tick file of the lines `tickLineA` and `tickLineB`. -/
def tickFile1 : List Char :=
  csvText csvTestHeader [tickLineA, tickLineB]

/-- A tick file of the line `tickLineC`. -/
def tickFile2 : List Char :=
  csvText csvTestHeader [tickLineC]

/-- The tick of `tickLineA`. -/
def tickOfLineA : Tick :=
  { timestamp := 1668092400017, bid := 1, ask := 1, volume := 0, flags := 6 }

/-- The tick the parser holds after `tickLineA` and the failed `tickLineB`: the time
and the bid of `tickLineB`, the rest of `tickLineA`. -/
def tickAfterLineB : Tick :=
  { timestamp := 1668092400228, bid := 2, ask := 1, volume := 0, flags := 6 }

/-- The tick of `tickLineC` with the bid `bid` for its empty cell. -/
def tickOfLineC (bid : ℚ) : Tick :=
  { timestamp := 1668092400525, bid := bid, ask := 1, volume := 0, flags := 6 }

/-! ## IEEE 754 arithmetic -/

namespace IEEE

/-- A value of a binary floating-point format: the finite value
`(-1)^neg * m * 2^e`, an infinity, or a NaN.  Finite values are kept with `m` odd,
and a zero as `fin neg 0 0`. -/
inductive Value where
  | fin (neg : Bool) (m : Nat) (e : Int)
  | inf (neg : Bool)
  | nan
deriving DecidableEq

/-- A binary format: the precision in bits, the exponent of the last bit of the
subnormal values, and the exponent `emax` with which every magnitude of `2^emax` or
more overflows. -/
structure Format where
  prec : Nat
  emin : Int
  emax : Int

/-- The format of `double`. -/
def binary64 : Format :=
  { prec := 53, emin := -1074, emax := 1024 }

/-- The format of `float`. -/
def binary32 : Format :=
  { prec := 24, emin := -149, emax := 128 }

/-- The number of binary digits of `k`, for `k < 2^fuel`. -/
def bitsLoop : Nat → Nat → Nat
  | 0, _ => 0
  | fuel + 1, k => if k = 0 then 0 else bitsLoop fuel (k / 2) + 1

/-- The number of binary digits of `k`. -/
def bits (k : Nat) : Nat :=
  bitsLoop k k

/-- The finite value `(-1)^neg * m * 2^e` with `m` made odd. -/
def normal (neg : Bool) (m : Nat) (e : Int) : Value :=
  if m = 0 then Value.fin neg 0 0
  else Value.fin neg (m / Nat.gcd m (2 ^ bits m)) (e + (bits (Nat.gcd m (2 ^ bits m)) - 1 : Nat))

/-- The exponent of the last bit kept when `n / d` is rounded to the format, for
`n > 0` and `d > 0`: the quotient of `n / d` by `2^e` has `prec` binary digits, or
fewer when `e` is `emin`. -/
def Format.exponent (f : Format) (n d : Nat) : Int :=
  let e0 : Int := max ((bits n : Int) - (bits d : Int) - (f.prec : Int)) f.emin
  if 2 ^ f.prec ≤ (n * 2 ^ (-e0).toNat) / (d * 2 ^ e0.toNat) then e0 + 1 else e0

/-- The integer nearest to `n / (d * 2^e)`, the even one of two at the same
distance. -/
def nearest (n d : Nat) (e : Int) : Nat :=
  let num : Nat := n * 2 ^ (-e).toNat
  let den : Nat := d * 2 ^ e.toNat
  if den < 2 * (num % den) ∨ (den = 2 * (num % den) ∧ (num / den) % 2 = 1) then num / den + 1
  else num / den

/-- The value `(-1)^neg * m * 2^e` of the format, an infinity when it overflows. -/
def Format.finish (f : Format) (neg : Bool) (m : Nat) (e : Int) : Value :=
  if f.emax ≤ (bits m : Int) - 1 + e then Value.inf neg else normal neg m e

/-- Rounding to nearest, ties to even: the value of the format nearest to
`(-1)^neg * n / d`, for `d > 0`; an infinity when the magnitude overflows. -/
def Format.round (f : Format) (neg : Bool) (n d : Nat) : Value :=
  if n = 0 then Value.fin neg 0 0
  else f.finish neg (nearest n d (f.exponent n d)) (f.exponent n d)

/-- The value of the format nearest to the quotient `n / d` of integers, the value
of a decimal literal. -/
def Format.ofRatio (f : Format) (n : Int) (d : Nat) : Value :=
  f.round (decide (n < 0)) n.natAbs d

/-- The integer `s` for which a finite value is `s * 2^e0`, for `e0` at most its
exponent. -/
def scaled (neg : Bool) (m : Nat) (e e0 : Int) : Int :=
  (if neg then -1 else 1) * ((m * 2 ^ (e - e0).toNat : Nat) : Int)

/-- The value of the format nearest to `s * 2^e`. -/
def Format.ofScaled (f : Format) (neg0 : Bool) (s : Int) (e : Int) : Value :=
  if s = 0 then Value.fin neg0 0 0
  else f.round (decide (s < 0)) (s.natAbs * 2 ^ e.toNat) (2 ^ (-e).toNat)

namespace Value

/-- The value 0. -/
def zero : Value :=
  Value.fin false 0 0

/-- The value of an unsigned integer, which a `double` holds exactly below `2^53`. -/
def ofNat (k : Nat) : Value :=
  binary64.round false k 1

/-- The negation. -/
def neg : Value → Value
  | fin s m e => fin (!s) m e
  | inf s => inf (!s)
  | nan => nan

/-- The sum, rounded to the format: a NaN for a NaN operand and for infinities of
opposite signs; an exact zero sum is negative only when both operands are. -/
def add (f : Format) : Value → Value → Value
  | nan, _ => nan
  | _, nan => nan
  | inf s, inf t => if s = t then inf s else nan
  | inf s, fin _ _ _ => inf s
  | fin _ _ _, inf t => inf t
  | fin s m e, fin t k g =>
    f.ofScaled (s && t) (scaled s m e (min e g) + scaled t k g (min e g)) (min e g)

/-- The difference, rounded to the format. -/
def sub (f : Format) (a b : Value) : Value :=
  add f a b.neg

/-- The product, rounded to the format: a NaN for a NaN operand and for a zero
times an infinity. -/
def mul (f : Format) : Value → Value → Value
  | nan, _ => nan
  | _, nan => nan
  | inf s, inf t => inf (s != t)
  | inf s, fin t k _ => if k = 0 then nan else inf (s != t)
  | fin s m _, inf t => if m = 0 then nan else inf (s != t)
  | fin s m e, fin t k g =>
    if m * k = 0 then fin (s != t) 0 0
    else f.round (s != t) (m * k * 2 ^ (e + g).toNat) (2 ^ (-(e + g)).toNat)

/-- The quotient, rounded to the format: a NaN for a NaN operand, for a zero by a
zero and for an infinity by an infinity; an infinity for a nonzero value by a
zero. -/
def div (f : Format) : Value → Value → Value
  | nan, _ => nan
  | _, nan => nan
  | inf _, inf _ => nan
  | inf s, fin t _ _ => inf (s != t)
  | fin s _ _, inf t => fin (s != t) 0 0
  | fin s m e, fin t k g =>
    if k = 0 then (if m = 0 then nan else inf (s != t))
    else f.round (s != t) (m * 2 ^ (e - g).toNat) (k * 2 ^ (g - e).toNat)

/-- The conversion to the format, as of a `double` to `float`. -/
def convert (f : Format) : Value → Value
  | nan => nan
  | inf s => inf s
  | fin s m e => f.round s (m * 2 ^ e.toNat) (2 ^ (-e).toNat)

/-- The comparison `a < b`, false when an operand is a NaN. -/
def lt : Value → Value → Bool
  | nan, _ => false
  | _, nan => false
  | inf s, inf t => s && !t
  | inf s, fin _ _ _ => s
  | fin _ _ _, inf t => !t
  | fin s m e, fin t k g => decide (scaled s m e (min e g) < scaled t k g (min e g))

/-- The comparison `a <= b`, false when an operand is a NaN. -/
def le : Value → Value → Bool
  | nan, _ => false
  | _, nan => false
  | inf s, inf t => s || !t
  | inf s, fin _ _ _ => s
  | fin _ _ _, inf t => !t
  | fin s m e, fin t k g => decide (scaled s m e (min e g) ≤ scaled t k g (min e g))

/-- The comparison `a > b`, false when an operand is a NaN. -/
def gt (a b : Value) : Bool :=
  lt b a

end Value

end IEEE

/-! ## The ledger in IEEE arithmetic -/

namespace IEEE

/-- Modelled from the spec: the fields of a `Position` the ledger reads; `price`
and `volume` are read as `double`. -/
structure Position where
  open_price : Value
  volume : Value
  is_long : Bool
deriving DecidableEq

/-- Modelled from the spec: the fields of a `Trade` the ledger reads. -/
structure Trade where
  open_price : Value
  close_price : Value
  volume : Value
  is_long : Bool
deriving DecidableEq

/-- Modelled from the spec: `Trade::calculateProfit`,
`(close_price - open_price) * volume` for a long and
`(open_price - close_price) * volume` for a short, in `double`. -/
def Trade.calculateProfit (t : Trade) : Value :=
  if t.is_long then Value.mul binary64 (Value.sub binary64 t.close_price t.open_price) t.volume
  else Value.mul binary64 (Value.sub binary64 t.open_price t.close_price) t.volume

/-- Modelled from the spec: the prices of a `Tick`. -/
structure Tick where
  bid : Value
  ask : Value
deriving DecidableEq

/-- The ledger: the private fields of `AccountBalanceManager`; the two levels are
`float`, the other numbers `double`. -/
structure AccountBalanceManager where
  _stop_out_level : Value
  _stop_out_warning_level : Value
  _account_balance : Value
  _leverage : Nat
  _open_position_equity : Value := Value.zero
  _long_positions_expanses : Value := Value.zero
  _long_volume : Value := Value.zero
  _short_positions_expanses : Value := Value.zero
  _short_volume : Value := Value.zero
deriving DecidableEq

namespace AccountBalanceManager

def getBalance (a : AccountBalanceManager) : Value := a._account_balance

def getTotalEquity (a : AccountBalanceManager) : Value :=
  Value.add binary64 a._account_balance a._open_position_equity

def getTotalExpenses (a : AccountBalanceManager) : Value :=
  Value.add binary64 a._long_positions_expanses a._short_positions_expanses

def getUsedMargin (a : AccountBalanceManager) : Value :=
  Value.div binary64 a.getTotalExpenses (Value.ofNat a._leverage)

def calculateRequiredMargin (a : AccountBalanceManager) (volume open_price : Value) : Value :=
  Value.div binary64 (Value.mul binary64 volume open_price) (Value.ofNat a._leverage)

/-- `getMarginLevel`: the `double` quotient, returned as `float`. -/
def getMarginLevel (a : AccountBalanceManager) : Value :=
  Value.convert binary32 (Value.div binary64 a.getTotalEquity a.getUsedMargin)

def canOrderBeProcessed (a : AccountBalanceManager) (volume open_price close_price : Value) :
    Bool :=
  let price_difference := Value.sub binary64 close_price open_price
  let price_difference :=
    if Value.lt price_difference Value.zero then
      Value.mul binary64 price_difference (Value.fin true 1 0)
    else price_difference
  let new_equity := Value.sub binary64 a.getTotalEquity (Value.mul binary64 volume price_difference)
  let new_used_margin :=
    Value.add binary64 a.getUsedMargin (a.calculateRequiredMargin volume open_price)
  let after_processing_margin_level :=
    Value.convert binary32 (Value.div binary64 new_equity new_used_margin)
  Value.gt after_processing_margin_level a._stop_out_level

def addPosition (a : AccountBalanceManager) (pos : Position) : AccountBalanceManager :=
  if pos.is_long then
    { a with
      _long_volume := Value.add binary64 a._long_volume pos.volume
      _long_positions_expanses :=
        Value.add binary64 a._long_positions_expanses
          (Value.mul binary64 pos.volume pos.open_price) }
  else
    { a with
      _short_volume := Value.add binary64 a._short_volume pos.volume
      _short_positions_expanses :=
        Value.add binary64 a._short_positions_expanses
          (Value.mul binary64 pos.volume pos.open_price) }

def realizePosition (a : AccountBalanceManager) (trade : Trade) : AccountBalanceManager :=
  let a1 : AccountBalanceManager :=
    if trade.is_long then
      { a with
        _long_volume := Value.sub binary64 a._long_volume trade.volume
        _long_positions_expanses :=
          Value.sub binary64 a._long_positions_expanses
            (Value.mul binary64 trade.volume trade.open_price) }
    else
      { a with
        _short_volume := Value.sub binary64 a._short_volume trade.volume
        _short_positions_expanses :=
          Value.sub binary64 a._short_positions_expanses
            (Value.mul binary64 trade.volume trade.open_price) }
  { a1 with _account_balance := Value.add binary64 a1._account_balance trade.calculateProfit }

def updateOpenPositionEquity (a : AccountBalanceManager) (tick : Tick) : AccountBalanceManager :=
  let long_profit :=
    Value.sub binary64 (Value.mul binary64 tick.bid a._long_volume) a._long_positions_expanses
  let short_profit :=
    Value.sub binary64 a._short_positions_expanses (Value.mul binary64 tick.ask a._short_volume)
  { a with _open_position_equity := Value.add binary64 long_profit short_profit }

/-- The state classification of `AccountBalanceManager::onTick`, on the ledger
whose open-position equity is already updated. -/
def classify (a : AccountBalanceManager) : AccountState :=
  if Value.le a._account_balance Value.zero then AccountState.NONPOSITIVE_ACCOUNT_BALANCE
  else if Value.le a.getMarginLevel a._stop_out_level then AccountState.MARGIN_CALL
  else if Value.le a.getMarginLevel a._stop_out_warning_level then
    AccountState.MARGIN_CALL_WARNING
  else AccountState.OK

def onTick (a : AccountBalanceManager) (tick : Tick) : AccountState × AccountBalanceManager :=
  ((a.updateOpenPositionEquity tick).classify, a.updateOpenPositionEquity tick)

end AccountBalanceManager

/-- The calls a `TradingManager` makes on its ledger: `tryCreatePosition` calls
`addPosition` with the position of an admitted order, every close calls
`realizePosition` with the trade it records, and `onTick` calls `onTick`. -/
inductive LedgerCall where
  | addPosition (pos : Position)
  | realizePosition (trade : Trade)
  | onTick (tick : Tick)

/-- The ledger after a sequence of calls. -/
def AccountBalanceManager.after : List LedgerCall → AccountBalanceManager → AccountBalanceManager
  | [], a => a
  | LedgerCall.addPosition pos :: cs, a => AccountBalanceManager.after cs (a.addPosition pos)
  | LedgerCall.realizePosition trade :: cs, a =>
    AccountBalanceManager.after cs (a.realizePosition trade)
  | LedgerCall.onTick tick :: cs, a => AccountBalanceManager.after cs (a.onTick tick).2

/-- The exact sum of finite values, which need not be a value of a format. -/
def Value.addExact : Value → Value → Value
  | Value.fin s m e, Value.fin t k g =>
    if scaled s m e (min e g) + scaled t k g (min e g) = 0 then Value.fin (s && t) 0 0
    else normal (decide (scaled s m e (min e g) + scaled t k g (min e g) < 0))
      (scaled s m e (min e g) + scaled t k g (min e g)).natAbs (min e g)
  | _, _ => Value.nan

/-- The ledger of an account of balance 10000, leverage 50 and the levels 0.5 and
0.55 as `float`. -/
def ledger0 : AccountBalanceManager :=
  { _stop_out_level := binary32.ofRatio 1 2
    _stop_out_warning_level := binary32.ofRatio 55 100
    _account_balance := Value.ofNat 10000
    _leverage := 50 }

end IEEE

namespace IEEE

/-- The tick of bid 1.1989 and ask 1.1990. -/
def tickA : Tick :=
  { bid := binary64.ofRatio 11989 10000, ask := binary64.ofRatio 11990 10000 }

/-- The tick of bid 1.1991 and ask 1.1992. -/
def tickB : Tick :=
  { bid := binary64.ofRatio 11991 10000, ask := binary64.ofRatio 11992 10000 }

/-- The long position of volume 1000 opened at the ask of `tickA`. -/
def positionA : Position :=
  { open_price := tickA.ask, volume := Value.ofNat 1000, is_long := true }

/-- The long position of volume 1000 opened at the ask of `tickB`. -/
def positionB : Position :=
  { open_price := tickB.ask, volume := Value.ofNat 1000, is_long := true }

/-- The trade of `positionA` closed at the bid of `tickB`. -/
def tradeA : Trade :=
  { open_price := tickA.ask, close_price := tickB.bid, volume := Value.ofNat 1000,
    is_long := true }

/-- The trade of `positionB` closed at the bid of `tickB`. -/
def tradeB : Trade :=
  { open_price := tickB.ask, close_price := tickB.bid, volume := Value.ofNat 1000,
    is_long := true }

/-- The calls on the ledger of: `onTick(tickA)`, a long order of volume 1000,
`onTick(tickB)`, a second long order of volume 1000, and the close of the second
position. -/
def callsOpenOpenClose : List LedgerCall :=
  [LedgerCall.onTick tickA, LedgerCall.addPosition positionA, LedgerCall.onTick tickB,
    LedgerCall.addPosition positionB, LedgerCall.realizePosition tradeB]

/-- The calls of `callsOpenOpenClose`, then the close of the first position. -/
def callsOpenOpenCloseClose : List LedgerCall :=
  callsOpenOpenClose ++ [LedgerCall.realizePosition tradeA]

/-- The ledger of an account of balance 1209.1000714719285, leverage 50 and the
levels 0.5 and 0.55 as `float`. -/
def ledgerAtThreshold : AccountBalanceManager :=
  { _stop_out_level := binary32.ofRatio 1 2
    _stop_out_warning_level := binary32.ofRatio 55 100
    _account_balance := binary64.ofRatio 12091000714719285 10000000000000
    _leverage := 50 }

/-- The tick of bid 1.199 and ask 1.1991. -/
def tickC : Tick :=
  { bid := binary64.ofRatio 1199 1000, ask := binary64.ofRatio 11991 10000 }

/-- The long position of volume 100000 opened at the ask of `tickC`. -/
def positionC : Position :=
  { open_price := tickC.ask, volume := Value.ofNat 100000, is_long := true }

/-- The trade of a long position of volume 1000 opened at 1.2917 and closed at
1.2980. -/
def tradeD : Trade :=
  { open_price := binary64.ofRatio 12917 10000, close_price := binary64.ofRatio 12980 10000,
    volume := Value.ofNat 1000, is_long := true }

/-- The trade of a long position of volume 10000 opened at 1.2039 and closed at
1.2699. -/
def tradeE : Trade :=
  { open_price := binary64.ofRatio 12039 10000, close_price := binary64.ofRatio 12699 10000,
    volume := Value.ofNat 10000, is_long := true }

/-- The position of `tradeD`. -/
def positionD : Position :=
  { open_price := tradeD.open_price, volume := tradeD.volume, is_long := true }

/-- The position of `tradeE`. -/
def positionE : Position :=
  { open_price := tradeE.open_price, volume := tradeE.volume, is_long := true }

/-- The calls on the ledger of the two orders of `tradeD` and `tradeE`, each
closed before the next is placed. -/
def callsTwoTrades : List LedgerCall :=
  [LedgerCall.addPosition positionD, LedgerCall.realizePosition tradeD,
    LedgerCall.addPosition positionE, LedgerCall.realizePosition tradeE]

end IEEE

namespace IEEE

/-- The lambda `reduce` of `findBestParameters` in the arithmetic of the program:
`account_balance` reads the `double` balance of the results of a pair, which may
be an infinity or a NaN, and `>` is the comparison of IEEE. -/
def reduce {R P : Type} (account_balance : R → Value) (a b : R × P) : R × P :=
  if Value.gt (account_balance a.1) (account_balance b.1) then a else b

/-- The rational number a finite value is. -/
def Value.toRat : Value → ℚ
  | Value.fin s m e => (if s then -1 else 1) * (m : ℚ) * (2 : ℚ) ^ e
  | _ => 0

/-- The place of a value in the order of the comparisons: the negative infinity,
the finite values by the number they are, the positive infinity; a NaN is put
last. -/
def Value.key : Value → Lex (Int × ℚ)
  | Value.fin s m e => toLex (0, Value.toRat (Value.fin s m e))
  | Value.inf s => toLex (if s then -1 else 1, 0)
  | Value.nan => toLex (2, 0)

end IEEE

/-- The calls that place the two long orders of volume 20000 of `marginBook2`. -/
def marginCalls : List Call :=
  [Call.tryCreatePosition marginOrder1, Call.tryCreatePosition marginOrder2]

/-- The calls that place the long order of volume 100 and deliver the tick of bid
1.06, at which its take-profit fires. -/
def openTickCalls : List Call :=
  [Call.tryCreatePosition longOrder, Call.onTick tickUp]

/-! ## The scenario of eight positions that are all due at one tick -/

/-- An order of volume 100 with the given side, stop-loss, take-profit and comment. -/
def eventOrder (is_long : Bool) (stoploss takeprofit : ℚ) (comment : String) : Order :=
  { is_long := is_long
    volume := 100
    stoploss := stoploss
    takeprofit := takeprofit
    comment := comment }

/-- The node of the position that `eventOrder` opens at the tick of bid 1 and ask 1
in a book of `id` positions created with the ids from 0 on. -/
def eventNode (id : Nat) (is_long : Bool) (stoploss takeprofit : ℚ) (comment : String) : Node :=
  { addr := id + 1
    val :=
      { id := id
        open_time := 0
        open_price := 1
        volume := 100
        is_long := is_long
        comment := comment
        stoploss := stoploss
        takeprofit := takeprofit } }

/-- The trade of a position of `eventNode` closed at the tick `tickWide`. -/
def eventTrade (is_long : Bool) (close_type : CloseType) (comment : String) : Trade :=
  { open_time := 0
    close_time := 1
    open_price := 1
    close_price := if is_long then 3 / 4 else 5 / 4
    volume := 100
    is_long := is_long
    close_type := close_type
    comment := comment }

/-- A tick with bid 0.75 and ask 1.25. -/
def tickWide : Tick :=
  { timestamp := 1, bid := 3 / 4, ask := 5 / 4, volume := 0, flags := 0 }

/-- Eight orders, two for each queue of the two event managers, none in the order
in which its queue is drained. -/
def eventOrders : List Order :=
  [eventOrder true (13 / 16) 0 "long stop 0.8125",
   eventOrder false 0 (11 / 8) "short take 1.375",
   eventOrder false (19 / 16) 0 "short stop 1.1875",
   eventOrder true 0 (11 / 16) "long take 0.6875",
   eventOrder true (7 / 8) 0 "long stop 0.875",
   eventOrder false 0 (3 / 2) "short take 1.5",
   eventOrder false (9 / 8) 0 "short stop 1.125",
   eventOrder true 0 (5 / 8) "long take 0.625"]

/-- The manager after `tryCreatePosition` was called with each order of a list in
turn. -/
def TradingManager.placeOrders (H : StdHeap) (tm : TradingManager) : List Order → TradingManager
  | [] => tm
  | order :: rest => TradingManager.placeOrders H (tm.tryCreatePosition H order).2.2 rest

/-- The manager of a fresh default account after the orders `eventOrders` were
placed at the tick of bid 1 and ask 1. -/
def eventBook (H : StdHeap) : TradingManager :=
  (TradingManager.init {} 0 tickAt1).placeOrders H eventOrders

/-- The long positions of `eventBook` with a stop-loss, by decreasing stop-loss. -/
def eventLongStops : List Node :=
  [eventNode 4 true (7 / 8) 0 "long stop 0.875", eventNode 0 true (13 / 16) 0 "long stop 0.8125"]

/-- The short positions of `eventBook` with a stop-loss, by increasing stop-loss. -/
def eventShortStops : List Node :=
  [eventNode 6 false (9 / 8) 0 "short stop 1.125",
   eventNode 2 false (19 / 16) 0 "short stop 1.1875"]

/-- The long positions of `eventBook` with a take-profit, by increasing take-profit. -/
def eventLongTakes : List Node :=
  [eventNode 7 true 0 (5 / 8) "long take 0.625", eventNode 3 true 0 (11 / 16) "long take 0.6875"]

/-- The short positions of `eventBook` with a take-profit, by decreasing take-profit. -/
def eventShortTakes : List Node :=
  [eventNode 5 false 0 (3 / 2) "short take 1.5", eventNode 1 false 0 (11 / 8) "short take 1.375"]

/-- The list of positions of `eventBook`: the newest position is at the front. -/
def eventPositions : List Node :=
  [eventNode 7 true 0 (5 / 8) "long take 0.625",
   eventNode 6 false (9 / 8) 0 "short stop 1.125",
   eventNode 5 false 0 (3 / 2) "short take 1.5",
   eventNode 4 true (7 / 8) 0 "long stop 0.875",
   eventNode 3 true 0 (11 / 16) "long take 0.6875",
   eventNode 2 false (19 / 16) 0 "short stop 1.1875",
   eventNode 1 false 0 (11 / 8) "short take 1.375",
   eventNode 0 true (13 / 16) 0 "long stop 0.8125"]

/-- The trades that `onTick` appends on `eventBook` at the tick `tickWide`. -/
def eventTrades : List Trade :=
  [eventTrade true CloseType.STOPLOSS "long stop 0.875",
   eventTrade true CloseType.STOPLOSS "long stop 0.8125",
   eventTrade false CloseType.STOPLOSS "short stop 1.125",
   eventTrade false CloseType.STOPLOSS "short stop 1.1875",
   eventTrade true CloseType.TAKEPROFIT "long take 0.625",
   eventTrade true CloseType.TAKEPROFIT "long take 0.6875",
   eventTrade false CloseType.TAKEPROFIT "short take 1.5",
   eventTrade false CloseType.TAKEPROFIT "short take 1.375"]

/-- A manager at the tick of bid 1 and ask 1 that holds the positions `ps`, each
of volume 100 and opened at the price 1, on the default account, closed no
position yet and gives the id `id` next. -/
structure ParBook (tm : TradingManager) (ps : List Node) (id : Nat) : Prop where
  positions : tm._positions = ps
  tick : tm._current_tick = tickAt1
  trades : tm._trades = []
  new_id : tm._new_id = id
  leverage : tm._account_manager._leverage = 50
  stop_out_level : tm._account_manager._stop_out_level = 1 / 2
  balance : tm._account_manager._account_balance = 10000
  equity : tm._account_manager._open_position_equity = 0
  expenses : tm._account_manager.getTotalExpenses = 100 * ps.length

namespace IEEE

/-- The trades of the `realizePosition` calls among the calls a `TradingManager`
makes on its ledger, in the order of the calls, which is the order in which the
manager records them. -/
def realizedTrades : List LedgerCall → List Trade
  | [] => []
  | LedgerCall.realizePosition trade :: cs => trade :: realizedTrades cs
  | _ :: cs => realizedTrades cs

end IEEE

/-! # Theorems -/

open TradingManager

/-! ## The ledger -/

/-- C4: `canOrderBeProcessed(volume, open_price, close_price)` is true exactly
when `(total_equity - volume*|close_price - open_price|) /
(used_margin + volume*open_price/leverage) > stop_out_level`, for every ledger
and every order: first with the quotients as the code computes them, then, for
a positive leverage and a nonzero new used margin, as a quotient of rationals. -/
theorem canOrderBeProcessed_iff (a : AccountBalanceManager)
    (volume open_price close_price : ℚ) :
    (a.canOrderBeProcessed volume open_price close_price = true ↔
      XNum.gt
        (XNum.div (.fin (a.getTotalEquity - volume * |close_price - open_price|))
          (XNum.add a.getUsedMargin (XNum.div (.fin (volume * open_price)) (.fin a._leverage))))
        (.fin a._stop_out_level) = true) ∧
    (0 < a._leverage →
      a.getTotalExpenses / a._leverage + volume * open_price / a._leverage ≠ 0 →
      (a.canOrderBeProcessed volume open_price close_price = true ↔
        (a.getTotalEquity - volume * |close_price - open_price|) /
          (a.getTotalExpenses / a._leverage + volume * open_price / a._leverage) >
            a._stop_out_level)) := by
  have habs : (if close_price - open_price < 0 then (close_price - open_price) * -1
      else close_price - open_price) = |close_price - open_price| := by
    split_ifs with h
    · rw [abs_of_neg h]; ring
    · rw [abs_of_nonneg (not_lt.mp h)]
  constructor
  · simp only [AccountBalanceManager.canOrderBeProcessed,
      AccountBalanceManager.calculateRequiredMargin, habs]
  · intro hlev hden
    have hl : (a._leverage : ℚ) ≠ 0 := by exact_mod_cast hlev.ne'
    simp only [AccountBalanceManager.canOrderBeProcessed,
      AccountBalanceManager.calculateRequiredMargin, AccountBalanceManager.getUsedMargin, habs,
      XNum.div, XNum.add, if_neg hl, if_neg hden, XNum.gt, decide_eq_true_eq, gt_iff_lt]

/-- The claim C4 at the ledger of a fresh account of balance 1000 and leverage 50
and an order of volume 100000 at price 1. -/
theorem canOrderBeProcessed_iff_witness :
    (AccountBalanceManager.ofProperties smallAccount).canOrderBeProcessed 100000 1 1 = true ↔
      ((AccountBalanceManager.ofProperties smallAccount).getTotalEquity
          - 100000 * |(1 : ℚ) - 1|) /
        ((AccountBalanceManager.ofProperties smallAccount).getTotalExpenses /
            (AccountBalanceManager.ofProperties smallAccount)._leverage
          + 100000 * 1 / (AccountBalanceManager.ofProperties smallAccount)._leverage) >
        (AccountBalanceManager.ofProperties smallAccount)._stop_out_level :=
  (canOrderBeProcessed_iff (AccountBalanceManager.ofProperties smallAccount) 100000 1 1).2
    (by simp [AccountBalanceManager.ofProperties, smallAccount])
    (by
      simp [AccountBalanceManager.ofProperties, smallAccount,
        AccountBalanceManager.getTotalExpenses])


/-! ## Opening a position -/

/-- C5: when the admission control denies the order, `tryCreatePosition` returns
false, writes no id and leaves the whole manager as it was (position list, id
map, both event managers, trades, id counter and ledger); it returns false in no
other way.  On a fresh account of balance 1000 and leverage 50, an order of
volume 100000 at an ask of 1 is denied, whatever the bid. -/
theorem tryCreatePosition_denied_unchanged (H : StdHeap) :
    (∀ (tm : TradingManager) (order : Order),
      tm._account_manager.canOrderBeProcessed order.volume tm._current_tick.ask
          tm._current_tick.bid = false →
        tm.tryCreatePosition H order = (false, none, tm)) ∧
    (∀ (tm : TradingManager) (order : Order),
      (tm.tryCreatePosition H order).1 = false →
        tm.tryCreatePosition H order = (false, none, tm)) ∧
    (∀ (new_id : Nat) (tick : Tick), tick.ask = 1 →
      (TradingManager.init smallAccount new_id tick).tryCreatePosition H bigOrder =
        (false, none, TradingManager.init smallAccount new_id tick)) := by
  have h1 : ∀ (tm : TradingManager) (order : Order),
      tm._account_manager.canOrderBeProcessed order.volume tm._current_tick.ask
          tm._current_tick.bid = false →
        tm.tryCreatePosition H order = (false, none, tm) := by
    intro tm order h
    simp [tryCreatePosition, h]
  refine ⟨h1, ?_, ?_⟩
  · intro tm order h
    cases hc : tm._account_manager.canOrderBeProcessed order.volume tm._current_tick.ask
        tm._current_tick.bid with
    | false => exact h1 tm order hc
    | true => simp [tryCreatePosition, hc] at h
  · intro new_id tick hask
    apply h1
    have hle : (1000 - 100000 * |tick.bid - 1|) / 2000 ≤ (1 / 2 : ℚ) := by
      have : 0 ≤ |tick.bid - 1| := abs_nonneg _
      rw [div_le_iff₀ (by norm_num)]
      linarith
    have habs : (if tick.bid - 1 < 0 then (tick.bid - 1) * -1 else tick.bid - 1)
        = |tick.bid - 1| := by
      split_ifs with h
      · rw [abs_of_neg h]; ring
      · rw [abs_of_nonneg (not_lt.mp h)]
    simp only [TradingManager.init, smallAccount, bigOrder, hask,
      AccountBalanceManager.ofProperties, AccountBalanceManager.canOrderBeProcessed,
      AccountBalanceManager.getTotalEquity, AccountBalanceManager.getUsedMargin,
      AccountBalanceManager.calculateRequiredMargin, AccountBalanceManager.getTotalExpenses,
      XNum.div, XNum.add, habs]
    norm_num [XNum.gt]
    linarith

/-- The claim C5 at the fresh account of balance 1000 and leverage 50, a tick of
bid 1 and ask 2 and an order of volume 100000. -/
theorem tryCreatePosition_denied_unchanged_witness :
    (TradingManager.init smallAccount 0 { tickBid1Ask2 with ask := 1 }).tryCreatePosition
        refHeap bigOrder =
      (false, none, TradingManager.init smallAccount 0 { tickBid1Ask2 with ask := 1 }) :=
  (tryCreatePosition_denied_unchanged refHeap).2.2 0 { tickBid1Ask2 with ask := 1 } rfl


/-- C3, the code at a short order: on a fresh default account whose current tick
has bid 1 and ask 2, a short order of volume 1000 is admitted, and the position
created is short with open price 2, the ask; the admission check was given the
ask as open price and the bid as close price. -/
theorem tryCreatePosition_short_opens_at_ask :
    ((TradingManager.init {} 0 tickBid1Ask2).tryCreatePosition refHeap shortOrder).1 = true ∧
    ((TradingManager.init {} 0 tickBid1Ask2).tryCreatePosition refHeap shortOrder).2.2._positions.map
        (fun n => (n.val.is_long, n.val.open_price)) = [(false, 2)] ∧
    tickBid1Ask2.bid = 1 ∧ tickBid1Ask2.ask = 2 ∧
    (TradingManager.init {} 0 tickBid1Ask2)._account_manager.canOrderBeProcessed
        shortOrder.volume tickBid1Ask2.ask tickBid1Ask2.bid = true := by
  have hc : (TradingManager.init {} 0 tickBid1Ask2)._account_manager.canOrderBeProcessed
      shortOrder.volume tickBid1Ask2.ask tickBid1Ask2.bid = true := by
    simp [TradingManager.init, tickBid1Ask2, shortOrder, AccountBalanceManager.ofProperties,
      AccountBalanceManager.canOrderBeProcessed, AccountBalanceManager.getTotalEquity,
      AccountBalanceManager.getUsedMargin, AccountBalanceManager.calculateRequiredMargin,
      AccountBalanceManager.getTotalExpenses, XNum.div, XNum.add, XNum.gt]
    norm_num
  have hc1 : (TradingManager.init {} 0 tickBid1Ask2)._account_manager.canOrderBeProcessed
      shortOrder.volume (TradingManager.init {} 0 tickBid1Ask2)._current_tick.ask
      (TradingManager.init {} 0 tickBid1Ask2)._current_tick.bid = true := hc
  refine ⟨?_, ?_, rfl, rfl, hc⟩
  · simp only [tryCreatePosition, hc1, Bool.not_true, Bool.false_eq_true, if_false]
  · simp only [tryCreatePosition, hc1, Bool.not_true, Bool.false_eq_true, if_false]
    simp [registerPositionEvents, shortOrder, Position.hasStoploss, Position.hasTakeprofit,
      TradingManager.init, tickBid1Ask2]


/-! ## Heaps -/

theorem isHeap_nil {α : Type} (comp : α → α → Bool) : IsHeap comp ([] : List α) := by
  intro i a b _ ha _
  simp at ha

theorem IsHeap.head_max {α : Type} {comp : α → α → Bool} (hc : StrictWeak comp) {t : α}
    {l : List α} (h : IsHeap comp (t :: l)) : ∀ x ∈ t :: l, comp t x = false := by
  have key : ∀ (i : Nat) (x : α), (t :: l)[i]? = some x → comp t x = false := by
    intro i
    induction i using Nat.strong_induction_on with
    | _ i ih =>
      intro x hx
      rcases Nat.eq_zero_or_pos i with h0 | hpos
      · subst h0
        simp at hx
        subst hx
        exact hc.irrefl _
      · have hlt : (i - 1) / 2 < i := by omega
        have hlen : i < (t :: l).length := (List.getElem?_eq_some.mp hx).1
        have hplen : (i - 1) / 2 < (t :: l).length := by omega
        have hp : (t :: l)[(i - 1) / 2]? = some ((t :: l)[(i - 1) / 2]) :=
          List.getElem?_eq_getElem hplen
        exact hc.neg_trans _ _ _ (ih _ hlt _ hp) (h i _ _ hpos hp hx)
  intro x hx
  obtain ⟨i, hi⟩ := List.mem_iff_getElem?.mp hx
  exact key i x hi

theorem strictWeak_comp (k : EventKind) (is_long : Bool) : StrictWeak (k.comp is_long) := by
  cases k <;> cases is_long <;>
    simp only [EventKind.comp, EventKind.traits, StoplossManager, TakeprofitManager,
      if_true, if_false, Bool.false_eq_true] <;>
    refine ⟨?_, ?_, ?_⟩ <;>
    simp only [IteratorLongStoplossComparer, IteratorLongTakeprofitComparer,
      IteratorShortStoplossComparer, IteratorShortTakeprofitComparer, decide_eq_true_eq,
      decide_eq_false_iff_not, not_lt, gt_iff_lt, lt_self_iff_false, not_false_eq_true,
      implies_true] <;>
    intro a b c h1 h2 <;> linarith

/-- The pop of a non-empty heap leaves a heap holding the other entries. -/
theorem pop_spec (H : StdHeap) {comp : Node → Node → Bool} (hc : StrictWeak comp)
    {top : Node} {rest : List Node} (h : IsHeap comp (top :: rest)) :
    IsHeap comp (PositionIteratorQueue.pop H comp (top :: rest)) ∧
      (PositionIteratorQueue.pop H comp (top :: rest)).Perm rest := by
  obtain ⟨l1, h1, h2, h3⟩ := H.pop_heap_spec comp top rest hc h
  simp only [PositionIteratorQueue.pop, h1, List.dropLast_concat]
  exact ⟨h2, h3⟩

theorem push_spec (H : StdHeap) {comp : Node → Node → Bool} (hc : StrictWeak comp)
    {q : List Node} (x : Node) (h : IsHeap comp q) :
    IsHeap comp (PositionIteratorQueue.push H comp q x) ∧
      (PositionIteratorQueue.push H comp q x).Perm (x :: q) := by
  obtain ⟨h1, h2⟩ := H.push_heap_spec comp q x hc h
  exact ⟨h1, h2.trans (List.perm_append_singleton x q)⟩

/-! ## Nodes and addresses -/

theorem addr_inj {l : List Node} (h : (l.map (fun n => n.addr)).Nodup) {a b : Node}
    (ha : a ∈ l) (hb : b ∈ l) (hab : a.addr = b.addr) : a = b :=
  List.inj_on_of_nodup_map h ha hb hab

theorem eraseP_addr_eq_erase {q : List Node} {x : Node}
    (h : ∀ n ∈ q, n.addr = x.addr → n = x) :
    q.eraseP (fun n => n.addr == x.addr) = q.erase x := by
  induction q with
  | nil => rfl
  | cons y q ih =>
    by_cases hy : y.addr = x.addr
    · have : y = x := h y (List.mem_cons_self _ _) hy
      subst this
      simp
    · have hne : y ≠ x := fun e => hy (by rw [e])
      rw [List.eraseP_cons_of_neg (by simpa using hy), List.erase_cons_tail (by simpa using hne),
        ih (fun n hn => h n (List.mem_cons_of_mem _ hn))]

theorem any_addr_iff_mem {q : List Node} {x : Node}
    (h : ∀ n ∈ q, n.addr = x.addr → n = x) :
    q.any (fun n => n.addr == x.addr) = true ↔ x ∈ q := by
  simp only [List.any_eq_true, beq_iff_eq]
  constructor
  · rintro ⟨n, hn, e⟩
    exact h n hn e ▸ hn
  · intro hx
    exact ⟨x, hx, rfl⟩

theorem freshAddr_gt (l : List Node) : ∀ n ∈ l, n.addr < freshAddr l := by
  induction l with
  | nil => simp
  | cons y l ih =>
    intro n hn
    simp only [freshAddr, List.map_cons, List.foldr_cons] at ih ⊢
    rcases List.mem_cons.mp hn with rfl | hn
    · omega
    · have := ih n hn
      omega

/-- Removal of an iterator from a queue whose entries have distinct addresses. -/
theorem queue_remove_spec (H : StdHeap) {comp : Node → Node → Bool} (hc : StrictWeak comp)
    {q : List Node} {x : Node} (hinj : ∀ n ∈ q, n.addr = x.addr → n = x)
    (h : IsHeap comp q) :
    IsHeap comp (PositionIteratorQueue.remove H comp q x).2 ∧
      (PositionIteratorQueue.remove H comp q x).2.Perm (q.erase x) ∧
      ((PositionIteratorQueue.remove H comp q x).1 = true ↔ x ∈ q) := by
  by_cases hx : x ∈ q
  · have hany : q.any (fun n => n.addr == x.addr) = true := (any_addr_iff_mem hinj).mpr hx
    obtain ⟨h1, h2⟩ := H.make_heap_spec comp (q.erase x) hc
    simp only [PositionIteratorQueue.remove, hany, if_true, PositionIteratorQueue.update,
      eraseP_addr_eq_erase hinj]
    exact ⟨h1, h2, by simp [hx]⟩
  · have hany : q.any (fun n => n.addr == x.addr) = false := by
      rw [← Bool.not_eq_true, any_addr_iff_mem hinj]
      exact hx
    simp only [PositionIteratorQueue.remove, hany, Bool.false_eq_true, if_false]
    rw [List.erase_of_not_mem hx]
    exact ⟨h, List.Perm.refl _, by simp [hx]⟩


/-! ## The queues of an event manager -/

theorem filter_erase_eq {P : List Node} (hnd : P.Nodup) (p : Node → Bool) (x : Node) :
    (P.erase x).filter p = (P.filter p).erase x := by
  rw [hnd.erase_eq_filter, (hnd.filter p).erase_eq_filter, List.filter_filter, List.filter_filter]
  congr 1
  funext a
  exact Bool.and_comm _ _

theorem perm_filter_erase {P q : List Node} (hnd : P.Nodup) (p : Node → Bool) (x : Node)
    (hq : q.Perm (P.filter p)) : (q.erase x).Perm ((P.erase x).filter p) := by
  rw [filter_erase_eq hnd]
  exact hq.erase x

theorem perm_filter_erase_of_not {P q : List Node} (hnd : P.Nodup) (p : Node → Bool) (x : Node)
    (hq : q.Perm (P.filter p)) (hx : p x = false) : q.Perm ((P.erase x).filter p) := by
  have hnot : x ∉ q := by
    intro hmem
    have := (List.mem_filter.mp (hq.subset hmem)).2
    rw [hx] at this
    exact absurd this (by decide)
  have := perm_filter_erase hnd p x hq
  rwa [List.erase_of_not_mem hnot] at this


theorem mem_of_mem_queue {P q : List Node} {p : Node → Bool} (hq : q.Perm (P.filter p))
    {n : Node} (hn : n ∈ q) : n ∈ P :=
  (List.mem_filter.mp (hq.subset hn)).1

theorem queue_inj {P q : List Node} {p : Node → Bool} (hnd : (P.map (fun n => n.addr)).Nodup)
    (hq : q.Perm (P.filter p)) {x : Node} (hx : x ∈ P) :
    ∀ n ∈ q, n.addr = x.addr → n = x :=
  fun _ hn e => addr_inj hnd (mem_of_mem_queue hq hn) hx e

theorem queued_other_side (k : EventKind) (x : Node) (s : Bool) (h : x.val.is_long = !s) :
    queued k s x = false := by
  cases s <;> simp [queued, h]

theorem queued_of_not_has (k : EventKind) (x : Node) (s : Bool) (h : k.has x.val = false) :
    queued k s x = false := by
  simp [queued, h]

/-- Removing a live node from an event manager leaves the queues of the manager
holding exactly the other nodes that belong in them. -/
theorem managerInv_remove (H : StdHeap) (k : EventKind) {P : List Node} {m : PriceEventManager}
    (h : ManagerInv k P m) (hnd : (P.map (fun n => n.addr)).Nodup) {x : Node} (hx : x ∈ P) :
    ManagerInv k (P.erase x) (m.remove H k.traits x).2 := by
  have hP : P.Nodup := List.Nodup.of_map _ hnd
  obtain ⟨⟨hl1, hl2⟩, ⟨hs1, hs2⟩⟩ := h
  cases hside : x.val.is_long with
  | true =>
    obtain ⟨r1, r2, _⟩ := queue_remove_spec H (strictWeak_comp k true) (queue_inj hnd hl2 hx) hl1
    simp only [PriceEventManager.remove, hside, if_true]
    refine ⟨⟨?_, ?_⟩, ⟨hs1, ?_⟩⟩
    · simpa [EventKind.comp] using r1
    · have := r2.trans (perm_filter_erase hP (queued k true) x hl2)
      simpa [EventKind.comp] using this
    · exact perm_filter_erase_of_not hP _ x hs2 (queued_other_side k x false (by simp [hside]))
  | false =>
    obtain ⟨r1, r2, _⟩ := queue_remove_spec H (strictWeak_comp k false) (queue_inj hnd hs2 hx) hs1
    simp only [PriceEventManager.remove, hside, Bool.false_eq_true, if_false]
    refine ⟨⟨hl1, ?_⟩, ⟨?_, ?_⟩⟩
    · exact perm_filter_erase_of_not hP _ x hl2 (queued_other_side k x true (by simp [hside]))
    · simpa [EventKind.comp] using r1
    · have := r2.trans (perm_filter_erase hP (queued k false) x hs2)
      simpa [EventKind.comp] using this

theorem managerInv_skip (k : EventKind) {P : List Node} {m : PriceEventManager}
    (h : ManagerInv k P m) (hnd : (P.map (fun n => n.addr)).Nodup) {x : Node}
    (hx : k.has x.val = false) : ManagerInv k (P.erase x) m := by
  have hP : P.Nodup := List.Nodup.of_map _ hnd
  obtain ⟨⟨hl1, hl2⟩, ⟨hs1, hs2⟩⟩ := h
  exact ⟨⟨hl1, perm_filter_erase_of_not hP _ x hl2 (queued_of_not_has k x true hx)⟩,
    ⟨hs1, perm_filter_erase_of_not hP _ x hs2 (queued_of_not_has k x false hx)⟩⟩

theorem managerInv_remove_if (H : StdHeap) (k : EventKind) {P : List Node}
    {m : PriceEventManager} (h : ManagerInv k P m) (hnd : (P.map (fun n => n.addr)).Nodup)
    {x : Node} (hx : x ∈ P) :
    ManagerInv k (P.erase x) (if k.has x.val then (m.remove H k.traits x).2 else m) := by
  cases hh : k.has x.val with
  | true => simpa using managerInv_remove H k h hnd hx
  | false => simpa using managerInv_skip k h hnd hh

theorem managerInv_add_if (H : StdHeap) (k : EventKind) {P : List Node}
    {m : PriceEventManager} (h : ManagerInv k P m) (x : Node) :
    ManagerInv k (x :: P) (if k.has x.val then m.add H k.traits x else m) := by
  obtain ⟨⟨hl1, hl2⟩, ⟨hs1, hs2⟩⟩ := h
  cases hh : k.has x.val with
  | false =>
    simp only [Bool.false_eq_true, if_false]
    refine ⟨⟨hl1, ?_⟩, ⟨hs1, ?_⟩⟩
    · rwa [List.filter_cons_of_neg (by simp [queued_of_not_has k x true hh])]
    · rwa [List.filter_cons_of_neg (by simp [queued_of_not_has k x false hh])]
  | true =>
    simp only [if_true]
    cases hside : x.val.is_long with
    | true =>
      obtain ⟨r1, r2⟩ := push_spec H (strictWeak_comp k true) x hl1
      simp only [PriceEventManager.add, hside, if_true]
      refine ⟨⟨?_, ?_⟩, ⟨hs1, ?_⟩⟩
      · simpa [EventKind.comp] using r1
      · rw [List.filter_cons_of_pos (by simp [queued, hside, hh])]
        have := r2.trans (List.Perm.cons x hl2)
        simpa [EventKind.comp] using this
      · rwa [List.filter_cons_of_neg (by simp [queued, hside])]
    | false =>
      obtain ⟨r1, r2⟩ := push_spec H (strictWeak_comp k false) x hs1
      simp only [PriceEventManager.add, hside, Bool.false_eq_true, if_false]
      refine ⟨⟨hl1, ?_⟩, ⟨?_, ?_⟩⟩
      · rwa [List.filter_cons_of_neg (by simp [queued, hside])]
      · simpa [EventKind.comp] using r1
      · rw [List.filter_cons_of_pos (by simp [queued, hside, hh])]
        have := r2.trans (List.Perm.cons x hs2)
        simpa [EventKind.comp] using this

theorem sideVolume_erase (s : Bool) {P : List Node} {x : Node} (hx : x ∈ P) :
    sideVolume s P = (if x.val.is_long == s then x.val.volume else 0) + sideVolume s (P.erase x) := by
  have hp := (((List.perm_cons_erase hx).filter (fun n => n.val.is_long == s)).map
    (fun n => n.val.volume)).sum_eq
  simp only [sideVolume]
  rw [hp]
  by_cases h : (x.val.is_long == s) = true <;> simp [List.filter_cons, h]

theorem sideExpense_erase (s : Bool) {P : List Node} {x : Node} (hx : x ∈ P) :
    sideExpense s P = (if x.val.is_long == s then x.val.volume * x.val.open_price else 0)
      + sideExpense s (P.erase x) := by
  have hp := (((List.perm_cons_erase hx).filter (fun n => n.val.is_long == s)).map
    (fun n => n.val.volume * n.val.open_price)).sum_eq
  simp only [sideExpense]
  rw [hp]
  by_cases h : (x.val.is_long == s) = true <;> simp [List.filter_cons, h]


/-! ## Closing a position -/

theorem closePosition_spec {tm0 tm : TradingManager} (h0 : Inv tm0) {x : Node}
    (hx : x ∈ tm0._positions) (ct : CloseType)
    (hpos : tm._positions = tm0._positions)
    (hacc : tm._account_manager = tm0._account_manager)
    (hmap : tm._position_iterators_by_id = tm0._position_iterators_by_id)
    (htick : tm._current_tick = tm0._current_tick)
    (hid : tm._new_id = tm0._new_id)
    (htr : tm._trades = tm0._trades)
    (hsl : ManagerInv .stoploss (tm0._positions.erase x) tm._stoploss_manager)
    (htp : ManagerInv .takeprofit (tm0._positions.erase x) tm._takeprofit_manager) :
    Closes tm0 x ct (tm.closePosition x ct) ∧ Inv (tm.closePosition x ct) := by
  have hinj : ∀ n ∈ tm0._positions, n.addr = x.addr → n = x :=
    fun n hn e => addr_inj h0.nodup hn hx e
  have hP : (tm.closePosition x ct)._positions = tm0._positions.erase x := by
    simp only [closePosition, hpos]
    exact eraseP_addr_eq_erase hinj
  have htrade : tm.tradeOf x.val ct = tm0.tradeOf x.val ct := by
    simp only [tradeOf, htick]
  have hA : (tm.closePosition x ct)._account_manager
      = tm0._account_manager.realizePosition (tm0.tradeOf x.val ct) := by
    simp only [closePosition, hacc, htrade]
  have hM : (tm.closePosition x ct)._position_iterators_by_id
      = mapErase tm0._position_iterators_by_id x.val.id := by
    simp only [closePosition, hmap]
  refine ⟨⟨hP, ?_, hA, htick, hid, hM⟩, ⟨?_, ?_, ?_, ?_, ?_, ?_, ?_, ?_⟩⟩
  · simp only [closePosition, htr, htrade]
  · rw [hP]
    exact List.Nodup.sublist ((List.erase_sublist x _).map _) h0.nodup
  · rw [hP]; exact hsl
  · rw [hP]; exact htp
  · rw [hA, hP]
    have := sideVolume_erase true hx
    have h1 := h0.long_volume
    cases hs : x.val.is_long <;>
      simp [AccountBalanceManager.realizePosition, tradeOf, hs] at this ⊢ <;> linarith
  · rw [hA, hP]
    have := sideExpense_erase true hx
    have h1 := h0.long_expense
    cases hs : x.val.is_long <;>
      simp [AccountBalanceManager.realizePosition, tradeOf, hs] at this ⊢ <;> linarith
  · rw [hA, hP]
    have := sideVolume_erase false hx
    have h1 := h0.short_volume
    cases hs : x.val.is_long <;>
      simp [AccountBalanceManager.realizePosition, tradeOf, hs] at this ⊢ <;> linarith
  · rw [hA, hP]
    have := sideExpense_erase false hx
    have h1 := h0.short_expense
    cases hs : x.val.is_long <;>
      simp [AccountBalanceManager.realizePosition, tradeOf, hs] at this ⊢ <;> linarith
  · rw [hM, hP]
    intro e he
    simp only [mapErase, List.mem_filter, Bool.not_eq_true', beq_eq_false_iff_ne, ne_eq] at he
    obtain ⟨h1, h2⟩ := h0.map_valid e he.1
    refine ⟨?_, h2⟩
    have hne : e.2 ≠ x := fun e' => he.2 (by rw [h2, e'])
    exact (List.mem_erase_of_ne hne).mpr h1

/-- The close of a live node after its removal from the queues, as done by
`closePosition(id)`, `forcedClosePosition` and `closeAllPositions`. -/
theorem unregister_close_spec (H : StdHeap) {tm : TradingManager} (h : Inv tm) {x : Node}
    (hx : x ∈ tm._positions) (ct : CloseType) :
    Closes tm x ct ((tm.unregisterPositionEvents H x).closePosition x ct) ∧
      Inv ((tm.unregisterPositionEvents H x).closePosition x ct) := by
  have hsl := managerInv_remove_if H .stoploss h.stoploss h.nodup hx
  have htp := managerInv_remove_if H .takeprofit h.takeprofit h.nodup hx
  simp only [EventKind.has, EventKind.traits] at hsl htp
  cases h1 : x.val.hasStoploss <;> cases h2 : x.val.hasTakeprofit <;>
    simp only [h1, h2, if_true, if_false, Bool.false_eq_true] at hsl htp <;>
    simp only [unregisterPositionEvents, h1, h2, if_true, if_false, Bool.false_eq_true] <;>
    exact closePosition_spec h hx ct rfl rfl rfl rfl rfl rfl hsl htp


theorem managerInv_pop_long (H : StdHeap) (k : EventKind) {P : List Node}
    {m : PriceEventManager} (h : ManagerInv k P m) (hnd : P.Nodup) {top : Node}
    {rest : List Node} (hq : m._long_positions = top :: rest) :
    ManagerInv k (P.erase top)
      { m with _long_positions := PositionIteratorQueue.pop H (k.comp true) (top :: rest) } := by
  obtain ⟨⟨hl1, hl2⟩, ⟨hs1, hs2⟩⟩ := h
  rw [hq] at hl1 hl2
  obtain ⟨r1, r2⟩ := pop_spec H (strictWeak_comp k true) hl1
  have hmem : top ∈ P.filter (queued k true) := hl2.subset (List.mem_cons_self _ _)
  have hside : top.val.is_long = true := by
    have := (List.mem_filter.mp hmem).2
    simp only [queued, Bool.and_eq_true, beq_iff_eq] at this
    exact this.1
  refine ⟨⟨r1, ?_⟩, ⟨hs1, ?_⟩⟩
  · have := perm_filter_erase hnd (queued k true) top hl2
    rw [List.erase_cons_head] at this
    exact r2.trans this
  · exact perm_filter_erase_of_not hnd _ top hs2 (queued_other_side k top false (by simp [hside]))

theorem managerInv_pop_short (H : StdHeap) (k : EventKind) {P : List Node}
    {m : PriceEventManager} (h : ManagerInv k P m) (hnd : P.Nodup) {top : Node}
    {rest : List Node} (hq : m._short_positions = top :: rest) :
    ManagerInv k (P.erase top)
      { m with _short_positions := PositionIteratorQueue.pop H (k.comp false) (top :: rest) } := by
  obtain ⟨⟨hl1, hl2⟩, ⟨hs1, hs2⟩⟩ := h
  rw [hq] at hs1 hs2
  obtain ⟨r1, r2⟩ := pop_spec H (strictWeak_comp k false) hs1
  have hmem : top ∈ P.filter (queued k false) := hs2.subset (List.mem_cons_self _ _)
  have hside : top.val.is_long = false := by
    have := (List.mem_filter.mp hmem).2
    simp only [queued, Bool.and_eq_true, beq_iff_eq] at this
    exact this.1
  refine ⟨⟨hl1, ?_⟩, ⟨r1, ?_⟩⟩
  · exact perm_filter_erase_of_not hnd _ top hl2 (queued_other_side k top true (by simp [hside]))
  · have := perm_filter_erase hnd (queued k false) top hs2
    rw [List.erase_cons_head] at this
    exact r2.trans this

theorem mem_positions_of_mem_queue {tm : TradingManager} (h : Inv tm) {k : EventKind} {s : Bool}
    {n : Node} (hn : n ∈ tm.queue k s) : n ∈ tm._positions ∧ queued k s n = true := by
  have key : (tm.queue k s).Perm (tm._positions.filter (queued k s)) := by
    cases k <;> cases s <;> simp only [queue, manager, if_true, if_false, Bool.false_eq_true]
    · exact h.stoploss.2.2
    · exact h.stoploss.1.2
    · exact h.takeprofit.2.2
    · exact h.takeprofit.1.2
  exact List.mem_filter.mp (key.subset hn)

/-- One round of `checkEvents`: the top of the queue is popped and handed to the
handler, which closes it. -/
theorem handler_pop_spec (H : StdHeap) (k : EventKind) (s : Bool) {tm : TradingManager}
    (h : Inv tm) {top : Node} {rest : List Node} (hq : tm.queue k s = top :: rest) :
    Closes tm top k.closeType
        (handler H k
          (tm.setQueue k s (PositionIteratorQueue.pop H (k.comp s) (top :: rest))) top) ∧
      Inv (handler H k
          (tm.setQueue k s (PositionIteratorQueue.pop H (k.comp s) (top :: rest))) top) ∧
      ((handler H k
          (tm.setQueue k s (PositionIteratorQueue.pop H (k.comp s) (top :: rest))) top).queue
            k s).Perm rest := by
  have hx : top ∈ tm._positions :=
    (mem_positions_of_mem_queue h (hq ▸ List.mem_cons_self top rest)).1
  have hP : tm._positions.Nodup := List.Nodup.of_map _ h.nodup
  cases k <;> cases s <;>
    simp only [queue, manager, if_true, if_false, Bool.false_eq_true] at hq
  · have hsl := managerInv_pop_short H .stoploss h.stoploss hP hq
    have htp := managerInv_remove H .takeprofit h.takeprofit h.nodup hx
    have hr := (pop_spec H (strictWeak_comp .stoploss false) (hq ▸ h.stoploss.2.1)).2
    refine ⟨?_, ?_, hr⟩ <;>
      simp only [handler, stoplossHandler, takeprofitHandler, setQueue, EventKind.closeType]
    · exact And.left (closePosition_spec h hx _ rfl rfl rfl rfl rfl rfl hsl htp)
    · exact And.right (closePosition_spec h hx _ rfl rfl rfl rfl rfl rfl hsl htp)
  · have hsl := managerInv_pop_long H .stoploss h.stoploss hP hq
    have htp := managerInv_remove H .takeprofit h.takeprofit h.nodup hx
    have hr := (pop_spec H (strictWeak_comp .stoploss true) (hq ▸ h.stoploss.1.1)).2
    refine ⟨?_, ?_, hr⟩ <;>
      simp only [handler, stoplossHandler, takeprofitHandler, setQueue, EventKind.closeType]
    · exact And.left (closePosition_spec h hx _ rfl rfl rfl rfl rfl rfl hsl htp)
    · exact And.right (closePosition_spec h hx _ rfl rfl rfl rfl rfl rfl hsl htp)
  · have htp := managerInv_pop_short H .takeprofit h.takeprofit hP hq
    have hsl := managerInv_remove H .stoploss h.stoploss h.nodup hx
    have hr := (pop_spec H (strictWeak_comp .takeprofit false) (hq ▸ h.takeprofit.2.1)).2
    refine ⟨?_, ?_, hr⟩ <;>
      simp only [handler, stoplossHandler, takeprofitHandler, setQueue, EventKind.closeType]
    · exact And.left (closePosition_spec h hx _ rfl rfl rfl rfl rfl rfl hsl htp)
    · exact And.right (closePosition_spec h hx _ rfl rfl rfl rfl rfl rfl hsl htp)
  · have htp := managerInv_pop_long H .takeprofit h.takeprofit hP hq
    have hsl := managerInv_remove H .stoploss h.stoploss h.nodup hx
    have hr := (pop_spec H (strictWeak_comp .takeprofit true) (hq ▸ h.takeprofit.1.1)).2
    refine ⟨?_, ?_, hr⟩ <;>
      simp only [handler, stoplossHandler, takeprofitHandler, setQueue, EventKind.closeType]
    · exact And.left (closePosition_spec h hx _ rfl rfl rfl rfl rfl rfl hsl htp)
    · exact And.right (closePosition_spec h hx _ rfl rfl rfl rfl rfl rfl hsl htp)


theorem closesAll_nil (tm : TradingManager) : ClosesAll tm [] tm := by
  refine ⟨?_, ?_, ?_, rfl, rfl, rfl, rfl, rfl, List.nodup_nil, ?_⟩
  · simp
  · simp
  · simp
  · intro n hn; simp at hn

theorem closesAll_cons {tm tm' tm1 : TradingManager} {x : Node}
    {closed : List (Node × CloseType)} {ct : CloseType} (h : Inv tm) (hx : x ∈ tm._positions)
    (hc : Closes tm x ct tm') (hr : ClosesAll tm' closed tm1) :
    ClosesAll tm ((x, ct) :: closed) tm1 := by
  have hP : tm._positions.Nodup := List.Nodup.of_map _ h.nodup
  have htrade : ∀ p c, tm'.tradeOf p c = tm.tradeOf p c := by
    intro p c; simp only [tradeOf, hc.tick]
  have hnot : x ∉ closed.map Prod.fst := by
    intro hmem
    obtain ⟨e, he, rfl⟩ := List.mem_map.mp hmem
    have := hr.mem e he
    rw [hc.positions] at this
    exact (List.Nodup.not_mem_erase hP) this
  refine ⟨?_, ?_, ?_, ?_, ?_, ?_, ?_, ?_, ?_, ?_⟩
  · rw [hr.positions, hc.positions, hP.erase_eq_filter, List.filter_filter]
    congr 1
    funext n
    by_cases hn : n = x
    · subst hn; simp
    · by_cases hm : n ∈ closed.map Prod.fst
      · simp only [List.map_cons, List.mem_cons, hn, hm, or_true, not_true_eq_false,
          decide_False, Bool.false_and]
      · have hne : (n != x) = true := by simpa using hn
        simp only [List.map_cons, List.mem_cons, hn, hm, or_self, not_false_eq_true,
          decide_True, hne, Bool.and_self]
  · rw [hr.trades, hc.trades]
    simp [htrade]
  · rw [hr.balance, hc.account]
    simp only [htrade, List.map_cons, List.sum_cons, AccountBalanceManager.realizePosition]
    split_ifs <;> simp only [] <;> ring
  · rw [hr.leverage, hc.account]
    simp only [AccountBalanceManager.realizePosition]; split_ifs <;> rfl
  · rw [hr.stop_out_level, hc.account]
    simp only [AccountBalanceManager.realizePosition]; split_ifs <;> rfl
  · rw [hr.stop_out_warning_level, hc.account]
    simp only [AccountBalanceManager.realizePosition]; split_ifs <;> rfl
  · rw [hr.tick, hc.tick]
  · rw [hr.new_id, hc.new_id]
  · simpa using And.intro (by simpa using hnot) hr.nodup
  · intro e he
    rcases List.mem_cons.mp he with rfl | he
    · exact hx
    · have := hr.mem e he
      rw [hc.positions] at this
      exact List.mem_of_mem_erase this

theorem closesAll_append {tm tmA tmB : TradingManager} {a b : List (Node × CloseType)}
    (ha : ClosesAll tm a tmA) (hb : ClosesAll tmA b tmB) : ClosesAll tm (a ++ b) tmB := by
  have htrade : ∀ p c, tmA.tradeOf p c = tm.tradeOf p c := by
    intro p c; simp only [tradeOf, ha.tick]
  refine ⟨?_, ?_, ?_, ?_, ?_, ?_, ?_, ?_, ?_, ?_⟩
  · rw [hb.positions, ha.positions, List.filter_filter]
    congr 1
    funext n
    simp only [List.map_append, List.mem_append, not_or, Bool.decide_and, Bool.and_comm]
  · rw [hb.trades, ha.trades]
    simp [htrade]
  · rw [hb.balance, ha.balance]
    simp only [htrade, List.map_append, List.sum_append]
    ring
  · rw [hb.leverage, ha.leverage]
  · rw [hb.stop_out_level, ha.stop_out_level]
  · rw [hb.stop_out_warning_level, ha.stop_out_warning_level]
  · rw [hb.tick, ha.tick]
  · rw [hb.new_id, ha.new_id]
  · rw [List.map_append]
    refine List.Nodup.append ha.nodup hb.nodup ?_
    intro n hna hnb
    obtain ⟨e, he, rfl⟩ := List.mem_map.mp hnb
    have := hb.mem e he
    rw [ha.positions] at this
    have := (List.mem_filter.mp this).2
    simp only [decide_eq_true_eq] at this
    exact this hna
  · intro e he
    rcases List.mem_append.mp he with he | he
    · exact ha.mem e he
    · have := hb.mem e he
      rw [ha.positions] at this
      exact (List.mem_filter.mp this).1

/-! ## Draining a queue -/

theorem pred_antitone (k : EventKind) (s : Bool) (p : ℚ) {a b : Node}
    (hab : k.comp s a b = false) (ha : k.predicate s p a.val = false) :
    k.predicate s p b.val = false := by
  cases k <;> cases s <;>
    simp only [EventKind.comp, EventKind.predicate, EventKind.traits, StoplossManager,
      TakeprofitManager, if_true, if_false, Bool.false_eq_true,
      IteratorLongStoplossComparer, IteratorLongTakeprofitComparer,
      IteratorShortStoplossComparer, IteratorShortTakeprofitComparer,
      LongStoplossPredicate, ShortStoplossPredicate, LongTakeprofitPredicate,
      ShortTakeprofitPredicate, decide_eq_false_iff_not, not_lt, not_le, gt_iff_lt,
      ge_iff_le] at hab ha ⊢ <;>
    linarith

theorem queue_isHeap {tm : TradingManager} (h : Inv tm) (k : EventKind) (s : Bool) :
    IsHeap (k.comp s) (tm.queue k s) := by
  cases k <;> cases s <;> simp only [queue, manager, if_true, if_false, Bool.false_eq_true]
  · exact h.stoploss.2.1
  · exact h.stoploss.1.1
  · exact h.takeprofit.2.1
  · exact h.takeprofit.1.1

theorem queue_perm {tm : TradingManager} (h : Inv tm) (k : EventKind) (s : Bool) :
    (tm.queue k s).Perm (tm._positions.filter (queued k s)) := by
  cases k <;> cases s <;> simp only [queue, manager, if_true, if_false, Bool.false_eq_true]
  · exact h.stoploss.2.2
  · exact h.stoploss.1.2
  · exact h.takeprofit.2.2
  · exact h.takeprofit.1.2

/-- The loop of `checkEvents`, given at least as many rounds as the queue has
entries: the entries closed are entries of the queue that satisfy the
predicate, they come in decreasing priority, and no entry left in the queue
satisfies the predicate. -/
theorem checkEventsLoop_spec (H : StdHeap) (k : EventKind) (s : Bool) (p : ℚ) :
    ∀ (fuel : Nat) (tm : TradingManager), Inv tm → (tm.queue k s).length ≤ fuel →
      ∃ fired : List Node,
        ClosesAll tm (fired.map (fun n => (n, k.closeType)))
          (checkEventsLoop H k s p fuel tm) ∧
        Inv (checkEventsLoop H k s p fuel tm) ∧
        (∀ n ∈ fired, n ∈ tm.queue k s ∧ k.predicate s p n.val = true) ∧
        fired.Pairwise (fun a b => k.comp s a b = false) ∧
        (∀ n ∈ (checkEventsLoop H k s p fuel tm).queue k s,
          k.predicate s p n.val = false) := by
  intro fuel
  induction fuel with
  | zero =>
    intro tm h hlen
    have hq : tm.queue k s = [] := List.length_eq_zero.mp (Nat.le_zero.mp hlen)
    refine ⟨[], closesAll_nil _, h, ?_, List.Pairwise.nil, ?_⟩
    · intro n hn; simp at hn
    · intro n hn
      simp only [checkEventsLoop, hq] at hn
      simp at hn
  | succ fuel ih =>
    intro tm h hlen
    cases hq : tm.queue k s with
    | nil =>
      have hres : checkEventsLoop H k s p (fuel + 1) tm = tm := by
        simp only [checkEventsLoop, hq]
      rw [hres]
      refine ⟨[], closesAll_nil _, h, ?_, List.Pairwise.nil, ?_⟩
      · intro n hn; simp at hn
      · intro n hn
        rw [hq] at hn
        simp at hn
    | cons top rest =>
      have hheap : IsHeap (k.comp s) (top :: rest) := hq ▸ queue_isHeap h k s
      have hmax := hheap.head_max (strictWeak_comp k s)
      cases hpred : k.predicate s p top.val with
      | false =>
        have hres : checkEventsLoop H k s p (fuel + 1) tm = tm := by
          simp only [checkEventsLoop, hq, hpred, Bool.false_eq_true, if_false]
        rw [hres]
        refine ⟨[], closesAll_nil _, h, ?_, List.Pairwise.nil, ?_⟩
        · intro n hn; simp at hn
        · intro n hn
          rw [hq] at hn
          exact pred_antitone k s p (hmax n hn) hpred
      | true =>
        have hres : checkEventsLoop H k s p (fuel + 1) tm =
            checkEventsLoop H k s p fuel
              (handler H k
                (tm.setQueue k s (PositionIteratorQueue.pop H (k.comp s) (top :: rest))) top) := by
          simp only [checkEventsLoop, hq, hpred, if_true]
        obtain ⟨hc, hinv, hperm⟩ := handler_pop_spec H k s h hq
        have hx : top ∈ tm._positions :=
          (mem_positions_of_mem_queue h (hq ▸ List.mem_cons_self top rest)).1
        have hlen' : ((handler H k
            (tm.setQueue k s (PositionIteratorQueue.pop H (k.comp s) (top :: rest)))
              top).queue k s).length ≤ fuel := by
          rw [hperm.length_eq]
          rw [hq] at hlen
          simpa using hlen
        obtain ⟨fired, f1, f2, f3, f4, f5⟩ := ih _ hinv hlen'
        rw [hres]
        refine ⟨top :: fired, closesAll_cons h hx hc f1, f2, ?_, ?_, f5⟩
        · intro n hn
          rcases List.mem_cons.mp hn with rfl | hn
          · exact ⟨List.mem_cons_self _ _, hpred⟩
          · exact ⟨List.mem_cons_of_mem _ (hperm.subset (f3 n hn).1), (f3 n hn).2⟩
        · refine List.pairwise_cons.mpr ⟨?_, f4⟩
          intro n hn
          exact hmax n (List.mem_cons_of_mem _ (hperm.subset (f3 n hn).1))


theorem checkEvents_spec (H : StdHeap) (k : EventKind) (s : Bool) (p : ℚ)
    {tm : TradingManager} (h : Inv tm) :
    ∃ fired : List Node,
      ClosesAll tm (fired.map (fun n => (n, k.closeType))) (checkEvents H k s p tm) ∧
      Inv (checkEvents H k s p tm) ∧
      (∀ n ∈ fired, n ∈ tm.queue k s ∧ k.predicate s p n.val = true) ∧
      fired.Pairwise (fun a b => k.comp s a b = false) ∧
      (∀ n ∈ (checkEvents H k s p tm).queue k s, k.predicate s p n.val = false) :=
  checkEventsLoop_spec H k s p _ tm h (Nat.le_refl _)

/-- The loop of `closeAllPositions`, given at least as many rounds as there are
positions: every position is closed, front first, and the book ends empty. -/
theorem closeAllPositionsLoop_spec (H : StdHeap) (ct : CloseType) :
    ∀ (fuel : Nat) (tm : TradingManager), Inv tm → tm._positions.length ≤ fuel →
      ClosesAll tm (tm._positions.map (fun n => (n, ct)))
          (closeAllPositionsLoop H ct fuel tm) ∧
        Inv (closeAllPositionsLoop H ct fuel tm) ∧
        (closeAllPositionsLoop H ct fuel tm)._positions = [] := by
  intro fuel
  induction fuel with
  | zero =>
    intro tm h hlen
    have hq : tm._positions = [] := List.length_eq_zero.mp (Nat.le_zero.mp hlen)
    simp only [closeAllPositionsLoop]
    exact ⟨by rw [hq]; exact closesAll_nil tm, h, hq⟩
  | succ fuel ih =>
    intro tm h hlen
    cases hq : tm._positions with
    | nil =>
      have hres : closeAllPositionsLoop H ct (fuel + 1) tm = tm := by
        simp only [closeAllPositionsLoop, hq]
      rw [hres]
      exact ⟨closesAll_nil tm, h, hq⟩
    | cons x rest =>
      have hres : closeAllPositionsLoop H ct (fuel + 1) tm =
          closeAllPositionsLoop H ct fuel
            ((tm.unregisterPositionEvents H x).closePosition x ct) := by
        simp only [closeAllPositionsLoop, hq]
      have hx : x ∈ tm._positions := hq ▸ List.mem_cons_self x rest
      obtain ⟨hc, hinv⟩ := unregister_close_spec H h hx ct
      have hpos : ((tm.unregisterPositionEvents H x).closePosition x ct)._positions = rest := by
        rw [hc.positions, hq, List.erase_cons_head]
      have hlen' : ((tm.unregisterPositionEvents H x).closePosition x ct)._positions.length
          ≤ fuel := by
        rw [hpos]
        rw [hq] at hlen
        simpa using hlen
      obtain ⟨f1, f2, f3⟩ := ih _ hinv hlen'
      rw [hpos] at f1
      rw [hres]
      exact ⟨closesAll_cons h hx hc f1, f2, f3⟩

/-! ## The invariant holds in every reachable manager -/

theorem init_inv (properties : AccountProperties) (new_id : Nat) (current_tick : Tick) :
    Inv (TradingManager.init properties new_id current_tick) := by
  refine ⟨?_, ?_, ?_, ?_, ?_, ?_, ?_, ?_⟩ <;>
    simp [TradingManager.init, ManagerInv, isHeap_nil, sideVolume, sideExpense,
      AccountBalanceManager.ofProperties]

theorem sideVolume_cons (s : Bool) (x : Node) (P : List Node) :
    sideVolume s (x :: P) = (if x.val.is_long == s then x.val.volume else 0) + sideVolume s P := by
  by_cases h : (x.val.is_long == s) = true <;> simp [sideVolume, List.filter_cons, h]

theorem sideExpense_cons (s : Bool) (x : Node) (P : List Node) :
    sideExpense s (x :: P) =
      (if x.val.is_long == s then x.val.volume * x.val.open_price else 0) + sideExpense s P := by
  by_cases h : (x.val.is_long == s) = true <;> simp [sideExpense, List.filter_cons, h]

theorem tryCreatePosition_inv (H : StdHeap) {tm : TradingManager} (h : Inv tm) (order : Order) :
    Inv (tm.tryCreatePosition H order).2.2 := by
  cases hc : tm._account_manager.canOrderBeProcessed order.volume tm._current_tick.ask
      tm._current_tick.bid with
  | false =>
    have : tm.tryCreatePosition H order = (false, none, tm) := by
      simp [tryCreatePosition, hc]
    rw [this]
    exact h
  | true =>
    simp only [tryCreatePosition, hc, Bool.not_true, Bool.false_eq_true, if_false]
    generalize hx : Node.mk (freshAddr tm._positions)
        (Position.mk tm._new_id tm._current_tick.timestamp tm._current_tick.ask order.volume
          order.is_long order.comment order.stoploss order.takeprofit) = x
    have hid : x.val.id = tm._new_id := by rw [← hx]
    have haddr : x.addr = freshAddr tm._positions := by rw [← hx]
    have hsl := managerInv_add_if H .stoploss h.stoploss x
    have htp := managerInv_add_if H .takeprofit h.takeprofit x
    simp only [EventKind.has, EventKind.traits] at hsl htp
    have hfresh : x.addr ∉ tm._positions.map (fun n => n.addr) := by
      intro hmem
      obtain ⟨n, hn, e⟩ := List.mem_map.mp hmem
      have := freshAddr_gt tm._positions n hn
      omega
    cases h1 : x.val.hasStoploss <;> cases h2 : x.val.hasTakeprofit <;>
      simp only [h1, h2, if_true, if_false, Bool.false_eq_true] at hsl htp <;>
      simp only [registerPositionEvents, h1, h2, if_true, if_false, Bool.false_eq_true] <;>
      (refine ⟨?_, hsl, htp, ?_, ?_, ?_, ?_, ?_⟩
       · simpa using And.intro hfresh h.nodup
       · simp only [sideVolume_cons, AccountBalanceManager.addPosition, ← hx]
         have := h.long_volume
         cases order.is_long <;> simp [this] <;> ring
       · simp only [sideExpense_cons, AccountBalanceManager.addPosition, ← hx]
         have := h.long_expense
         cases order.is_long <;> simp [this] <;> ring
       · simp only [sideVolume_cons, AccountBalanceManager.addPosition, ← hx]
         have := h.short_volume
         cases order.is_long <;> simp [this] <;> ring
       · simp only [sideExpense_cons, AccountBalanceManager.addPosition, ← hx]
         have := h.short_expense
         cases order.is_long <;> simp [this] <;> ring
       · intro e he
         simp only [mapAssign, List.mem_cons, List.mem_filter] at he
         rcases he with rfl | ⟨he, _⟩
         · exact ⟨List.mem_cons_self _ _, by simp [← hx]⟩
         · exact ⟨List.mem_cons_of_mem _ (h.map_valid e he).1, (h.map_valid e he).2⟩)


/-! ## One tick -/

theorem mem_queue_iff {tm : TradingManager} (h : Inv tm) (k : EventKind) (s : Bool) (n : Node) :
    n ∈ tm.queue k s ↔ n ∈ tm._positions ∧ queued k s n = true := by
  rw [(queue_perm h k s).mem_iff, List.mem_filter]

theorem mem_queue_of_closesAll {tm tm1 : TradingManager} (h : Inv tm) (h1 : Inv tm1)
    {c : List (Node × CloseType)} (hc : ClosesAll tm c tm1) {k : EventKind} {s : Bool}
    {n : Node} (hn : n ∈ tm1.queue k s) : n ∈ tm.queue k s := by
  rw [mem_queue_iff h1, hc.positions, List.mem_filter] at hn
  exact (mem_queue_iff h k s n).mpr ⟨hn.1.1, hn.2⟩

theorem eventsOnTick_spec (H : StdHeap) (k : EventKind) (tick : Tick) {tm : TradingManager}
    (h : Inv tm) :
    ∃ fl fs : List Node,
      ClosesAll tm ((fl ++ fs).map (fun n => (n, k.closeType))) (eventsOnTick H k tick tm) ∧
      Inv (eventsOnTick H k tick tm) ∧
      (∀ n ∈ fl, n ∈ tm.queue k true ∧ k.predicate true tick.bid n.val = true) ∧
      (∀ n ∈ fs, n ∈ tm.queue k false ∧ k.predicate false tick.ask n.val = true) ∧
      fl.Pairwise (fun a b => k.comp true a b = false) ∧
      fs.Pairwise (fun a b => k.comp false a b = false) ∧
      (∀ n ∈ (eventsOnTick H k tick tm).queue k true,
        k.predicate true tick.bid n.val = false) ∧
      (∀ n ∈ (eventsOnTick H k tick tm).queue k false,
        k.predicate false tick.ask n.val = false) := by
  obtain ⟨fl, a1, a2, a3, a4, a5⟩ := checkEvents_spec H k true tick.bid h
  obtain ⟨fs, b1, b2, b3, b4, b5⟩ := checkEvents_spec H k false tick.ask a2
  refine ⟨fl, fs, ?_, b2, a3, ?_, a4, b4, ?_, b5⟩
  · rw [List.map_append]
    exact closesAll_append a1 b1
  · intro n hn
    exact ⟨mem_queue_of_closesAll h a2 a1 (b3 n hn).1, (b3 n hn).2⟩
  · intro n hn
    exact a5 n (mem_queue_of_closesAll a2 b2 b1 hn)

/-- The forced closes of `onTick`, by the state the ledger returned. -/
theorem forcedClose_spec (H : StdHeap) {tm : TradingManager} (h : Inv tm) :
    ClosesAll tm (tm._positions.map (fun n => (n, CloseType.FORCED)))
        (tm.closeAllPositionsWith H CloseType.FORCED) ∧
      Inv (tm.closeAllPositionsWith H CloseType.FORCED) ∧
      (tm.closeAllPositionsWith H CloseType.FORCED)._positions = [] :=
  closeAllPositionsLoop_spec H CloseType.FORCED _ tm h (Nat.le_refl _)

theorem closesAll_single {tm tm1 : TradingManager} {x : Node} {ct : CloseType} (h : Inv tm)
    (hx : x ∈ tm._positions) (hc : Closes tm x ct tm1) : ClosesAll tm [(x, ct)] tm1 :=
  closesAll_cons h hx hc (closesAll_nil tm1)


theorem fired_complete {tm res : TradingManager} (h : Inv tm) (hinv : Inv res)
    {c : List (Node × CloseType)} (hc : ClosesAll tm c res) {k : EventKind} {s : Bool} {p : ℚ}
    (hrest : ∀ n ∈ res.queue k s, k.predicate s p n.val = false) :
    ∀ n ∈ tm.queue k s, k.predicate s p n.val = true → n ∈ c.map Prod.fst := by
  intro n hn hp
  by_contra hnot
  have h1 := (mem_queue_iff h k s n).mp hn
  have h2 : n ∈ res.queue k s := by
    rw [mem_queue_iff hinv, hc.positions, List.mem_filter]
    exact ⟨⟨h1.1, by simpa using hnot⟩, h1.2⟩
  rw [hrest n h2] at hp
  exact absurd hp (by decide)

theorem onTick_fst (H : StdHeap) (tm : TradingManager) (tick : Tick) :
    (tm.onTick H tick).1 = (tm.afterLedger H tick)._account_manager.classify := by
  simp only [onTick, afterLedger, afterEvents, withTick, AccountBalanceManager.onTick]
  split
  · rfl
  · split <;> rfl
  · rfl

theorem onTick_snd (H : StdHeap) (tm : TradingManager) (tick : Tick) :
    (tm.onTick H tick).2 =
      match (tm.afterLedger H tick)._account_manager.classify with
      | AccountState.NONPOSITIVE_ACCOUNT_BALANCE =>
        (tm.afterLedger H tick).closeAllPositionsWith H CloseType.FORCED
      | AccountState.MARGIN_CALL =>
        match (tm.afterLedger H tick)._positions with
        | [] => tm.afterLedger H tick
        | iter :: _ => (tm.afterLedger H tick).forcedClosePosition H iter
      | _ => tm.afterLedger H tick := by
  simp only [onTick, afterLedger, afterEvents, withTick, AccountBalanceManager.onTick]
  split
  · rfl
  · split <;> rfl
  · rfl


theorem withTick_inv {tm : TradingManager} (h : Inv tm) (tick : Tick) : Inv (tm.withTick tick) :=
  ⟨h.nodup, h.stoploss, h.takeprofit, h.long_volume, h.long_expense, h.short_volume,
    h.short_expense, h.map_valid⟩

theorem afterEvents_spec (H : StdHeap) {tm : TradingManager} (h : Inv tm) (tick : Tick) :
    ∃ sll sls tpl tps : List Node,
      ClosesAll (tm.withTick tick)
        ((sll ++ sls).map (fun n => (n, CloseType.STOPLOSS)) ++
          (tpl ++ tps).map (fun n => (n, CloseType.TAKEPROFIT)))
        (tm.afterEvents H tick) ∧
      Inv (tm.afterEvents H tick) ∧
      (∀ n ∈ sll, n ∈ tm.queue .stoploss true ∧
        EventKind.stoploss.predicate true tick.bid n.val = true) ∧
      (∀ n ∈ sls, n ∈ tm.queue .stoploss false ∧
        EventKind.stoploss.predicate false tick.ask n.val = true) ∧
      (∀ n ∈ tpl, n ∈ tm.queue .takeprofit true ∧
        EventKind.takeprofit.predicate true tick.bid n.val = true) ∧
      (∀ n ∈ tps, n ∈ tm.queue .takeprofit false ∧
        EventKind.takeprofit.predicate false tick.ask n.val = true) ∧
      sll.Pairwise (fun a b => EventKind.stoploss.comp true a b = false) ∧
      sls.Pairwise (fun a b => EventKind.stoploss.comp false a b = false) ∧
      tpl.Pairwise (fun a b => EventKind.takeprofit.comp true a b = false) ∧
      tps.Pairwise (fun a b => EventKind.takeprofit.comp false a b = false) ∧
      (∀ n ∈ tm.queue .stoploss true,
        EventKind.stoploss.predicate true tick.bid n.val = true → n ∈ sll) ∧
      (∀ n ∈ tm.queue .stoploss false,
        EventKind.stoploss.predicate false tick.ask n.val = true → n ∈ sls) ∧
      (∀ (k : EventKind) (n : Node),
        (n ∈ (tm.afterEvents H tick).queue k true → k.predicate true tick.bid n.val = false) ∧
        (n ∈ (tm.afterEvents H tick).queue k false → k.predicate false tick.ask n.val = false)) := by
  have h0 := withTick_inv h tick
  obtain ⟨sll, sls, a1, a2, a3, a4, a5, a6, a7, a8⟩ := eventsOnTick_spec H .stoploss tick h0
  obtain ⟨tpl, tps, b1, b2, b3, b4, b5, b6, b7, b8⟩ := eventsOnTick_spec H .takeprofit tick a2
  have hside : ∀ (k : EventKind) (s : Bool) (t : TradingManager), Inv t → ∀ n ∈ t.queue k s,
      n.val.is_long = s := by
    intro k s t ht n hn
    have := ((mem_queue_iff ht k s n).mp hn).2
    simp only [queued, Bool.and_eq_true, beq_iff_eq] at this
    exact this.1
  have hcompl := fired_complete (k := .stoploss) (s := true) (p := tick.bid) h0 a2 a1 a7
  have hcomps := fired_complete (k := .stoploss) (s := false) (p := tick.ask) h0 a2 a1 a8
  refine ⟨sll, sls, tpl, tps, closesAll_append a1 b1, b2, a3, a4, ?_, ?_, a5, a6, b5, b6,
    ?_, ?_, ?_⟩
  · intro n hn
    exact ⟨mem_queue_of_closesAll h0 a2 a1 (b3 n hn).1, (b3 n hn).2⟩
  · intro n hn
    exact ⟨mem_queue_of_closesAll h0 a2 a1 (b4 n hn).1, (b4 n hn).2⟩
  · intro n hn hp
    have := hcompl n hn hp
    simp only [List.map_map, List.map_append, List.mem_append, List.mem_map,
      Function.comp_apply, exists_eq_right] at this
    rcases this with hm | hm
    · exact hm
    · have e1 := hside _ _ _ h n hn
      have e2 := hside _ _ _ h0 n (a4 n hm).1
      rw [e1] at e2
      exact absurd e2 (by decide)
  · intro n hn hp
    have := hcomps n hn hp
    simp only [List.map_map, List.map_append, List.mem_append, List.mem_map,
      Function.comp_apply, exists_eq_right] at this
    rcases this with hm | hm
    · have e1 := hside _ _ _ h n hn
      have e2 := hside _ _ _ h0 n (a3 n hm).1
      rw [e1] at e2
      exact absurd e2 (by decide)
    · exact hm
  · intro k n
    cases k
    · exact ⟨fun hn => a7 n (mem_queue_of_closesAll a2 b2 b1 hn),
        fun hn => a8 n (mem_queue_of_closesAll a2 b2 b1 hn)⟩
    · exact ⟨fun hn => b7 n hn, fun hn => b8 n hn⟩


theorem closesAll_ledger {tm tmE : TradingManager} (tick : Tick)
    {c : List (Node × CloseType)} (hc : ClosesAll tm c tmE) :
    ClosesAll tm c
      { tmE with _account_manager := (tmE._account_manager.onTick tick).2 } :=
  ⟨hc.positions, hc.trades, hc.balance, hc.leverage, hc.stop_out_level,
    hc.stop_out_warning_level, hc.tick, hc.new_id, hc.nodup, hc.mem⟩

theorem inv_ledger {tmE : TradingManager} (tick : Tick) (h : Inv tmE) :
    Inv { tmE with _account_manager := (tmE._account_manager.onTick tick).2 } :=
  ⟨h.nodup, h.stoploss, h.takeprofit, h.long_volume, h.long_expense, h.short_volume,
    h.short_expense, h.map_valid⟩

theorem afterLedger_closes (H : StdHeap) {tm : TradingManager} (tick : Tick)
    {c : List (Node × CloseType)}
    (hc : ClosesAll (tm.withTick tick) c (tm.afterEvents H tick)) :
    ClosesAll (tm.withTick tick) c (tm.afterLedger H tick) := by
  unfold TradingManager.afterLedger
  exact closesAll_ledger tick hc

theorem afterLedger_inv (H : StdHeap) {tm : TradingManager} (tick : Tick)
    (h : Inv (tm.afterEvents H tick)) : Inv (tm.afterLedger H tick) := by
  unfold TradingManager.afterLedger
  exact inv_ledger tick h

theorem onTick_forced_spec (H : StdHeap) {tm : TradingManager} (tick : Tick)
    (h : Inv (tm.afterLedger H tick)) :
    ClosesAll (tm.afterLedger H tick)
        ((forcedOf (tm.onTick H tick).1 (tm.afterLedger H tick)._positions).map
          (fun n => (n, CloseType.FORCED)))
        (tm.onTick H tick).2 ∧
      Inv (tm.onTick H tick).2 := by
  rw [onTick_snd, onTick_fst]
  cases hcl : (tm.afterLedger H tick)._account_manager.classify with
  | OK => exact ⟨closesAll_nil _, h⟩
  | MARGIN_CALL_WARNING => exact ⟨closesAll_nil _, h⟩
  | NONPOSITIVE_ACCOUNT_BALANCE =>
    obtain ⟨f1, f2, _⟩ := forcedClose_spec H h
    exact ⟨f1, f2⟩
  | MARGIN_CALL =>
    cases hp : (tm.afterLedger H tick)._positions with
    | nil => exact ⟨by simpa [forcedOf] using closesAll_nil _, h⟩
    | cons x rest =>
      have hx : x ∈ (tm.afterLedger H tick)._positions := hp ▸ List.mem_cons_self x rest
      obtain ⟨c1, c2⟩ := unregister_close_spec H h hx CloseType.FORCED
      exact ⟨by simpa [forcedOf] using closesAll_single h hx c1, c2⟩

theorem onTick_inv (H : StdHeap) {tm : TradingManager} (h : Inv tm) (tick : Tick) :
    Inv (tm.onTick H tick).2 := by
  obtain ⟨_, _, _, _, _, h2, _⟩ := afterEvents_spec H h tick
  exact (onTick_forced_spec H tick (afterLedger_inv H tick h2)).2

theorem mapFind_mem {m : List (Nat × PositionsIterator)} {id : Nat} {x : PositionsIterator}
    (h : mapFind m id = some x) : (id, x) ∈ m := by
  simp only [mapFind, Option.map_eq_some'] at h
  obtain ⟨e, he, rfl⟩ := h
  have h1 := List.mem_of_find?_eq_some he
  have h2 := List.find?_some he
  simp only [beq_iff_eq] at h2
  rw [← h2]
  exact h1

theorem closePositionById_inv (H : StdHeap) {tm tm1 : TradingManager} (h : Inv tm) {id : Nat}
    (hc : tm.closePositionById H id = some tm1) : Inv tm1 := by
  simp only [closePositionById] at hc
  cases hf : mapFind tm._position_iterators_by_id id with
  | none => rw [hf] at hc; simp at hc
  | some x =>
    rw [hf] at hc
    simp only [Option.some.injEq] at hc
    rw [← hc]
    exact (unregister_close_spec H h (h.map_valid _ (mapFind_mem hf)).1 _).2

/-- Every reachable manager satisfies the invariant. -/
theorem reachable_inv (H : StdHeap) {tm : TradingManager} (h : Reachable H tm) : Inv tm := by
  induction h with
  | init properties new_id current_tick => exact init_inv properties new_id current_tick
  | tryCreatePosition order _ ih => exact tryCreatePosition_inv H ih order
  | closePosition id _ hc ih => exact closePositionById_inv H ih hc
  | closeAllPositions _ ih => exact (forcedClose_spec H ih).2.1
  | onTick tick _ ih => exact onTick_inv H ih tick


/-! ## Invariants of the reachable managers -/

/-- C1, amended (ledger consistency in exact arithmetic): with the numbers of the
ledger read as exact rationals, in every manager reached by `tryCreatePosition`,
`closePosition(id)`, `closeAllPositions` and `onTick`, the ledger's long (short)
volume is the sum of the volumes of the open long (short) positions, and its
long (short) expense the sum of `volume * open_price` over them. -/
theorem ledger_consistency (H : StdHeap) (tm : TradingManager) (h : Reachable H tm) :
    tm._account_manager._long_volume =
      ((tm._positions.filter (fun n => n.val.is_long)).map (fun n => n.val.volume)).sum ∧
    tm._account_manager._short_volume =
      ((tm._positions.filter (fun n => !n.val.is_long)).map (fun n => n.val.volume)).sum ∧
    tm._account_manager._long_positions_expanses =
      ((tm._positions.filter (fun n => n.val.is_long)).map
        (fun n => n.val.volume * n.val.open_price)).sum ∧
    tm._account_manager._short_positions_expanses =
      ((tm._positions.filter (fun n => !n.val.is_long)).map
        (fun n => n.val.volume * n.val.open_price)).sum := by
  have hi := reachable_inv H h
  have e1 : (fun n : Node => n.val.is_long == true) = (fun n => n.val.is_long) := by
    funext n; simp
  have e2 : (fun n : Node => n.val.is_long == false) = (fun n => !n.val.is_long) := by
    funext n; cases n.val.is_long <;> rfl
  refine ⟨?_, ?_, ?_, ?_⟩
  · rw [hi.long_volume, sideVolume, e1]
  · rw [hi.short_volume, sideVolume, e2]
  · rw [hi.long_expense, sideExpense, e1]
  · rw [hi.short_expense, sideExpense, e2]

/-- C2 (queue completeness): in every reachable manager the open positions are
distinct nodes and each of the four queues is a rearrangement of the list of the
open positions of its side with a nonzero stop-loss (take-profit), so it holds
one entry for each of them and no other; a node that is not in the book is in no
queue. -/
theorem queue_completeness (H : StdHeap) (tm : TradingManager) (h : Reachable H tm) :
    tm._positions.Nodup ∧
    tm._stoploss_manager._long_positions.Perm
      (tm._positions.filter (fun n => n.val.is_long && decide (n.val.stoploss ≠ 0))) ∧
    tm._stoploss_manager._short_positions.Perm
      (tm._positions.filter (fun n => !n.val.is_long && decide (n.val.stoploss ≠ 0))) ∧
    tm._takeprofit_manager._long_positions.Perm
      (tm._positions.filter (fun n => n.val.is_long && decide (n.val.takeprofit ≠ 0))) ∧
    tm._takeprofit_manager._short_positions.Perm
      (tm._positions.filter (fun n => !n.val.is_long && decide (n.val.takeprofit ≠ 0))) ∧
    (∀ n : Node, n ∉ tm._positions →
      n ∉ tm._stoploss_manager._long_positions ∧ n ∉ tm._stoploss_manager._short_positions ∧
      n ∉ tm._takeprofit_manager._long_positions ∧
      n ∉ tm._takeprofit_manager._short_positions) := by
  have hi := reachable_inv H h
  have e1 : queued .stoploss true = (fun n => n.val.is_long && decide (n.val.stoploss ≠ 0)) := by
    funext n; simp [queued, EventKind.has, Position.hasStoploss]
  have e2 : queued .stoploss false
      = (fun n => !n.val.is_long && decide (n.val.stoploss ≠ 0)) := by
    funext n; cases h : n.val.is_long <;> simp [queued, EventKind.has, Position.hasStoploss, h]
  have e3 : queued .takeprofit true
      = (fun n => n.val.is_long && decide (n.val.takeprofit ≠ 0)) := by
    funext n; simp [queued, EventKind.has, Position.hasTakeprofit]
  have e4 : queued .takeprofit false
      = (fun n => !n.val.is_long && decide (n.val.takeprofit ≠ 0)) := by
    funext n; cases h : n.val.is_long <;> simp [queued, EventKind.has, Position.hasTakeprofit, h]
  have q1 := hi.stoploss.1.2
  have q2 := hi.stoploss.2.2
  have q3 := hi.takeprofit.1.2
  have q4 := hi.takeprofit.2.2
  refine ⟨List.Nodup.of_map _ hi.nodup, e1 ▸ q1, e2 ▸ q2, e3 ▸ q3, e4 ▸ q4, ?_⟩
  intro n hn
  exact ⟨fun hm => hn (mem_of_mem_queue q1 hm), fun hm => hn (mem_of_mem_queue q2 hm),
    fun hm => hn (mem_of_mem_queue q3 hm), fun hm => hn (mem_of_mem_queue q4 hm)⟩


/-! ## What a tick leaves in the book -/

/-- C7 (all due price events fire): after `onTick(tick)` on a reachable manager,
every long position left in the book has `bid > stoploss` if its stop-loss is
nonzero and `bid < takeprofit` if its take-profit is nonzero, and every short
position left has `ask < stoploss` and `ask > takeprofit` likewise. -/
theorem onTick_no_due_event (H : StdHeap) (tm : TradingManager) (h : Reachable H tm)
    (tick : Tick) :
    ∀ n ∈ (tm.onTick H tick).2._positions,
      (n.val.is_long = true →
        (n.val.stoploss ≠ 0 → tick.bid > n.val.stoploss) ∧
        (n.val.takeprofit ≠ 0 → tick.bid < n.val.takeprofit)) ∧
      (n.val.is_long = false →
        (n.val.stoploss ≠ 0 → tick.ask < n.val.stoploss) ∧
        (n.val.takeprofit ≠ 0 → tick.ask > n.val.takeprofit)) := by
  have hi := reachable_inv H h
  obtain ⟨sll, sls, tpl, tps, e1, e2, _, _, _, _, _, _, _, _, _, _, hrest⟩ :=
    afterEvents_spec H hi tick
  have hL := afterLedger_inv H tick e2
  obtain ⟨f1, _⟩ := onTick_forced_spec H tick hL
  intro n hn
  rw [f1.positions] at hn
  have hn1 : n ∈ (tm.afterEvents H tick)._positions := (List.mem_filter.mp hn).1
  have key : ∀ (k : EventKind) (s : Bool), n.val.is_long = s → k.has n.val = true →
      n ∈ (tm.afterEvents H tick).queue k s := by
    intro k s hs hk
    rw [mem_queue_iff e2]
    exact ⟨hn1, by simp [queued, hs, hk]⟩
  refine ⟨fun hl => ⟨fun hs => ?_, fun ht => ?_⟩, fun hl => ⟨fun hs => ?_, fun ht => ?_⟩⟩
  · have := (hrest .stoploss n).1 (key .stoploss true hl (by simpa [EventKind.has,
      Position.hasStoploss] using hs))
    simpa [EventKind.predicate, EventKind.traits, StoplossManager, LongStoplossPredicate]
      using this
  · have := (hrest .takeprofit n).1 (key .takeprofit true hl (by simpa [EventKind.has,
      Position.hasTakeprofit] using ht))
    simpa [EventKind.predicate, EventKind.traits, TakeprofitManager, LongTakeprofitPredicate]
      using this
  · have := (hrest .stoploss n).2 (key .stoploss false hl (by simpa [EventKind.has,
      Position.hasStoploss] using hs))
    simpa [EventKind.predicate, EventKind.traits, StoplossManager, ShortStoplossPredicate]
      using this
  · have := (hrest .takeprofit n).2 (key .takeprofit false hl (by simpa [EventKind.has,
      Position.hasTakeprofit] using ht))
    simpa [EventKind.predicate, EventKind.traits, TakeprofitManager, ShortTakeprofitPredicate]
      using this


/-! ## Heaps of at most one entry -/

theorem make_heap_nil (H : StdHeap) {comp : Node → Node → Bool} (hc : StrictWeak comp) :
    H.make_heap comp [] = [] :=
  List.Perm.eq_nil (H.make_heap_spec comp [] hc).2

theorem push_heap_singleton (H : StdHeap) {comp : Node → Node → Bool} (hc : StrictWeak comp)
    (x : Node) : H.push_heap comp [x] = [x] :=
  List.perm_singleton.mp (H.push_heap_spec comp [] x hc (isHeap_nil comp)).2

theorem pop_heap_singleton (H : StdHeap) {comp : Node → Node → Bool} (hc : StrictWeak comp)
    (x : Node) : H.pop_heap comp [x] = [x] := by
  have hx : IsHeap comp [x] := by
    intro i a b hi ha hb
    have : i < [x].length := (List.getElem?_eq_some.mp hb).1
    simp at this
    omega
  obtain ⟨l1, h1, _, h3⟩ := H.pop_heap_spec comp x [] hc hx
  rw [h1, List.Perm.eq_nil h3]
  rfl

theorem strictWeak_longStoploss : StrictWeak IteratorLongStoplossComparer :=
  strictWeak_comp .stoploss true

theorem strictWeak_shortStoploss : StrictWeak IteratorShortStoplossComparer :=
  strictWeak_comp .stoploss false

theorem strictWeak_longTakeprofit : StrictWeak IteratorLongTakeprofitComparer :=
  strictWeak_comp .takeprofit true

theorem strictWeak_shortTakeprofit : StrictWeak IteratorShortTakeprofitComparer :=
  strictWeak_comp .takeprofit false


theorem longBook_open (H : StdHeap) (new_id : Nat) :
    (TradingManager.init {} new_id tickAt1).tryCreatePosition H longOrder =
      (true, some (new_id % 2 ^ 64), longBook new_id) := by
  have hc : (TradingManager.init {} new_id tickAt1)._account_manager.canOrderBeProcessed
      longOrder.volume (TradingManager.init {} new_id tickAt1)._current_tick.ask
      (TradingManager.init {} new_id tickAt1)._current_tick.bid = true := by
    simp [TradingManager.init, tickAt1, longOrder, AccountBalanceManager.ofProperties,
      AccountBalanceManager.canOrderBeProcessed, AccountBalanceManager.getTotalEquity,
      AccountBalanceManager.getUsedMargin, AccountBalanceManager.calculateRequiredMargin,
      AccountBalanceManager.getTotalExpenses, XNum.div, XNum.add, XNum.gt]
    norm_num
  simp only [tryCreatePosition, hc, Bool.not_true, Bool.false_eq_true, if_false]
  simp [registerPositionEvents, Position.hasStoploss, Position.hasTakeprofit, longOrder,
    TradingManager.init, PriceEventManager.add, PositionIteratorQueue.push,
    StoplossManager, TakeprofitManager, push_heap_singleton H strictWeak_longStoploss,
    push_heap_singleton H strictWeak_longTakeprofit, freshAddr, longPosition, tickAt1,
    mapAssign, AccountBalanceManager.addPosition, AccountBalanceManager.ofProperties, longBook]


/-! ## Evaluating `checkEvents` on short queues -/

theorem checkEvents_nil (H : StdHeap) (k : EventKind) (s : Bool) (p : ℚ) {tm : TradingManager}
    (hq : tm.queue k s = []) : checkEvents H k s p tm = tm := by
  simp only [checkEvents, hq, List.length_nil, checkEventsLoop]

theorem checkEvents_top_false (H : StdHeap) (k : EventKind) (s : Bool) (p : ℚ)
    {tm : TradingManager} {top : Node} {rest : List Node} (hq : tm.queue k s = top :: rest)
    (hp : k.predicate s p top.val = false) : checkEvents H k s p tm = tm := by
  simp only [checkEvents, hq, List.length_cons, checkEventsLoop, hp, Bool.false_eq_true,
    if_false]

theorem checkEvents_singleton (H : StdHeap) (k : EventKind) (s : Bool) (p : ℚ)
    {tm : TradingManager} {top : Node} (hq : tm.queue k s = [top])
    (hp : k.predicate s p top.val = true) :
    checkEvents H k s p tm = handler H k (tm.setQueue k s []) top := by
  have hpop : PositionIteratorQueue.pop H (k.comp s) [top] = [] := by
    simp only [PositionIteratorQueue.pop, pop_heap_singleton H (strictWeak_comp k s)]
    rfl
  simp only [checkEvents, hq, List.length_cons, List.length_nil, checkEventsLoop, hp, if_true,
    hpop]

theorem queue_remove_singleton (H : StdHeap) {comp : Node → Node → Bool}
    (hc : StrictWeak comp) (x : Node) :
    PositionIteratorQueue.remove H comp [x] x = (true, []) := by
  simp [PositionIteratorQueue.remove, PositionIteratorQueue.update, make_heap_nil H hc]

theorem queue_remove_nil (H : StdHeap) (comp : Node → Node → Bool) (x : Node) :
    PositionIteratorQueue.remove H comp [] x = (false, []) := by
  simp [PositionIteratorQueue.remove]


/-! ## The take-profit scenario -/

theorem longBook_afterEvents (H : StdHeap) (new_id : Nat) :
    (longBook new_id).afterEvents H tickUp =
      { longBookAfterTickUp new_id with
        _account_manager :=
          { (longBookAfterTickUp new_id)._account_manager with
            _open_position_equity := (longBook new_id)._account_manager._open_position_equity } } := by
  have e1 : checkEvents H .stoploss true tickUp.bid ((longBook new_id).withTick tickUp)
      = (longBook new_id).withTick tickUp :=
    checkEvents_top_false H .stoploss true _
      (show ((longBook new_id).withTick tickUp).queue .stoploss true
        = (⟨1, longPosition new_id⟩ : Node) :: [] from rfl)
      (by
        simp only [EventKind.predicate, EventKind.traits, StoplossManager, if_true,
          LongStoplossPredicate, longPosition, tickUp]
        norm_num)
  have e2 : checkEvents H .stoploss false tickUp.ask ((longBook new_id).withTick tickUp)
      = (longBook new_id).withTick tickUp :=
    checkEvents_nil H .stoploss false _ rfl
  have e3 : checkEvents H .takeprofit true tickUp.bid ((longBook new_id).withTick tickUp)
      = handler H .takeprofit (((longBook new_id).withTick tickUp).setQueue .takeprofit true [])
          ⟨1, longPosition new_id⟩ :=
    checkEvents_singleton H .takeprofit true _ rfl
      (by
        simp only [EventKind.predicate, EventKind.traits, TakeprofitManager, if_true,
          LongTakeprofitPredicate, longPosition, tickUp]
        norm_num)
  have e4 : handler H .takeprofit
      (((longBook new_id).withTick tickUp).setQueue .takeprofit true [])
      ⟨1, longPosition new_id⟩ =
      { longBookAfterTickUp new_id with
        _account_manager :=
          { (longBookAfterTickUp new_id)._account_manager with
            _open_position_equity :=
              (longBook new_id)._account_manager._open_position_equity } } := by
    simp only [handler, takeprofitHandler, setQueue, withTick, longBook,
      PriceEventManager.remove, longPosition, if_true, StoplossManager,
      queue_remove_singleton H strictWeak_longStoploss, closePosition, tradeOf, tickUp, mapErase,
      AccountBalanceManager.realizePosition, Trade.calculateProfit, longBookAfterTickUp,
      longTrade]
    norm_num
  simp only [afterEvents, eventsOnTick, e1, e2, e3, e4]
  exact checkEvents_nil H .takeprofit false _ rfl


theorem longBook_onTick (H : StdHeap) (new_id : Nat) :
    (longBook new_id).onTick H tickUp = (AccountState.OK, longBookAfterTickUp new_id) := by
  have hL : (longBook new_id).afterLedger H tickUp = longBookAfterTickUp new_id := by
    rw [afterLedger, longBook_afterEvents]
    simp only [AccountBalanceManager.onTick, AccountBalanceManager.updateOpenPositionEquity,
      longBookAfterTickUp, tickUp]
    norm_num
  have hc : (longBookAfterTickUp new_id)._account_manager.classify = AccountState.OK := by
    simp only [AccountBalanceManager.classify, longBookAfterTickUp,
      AccountBalanceManager.getMarginLevel, AccountBalanceManager.getUsedMargin,
      AccountBalanceManager.getTotalEquity, AccountBalanceManager.getTotalExpenses, XNum.div]
    norm_num [XNum.le]
  have h1 := onTick_fst H (longBook new_id) tickUp
  have h2 := onTick_snd H (longBook new_id) tickUp
  rw [hL, hc] at h1 h2
  exact Prod.ext h1 h2


/-! ## Closed forms of the ledger's checks -/

theorem canOrderBeProcessed_eq (a : AccountBalanceManager) (volume open_price close_price : ℚ)
    (hlev : a._leverage ≠ 0)
    (hden : a.getTotalExpenses / a._leverage + volume * open_price / a._leverage ≠ 0) :
    a.canOrderBeProcessed volume open_price close_price =
      decide (a._stop_out_level <
        (a.getTotalEquity - volume * |close_price - open_price|) /
          (a.getTotalExpenses / a._leverage + volume * open_price / a._leverage)) := by
  have habs : (if close_price - open_price < 0 then (close_price - open_price) * -1
      else close_price - open_price) = |close_price - open_price| := by
    split_ifs with h
    · rw [abs_of_neg h]; ring
    · rw [abs_of_nonneg (not_lt.mp h)]
  have hl : (a._leverage : ℚ) ≠ 0 := by exact_mod_cast hlev
  simp only [AccountBalanceManager.canOrderBeProcessed,
    AccountBalanceManager.calculateRequiredMargin, AccountBalanceManager.getUsedMargin, habs,
    XNum.div, XNum.add, if_neg hl, if_neg hden, XNum.gt]

theorem classify_ok_of_no_exposure (a : AccountBalanceManager) (hb : 0 < a._account_balance)
    (he : 0 < a.getTotalEquity) (hx : a.getTotalExpenses = 0) :
    a.classify = AccountState.OK := by
  have hm : a.getMarginLevel = XNum.pinf ∨ a.getMarginLevel = XNum.nan := by
    simp only [AccountBalanceManager.getMarginLevel, AccountBalanceManager.getUsedMargin, hx]
    by_cases hl : (a._leverage : ℚ) = 0
    · right
      simp [XNum.div, hl]
    · left
      simp [XNum.div, hl, he]
  rcases hm with hm | hm <;>
    simp only [AccountBalanceManager.classify, not_le.mpr hb, if_false, hm, XNum.le,
      Bool.false_eq_true]


/-! ## The stop-loss scenario -/

theorem slBook_open (H : StdHeap) (new_id : Nat) :
    (TradingManager.init {} new_id tickOpen).tryCreatePosition H slOrder =
      (true, some (new_id % 2 ^ 64), slBook new_id) := by
  have hc : (TradingManager.init {} new_id tickOpen)._account_manager.canOrderBeProcessed
      slOrder.volume (TradingManager.init {} new_id tickOpen)._current_tick.ask
      (TradingManager.init {} new_id tickOpen)._current_tick.bid = true := by
    rw [canOrderBeProcessed_eq]
    · simp only [TradingManager.init, tickOpen, slOrder, AccountBalanceManager.ofProperties,
        AccountBalanceManager.getTotalEquity, AccountBalanceManager.getTotalExpenses,
        decide_eq_true_eq]
      norm_num [abs_of_neg]
    · simp [TradingManager.init, AccountBalanceManager.ofProperties]
    · simp only [TradingManager.init, tickOpen, slOrder, AccountBalanceManager.ofProperties,
        AccountBalanceManager.getTotalExpenses]
      norm_num
  simp only [tryCreatePosition, hc, Bool.not_true, Bool.false_eq_true, if_false]
  simp [registerPositionEvents, Position.hasStoploss, Position.hasTakeprofit, slOrder,
    TradingManager.init, PriceEventManager.add, PositionIteratorQueue.push,
    StoplossManager, TakeprofitManager, push_heap_singleton H strictWeak_longStoploss,
    push_heap_singleton H strictWeak_longTakeprofit, freshAddr, slPosition, tickOpen,
    mapAssign, AccountBalanceManager.addPosition, AccountBalanceManager.ofProperties, slBook]
  norm_num


theorem slBook_afterEvents (H : StdHeap) (new_id : Nat) :
    (slBook new_id).afterEvents H tickDown = slBookAfterTickDown new_id := by
  have e1 : checkEvents H .stoploss true tickDown.bid ((slBook new_id).withTick tickDown)
      = handler H .stoploss (((slBook new_id).withTick tickDown).setQueue .stoploss true [])
          ⟨1, slPosition new_id⟩ :=
    checkEvents_singleton H .stoploss true _ rfl
      (by
        simp only [EventKind.predicate, EventKind.traits, StoplossManager, if_true,
          LongStoplossPredicate, slPosition, tickDown]
        norm_num)
  have e2 : handler H .stoploss
      (((slBook new_id).withTick tickDown).setQueue .stoploss true [])
      ⟨1, slPosition new_id⟩ = slBookAfterTickDown new_id := by
    simp only [handler, stoplossHandler, setQueue, withTick, slBook,
      PriceEventManager.remove, slPosition, if_true, TakeprofitManager,
      queue_remove_singleton H strictWeak_longTakeprofit, closePosition, tradeOf, tickDown,
      mapErase, AccountBalanceManager.realizePosition, Trade.calculateProfit,
      slBookAfterTickDown, slTrade]
    norm_num
  have e3 : ∀ (k : EventKind) (s : Bool) (p : ℚ),
      checkEvents H k s p (slBookAfterTickDown new_id) = slBookAfterTickDown new_id := by
    intro k s p
    exact checkEvents_nil H k s p (by cases k <;> cases s <;> rfl)
  simp only [afterEvents, eventsOnTick, e1, e2, e3]

theorem slBook_onTick (H : StdHeap) (new_id : Nat) :
    (slBook new_id).onTick H tickDown = (AccountState.OK, slBookAfterTickDown new_id) := by
  have hL : (slBook new_id).afterLedger H tickDown = slBookAfterTickDown new_id := by
    rw [afterLedger, slBook_afterEvents]
    simp only [AccountBalanceManager.onTick, AccountBalanceManager.updateOpenPositionEquity,
      slBookAfterTickDown, tickDown]
    norm_num
  have hc : (slBookAfterTickDown new_id)._account_manager.classify = AccountState.OK := by
    apply classify_ok_of_no_exposure
    · simp only [slBookAfterTickDown]; norm_num
    · simp only [slBookAfterTickDown, AccountBalanceManager.getTotalEquity]; norm_num
    · simp only [slBookAfterTickDown, AccountBalanceManager.getTotalExpenses]; norm_num
  have h1 := onTick_fst H (slBook new_id) tickDown
  have h2 := onTick_snd H (slBook new_id) tickDown
  rw [hL, hc] at h1 h2
  exact Prod.ext h1 h2


/-! ## What one tick closes -/

/-- The closes of one `onTick`, in order: the long then the short stop-losses, the
long then the short take-profits, then the forced closes. -/
theorem onTick_closesAll (H : StdHeap) {tm : TradingManager} (h : Inv tm) (tick : Tick) :
    ∃ sll sls tpl tps : List Node,
      ClosesAll (tm.withTick tick)
        (((sll ++ sls).map (fun n => (n, CloseType.STOPLOSS)) ++
          (tpl ++ tps).map (fun n => (n, CloseType.TAKEPROFIT))) ++
          (forcedOf (tm.onTick H tick).1 (tm.afterLedger H tick)._positions).map
            (fun n => (n, CloseType.FORCED)))
        (tm.onTick H tick).2 ∧
      Inv (tm.onTick H tick).2 ∧
      (∀ n ∈ sll, n ∈ tm.queue .stoploss true ∧ tick.bid ≤ n.val.stoploss) ∧
      (∀ n ∈ sls, n ∈ tm.queue .stoploss false ∧ tick.ask ≥ n.val.stoploss) ∧
      (∀ n ∈ tpl, n ∈ tm.queue .takeprofit true ∧ tick.bid ≥ n.val.takeprofit) ∧
      (∀ n ∈ tps, n ∈ tm.queue .takeprofit false ∧ tick.ask ≤ n.val.takeprofit) ∧
      sll.Pairwise (fun a b => a.val.stoploss ≥ b.val.stoploss) ∧
      sls.Pairwise (fun a b => a.val.stoploss ≤ b.val.stoploss) ∧
      tpl.Pairwise (fun a b => a.val.takeprofit ≤ b.val.takeprofit) ∧
      tps.Pairwise (fun a b => a.val.takeprofit ≥ b.val.takeprofit) ∧
      (∀ n ∈ tm.queue .stoploss true, tick.bid ≤ n.val.stoploss → n ∈ sll) ∧
      (∀ n ∈ tm.queue .stoploss false, tick.ask ≥ n.val.stoploss → n ∈ sls) := by
  obtain ⟨sll, sls, tpl, tps, e1, e2, a1, a2, a3, a4, s1, s2, s3, s4, c1, c2, _⟩ :=
    afterEvents_spec H h tick
  obtain ⟨f1, f2⟩ := onTick_forced_spec H tick (afterLedger_inv H tick e2)
  refine ⟨sll, sls, tpl, tps, closesAll_append (afterLedger_closes H tick e1) f1, f2,
    ?_, ?_, ?_, ?_, ?_, ?_, ?_, ?_, ?_, ?_⟩
  · intro n hn
    refine ⟨(a1 n hn).1, ?_⟩
    simpa [EventKind.predicate, EventKind.traits, StoplossManager, LongStoplossPredicate]
      using (a1 n hn).2
  · intro n hn
    refine ⟨(a2 n hn).1, ?_⟩
    simpa [EventKind.predicate, EventKind.traits, StoplossManager, ShortStoplossPredicate]
      using (a2 n hn).2
  · intro n hn
    refine ⟨(a3 n hn).1, ?_⟩
    simpa [EventKind.predicate, EventKind.traits, TakeprofitManager, LongTakeprofitPredicate]
      using (a3 n hn).2
  · intro n hn
    refine ⟨(a4 n hn).1, ?_⟩
    simpa [EventKind.predicate, EventKind.traits, TakeprofitManager, ShortTakeprofitPredicate]
      using (a4 n hn).2
  · refine s1.imp ?_
    intro a b hab
    simpa [EventKind.comp, EventKind.traits, StoplossManager, IteratorLongStoplossComparer]
      using hab
  · refine s2.imp ?_
    intro a b hab
    simpa [EventKind.comp, EventKind.traits, StoplossManager, IteratorShortStoplossComparer]
      using hab
  · refine s3.imp ?_
    intro a b hab
    simpa [EventKind.comp, EventKind.traits, TakeprofitManager, IteratorLongTakeprofitComparer]
      using hab
  · refine s4.imp ?_
    intro a b hab
    simpa [EventKind.comp, EventKind.traits, TakeprofitManager, IteratorShortTakeprofitComparer]
      using hab
  · intro n hn hp
    exact c1 n hn (by simpa [EventKind.predicate, EventKind.traits, StoplossManager,
      LongStoplossPredicate] using hp)
  · intro n hn hp
    exact c2 n hn (by simpa [EventKind.predicate, EventKind.traits, StoplossManager,
      ShortStoplossPredicate] using hp)


/-- C6 (a stop-loss fires): for an open position `p` of a reachable manager with a
nonzero stop-loss, a tick with `bid <= stoploss` (long) or `ask >= stoploss`
(short) makes `onTick` close `p` once, with close type STOPLOSS at the tick's
bid (long) or ask (short): the trades appended are those of a list `closed` of
distinct nodes in which `p` is paired with STOPLOSS, `p` leaves the book and the
four queues, and the balance grows by the profits of the trades appended, that
of `p` being `(bid - open_price) * volume` (long) or `(open_price - ask) *
volume` (short).  In the scenario of a long opened at 1.2000 with volume 1000
and stop-loss 1.1990, the tick of bid 1.1989 records the single trade `slTrade`
of profit -1.1 and leaves the balance 10000 - 1.1 and an empty book. -/
theorem stoploss_fires (H : StdHeap) :
    (∀ (tm : TradingManager) (tick : Tick) (p : Node), Reachable H tm → p ∈ tm._positions →
      p.val.stoploss ≠ 0 →
      ((p.val.is_long = true ∧ tick.bid ≤ p.val.stoploss) ∨
        (p.val.is_long = false ∧ tick.ask ≥ p.val.stoploss)) →
      ∃ closed : List (Node × CloseType),
        (tm.onTick H tick).2._trades =
          tm._trades ++ closed.map (fun e => (tm.withTick tick).tradeOf e.1.val e.2) ∧
        (closed.map Prod.fst).Nodup ∧
        (p, CloseType.STOPLOSS) ∈ closed ∧
        ((tm.withTick tick).tradeOf p.val CloseType.STOPLOSS).close_type = CloseType.STOPLOSS ∧
        ((tm.withTick tick).tradeOf p.val CloseType.STOPLOSS).close_price =
          (if p.val.is_long then tick.bid else tick.ask) ∧
        ((tm.withTick tick).tradeOf p.val CloseType.STOPLOSS).calculateProfit =
          (if p.val.is_long then (tick.bid - p.val.open_price) * p.val.volume
            else (p.val.open_price - tick.ask) * p.val.volume) ∧
        p ∉ (tm.onTick H tick).2._positions ∧
        p ∉ (tm.onTick H tick).2._stoploss_manager._long_positions ∧
        p ∉ (tm.onTick H tick).2._stoploss_manager._short_positions ∧
        p ∉ (tm.onTick H tick).2._takeprofit_manager._long_positions ∧
        p ∉ (tm.onTick H tick).2._takeprofit_manager._short_positions ∧
        (tm.onTick H tick).2._account_manager._account_balance =
          tm._account_manager._account_balance +
            (closed.map
              (fun e => ((tm.withTick tick).tradeOf e.1.val e.2).calculateProfit)).sum) ∧
    (∀ new_id : Nat,
      (TradingManager.init {} new_id tickOpen).tryCreatePosition H slOrder =
        (true, some (new_id % 2 ^ 64), slBook new_id) ∧
      (slBook new_id)._positions.map (fun n => n.val) = [slPosition new_id] ∧
      ((slBook new_id).onTick H tickDown).2._trades = [slTrade] ∧
      slTrade.close_type = CloseType.STOPLOSS ∧
      slTrade.close_price = 11989 / 10000 ∧
      slTrade.calculateProfit = -(11 / 10) ∧
      ((slBook new_id).onTick H tickDown).2._positions = [] ∧
      ((slBook new_id).onTick H tickDown).2._stoploss_manager = {} ∧
      ((slBook new_id).onTick H tickDown).2._takeprofit_manager = {} ∧
      ((slBook new_id).onTick H tickDown).2._account_manager._account_balance =
        10000 - 11 / 10) := by
  constructor
  · intro tm tick p hr hp hsl htrig
    have hi := reachable_inv H hr
    obtain ⟨sll, sls, tpl, tps, hc, hf, _, _, _, _, _, _, _, _, c1, c2⟩ :=
      onTick_closesAll H hi tick
    have hq : ∀ s : Bool, p.val.is_long = s → p ∈ tm.queue .stoploss s := by
      intro s hs
      rw [mem_queue_iff hi]
      exact ⟨hp, by simp [queued, hs, EventKind.has, Position.hasStoploss, hsl]⟩
    have hmem : p ∈ sll ++ sls := by
      rcases htrig with ⟨hl, hb⟩ | ⟨hl, hb⟩
      · exact List.mem_append_left _ (c1 p (hq true hl) hb)
      · exact List.mem_append_right _ (c2 p (hq false hl) hb)
    have hin : (p, CloseType.STOPLOSS) ∈
        ((sll ++ sls).map (fun n => (n, CloseType.STOPLOSS)) ++
          (tpl ++ tps).map (fun n => (n, CloseType.TAKEPROFIT))) ++
          (forcedOf (tm.onTick H tick).1 (tm.afterLedger H tick)._positions).map
            (fun n => (n, CloseType.FORCED)) :=
      List.mem_append_left _ (List.mem_append_left _ (List.mem_map_of_mem _ hmem))
    have hnot : p ∉ (tm.onTick H tick).2._positions := by
      rw [hc.positions]
      intro hm
      have := (List.mem_filter.mp hm).2
      simp only [decide_eq_true_eq] at this
      exact this (List.mem_map_of_mem Prod.fst hin)
    refine ⟨_, hc.trades, hc.nodup, hin, rfl, rfl, ?_, hnot, ?_, ?_, ?_, ?_, hc.balance⟩
    · simp only [Trade.calculateProfit, tradeOf, withTick]
      cases p.val.is_long <;> simp
    · exact fun hm => hnot (mem_of_mem_queue hf.stoploss.1.2 hm)
    · exact fun hm => hnot (mem_of_mem_queue hf.stoploss.2.2 hm)
    · exact fun hm => hnot (mem_of_mem_queue hf.takeprofit.1.2 hm)
    · exact fun hm => hnot (mem_of_mem_queue hf.takeprofit.2.2 hm)
  · intro new_id
    rw [slBook_onTick]
    refine ⟨slBook_open H new_id, rfl, rfl, rfl, rfl, ?_, rfl, rfl, rfl, rfl⟩
    simp only [Trade.calculateProfit, slTrade]
    norm_num


theorem slBook_reachable (H : StdHeap) (new_id : Nat) : Reachable H (slBook new_id) := by
  have h := Reachable.tryCreatePosition (H := H) slOrder (Reachable.init {} new_id tickOpen)
  rw [slBook_open] at h
  exact h

theorem longBook_reachable (H : StdHeap) (new_id : Nat) : Reachable H (longBook new_id) := by
  have h := Reachable.tryCreatePosition (H := H) longOrder (Reachable.init {} new_id tickAt1)
  rw [longBook_open] at h
  exact h

theorem queued_iff (k : EventKind) (s : Bool) (n : Node) :
    queued k s n = true ↔ n.val.is_long = s ∧ k.has n.val = true := by
  simp [queued]

/-- C8 (firing order within one tick): the trades one `onTick` appends on a
reachable manager are those of the long positions closed by stop-loss, by
decreasing stop-loss, then of the short positions closed by stop-loss, by
increasing stop-loss, then of the long positions closed by take-profit, by
increasing take-profit, then of the short positions closed by take-profit, by
decreasing take-profit, followed by the trades of the forced closes, if the
ledger asked for any; every one of them closes at the tick's bid (long) or ask
(short), at the tick's time. -/
theorem onTick_firing_order (H : StdHeap) (tm : TradingManager) (h : Reachable H tm)
    (tick : Tick) :
    ∃ sll sls tpl tps forced : List Node,
      (tm.onTick H tick).2._trades =
        tm._trades ++
          (sll.map (fun n => (tm.withTick tick).tradeOf n.val CloseType.STOPLOSS) ++
            sls.map (fun n => (tm.withTick tick).tradeOf n.val CloseType.STOPLOSS) ++
            tpl.map (fun n => (tm.withTick tick).tradeOf n.val CloseType.TAKEPROFIT) ++
            tps.map (fun n => (tm.withTick tick).tradeOf n.val CloseType.TAKEPROFIT) ++
            forced.map (fun n => (tm.withTick tick).tradeOf n.val CloseType.FORCED)) ∧
      (∀ n ∈ sll, n ∈ tm._positions ∧ n.val.is_long = true ∧ n.val.stoploss ≠ 0 ∧
        tick.bid ≤ n.val.stoploss) ∧
      (∀ n ∈ sls, n ∈ tm._positions ∧ n.val.is_long = false ∧ n.val.stoploss ≠ 0 ∧
        tick.ask ≥ n.val.stoploss) ∧
      (∀ n ∈ tpl, n ∈ tm._positions ∧ n.val.is_long = true ∧ n.val.takeprofit ≠ 0 ∧
        tick.bid ≥ n.val.takeprofit) ∧
      (∀ n ∈ tps, n ∈ tm._positions ∧ n.val.is_long = false ∧ n.val.takeprofit ≠ 0 ∧
        tick.ask ≤ n.val.takeprofit) ∧
      (∀ n ∈ forced, n ∈ tm._positions) ∧
      sll.Pairwise (fun a b => a.val.stoploss ≥ b.val.stoploss) ∧
      sls.Pairwise (fun a b => a.val.stoploss ≤ b.val.stoploss) ∧
      tpl.Pairwise (fun a b => a.val.takeprofit ≤ b.val.takeprofit) ∧
      tps.Pairwise (fun a b => a.val.takeprofit ≥ b.val.takeprofit) ∧
      (∀ (n : Node) (ct : CloseType),
        ((tm.withTick tick).tradeOf n.val ct).close_price =
            (if ((tm.withTick tick).tradeOf n.val ct).is_long then tick.bid else tick.ask) ∧
          ((tm.withTick tick).tradeOf n.val ct).close_time = tick.timestamp ∧
          ((tm.withTick tick).tradeOf n.val ct).close_type = ct) := by
  have hi := reachable_inv H h
  obtain ⟨sll, sls, tpl, tps, hc, hf, a1, a2, a3, a4, s1, s2, s3, s4, _, _⟩ :=
    onTick_closesAll H hi tick
  have hq : ∀ (k : EventKind) (s : Bool) (n : Node), n ∈ tm.queue k s →
      n ∈ tm._positions ∧ n.val.is_long = s ∧ k.has n.val = true := by
    intro k s n hn
    have := (mem_queue_iff hi k s n).mp hn
    exact ⟨this.1, (queued_iff k s n).mp this.2⟩
  refine ⟨sll, sls, tpl, tps, forcedOf (tm.onTick H tick).1 (tm.afterLedger H tick)._positions,
    ?_, ?_, ?_, ?_, ?_, ?_, s1, s2, s3, s4, ?_⟩
  · rw [hc.trades]
    simp only [List.map_append, List.map_map, List.append_assoc]
    rfl
  · intro n hn
    obtain ⟨h1, h2, h3⟩ := hq _ _ n (a1 n hn).1
    exact ⟨h1, h2, by simpa [EventKind.has, Position.hasStoploss] using h3, (a1 n hn).2⟩
  · intro n hn
    obtain ⟨h1, h2, h3⟩ := hq _ _ n (a2 n hn).1
    exact ⟨h1, h2, by simpa [EventKind.has, Position.hasStoploss] using h3, (a2 n hn).2⟩
  · intro n hn
    obtain ⟨h1, h2, h3⟩ := hq _ _ n (a3 n hn).1
    exact ⟨h1, h2, by simpa [EventKind.has, Position.hasTakeprofit] using h3, (a3 n hn).2⟩
  · intro n hn
    obtain ⟨h1, h2, h3⟩ := hq _ _ n (a4 n hn).1
    exact ⟨h1, h2, by simpa [EventKind.has, Position.hasTakeprofit] using h3, (a4 n hn).2⟩
  · intro n hn
    exact hc.mem (n, CloseType.FORCED)
      (List.mem_append_right _ (List.mem_map_of_mem _ hn))
  · intro n ct
    exact ⟨rfl, rfl, rfl⟩


/-! ## The explicit close -/

theorem longBook_closePositionById (H : StdHeap) (new_id : Nat) :
    (longBook new_id).closePositionById H (new_id % 2 ^ 64) =
      some (longBookClosedById new_id) := by
  have hf : mapFind (longBook new_id)._position_iterators_by_id (new_id % 2 ^ 64)
      = some ⟨1, longPosition new_id⟩ := by
    simp [mapFind, longBook]
  have hu : (longBook new_id).unregisterPositionEvents H ⟨1, longPosition new_id⟩ =
      { longBook new_id with _stoploss_manager := {}, _takeprofit_manager := {} } := by
    have h1 : (longPosition new_id).hasStoploss = true := by
      simp only [Position.hasStoploss, longPosition]; norm_num
    have h2 : (longPosition new_id).hasTakeprofit = true := by
      simp only [Position.hasTakeprofit, longPosition]; norm_num
    have h3 : (longPosition new_id).is_long = true := rfl
    simp only [unregisterPositionEvents, h1, h2, if_true, PriceEventManager.remove, h3,
      longBook, StoplossManager, TakeprofitManager,
      queue_remove_singleton H strictWeak_longStoploss,
      queue_remove_singleton H strictWeak_longTakeprofit]
  simp only [closePositionById, hf, hu]
  simp only [closePosition, tradeOf, longBook, longPosition, tickAt1, mapErase,
    AccountBalanceManager.realizePosition, Trade.calculateProfit, longBookClosedById,
    longTradeById]
  norm_num

/-- C10, the code at an explicit close: `closePosition(id)` on the one open
position of `longBook`, the book a fresh default account has after the long
order of volume 100, removes its queue entries, records one trade, realizes it
and erases the position and its id; the close type of the trade recorded is
FORCED, which is not MANUAL. -/
theorem closePositionById_records_forced :
    (TradingManager.init {} 0 tickAt1).tryCreatePosition refHeap longOrder =
      (true, some (0 % 2 ^ 64), longBook 0) ∧
    (longBook 0).closePositionById refHeap 0 = some (longBookClosedById 0) ∧
    (longBook 0)._positions.map (fun n => n.val.id) = [0] ∧
    (longBookClosedById 0)._trades.map (fun t => t.close_type) = [CloseType.FORCED] ∧
    CloseType.FORCED ≠ CloseType.MANUAL ∧
    (longBookClosedById 0)._positions = [] ∧
    (longBookClosedById 0)._position_iterators_by_id = [] ∧
    (longBookClosedById 0)._stoploss_manager = {} ∧
    (longBookClosedById 0)._takeprofit_manager = {} := by
  refine ⟨longBook_open refHeap 0, ?_, ?_, rfl, by decide, rfl, rfl, rfl, rfl⟩
  · have := longBook_closePositionById refHeap 0
    simpa using this
  · simp [longBook, longPosition]


/-! ## The take-profit scenario, settled -/

/-- C9 as stated fails: in the scenario of the long position of open price 1.0,
volume 100, stop-loss 0.95 and take-profit 1.05, opened on a fresh default
account, the tick of bid 1.06 and ask
1.07 does not record a single TAKEPROFIT trade of profit 5. -/
theorem takeprofit_scenario_profit_not_5 :
    (TradingManager.init {} 0 tickAt1).tryCreatePosition refHeap longOrder =
      (true, some (0 % 2 ^ 64), longBook 0) ∧
    (longBook 0)._positions.map (fun n => n.val) = [longPosition 0] ∧
    ¬ ∃ t : Trade, ((longBook 0).onTick refHeap tickUp).2._trades = [t] ∧
        t.close_type = CloseType.TAKEPROFIT ∧ t.calculateProfit = 5 := by
  refine ⟨longBook_open refHeap 0, rfl, ?_⟩
  rw [longBook_onTick]
  rintro ⟨t, ht, _, hp⟩
  have : t = longTrade := by
    have h1 : [longTrade] = [t] := ht
    simpa using h1.symm
  subst this
  simp only [Trade.calculateProfit, longTrade] at hp
  norm_num at hp

/-- C9, amended: a fresh default account admits the long order of volume 100
with stop-loss 0.95 and take-profit 1.05 at an ask of 1.0; the tick of bid 1.06
and ask 1.07 then closes the position by take-profit and not by stop-loss:
exactly one trade is recorded, its close type is TAKEPROFIT, its close price is
the tick's bid 1.06 and its profit is (1.06 - 1.0) * 100 = 6; the book is left
empty and the balance is 10006. -/
theorem takeprofit_scenario (H : StdHeap) (new_id : Nat) :
    (TradingManager.init {} new_id tickAt1).tryCreatePosition H longOrder =
      (true, some (new_id % 2 ^ 64), longBook new_id) ∧
    (longBook new_id)._positions.map (fun n => n.val) = [longPosition new_id] ∧
    (longPosition new_id).open_price = 1 ∧ (longPosition new_id).volume = 100 ∧
    (longPosition new_id).stoploss = 95 / 100 ∧ (longPosition new_id).takeprofit = 105 / 100 ∧
    tickUp.bid = 106 / 100 ∧ tickUp.ask = 107 / 100 ∧
    ((longBook new_id).onTick H tickUp).2._trades = [longTrade] ∧
    longTrade.close_type = CloseType.TAKEPROFIT ∧
    longTrade.close_price = 106 / 100 ∧
    longTrade.calculateProfit = 6 ∧
    ((longBook new_id).onTick H tickUp).2._positions = [] ∧
    ((longBook new_id).onTick H tickUp).2._account_manager._account_balance = 10006 := by
  rw [longBook_onTick]
  refine ⟨longBook_open H new_id, rfl, rfl, rfl, rfl, rfl, rfl, rfl, rfl, rfl, rfl, ?_, rfl, rfl⟩
  simp only [Trade.calculateProfit, longTrade]
  norm_num

/-! ## Instances of the general statements -/

/-- The claim C2 at the manager holding one long position with stop-loss and
take-profit. -/
theorem queue_completeness_witness :
    Reachable refHeap (longBook 0) ∧
    ((longBook 0)._positions.Nodup ∧
    (longBook 0)._stoploss_manager._long_positions.Perm
      ((longBook 0)._positions.filter
        (fun n => n.val.is_long && decide (n.val.stoploss ≠ 0))) ∧
    (longBook 0)._stoploss_manager._short_positions.Perm
      ((longBook 0)._positions.filter
        (fun n => !n.val.is_long && decide (n.val.stoploss ≠ 0))) ∧
    (longBook 0)._takeprofit_manager._long_positions.Perm
      ((longBook 0)._positions.filter
        (fun n => n.val.is_long && decide (n.val.takeprofit ≠ 0))) ∧
    (longBook 0)._takeprofit_manager._short_positions.Perm
      ((longBook 0)._positions.filter
        (fun n => !n.val.is_long && decide (n.val.takeprofit ≠ 0))) ∧
    (∀ n : Node, n ∉ (longBook 0)._positions →
      n ∉ (longBook 0)._stoploss_manager._long_positions ∧
      n ∉ (longBook 0)._stoploss_manager._short_positions ∧
      n ∉ (longBook 0)._takeprofit_manager._long_positions ∧
      n ∉ (longBook 0)._takeprofit_manager._short_positions)) :=
  ⟨longBook_reachable refHeap 0,
    queue_completeness refHeap (longBook 0) (longBook_reachable refHeap 0)⟩

/-- The claim C7 at the manager holding one long position and the tick of bid
1.06 and ask 1.07. -/
theorem onTick_no_due_event_witness :
    Reachable refHeap (longBook 0) ∧
    ∀ n ∈ ((longBook 0).onTick refHeap tickUp).2._positions,
      (n.val.is_long = true →
        (n.val.stoploss ≠ 0 → tickUp.bid > n.val.stoploss) ∧
        (n.val.takeprofit ≠ 0 → tickUp.bid < n.val.takeprofit)) ∧
      (n.val.is_long = false →
        (n.val.stoploss ≠ 0 → tickUp.ask < n.val.stoploss) ∧
        (n.val.takeprofit ≠ 0 → tickUp.ask > n.val.takeprofit)) :=
  ⟨longBook_reachable refHeap 0,
    onTick_no_due_event refHeap (longBook 0) (longBook_reachable refHeap 0) tickUp⟩


/-- The claim C6 at the stop-loss scenario: the manager holding the long position
opened at 1.2000 with stop-loss 1.1990, and the tick of bid 1.1989. -/
theorem stoploss_fires_witness :
    Reachable refHeap (slBook 0) ∧
    (⟨1, slPosition 0⟩ : Node) ∈ (slBook 0)._positions ∧
    (slPosition 0).stoploss ≠ 0 ∧
    ((slPosition 0).is_long = true ∧ tickDown.bid ≤ (slPosition 0).stoploss) ∧
    ∃ closed : List (Node × CloseType),
      ((slBook 0).onTick refHeap tickDown).2._trades =
        (slBook 0)._trades ++
          closed.map (fun e => ((slBook 0).withTick tickDown).tradeOf e.1.val e.2) ∧
      (closed.map Prod.fst).Nodup ∧
      ((⟨1, slPosition 0⟩ : Node), CloseType.STOPLOSS) ∈ closed ∧
      (((slBook 0).withTick tickDown).tradeOf (slPosition 0) CloseType.STOPLOSS).close_type =
        CloseType.STOPLOSS ∧
      (((slBook 0).withTick tickDown).tradeOf (slPosition 0) CloseType.STOPLOSS).close_price =
        (if (slPosition 0).is_long then tickDown.bid else tickDown.ask) ∧
      (((slBook 0).withTick tickDown).tradeOf (slPosition 0)
          CloseType.STOPLOSS).calculateProfit =
        (if (slPosition 0).is_long then
          (tickDown.bid - (slPosition 0).open_price) * (slPosition 0).volume
          else ((slPosition 0).open_price - tickDown.ask) * (slPosition 0).volume) ∧
      (⟨1, slPosition 0⟩ : Node) ∉ ((slBook 0).onTick refHeap tickDown).2._positions ∧
      (⟨1, slPosition 0⟩ : Node) ∉
        ((slBook 0).onTick refHeap tickDown).2._stoploss_manager._long_positions ∧
      (⟨1, slPosition 0⟩ : Node) ∉
        ((slBook 0).onTick refHeap tickDown).2._stoploss_manager._short_positions ∧
      (⟨1, slPosition 0⟩ : Node) ∉
        ((slBook 0).onTick refHeap tickDown).2._takeprofit_manager._long_positions ∧
      (⟨1, slPosition 0⟩ : Node) ∉
        ((slBook 0).onTick refHeap tickDown).2._takeprofit_manager._short_positions ∧
      ((slBook 0).onTick refHeap tickDown).2._account_manager._account_balance =
        (slBook 0)._account_manager._account_balance +
          (closed.map
            (fun e => (((slBook 0).withTick tickDown).tradeOf e.1.val e.2).calculateProfit)).sum :=
  have hp : (⟨1, slPosition 0⟩ : Node) ∈ (slBook 0)._positions := List.mem_singleton.mpr rfl
  have hsl : (slPosition 0).stoploss ≠ 0 := by
    simp only [slPosition]; norm_num
  have htrig : (slPosition 0).is_long = true ∧ tickDown.bid ≤ (slPosition 0).stoploss :=
    ⟨rfl, by simp only [slPosition, tickDown]; norm_num⟩
  ⟨slBook_reachable refHeap 0, hp, hsl, htrig,
    (stoploss_fires refHeap).1 (slBook 0) tickDown ⟨1, slPosition 0⟩
      (slBook_reachable refHeap 0) hp hsl (Or.inl htrig)⟩

/-! ## Close-all -/

theorem closeAllPositionsLoop_rounds (H : StdHeap) (ct : CloseType) :
    ∀ (k : Nat) (tm : TradingManager), Inv tm → k ≤ tm._positions.length →
      (closeAllPositionsLoop H ct k tm)._positions.length = tm._positions.length - k ∧
        (closeAllPositionsLoop H ct k tm)._trades.length = tm._trades.length + k := by
  intro k
  induction k with
  | zero =>
    intro tm _ _
    simp only [closeAllPositionsLoop]
    exact ⟨rfl, rfl⟩
  | succ k ih =>
    intro tm h hk
    cases hq : tm._positions with
    | nil => rw [hq] at hk; simp at hk
    | cons x rest =>
      have hres : closeAllPositionsLoop H ct (k + 1) tm =
          closeAllPositionsLoop H ct k
            ((tm.unregisterPositionEvents H x).closePosition x ct) := by
        simp only [closeAllPositionsLoop, hq]
      have hx : x ∈ tm._positions := hq ▸ List.mem_cons_self x rest
      obtain ⟨hc, hinv⟩ := unregister_close_spec H h hx ct
      have hpos : ((tm.unregisterPositionEvents H x).closePosition x ct)._positions = rest := by
        rw [hc.positions, hq, List.erase_cons_head]
      have hk' : k ≤ ((tm.unregisterPositionEvents H x).closePosition x ct)._positions.length := by
        rw [hpos]
        rw [hq] at hk
        simpa using hk
      obtain ⟨f1, f2⟩ := ih _ hinv hk'
      rw [hres, f1, f2, hpos, hc.trades]
      simp only [List.length_cons, List.length_append, List.length_nil]
      omega

theorem closeAllPositionsLoop_fuel (H : StdHeap) (ct : CloseType) :
    ∀ (fuel : Nat) (tm : TradingManager), Inv tm → tm._positions.length ≤ fuel →
      closeAllPositionsLoop H ct fuel tm =
        closeAllPositionsLoop H ct tm._positions.length tm := by
  intro fuel
  induction fuel with
  | zero =>
    intro tm _ hlen
    rw [Nat.le_zero.mp hlen]
  | succ fuel ih =>
    intro tm h hlen
    cases hq : tm._positions with
    | nil => simp only [closeAllPositionsLoop, hq, List.length_nil]
    | cons x rest =>
      have hx : x ∈ tm._positions := hq ▸ List.mem_cons_self x rest
      obtain ⟨hc, hinv⟩ := unregister_close_spec H h hx ct
      have hpos : ((tm.unregisterPositionEvents H x).closePosition x ct)._positions = rest := by
        rw [hc.positions, hq, List.erase_cons_head]
      have hlen' : ((tm.unregisterPositionEvents H x).closePosition x ct)._positions.length
          ≤ fuel := by
        rw [hpos]
        rw [hq] at hlen
        simpa using hlen
      have e := ih _ hinv hlen'
      rw [hpos] at e
      simp only [closeAllPositionsLoop, hq, List.length_cons]
      exact e

theorem queues_nil_of_positions_nil {tm : TradingManager} (h : Inv tm)
    (hp : tm._positions = []) :
    tm._position_iterators_by_id = [] ∧
      tm._stoploss_manager._long_positions = [] ∧
      tm._stoploss_manager._short_positions = [] ∧
      tm._takeprofit_manager._long_positions = [] ∧
      tm._takeprofit_manager._short_positions = [] := by
  have q1 := h.stoploss.1.2
  have q2 := h.stoploss.2.2
  have q3 := h.takeprofit.1.2
  have q4 := h.takeprofit.2.2
  rw [hp] at q1 q2 q3 q4
  refine ⟨?_, List.Perm.eq_nil q1, List.Perm.eq_nil q2, List.Perm.eq_nil q3,
    List.Perm.eq_nil q4⟩
  cases hm : tm._position_iterators_by_id with
  | nil => rfl
  | cons e rest =>
    have := (h.map_valid e (hm ▸ List.mem_cons_self e rest)).1
    rw [hp] at this
    simp at this

/-- C11 (close-all): on a reachable book of `n` open positions the loop of
`closeAllPositions` has `n - k` positions left and `k` trades appended after `k`
rounds, for every `k <= n`, so it ends after exactly `n` rounds, whatever larger
bound it is run with; it leaves the book, the id map and the four queues empty,
and the trades it appended are those of the formerly open positions, one each,
front of the list first, all with close type FORCED. -/
theorem closeAllPositions_empties_book (H : StdHeap) (tm : TradingManager)
    (h : Reachable H tm) :
    (∀ k : Nat, k ≤ tm._positions.length →
      (closeAllPositionsLoop H CloseType.FORCED k tm)._positions.length =
          tm._positions.length - k ∧
        (closeAllPositionsLoop H CloseType.FORCED k tm)._trades.length =
          tm._trades.length + k) ∧
    (∀ fuel : Nat, tm._positions.length ≤ fuel →
      closeAllPositionsLoop H CloseType.FORCED fuel tm = tm.closeAllPositions H) ∧
    (tm.closeAllPositions H)._positions = [] ∧
    (tm.closeAllPositions H)._position_iterators_by_id = [] ∧
    (tm.closeAllPositions H)._stoploss_manager._long_positions = [] ∧
    (tm.closeAllPositions H)._stoploss_manager._short_positions = [] ∧
    (tm.closeAllPositions H)._takeprofit_manager._long_positions = [] ∧
    (tm.closeAllPositions H)._takeprofit_manager._short_positions = [] ∧
    (tm.closeAllPositions H)._trades =
      tm._trades ++ tm._positions.map (fun n => tm.tradeOf n.val CloseType.FORCED) ∧
    (tm._positions.map (fun n => tm.tradeOf n.val CloseType.FORCED)).length =
      tm._positions.length ∧
    (∀ t ∈ tm._positions.map (fun n => tm.tradeOf n.val CloseType.FORCED),
      t.close_type = CloseType.FORCED) := by
  have hi := reachable_inv H h
  obtain ⟨f1, f2, f3⟩ := forcedClose_spec H hi
  obtain ⟨g0, g1, g2, g3, g4⟩ := queues_nil_of_positions_nil f2 f3
  refine ⟨fun k hk => closeAllPositionsLoop_rounds H _ k tm hi hk,
    fun fuel hf => closeAllPositionsLoop_fuel H _ fuel tm hi hf, f3, g0, g1, g2, g3, g4, ?_,
    by simp, ?_⟩
  · have := f1.trades
    simpa [List.map_map, Function.comp] using this
  · intro t ht
    obtain ⟨n, _, rfl⟩ := List.mem_map.mp ht
    rfl

/-- The claim C11 at the manager holding one long position. -/
theorem closeAllPositions_empties_book_witness :
    Reachable refHeap (longBook 0) ∧
    ((longBook 0).closeAllPositions refHeap)._positions = [] ∧
    ((longBook 0).closeAllPositions refHeap)._trades =
      (longBook 0)._trades ++
        (longBook 0)._positions.map (fun n => (longBook 0).tradeOf n.val CloseType.FORCED) :=
  ⟨longBook_reachable refHeap 0,
    (closeAllPositions_empties_book refHeap (longBook 0) (longBook_reachable refHeap 0)).2.2.1,
    (closeAllPositions_empties_book refHeap (longBook 0)
      (longBook_reachable refHeap 0)).2.2.2.2.2.2.2.2.1⟩

/-! ## The classification of a tick -/

theorem classify_of_used_margin {a : AccountBalanceManager} (hlev : a._leverage ≠ 0)
    (hx : a.getTotalExpenses ≠ 0) :
    a.classify =
      if a._account_balance ≤ 0 then AccountState.NONPOSITIVE_ACCOUNT_BALANCE
      else if a.getTotalEquity / (a.getTotalExpenses / a._leverage) ≤ a._stop_out_level then
        AccountState.MARGIN_CALL
      else if a.getTotalEquity / (a.getTotalExpenses / a._leverage)
          ≤ a._stop_out_warning_level then AccountState.MARGIN_CALL_WARNING
      else AccountState.OK := by
  have hl : (a._leverage : ℚ) ≠ 0 := by exact_mod_cast hlev
  have hu : a.getTotalExpenses / (a._leverage : ℚ) ≠ 0 := div_ne_zero hx hl
  simp only [AccountBalanceManager.classify, AccountBalanceManager.getMarginLevel,
    AccountBalanceManager.getUsedMargin, XNum.div, hl, hu, if_false, XNum.le, decide_eq_true_eq]

theorem classify_of_no_used_margin {a : AccountBalanceManager} (hlev : a._leverage ≠ 0)
    (hb : 0 < a._account_balance) (hx : a.getTotalExpenses = 0) :
    a.classify =
      if a.getTotalEquity < 0 then AccountState.MARGIN_CALL else AccountState.OK := by
  have hl : (a._leverage : ℚ) ≠ 0 := by exact_mod_cast hlev
  have hb' : ¬ a._account_balance ≤ 0 := not_le.mpr hb
  simp only [AccountBalanceManager.classify, AccountBalanceManager.getMarginLevel,
    AccountBalanceManager.getUsedMargin, XNum.div, hl, hx, hb', if_false, zero_div, if_true]
  by_cases h1 : 0 < a.getTotalEquity
  · have h2 : ¬ a.getTotalEquity < 0 := not_lt.mpr h1.le
    simp [h1, h2, XNum.le]
  · by_cases h2 : a.getTotalEquity < 0
    · simp [h1, h2, XNum.le]
    · simp [h1, h2, XNum.le]

/-- The classification in exact arithmetic: what `AccountBalanceManager::onTick`
returns, on the ledger with the open-position equity of the tick: it is
NONPOSITIVE_ACCOUNT_BALANCE exactly when the balance is at most 0; otherwise, for
a nonzero leverage and a nonzero used margin, with
`margin_level = total_equity / used_margin`, it is MARGIN_CALL exactly when
`margin_level <= stop_out_level`, else MARGIN_CALL_WARNING exactly when
`margin_level <= stop_out_warning_level`, else OK; for a used margin of 0 it is
OK when the total equity is not negative and MARGIN_CALL when it is negative.
A ledger with a positive balance and no open exposure is classified OK on every
tick. -/
theorem onTick_classification (a : AccountBalanceManager) (tick : Tick) :
    (a.onTick tick).2 = a.updateOpenPositionEquity tick ∧
    ((a.onTick tick).1 = AccountState.NONPOSITIVE_ACCOUNT_BALANCE ↔ a._account_balance ≤ 0) ∧
    (a._leverage ≠ 0 → a.getTotalExpenses ≠ 0 →
      ((a.onTick tick).1 = AccountState.MARGIN_CALL ↔
        0 < a._account_balance ∧
          (a.onTick tick).2.getTotalEquity / (a.getTotalExpenses / a._leverage)
            ≤ a._stop_out_level) ∧
      ((a.onTick tick).1 = AccountState.MARGIN_CALL_WARNING ↔
        0 < a._account_balance ∧
          ¬ (a.onTick tick).2.getTotalEquity / (a.getTotalExpenses / a._leverage)
            ≤ a._stop_out_level ∧
          (a.onTick tick).2.getTotalEquity / (a.getTotalExpenses / a._leverage)
            ≤ a._stop_out_warning_level) ∧
      ((a.onTick tick).1 = AccountState.OK ↔
        0 < a._account_balance ∧
          ¬ (a.onTick tick).2.getTotalEquity / (a.getTotalExpenses / a._leverage)
            ≤ a._stop_out_level ∧
          ¬ (a.onTick tick).2.getTotalEquity / (a.getTotalExpenses / a._leverage)
            ≤ a._stop_out_warning_level)) ∧
    (a._leverage ≠ 0 → a.getTotalExpenses = 0 → 0 < a._account_balance →
      (0 ≤ (a.onTick tick).2.getTotalEquity → (a.onTick tick).1 = AccountState.OK) ∧
      ((a.onTick tick).2.getTotalEquity < 0 → (a.onTick tick).1 = AccountState.MARGIN_CALL)) ∧
    (0 < a._account_balance → a._long_volume = 0 → a._short_volume = 0 →
      a._long_positions_expanses = 0 → a._short_positions_expanses = 0 →
      (a.onTick tick).1 = AccountState.OK) := by
  have hex : (a.updateOpenPositionEquity tick).getTotalExpenses = a.getTotalExpenses := rfl
  have hlv : (a.updateOpenPositionEquity tick)._leverage = a._leverage := rfl
  have hbal : (a.updateOpenPositionEquity tick)._account_balance = a._account_balance := rfl
  refine ⟨rfl, ?_, ?_, ?_, ?_⟩
  · show (a.updateOpenPositionEquity tick).classify = _ ↔ _
    unfold AccountBalanceManager.classify
    rw [hbal]
    by_cases hb : a._account_balance ≤ 0
    · simp [hb]
    · simp only [hb, if_false, iff_false]
      split_ifs <;> simp
  · intro hlev hx
    show ((a.updateOpenPositionEquity tick).classify = _ ↔ _) ∧
      ((a.updateOpenPositionEquity tick).classify = _ ↔ _) ∧
      ((a.updateOpenPositionEquity tick).classify = _ ↔ _)
    rw [classify_of_used_margin (hlv ▸ hlev) (hex ▸ hx), hbal, hex, hlv]
    show (_ ↔ _ ∧ (a.updateOpenPositionEquity tick).getTotalEquity / _ ≤ _) ∧
      (_ ↔ _ ∧ ¬ (a.updateOpenPositionEquity tick).getTotalEquity / _ ≤ _ ∧
        (a.updateOpenPositionEquity tick).getTotalEquity / _ ≤ _) ∧
      (_ ↔ _ ∧ ¬ (a.updateOpenPositionEquity tick).getTotalEquity / _ ≤ _ ∧
        ¬ (a.updateOpenPositionEquity tick).getTotalEquity / _ ≤ _)
    have hs : (a.updateOpenPositionEquity tick)._stop_out_level = a._stop_out_level := rfl
    have hw : (a.updateOpenPositionEquity tick)._stop_out_warning_level
        = a._stop_out_warning_level := rfl
    rw [hs, hw]
    by_cases hb : a._account_balance ≤ 0
    · have hb' : ¬ 0 < a._account_balance := not_lt.mpr hb
      simp [hb, hb']
    · have hb' : 0 < a._account_balance := not_le.mp hb
      simp only [hb, if_false, hb', true_and]
      by_cases h1 : (a.updateOpenPositionEquity tick).getTotalEquity /
          (a.getTotalExpenses / a._leverage) ≤ a._stop_out_level
      · simp [h1]
      · by_cases h2 : (a.updateOpenPositionEquity tick).getTotalEquity /
            (a.getTotalExpenses / a._leverage) ≤ a._stop_out_warning_level
        · simp [h1, h2]
        · simp [h1, h2]
  · intro hlev hx hb
    show (_ → (a.updateOpenPositionEquity tick).classify = _) ∧
      (_ → (a.updateOpenPositionEquity tick).classify = _)
    rw [classify_of_no_used_margin (hlv ▸ hlev) (hbal ▸ hb) (hex ▸ hx)]
    refine ⟨fun h => ?_, fun h => ?_⟩
    · have h' : 0 ≤ (a.updateOpenPositionEquity tick).getTotalEquity := h
      simp [not_lt.mpr h']
    · have h' : (a.updateOpenPositionEquity tick).getTotalEquity < 0 := h
      simp [h']
  · intro hb h1 h2 h3 h4
    show (a.updateOpenPositionEquity tick).classify = _
    refine classify_ok_of_no_exposure _ hb ?_ ?_
    · simp only [AccountBalanceManager.getTotalEquity,
        AccountBalanceManager.updateOpenPositionEquity, h1, h2, h3, h4]
      simpa using hb
    · simp only [AccountBalanceManager.getTotalExpenses,
        AccountBalanceManager.updateOpenPositionEquity, h3, h4]
      norm_num

/-- A margin level of +infinity is not what a used margin of 0 gives, also in
exact arithmetic: the ledger of a default account (balance 10000) holding
a short position of volume 100 opened at the price 0 has a used margin of 0; at
a tick of ask 200 its total equity is -10000 and `onTick` returns MARGIN_CALL,
where a margin level of +infinity gives OK. -/
theorem classification_not_as_specified :
    0 < ledgerShortAtZero._account_balance ∧
    ledgerShortAtZero.getUsedMargin = XNum.fin 0 ∧
    (ledgerShortAtZero.onTick tickAt200).2.getTotalEquity = -10000 ∧
    (ledgerShortAtZero.onTick tickAt200).1 = AccountState.MARGIN_CALL ∧
    (ledgerShortAtZero.onTick tickAt200).2.classifyAsSpecified = AccountState.OK ∧
    (ledgerShortAtZero.onTick tickAt200).1 ≠
      (ledgerShortAtZero.onTick tickAt200).2.classifyAsSpecified := by
  have hlev : (ledgerShortAtZero.updateOpenPositionEquity tickAt200)._leverage ≠ 0 := by
    simp [ledgerShortAtZero, AccountBalanceManager.updateOpenPositionEquity,
      AccountBalanceManager.addPosition, shortAtZero, AccountBalanceManager.ofProperties]
  have hb : 0 < (ledgerShortAtZero.updateOpenPositionEquity tickAt200)._account_balance := by
    simp [ledgerShortAtZero, AccountBalanceManager.updateOpenPositionEquity,
      AccountBalanceManager.addPosition, shortAtZero, AccountBalanceManager.ofProperties]
  have hx : (ledgerShortAtZero.updateOpenPositionEquity tickAt200).getTotalExpenses = 0 := by
    simp [ledgerShortAtZero, AccountBalanceManager.updateOpenPositionEquity,
      AccountBalanceManager.addPosition, shortAtZero, AccountBalanceManager.ofProperties,
      AccountBalanceManager.getTotalExpenses]
  have he : (ledgerShortAtZero.updateOpenPositionEquity tickAt200).getTotalEquity = -10000 := by
    simp [ledgerShortAtZero, AccountBalanceManager.updateOpenPositionEquity,
      AccountBalanceManager.addPosition, shortAtZero, AccountBalanceManager.ofProperties,
      AccountBalanceManager.getTotalEquity, tickAt200]
    norm_num
  have h1 : (ledgerShortAtZero.onTick tickAt200).1 = AccountState.MARGIN_CALL := by
    show (ledgerShortAtZero.updateOpenPositionEquity tickAt200).classify = _
    rw [classify_of_no_used_margin hlev hb hx, he]
    norm_num
  have h2 : (ledgerShortAtZero.onTick tickAt200).2.classifyAsSpecified = AccountState.OK := by
    show (ledgerShortAtZero.updateOpenPositionEquity tickAt200).classifyAsSpecified = _
    unfold AccountBalanceManager.classifyAsSpecified
    rw [hx]
    simp [not_le.mpr hb]
  refine ⟨?_, ?_, he, h1, h2, ?_⟩
  · simpa using hb
  · simp [ledgerShortAtZero, AccountBalanceManager.getUsedMargin,
      AccountBalanceManager.addPosition, shortAtZero, AccountBalanceManager.ofProperties,
      AccountBalanceManager.getTotalExpenses, XNum.div]
  · rw [h1, h2]
    decide

/-- The classification in exact arithmetic at the ledger of a fresh default
account and at the ledger of the manager holding one long position. -/
theorem onTick_classification_witness :
    (0 < (AccountBalanceManager.ofProperties {})._account_balance ∧
      ((AccountBalanceManager.ofProperties {}).onTick tickAt200).1 = AccountState.OK) ∧
    ((longBook 0)._account_manager._leverage ≠ 0 ∧
      (longBook 0)._account_manager.getTotalExpenses ≠ 0 ∧
      (((longBook 0)._account_manager.onTick tickAt1).1 = AccountState.MARGIN_CALL ↔
        0 < (longBook 0)._account_manager._account_balance ∧
          ((longBook 0)._account_manager.onTick tickAt1).2.getTotalEquity /
              ((longBook 0)._account_manager.getTotalExpenses /
                (longBook 0)._account_manager._leverage)
            ≤ (longBook 0)._account_manager._stop_out_level)) :=
  ⟨⟨by simp [AccountBalanceManager.ofProperties],
    (onTick_classification (AccountBalanceManager.ofProperties {}) tickAt200).2.2.2.2
      (by simp [AccountBalanceManager.ofProperties]) rfl rfl rfl rfl⟩,
    by simp [longBook],
    by simp [longBook, AccountBalanceManager.getTotalExpenses],
    ((onTick_classification (longBook 0)._account_manager tickAt1).2.2.1
      (by simp [longBook])
      (by simp [longBook, AccountBalanceManager.getTotalExpenses])).1⟩

/-! ## Forced close under a margin call -/

theorem afterEvents_of_no_queue (H : StdHeap) (tm : TradingManager) (tick : Tick)
    (h1 : tm._stoploss_manager = {}) (h2 : tm._takeprofit_manager = {}) :
    tm.afterEvents H tick = tm.withTick tick := by
  have e : ∀ (k : EventKind) (s : Bool) (p : ℚ),
      checkEvents H k s p (tm.withTick tick) = tm.withTick tick := by
    intro k s p
    exact checkEvents_nil H k s p (by
      cases k <;> cases s <;> simp [queue, manager, withTick, h1, h2])
  simp only [afterEvents, eventsOnTick, e]

theorem unregister_of_no_event (H : StdHeap) (tm : TradingManager) (x : Node)
    (h1 : x.val.stoploss = 0) (h2 : x.val.takeprofit = 0) :
    tm.unregisterPositionEvents H x = tm := by
  simp [unregisterPositionEvents, Position.hasStoploss, Position.hasTakeprofit, h1, h2]

theorem register_of_no_event (H : StdHeap) (tm : TradingManager) (x : Node)
    (h1 : x.val.stoploss = 0) (h2 : x.val.takeprofit = 0) :
    tm.registerPositionEvents H x = tm := by
  simp [registerPositionEvents, Position.hasStoploss, Position.hasTakeprofit, h1, h2]

theorem marginBook1_open (H : StdHeap) :
    (TradingManager.init smallAccount 0 tickAt1).tryCreatePosition H marginOrder1 =
      (true, some 0, marginBook1) := by
  have hc : (TradingManager.init smallAccount 0 tickAt1)._account_manager.canOrderBeProcessed
      marginOrder1.volume (TradingManager.init smallAccount 0 tickAt1)._current_tick.ask
      (TradingManager.init smallAccount 0 tickAt1)._current_tick.bid = true := by
    rw [canOrderBeProcessed_eq]
    · simp [TradingManager.init, tickAt1, marginOrder1, AccountBalanceManager.ofProperties,
        AccountBalanceManager.getTotalEquity, AccountBalanceManager.getTotalExpenses,
        smallAccount]
      norm_num
    · simp [TradingManager.init, AccountBalanceManager.ofProperties, smallAccount]
    · simp [TradingManager.init, tickAt1, marginOrder1, AccountBalanceManager.ofProperties,
        AccountBalanceManager.getTotalExpenses, smallAccount]
  simp only [tryCreatePosition, hc, Bool.not_true, Bool.false_eq_true, if_false]
  rw [register_of_no_event H _ _ rfl rfl]
  simp [marginOrder1, TradingManager.init, freshAddr, marginPosition1, tickAt1,
    mapAssign, AccountBalanceManager.addPosition, AccountBalanceManager.ofProperties,
    marginBook1, smallAccount]

theorem marginBook2_open (H : StdHeap) :
    marginBook1.tryCreatePosition H marginOrder2 = (true, some 1, marginBook2) := by
  have hc : marginBook1._account_manager.canOrderBeProcessed
      marginOrder2.volume marginBook1._current_tick.ask marginBook1._current_tick.bid
        = true := by
    rw [canOrderBeProcessed_eq]
    · simp [marginBook1, tickAt1, marginOrder2, AccountBalanceManager.getTotalEquity,
        AccountBalanceManager.getTotalExpenses]
      norm_num
    · simp [marginBook1]
    · simp [marginBook1, tickAt1, marginOrder2, AccountBalanceManager.getTotalExpenses]
  simp only [tryCreatePosition, hc, Bool.not_true, Bool.false_eq_true, if_false]
  rw [register_of_no_event H _ _ rfl rfl]
  simp [marginOrder2, marginBook1, freshAddr, marginPosition2, tickAt1,
    mapAssign, AccountBalanceManager.addPosition, marginBook2]
  norm_num

theorem marginBook2_onTick (H : StdHeap) :
    marginBook2.onTick H tickDrop = (AccountState.MARGIN_CALL, marginBookAfterTickDrop) := by
  have hE : marginBook2.afterEvents H tickDrop = marginBook2.withTick tickDrop :=
    afterEvents_of_no_queue H _ _ rfl rfl
  have hc : (marginBook2.afterLedger H tickDrop)._account_manager.classify
      = AccountState.MARGIN_CALL := by
    rw [afterLedger, hE, classify_of_used_margin]
    · simp [AccountBalanceManager.onTick, AccountBalanceManager.updateOpenPositionEquity,
        marginBook2, withTick, tickDrop, AccountBalanceManager.getTotalEquity,
        AccountBalanceManager.getTotalExpenses]
      norm_num
    · simp [AccountBalanceManager.onTick, AccountBalanceManager.updateOpenPositionEquity,
        marginBook2, withTick]
    · simp [AccountBalanceManager.onTick, AccountBalanceManager.updateOpenPositionEquity,
        marginBook2, withTick, AccountBalanceManager.getTotalExpenses]
  have hp : (marginBook2.afterLedger H tickDrop)._positions
      = [⟨2, marginPosition2⟩, ⟨1, marginPosition1⟩] := by
    rw [afterLedger, hE]
    rfl
  have h1 := onTick_fst H marginBook2 tickDrop
  have h2 := onTick_snd H marginBook2 tickDrop
  rw [hc] at h1 h2
  simp only [hp] at h2
  refine Prod.ext h1 ?_
  rw [h2, forcedClosePosition, unregister_of_no_event H _ _ rfl rfl, afterLedger, hE]
  simp [closePosition, tradeOf, withTick, marginBook2, marginPosition2, marginPosition1,
    tickDrop, mapErase, AccountBalanceManager.realizePosition, Trade.calculateProfit,
    AccountBalanceManager.onTick, AccountBalanceManager.updateOpenPositionEquity,
    marginBookAfterTickDrop, marginTrade]
  norm_num

theorem tradeOf_congr {tm1 tm2 : TradingManager} (h : tm1._current_tick = tm2._current_tick)
    (p : Position) (ct : CloseType) : tm1.tradeOf p ct = tm2.tradeOf p ct := by
  simp only [tradeOf, h]

theorem registerPositionEvents_positions (H : StdHeap) (tm : TradingManager) (x : Node) :
    (tm.registerPositionEvents H x)._positions = tm._positions := by
  unfold registerPositionEvents
  cases x.val.hasStoploss <;> cases x.val.hasTakeprofit <;> rfl

theorem tryCreatePosition_positions (H : StdHeap) (tm : TradingManager) (order : Order)
    (ha : (tm.tryCreatePosition H order).1 = true) :
    ∃ x : Node, x.val.id = tm._new_id ∧ x.val.comment = order.comment ∧
      (tm.tryCreatePosition H order).2.1 = some tm._new_id ∧
      (tm.tryCreatePosition H order).2.2._positions = x :: tm._positions := by
  cases hc : tm._account_manager.canOrderBeProcessed order.volume tm._current_tick.ask
      tm._current_tick.bid with
  | false => simp [tryCreatePosition, hc] at ha
  | true =>
    refine ⟨⟨freshAddr tm._positions, ⟨tm._new_id, tm._current_tick.timestamp,
      tm._current_tick.ask, order.volume, order.is_long, order.comment, order.stoploss,
      order.takeprofit⟩⟩, rfl, rfl, ?_, ?_⟩ <;>
    simp only [tryCreatePosition, hc, Bool.not_true, Bool.false_eq_true, if_false,
      registerPositionEvents_positions]

theorem onTick_margin_call_spec (H : StdHeap) {tm : TradingManager} (h : Inv tm) (tick : Tick)
    (hs : (tm.onTick H tick).1 = AccountState.MARGIN_CALL) :
    (tm.afterLedger H tick)._positions.Sublist tm._positions ∧
    (∃ sl tp : List Node,
      (tm.afterLedger H tick)._trades =
        tm._trades ++ (sl.map (fun n => (tm.withTick tick).tradeOf n.val CloseType.STOPLOSS) ++
          tp.map (fun n => (tm.withTick tick).tradeOf n.val CloseType.TAKEPROFIT))) ∧
    ((tm.afterLedger H tick)._positions = [] → (tm.onTick H tick).2 = tm.afterLedger H tick) ∧
    (∀ (x : Node) (rest : List Node), (tm.afterLedger H tick)._positions = x :: rest →
      (tm.onTick H tick).2._positions = rest ∧ x ∉ rest ∧
      (tm.onTick H tick).2._trades =
        (tm.afterLedger H tick)._trades ++ [(tm.withTick tick).tradeOf x.val CloseType.FORCED]) := by
  obtain ⟨sll, sls, tpl, tps, e1, e2, _⟩ := afterEvents_spec H h tick
  have hc := afterLedger_closes H tick e1
  have hL := afterLedger_inv H tick e2
  have hcl : (tm.afterLedger H tick)._account_manager.classify = AccountState.MARGIN_CALL := by
    rw [← onTick_fst]; exact hs
  have h2 := onTick_snd H tm tick
  rw [hcl] at h2
  refine ⟨?_, ⟨sll ++ sls, tpl ++ tps, ?_⟩, ?_, ?_⟩
  · rw [hc.positions]
    exact List.filter_sublist _
  · have := hc.trades
    simpa [List.map_append, List.map_map, Function.comp, withTick] using this
  · intro hp
    rw [h2]
    simp only [hp]
  · intro x rest hp
    simp only [hp] at h2
    have hx : x ∈ (tm.afterLedger H tick)._positions := hp ▸ List.mem_cons_self x rest
    obtain ⟨c1, _⟩ := unregister_close_spec H hL hx CloseType.FORCED
    have hnd : (x :: rest).Nodup := hp ▸ List.Nodup.of_map _ hL.nodup
    rw [h2, forcedClosePosition]
    refine ⟨?_, (List.nodup_cons.mp hnd).1, ?_⟩
    · rw [c1.positions, hp, List.erase_cons_head]
    · rw [c1.trades, tradeOf_congr hc.tick]

/-- C12, amended: when `onTick` returns MARGIN_CALL on a reachable manager, the
positions left open by the stop-loss and take-profit events of the tick are a
sublist of the book, in its order; if there is none nothing more happens, and
otherwise exactly one of them is force-closed, the one at the front of the
list: one trade of close type FORCED is appended for it after the trades of the
events, and the others stay open, in their order.  An admitted order puts its
position at the front of the list, so the front is the most recently opened of
the positions still open. -/
theorem onTick_margin_call_closes_front (H : StdHeap) (tm : TradingManager)
    (h : Reachable H tm) (tick : Tick)
    (hs : (tm.onTick H tick).1 = AccountState.MARGIN_CALL) :
    (tm.afterLedger H tick)._positions.Sublist tm._positions ∧
    (∃ sl tp : List Node,
      (tm.afterLedger H tick)._trades =
        tm._trades ++ (sl.map (fun n => (tm.withTick tick).tradeOf n.val CloseType.STOPLOSS) ++
          tp.map (fun n => (tm.withTick tick).tradeOf n.val CloseType.TAKEPROFIT))) ∧
    ((tm.afterLedger H tick)._positions = [] → (tm.onTick H tick).2 = tm.afterLedger H tick) ∧
    (∀ (x : Node) (rest : List Node), (tm.afterLedger H tick)._positions = x :: rest →
      (tm.onTick H tick).2._positions = rest ∧ x ∉ rest ∧
      (tm.onTick H tick).2._trades =
        (tm.afterLedger H tick)._trades ++
          [(tm.withTick tick).tradeOf x.val CloseType.FORCED] ∧
      ((tm.withTick tick).tradeOf x.val CloseType.FORCED).close_type = CloseType.FORCED) ∧
    (∀ order : Order, (tm.tryCreatePosition H order).1 = true →
      ∃ x : Node, x.val.id = tm._new_id ∧
        (tm.tryCreatePosition H order).2.2._positions = x :: tm._positions) := by
  obtain ⟨a1, a2, a3, a4⟩ := onTick_margin_call_spec H (reachable_inv H h) tick hs
  refine ⟨a1, a2, a3, fun x rest hp => ?_, fun order ha => ?_⟩
  · obtain ⟨b1, b2, b3⟩ := a4 x rest hp
    exact ⟨b1, b2, b3, rfl⟩
  · obtain ⟨x, hx, _, _, hp⟩ := tryCreatePosition_positions H tm order ha
    exact ⟨x, hx, hp⟩

theorem marginBook2_reachable (H : StdHeap) : Reachable H marginBook2 := by
  have h1 : Reachable H marginBook1 := by
    have := Reachable.tryCreatePosition (H := H) marginOrder1
      (Reachable.init smallAccount 0 tickAt1)
    rw [marginBook1_open] at this
    exact this
  have := Reachable.tryCreatePosition (H := H) marginOrder2 h1
  rw [marginBook2_open] at this
  exact this

/-- C12 as stated fails: on an account of balance 1000 and leverage 50 two long
orders of volume 20000 are admitted at an ask of 1, the one commented "first"
before the one commented "second"; the tick of bid 0.98 is classified
MARGIN_CALL and the one trade `onTick` records closes the position commented
"second", while the position opened first, of id 0, stays open. -/
theorem margin_call_closes_latest_opened :
    (TradingManager.init smallAccount 0 tickAt1).tryCreatePosition refHeap marginOrder1 =
      (true, some 0, marginBook1) ∧
    marginBook1.tryCreatePosition refHeap marginOrder2 = (true, some 1, marginBook2) ∧
    (marginBook2.onTick refHeap tickDrop).1 = AccountState.MARGIN_CALL ∧
    (marginBook2.onTick refHeap tickDrop).2._trades.map (fun t => (t.close_type, t.comment)) =
      [(CloseType.FORCED, "second")] ∧
    (marginBook2.onTick refHeap tickDrop).2._positions.map (fun n => (n.val.id, n.val.comment)) =
      [(0, "first")] ∧
    ¬ (∀ n ∈ (marginBook2.onTick refHeap tickDrop).2._positions, n.val.id ≠ 0) := by
  rw [marginBook2_onTick]
  refine ⟨marginBook1_open refHeap, marginBook2_open refHeap, rfl, rfl, rfl, ?_⟩
  intro hn
  exact hn ⟨1, marginPosition1⟩ (List.mem_singleton.mpr rfl) rfl

/-- The claim C12, amended, at the manager holding the two long positions of
volume 20000 and the tick of bid 0.98. -/
theorem onTick_margin_call_closes_front_witness :
    Reachable refHeap marginBook2 ∧
    (marginBook2.onTick refHeap tickDrop).1 = AccountState.MARGIN_CALL ∧
    (marginBook2.afterLedger refHeap tickDrop)._positions.Sublist marginBook2._positions :=
  ⟨marginBook2_reachable refHeap, by rw [marginBook2_onTick],
    (onTick_margin_call_closes_front refHeap marginBook2 (marginBook2_reachable refHeap) tickDrop
      (by rw [marginBook2_onTick])).1⟩

/-! ## Sequences of calls -/

theorem tryCreatePosition_outcome (H : StdHeap) (tm : TradingManager) (order : Order) :
    ((tm.tryCreatePosition H order).2.1 = none ∧ (tm.tryCreatePosition H order).2.2 = tm) ∨
    ((tm.tryCreatePosition H order).2.1 = some tm._new_id ∧
      (tm.tryCreatePosition H order).2.2._new_id = (tm._new_id + 1) % 2 ^ 64 ∧
      (tm.tryCreatePosition H order).2.2._trades = tm._trades ∧
      (tm.tryCreatePosition H order).2.2._account_manager._account_balance =
        tm._account_manager._account_balance ∧
      ∃ x : Node, x.val.id = tm._new_id ∧
        (tm.tryCreatePosition H order).2.2._positions = x :: tm._positions) := by
  cases hc : tm._account_manager.canOrderBeProcessed order.volume tm._current_tick.ask
      tm._current_tick.bid with
  | false =>
    left
    simp [tryCreatePosition, hc]
  | true =>
    right
    have e : tm.tryCreatePosition H order =
        (true, some tm._new_id,
          registerPositionEvents H
            { tm with
              _new_id := (tm._new_id + 1) % 2 ^ 64
              _positions := ⟨freshAddr tm._positions, ⟨tm._new_id, tm._current_tick.timestamp,
                tm._current_tick.ask, order.volume, order.is_long, order.comment,
                order.stoploss, order.takeprofit⟩⟩ :: tm._positions
              _position_iterators_by_id := mapAssign tm._position_iterators_by_id tm._new_id
                ⟨freshAddr tm._positions, ⟨tm._new_id, tm._current_tick.timestamp,
                  tm._current_tick.ask, order.volume, order.is_long, order.comment,
                  order.stoploss, order.takeprofit⟩⟩
              _account_manager := tm._account_manager.addPosition
                ⟨tm._new_id, tm._current_tick.timestamp,
                  tm._current_tick.ask, order.volume, order.is_long, order.comment,
                  order.stoploss, order.takeprofit⟩ }
            ⟨freshAddr tm._positions, ⟨tm._new_id, tm._current_tick.timestamp,
              tm._current_tick.ask, order.volume, order.is_long, order.comment,
              order.stoploss, order.takeprofit⟩⟩) := by
      simp only [tryCreatePosition, hc, Bool.not_true, Bool.false_eq_true, if_false]
    rw [e]
    refine ⟨rfl, ?_, ?_, ?_, ⟨_, rfl, registerPositionEvents_positions H _ _⟩⟩
    · unfold registerPositionEvents
      cases (Position.hasStoploss _) <;> cases (Position.hasTakeprofit _) <;> rfl
    · unfold registerPositionEvents
      cases (Position.hasStoploss _) <;> cases (Position.hasTakeprofit _) <;> rfl
    · unfold registerPositionEvents AccountBalanceManager.addPosition
      cases (Position.hasStoploss _) <;> cases (Position.hasTakeprofit _) <;>
        cases order.is_long <;> rfl

theorem realizePosition_balance (a : AccountBalanceManager) (t : Trade) :
    (a.realizePosition t)._account_balance = a._account_balance + t.calculateProfit := by
  unfold AccountBalanceManager.realizePosition
  cases t.is_long <;> rfl

/-- The balance less the profits of the recorded trades. -/
theorem closesAll_base {tm tm1 : TradingManager} {c : List (Node × CloseType)}
    (hc : ClosesAll tm c tm1) :
    tm1._account_manager._account_balance - (tm1._trades.map Trade.calculateProfit).sum =
      tm._account_manager._account_balance - (tm._trades.map Trade.calculateProfit).sum := by
  rw [hc.balance, hc.trades, List.map_append, List.sum_append, List.map_map]
  have : (Trade.calculateProfit ∘ fun e : Node × CloseType => tm.tradeOf e.1.val e.2)
      = fun e => (tm.tradeOf e.1.val e.2).calculateProfit := rfl
  rw [this]
  ring

theorem closes_base {tm tm1 : TradingManager} {x : Node} {ct : CloseType}
    (hc : Closes tm x ct tm1) :
    tm1._account_manager._account_balance - (tm1._trades.map Trade.calculateProfit).sum =
      tm._account_manager._account_balance - (tm._trades.map Trade.calculateProfit).sum := by
  rw [hc.account, hc.trades, realizePosition_balance, List.map_append, List.sum_append]
  simp only [List.map_cons, List.map_nil, List.sum_cons, List.sum_nil]
  ring

theorem call_apply_spec (H : StdHeap) {tm tm1 : TradingManager} {r : Option Nat} {c : Call}
    (h : Inv tm) (hc : c.apply H tm = some (r, tm1)) :
    Inv tm1 ∧
    tm1._account_manager._account_balance - (tm1._trades.map Trade.calculateProfit).sum =
      tm._account_manager._account_balance - (tm._trades.map Trade.calculateProfit).sum ∧
    ((r = none ∧ tm1._new_id = tm._new_id ∧ tm1._positions.Sublist tm._positions) ∨
      (r = some tm._new_id ∧ tm1._new_id = (tm._new_id + 1) % 2 ^ 64 ∧
        ∃ x : Node, x.val.id = tm._new_id ∧ tm1._positions = x :: tm._positions)) := by
  cases c with
  | tryCreatePosition order =>
    simp only [Call.apply, Option.some.injEq] at hc
    have h1 : (tm.tryCreatePosition H order).2.1 = r := congrArg Prod.fst hc
    have h2 : (tm.tryCreatePosition H order).2.2 = tm1 := congrArg Prod.snd hc
    have hinv := tryCreatePosition_inv H h order
    rw [h2] at hinv
    rcases tryCreatePosition_outcome H tm order with ⟨a1, a2⟩ | ⟨a1, a2, a3, a4, a5⟩
    · rw [h1] at a1
      rw [h2] at a2
      subst a2
      exact ⟨hinv, rfl, Or.inl ⟨a1, rfl, List.Sublist.refl _⟩⟩
    · rw [h1] at a1
      rw [h2] at a2 a3 a4 a5
      exact ⟨hinv, by rw [a3, a4], Or.inr ⟨a1, a2, a5⟩⟩
  | closePosition id =>
    simp only [Call.apply, Option.map_eq_some', Prod.mk.injEq] at hc
    obtain ⟨tm2, hc2, hr, rfl⟩ := hc
    have hinv := closePositionById_inv H h hc2
    simp only [closePositionById] at hc2
    cases hf : mapFind tm._position_iterators_by_id id with
    | none => simp [hf] at hc2
    | some x =>
      simp only [hf, Option.some.injEq] at hc2
      have hx : x ∈ tm._positions := (h.map_valid _ (mapFind_mem hf)).1
      obtain ⟨c1, _⟩ := unregister_close_spec H h hx CloseType.FORCED
      rw [hc2] at c1
      refine ⟨hinv, closes_base c1, Or.inl ⟨hr.symm, c1.new_id, ?_⟩⟩
      rw [c1.positions]
      exact List.erase_sublist _ _
  | closeAllPositions =>
    simp only [Call.apply, Option.some.injEq, Prod.mk.injEq] at hc
    obtain ⟨hr, rfl⟩ := hc
    obtain ⟨f1, f2, _⟩ := forcedClose_spec H h
    refine ⟨f2, closesAll_base f1, Or.inl ⟨hr.symm, f1.new_id, ?_⟩⟩
    have := f1.positions
    rw [show (tm.closeAllPositions H) = tm.closeAllPositionsWith H CloseType.FORCED from rfl,
      this]
    exact List.filter_sublist _
  | onTick tick =>
    simp only [Call.apply, Option.some.injEq, Prod.mk.injEq] at hc
    obtain ⟨hr, rfl⟩ := hc
    obtain ⟨_, _, _, _, f1, f2, _⟩ := onTick_closesAll H h tick
    have hb := closesAll_base f1
    have hn := f1.new_id
    have hp := f1.positions
    refine ⟨f2, hb, Or.inl ⟨hr.symm, hn, ?_⟩⟩
    rw [hp]
    exact List.filter_sublist _

theorem range_shift_map (n : Nat) (k : Nat) (hn : n < 2 ^ 64) :
    n :: (List.range k).map (fun i => ((n + 1) % 2 ^ 64 + i) % 2 ^ 64) =
      (List.range (k + 1)).map (fun i => (n + i) % 2 ^ 64) := by
  rw [List.range_succ_eq_map, List.map_cons, List.map_map]
  congr 1
  · show n = (n + 0) % 2 ^ 64
    rw [Nat.add_zero, Nat.mod_eq_of_lt hn]
  · apply List.map_congr_left
    intro i _
    simp only [Function.comp, Nat.succ_eq_add_one]
    rw [Nat.mod_add_mod]
    congr 1
    omega

theorem after_spec (H : StdHeap) :
    ∀ (cs : List Call) (tm tm1 : TradingManager) (ids : List Nat),
      Inv tm → tm._new_id < 2 ^ 64 → tm.after H cs = some (ids, tm1) →
      Inv tm1 ∧
      tm1._account_manager._account_balance - (tm1._trades.map Trade.calculateProfit).sum =
        tm._account_manager._account_balance - (tm._trades.map Trade.calculateProfit).sum ∧
      ids = (List.range ids.length).map (fun i => (tm._new_id + i) % 2 ^ 64) ∧
      tm1._new_id = (tm._new_id + ids.length) % 2 ^ 64 ∧
      (tm1._positions.map (fun n => n.val.id)).Sublist
        (ids.reverse ++ tm._positions.map (fun n => n.val.id)) := by
  intro cs
  induction cs with
  | nil =>
    intro tm tm1 ids h hn ha
    simp only [after, Option.some.injEq, Prod.mk.injEq] at ha
    obtain ⟨rfl, rfl⟩ := ha
    refine ⟨h, rfl, rfl, ?_, by simp⟩
    show tm._new_id = (tm._new_id + 0) % 2 ^ 64
    rw [Nat.add_zero, Nat.mod_eq_of_lt hn]
  | cons c cs ih =>
    intro tm tm1 ids h hn ha
    simp only [after] at ha
    cases hc : c.apply H tm with
    | none => simp [hc] at ha
    | some r =>
      obtain ⟨r1, tmA⟩ := r
      simp only [hc] at ha
      cases hr : after H cs tmA with
      | none => simp [hr] at ha
      | some r2 =>
        obtain ⟨ids2, tmB⟩ := r2
        simp only [hr, Option.some.injEq, Prod.mk.injEq] at ha
        obtain ⟨rfl, rfl⟩ := ha
        obtain ⟨a1, a2, a3⟩ := call_apply_spec H h hc
        rcases a3 with ⟨b1, b2, b3⟩ | ⟨b1, b2, x, b3, b4⟩
        · obtain ⟨i1, i2, i3, i4, i5⟩ := ih tmA tmB ids2 a1 (b2 ▸ hn) hr
          subst b1
          rw [b2] at i3 i4
          refine ⟨i1, i2.trans a2, by simpa using i3, by simpa using i4, ?_⟩
          simp only [Option.toList, List.nil_append]
          exact i5.trans (List.Sublist.append_left (List.Sublist.map _ b3) _)
        · have hlt : tmA._new_id < 2 ^ 64 := by
            rw [b2]
            exact Nat.mod_lt _ (by positivity)
          obtain ⟨i1, i2, i3, i4, i5⟩ := ih tmA tmB ids2 a1 hlt hr
          subst b1
          rw [b2] at i3 i4
          refine ⟨i1, i2.trans a2, ?_, ?_, ?_⟩
          · simp only [Option.toList, List.singleton_append, List.length_cons]
            rw [← range_shift_map _ _ hn, ← i3]
          · simp only [Option.toList, List.singleton_append, List.length_cons]
            rw [i4, Nat.mod_add_mod]
            congr 1
            omega
          · simp only [Option.toList, List.singleton_append, List.reverse_cons,
              List.append_assoc, List.singleton_append]
            rw [b4, List.map_cons, b3] at i5
            exact i5

theorem ids_nodup (n k : Nat) (hk : k ≤ 2 ^ 64) :
    ((List.range k).map (fun i => (n + i) % 2 ^ 64)).Nodup := by
  refine (List.nodup_map_iff_inj_on (List.nodup_range k)).mpr ?_
  intro i hi j hj hij
  have hi' : i < 2 ^ 64 := lt_of_lt_of_le (List.mem_range.mp hi) hk
  have hj' : j < 2 ^ 64 := lt_of_lt_of_le (List.mem_range.mp hj) hk
  have h1 : n + i ≡ n + j [MOD 2 ^ 64] := hij
  exact Nat.ModEq.eq_of_lt_of_lt (Nat.ModEq.add_left_cancel' n h1) hi' hj'

/-! ## The calls of a run -/

theorem after_append (H : StdHeap) :
    ∀ (cs1 cs2 : List Call) (tm tm1 tm2 : TradingManager) (ids1 ids2 : List Nat),
      tm.after H cs1 = some (ids1, tm1) → tm1.after H cs2 = some (ids2, tm2) →
      tm.after H (cs1 ++ cs2) = some (ids1 ++ ids2, tm2) := by
  intro cs1
  induction cs1 with
  | nil =>
    intro cs2 tm tm1 tm2 ids1 ids2 h1 h2
    simp only [after, Option.some.injEq, Prod.mk.injEq] at h1
    obtain ⟨rfl, rfl⟩ := h1
    simpa using h2
  | cons c cs ih =>
    intro cs2 tm tm1 tm2 ids1 ids2 h1 h2
    simp only [after] at h1
    cases hc : c.apply H tm with
    | none => simp [hc] at h1
    | some r =>
      simp only [hc] at h1
      cases hr : after H cs r.2 with
      | none => simp [hr] at h1
      | some r2 =>
        obtain ⟨idsA, tmA⟩ := r2
        simp only [hr, Option.some.injEq, Prod.mk.injEq] at h1
        obtain ⟨rfl, rfl⟩ := h1
        have := ih cs2 r.2 tmA tm2 idsA ids2 hr h2
        have e : after H (c :: (cs ++ cs2)) tm =
            some (r.1.toList ++ (idsA ++ ids2), tm2) := by
          simp only [after, hc, this]
        simpa [List.append_assoc] using e

theorem follows_refl (H : StdHeap) (tm : TradingManager) : Follows H tm tm :=
  ⟨[], [], rfl⟩

theorem follows_trans {H : StdHeap} {tm tm1 tm2 : TradingManager} (h1 : Follows H tm tm1)
    (h2 : Follows H tm1 tm2) : Follows H tm tm2 := by
  obtain ⟨cs1, ids1, e1⟩ := h1
  obtain ⟨cs2, ids2, e2⟩ := h2
  exact ⟨cs1 ++ cs2, ids1 ++ ids2, after_append H cs1 cs2 tm tm1 tm2 ids1 ids2 e1 e2⟩

theorem follows_onTick (H : StdHeap) (tm : TradingManager) (tick : Tick) :
    Follows H tm (tm.onTick H tick).2 :=
  ⟨[Call.onTick tick], [], by simp [after, Call.apply]⟩

theorem follows_applyCalls {H : StdHeap} {tm tm1 : TradingManager} {calls : List BrokerCall}
    (h : applyCalls H tm calls = some tm1) : Follows H tm tm1 := by
  simp only [applyCalls, Option.map_eq_some'] at h
  obtain ⟨⟨ids, tm2⟩, h1, rfl⟩ := h
  exact ⟨_, ids, h1⟩

theorem handleTick_follows {σ : Type} {H : StdHeap} {robot : ATS σ} {tm tm1 : TradingManager}
    {st st1 : σ} {tick : Tick} {b : Bool}
    (h : StrategyTester.handleTick H robot tm st tick = some (b, tm1, st1)) :
    Follows H tm tm1 := by
  unfold StrategyTester.handleTick at h
  have h0 := follows_onTick H tm tick
  cases hs : (tm.onTick H tick).1 with
  | NONPOSITIVE_ACCOUNT_BALANCE =>
    simp only [hs, Option.some.injEq, Prod.mk.injEq] at h
    obtain ⟨_, rfl, _⟩ := h
    exact h0
  | MARGIN_CALL_WARNING =>
    simp only [hs, if_true] at h
    cases hw : applyCalls H (tm.onTick H tick).2
        (robot.onMarginCallWarning st (tm.onTick H tick).2).2 with
    | none => simp [hw] at h
    | some tmW =>
      simp only [hw, Option.map_some'] at h
      cases ho : applyCalls H tmW (robot.onTick
          (robot.onMarginCallWarning st (tm.onTick H tick).2).1 tmW tick).2.2 with
      | none => simp [ho] at h
      | some tmO =>
        simp only [ho, Option.some.injEq, Prod.mk.injEq] at h
        obtain ⟨_, rfl, _⟩ := h
        exact follows_trans h0 (follows_trans (follows_applyCalls hw) (follows_applyCalls ho))
  | OK =>
    simp only [hs] at h
    cases ho : applyCalls H (tm.onTick H tick).2
        (robot.onTick st (tm.onTick H tick).2 tick).2.2 with
    | none => simp [ho] at h
    | some tmO =>
      simp [ho] at h
      obtain ⟨_, rfl, _⟩ := h
      exact follows_trans h0 (follows_applyCalls ho)
  | MARGIN_CALL =>
    simp only [hs] at h
    cases ho : applyCalls H (tm.onTick H tick).2
        (robot.onTick st (tm.onTick H tick).2 tick).2.2 with
    | none => simp [ho] at h
    | some tmO =>
      simp [ho] at h
      obtain ⟨_, rfl, _⟩ := h
      exact follows_trans h0 (follows_applyCalls ho)

theorem goThroughTicks_follows {σ : Type} {H : StdHeap} {robot : ATS σ} :
    ∀ (ticks : List Tick) (tm tm1 : TradingManager) (st st1 : σ) (b : Bool),
      StrategyTester.goThroughTicks H robot ticks tm st = some (b, tm1, st1) →
      Follows H tm tm1 := by
  intro ticks
  induction ticks with
  | nil =>
    intro tm tm1 st st1 b h
    simp only [StrategyTester.goThroughTicks, Option.some.injEq, Prod.mk.injEq] at h
    obtain ⟨_, rfl, _⟩ := h
    exact follows_refl H tm
  | cons tick rest ih =>
    intro tm tm1 st st1 b h
    simp only [StrategyTester.goThroughTicks] at h
    cases hh : StrategyTester.handleTick H robot tm st tick with
    | none => simp [hh] at h
    | some r =>
      obtain ⟨c, tmA, stA⟩ := r
      cases c with
      | false =>
        simp only [hh, Option.some.injEq, Prod.mk.injEq] at h
        obtain ⟨_, rfl, _⟩ := h
        exact handleTick_follows hh
      | true =>
        simp only [hh] at h
        exact follows_trans (handleTick_follows hh) (ih tmA tm1 stA st1 b h)

theorem goThroughTicksPeriod_follows {σ : Type} {H : StdHeap} {robot : ATS σ} (d : Int) :
    ∀ (ticks : List Tick) (w : Int) (tm tm1 : TradingManager) (st st1 : σ) (b : Bool),
      StrategyTester.goThroughTicksPeriod H robot d ticks w tm st = some (b, tm1, st1) →
      Follows H tm tm1 := by
  intro ticks
  induction ticks with
  | nil =>
    intro w tm tm1 st st1 b h
    simp only [StrategyTester.goThroughTicksPeriod, Option.some.injEq, Prod.mk.injEq] at h
    obtain ⟨_, rfl, _⟩ := h
    exact follows_refl H tm
  | cons tick rest ih =>
    intro w tm tm1 st st1 b h
    simp only [StrategyTester.goThroughTicksPeriod] at h
    by_cases hw : tick.timestamp < w
    · simp only [hw, if_true] at h
      exact ih w tm tm1 st st1 b h
    · simp only [hw, if_false] at h
      cases hh : StrategyTester.handleTick H robot tm st tick with
      | none => simp [hh] at h
      | some r =>
        obtain ⟨c, tmA, stA⟩ := r
        cases c with
        | false =>
          simp only [hh, Option.some.injEq, Prod.mk.injEq] at h
          obtain ⟨_, rfl, _⟩ := h
          exact handleTick_follows hh
        | true =>
          simp only [hh] at h
          exact follows_trans (handleTick_follows hh) (ih (w + d) tmA tm1 stA st1 b h)

theorem goThrough_follows {σ : Type} {H : StdHeap} {tester : StrategyTester} {robot : ATS σ}
    {tm tm1 : TradingManager} {st st1 : σ} {b : Bool}
    (h : StrategyTester.goThrough H tester robot tm st = some (b, tm1, st1)) :
    Follows H tm tm1 := by
  unfold StrategyTester.goThrough at h
  by_cases hp : tester._period = SimulationPeriod.TICK
  · simp only [hp, if_true] at h
    exact goThroughTicks_follows _ _ _ _ _ _ h
  · simp only [hp, if_false] at h
    cases ht : tester._ticks_ptr with
    | nil => simp [ht] at h
    | cons front rest =>
      simp only [ht] at h
      exact goThroughTicksPeriod_follows _ _ _ _ _ _ _ _ h

/-- The results of a run are those of a manager that follows the fresh one by a
sequence of calls. -/
theorem run_follows {σ : Type} {H : StdHeap} {tester : StrategyTester} {robot : ATS σ}
    {st st1 : σ} {new_id : Nat} {current_tick : Tick} {res : Results}
    (h : StrategyTester.run H tester robot st new_id current_tick = some (res, st1)) :
    ∃ tm : TradingManager,
      Follows H (TradingManager.init tester._account_properties new_id current_tick) tm ∧
      res = tm.end_ := by
  unfold StrategyTester.run at h
  simp only at h
  cases h0 : applyCalls H (TradingManager.init tester._account_properties new_id current_tick)
      (robot.start st
        (TradingManager.init tester._account_properties new_id current_tick)).2.2 with
  | none => simp [h0] at h
  | some tm1 =>
    simp only [h0] at h
    by_cases hs : (robot.start st
        (TradingManager.init tester._account_properties new_id current_tick)).1
          = ReturnCode.STOP
    · simp only [hs, if_true, Option.some.injEq, Prod.mk.injEq] at h
      exact ⟨tm1, follows_applyCalls h0, h.1.symm⟩
    · simp only [hs, if_false] at h
      cases hg : StrategyTester.goThrough H tester robot tm1 (robot.start st
          (TradingManager.init tester._account_properties new_id current_tick)).2.1 with
      | none => simp [hg] at h
      | some r =>
        obtain ⟨b, tm2, st2⟩ := r
        simp only [hg, StrategyTester.finish] at h
        cases he : applyCalls H tm2 (robot.end_ st2 tm2).2 with
        | none => simp [he] at h
        | some tm3 =>
          simp only [he, Option.some.injEq, Prod.mk.injEq] at h
          exact ⟨tm3, follows_trans (follows_applyCalls h0)
            (follows_trans (goThrough_follows hg) (follows_applyCalls he)), h.1.symm⟩

theorem follows_init_spec {H : StdHeap} {properties : AccountProperties} {new_id : Nat}
    {current_tick : Tick} {tm : TradingManager}
    (h : Follows H (TradingManager.init properties new_id current_tick) tm) :
    Inv tm ∧
    tm._account_manager._account_balance =
      properties.account_balance + (tm._trades.map Trade.calculateProfit).sum := by
  obtain ⟨cs, ids, ha⟩ := h
  obtain ⟨a1, a2, _⟩ := after_spec H cs _ tm ids (init_inv properties new_id current_tick)
    (Nat.mod_lt _ (by positivity)) ha
  refine ⟨a1, ?_⟩
  have e : (TradingManager.init properties new_id current_tick)._account_manager._account_balance
      - ((TradingManager.init properties new_id current_tick)._trades.map
          Trade.calculateProfit).sum = properties.account_balance := by
    simp [TradingManager.init, AccountBalanceManager.ofProperties]
  rw [e] at a2
  linarith


/-! ## The balance and the ids over a run -/

theorem openCloseCalls_after (H : StdHeap) :
    (TradingManager.init {} 0 tickAt1).after H openCloseCalls =
      some ([0], longBookClosedById 0) := by
  have h1 := longBook_open H 0
  have h2 := longBook_closePositionById H 0
  simp only [Nat.zero_mod] at h1 h2
  simp only [openCloseCalls, after, Call.apply, h1, h2, Option.map_some', Option.toList,
    List.append_nil, List.singleton_append, List.nil_append]

/-- The balance in exact arithmetic: after every sequence of calls on the manager
of an account, the balance is the initial `account_balance` plus the sum of
`calculateProfit` over the recorded trades, where the profit of a trade is
`(close_price - open_price) * volume` for a long and
`(open_price - close_price) * volume` for a short; the results of every run have
this `account_balance` for their `trades`. -/
theorem balance_of_calls_and_runs (H : StdHeap) (properties : AccountProperties)
    (new_id : Nat) (current_tick : Tick) :
    (∀ (calls : List Call) (ids : List Nat) (tm : TradingManager),
      (TradingManager.init properties new_id current_tick).after H calls = some (ids, tm) →
      tm.getBalance =
        properties.account_balance + (tm._trades.map Trade.calculateProfit).sum) ∧
    (∀ t : Trade, t.calculateProfit =
      if t.is_long then (t.close_price - t.open_price) * t.volume
      else (t.open_price - t.close_price) * t.volume) ∧
    (∀ (σ : Type) (tester : StrategyTester) (robot : ATS σ) (st st1 : σ) (res : Results),
      tester._account_properties = properties →
      StrategyTester.run H tester robot st new_id current_tick = some (res, st1) →
      res.account_balance =
        properties.account_balance + (res.trades.map Trade.calculateProfit).sum) := by
  refine ⟨fun calls ids tm h => ?_, fun t => rfl, fun σ tester robot st st1 res hp h => ?_⟩
  · exact (follows_init_spec ⟨calls, ids, h⟩).2
  · obtain ⟨tm, hf, rfl⟩ := run_follows h
    rw [hp] at hf
    exact (follows_init_spec hf).2

/-- C17 (position ids are unique within a run): whatever the first value
`new_id` of the id counter, the ids the successful `tryCreatePosition` calls of
one manager return are `new_id, new_id + 1, ...` modulo `2^64`, in order, so
they are pairwise distinct when there are at most `2^64` of them; the ids of the
open positions are among them, newest first, each once. -/
theorem created_ids_distinct (H : StdHeap) (properties : AccountProperties) (new_id : Nat)
    (current_tick : Tick) (calls : List Call) (ids : List Nat) (tm : TradingManager)
    (h : (TradingManager.init properties new_id current_tick).after H calls = some (ids, tm)) :
    ids = (List.range ids.length).map (fun i => (new_id + i) % 2 ^ 64) ∧
    (ids.length ≤ 2 ^ 64 → ids.Nodup) ∧
    (tm._positions.map (fun n => n.val.id)).Sublist ids.reverse ∧
    (ids.length ≤ 2 ^ 64 → (tm._positions.map (fun n => n.val.id)).Nodup) := by
  obtain ⟨_, _, a3, _, a5⟩ := after_spec H calls _ tm ids
    (init_inv properties new_id current_tick) (Nat.mod_lt _ (by positivity)) h
  have e : ids = (List.range ids.length).map (fun i => (new_id + i) % 2 ^ 64) := by
    have : (fun i => ((TradingManager.init properties new_id current_tick)._new_id + i) % 2 ^ 64)
        = (fun i => (new_id + i) % 2 ^ 64) := by
      funext i
      simp [TradingManager.init, Nat.mod_add_mod]
    rw [this] at a3
    exact a3
  have hnd : ids.length ≤ 2 ^ 64 → ids.Nodup := by
    intro hl
    rw [e]
    exact ids_nodup new_id ids.length hl
  have hs : (tm._positions.map (fun n => n.val.id)).Sublist ids.reverse := by
    simpa [TradingManager.init] using a5
  exact ⟨e, hnd, hs, fun hl => List.Nodup.sublist hs (List.nodup_reverse.mpr (hnd hl))⟩

/-! ## A tick with a non-positive balance -/

theorem onTick_nonpositive_spec (H : StdHeap) {tm : TradingManager} (h : Inv tm) (tick : Tick)
    (hs : (tm.onTick H tick).1 = AccountState.NONPOSITIVE_ACCOUNT_BALANCE) :
    Inv (tm.onTick H tick).2 ∧
    (tm.onTick H tick).2._positions = [] ∧
    (tm.afterLedger H tick)._positions.Sublist tm._positions ∧
    (∃ sl tp : List Node,
      (tm.afterLedger H tick)._trades =
        tm._trades ++ (sl.map (fun n => (tm.withTick tick).tradeOf n.val CloseType.STOPLOSS) ++
          tp.map (fun n => (tm.withTick tick).tradeOf n.val CloseType.TAKEPROFIT))) ∧
    (tm.onTick H tick).2._trades =
      (tm.afterLedger H tick)._trades ++
        (tm.afterLedger H tick)._positions.map
          (fun n => (tm.withTick tick).tradeOf n.val CloseType.FORCED) := by
  obtain ⟨sll, sls, tpl, tps, e1, e2, _⟩ := afterEvents_spec H h tick
  have hc := afterLedger_closes H tick e1
  have hL := afterLedger_inv H tick e2
  have hcl : (tm.afterLedger H tick)._account_manager.classify
      = AccountState.NONPOSITIVE_ACCOUNT_BALANCE := by
    rw [← onTick_fst]; exact hs
  have h2 := onTick_snd H tm tick
  rw [hcl] at h2
  simp only at h2
  obtain ⟨f1, f2, f3⟩ := forcedClose_spec H hL
  rw [← h2] at f1 f2 f3
  refine ⟨f2, f3, ?_, ⟨sll ++ sls, tpl ++ tps, ?_⟩, ?_⟩
  · rw [hc.positions]
    exact List.filter_sublist _
  · have := hc.trades
    simpa [List.map_append, List.map_map, Function.comp, withTick] using this
  · rw [f1.trades, List.map_map]
    congr 1
    apply List.map_congr_left
    intro n _
    exact tradeOf_congr hc.tick _ _

theorem handleTick_nonpositive {σ : Type} (H : StdHeap) (robot : ATS σ) (tm : TradingManager)
    (st : σ) (tick : Tick)
    (hs : (tm.onTick H tick).1 = AccountState.NONPOSITIVE_ACCOUNT_BALANCE) :
    StrategyTester.handleTick H robot tm st tick = some (false, (tm.onTick H tick).2, st) := by
  unfold StrategyTester.handleTick
  simp only [hs]

theorem goThroughTicks_append {σ : Type} (H : StdHeap) (robot : ATS σ) :
    ∀ (pre l : List Tick) (tm0 tm : TradingManager) (st0 st : σ),
      StrategyTester.goThroughTicks H robot pre tm0 st0 = some (true, tm, st) →
      StrategyTester.goThroughTicks H robot (pre ++ l) tm0 st0 =
        StrategyTester.goThroughTicks H robot l tm st := by
  intro pre
  induction pre with
  | nil =>
    intro l tm0 tm st0 st h
    simp only [StrategyTester.goThroughTicks, Option.some.injEq, Prod.mk.injEq, true_and] at h
    obtain ⟨rfl, rfl⟩ := h
    rfl
  | cons tick rest ih =>
    intro l tm0 tm st0 st h
    simp only [StrategyTester.goThroughTicks] at h
    cases hh : StrategyTester.handleTick H robot tm0 st0 tick with
    | none => simp [hh] at h
    | some r =>
      obtain ⟨c, tmA, stA⟩ := r
      cases c with
      | false => simp [hh] at h
      | true =>
        simp only [hh] at h
        simp only [List.cons_append, StrategyTester.goThroughTicks, hh]
        exact ih l tmA tm stA st h

theorem applyCalls_nil (H : StdHeap) (tm : TradingManager) : applyCalls H tm [] = some tm := rfl

theorem applyCalls_cons (H : StdHeap) (tm : TradingManager) (c : BrokerCall)
    (cs : List BrokerCall) :
    applyCalls H tm (c :: cs) =
      (c.toCall.apply H tm).bind (fun r => applyCalls H r.2 cs) := by
  simp only [applyCalls, List.map_cons, after]
  cases c.toCall.apply H tm with
  | none => rfl
  | some r =>
    cases hr : after H (cs.map BrokerCall.toCall) r.2 with
    | none => simp [hr]
    | some r1 => simp [hr]

/-- On an empty book, broker calls that place no order change nothing. -/
theorem applyCalls_no_order (H : StdHeap) :
    ∀ (calls : List BrokerCall) (tm tm3 : TradingManager), tm._positions = [] →
      tm._position_iterators_by_id = [] →
      (∀ c ∈ calls, ∀ order : Order, c ≠ BrokerCall.tryCreatePosition order) →
      applyCalls H tm calls = some tm3 → tm3 = tm := by
  intro calls
  induction calls with
  | nil =>
    intro tm tm3 _ _ _ h
    rw [applyCalls_nil] at h
    exact (Option.some.inj h).symm
  | cons c cs ih =>
    intro tm tm3 hp hm hno h
    rw [applyCalls_cons] at h
    cases c with
    | tryCreatePosition order => exact absurd rfl (hno _ (List.mem_cons_self _ _) order)
    | closePosition positionId =>
      simp [BrokerCall.toCall, Call.apply, closePositionById, mapFind, hm] at h
    | closeAllPositions =>
      have e : tm.closeAllPositions H = tm := by
        simp only [closeAllPositions, closeAllPositionsWith, hp, List.length_nil,
          closeAllPositionsLoop]
      simp only [BrokerCall.toCall, Call.apply, Option.some_bind, e] at h
      exact ih tm tm3 hp hm (fun c hc => hno c (List.mem_cons_of_mem _ hc)) h

/-- C13, amended: when `onTick` classifies a tick of a reachable manager as
NONPOSITIVE_ACCOUNT_BALANCE, every position the events of the tick left open is
force-closed with close type FORCED, front of the list first, and the book, the
id map and the four queues are empty; `handleTick` returns false without calling
a hook of the strategy, so both tick loops end at that tick, whatever ticks
follow; `strategy.end()` is then called on the empty book and the results are
those of the manager after it: when `end` places no order the open-position
list of the results is empty and their trades are those recorded up to the
forced closes. -/
theorem nonpositive_balance_ends_run (H : StdHeap) (tm : TradingManager) (h : Reachable H tm)
    (tick : Tick) (hs : (tm.onTick H tick).1 = AccountState.NONPOSITIVE_ACCOUNT_BALANCE) :
    ((tm.onTick H tick).2._positions = [] ∧
      (tm.onTick H tick).2._position_iterators_by_id = [] ∧
      (tm.onTick H tick).2._stoploss_manager._long_positions = [] ∧
      (tm.onTick H tick).2._stoploss_manager._short_positions = [] ∧
      (tm.onTick H tick).2._takeprofit_manager._long_positions = [] ∧
      (tm.onTick H tick).2._takeprofit_manager._short_positions = []) ∧
    (tm.afterLedger H tick)._positions.Sublist tm._positions ∧
    (∃ sl tp : List Node,
      (tm.onTick H tick).2._trades =
        tm._trades ++ (sl.map (fun n => (tm.withTick tick).tradeOf n.val CloseType.STOPLOSS) ++
          tp.map (fun n => (tm.withTick tick).tradeOf n.val CloseType.TAKEPROFIT)) ++
        (tm.afterLedger H tick)._positions.map
          (fun n => (tm.withTick tick).tradeOf n.val CloseType.FORCED)) ∧
    (∀ (σ : Type) (robot : ATS σ) (st : σ),
      StrategyTester.handleTick H robot tm st tick = some (false, (tm.onTick H tick).2, st)) ∧
    (∀ (σ : Type) (robot : ATS σ) (st : σ) (rest : List Tick),
      StrategyTester.goThroughTicks H robot (tick :: rest) tm st =
        some (false, (tm.onTick H tick).2, st)) ∧
    (∀ (σ : Type) (robot : ATS σ) (st : σ) (rest : List Tick) (d w : Int),
      ¬ tick.timestamp < w →
      StrategyTester.goThroughTicksPeriod H robot d (tick :: rest) w tm st =
        some (false, (tm.onTick H tick).2, st)) ∧
    (∀ (σ : Type) (robot : ATS σ) (st st0 : σ) (pre rest : List Tick) (tm0 : TradingManager),
      StrategyTester.goThroughTicks H robot pre tm0 st0 = some (true, tm, st) →
      StrategyTester.goThroughTicks H robot (pre ++ tick :: rest) tm0 st0 =
        some (false, (tm.onTick H tick).2, st)) ∧
    (∀ (σ : Type) (robot : ATS σ) (st st1 : σ) (res : Results),
      (∀ c ∈ (robot.end_ st (tm.onTick H tick).2).2,
        ∀ order : Order, c ≠ BrokerCall.tryCreatePosition order) →
      StrategyTester.finish H robot (tm.onTick H tick).2 st = some (res, st1) →
      res = (tm.onTick H tick).2.end_ ∧ res.unclosed_positions = [] ∧
        res.trades = (tm.onTick H tick).2._trades) ∧
    (∀ (σ : Type) (robot : ATS σ) (st : σ),
      (robot.end_ st (tm.onTick H tick).2).2 = [] →
      StrategyTester.finish H robot (tm.onTick H tick).2 st =
        some ((tm.onTick H tick).2.end_, (robot.end_ st (tm.onTick H tick).2).1)) := by
  obtain ⟨a1, a2, a3, ⟨sl, tp, a4⟩, a5⟩ := onTick_nonpositive_spec H (reachable_inv H h) tick hs
  obtain ⟨g0, g1, g2, g3, g4⟩ := queues_nil_of_positions_nil a1 a2
  have hstep : ∀ (σ : Type) (robot : ATS σ) (st : σ) (rest : List Tick),
      StrategyTester.goThroughTicks H robot (tick :: rest) tm st =
        some (false, (tm.onTick H tick).2, st) := by
    intro σ robot st rest
    simp only [StrategyTester.goThroughTicks, handleTick_nonpositive H robot tm st tick hs]
  refine ⟨⟨a2, g0, g1, g2, g3, g4⟩, a3, ⟨sl, tp, ?_⟩,
    fun σ robot st => handleTick_nonpositive H robot tm st tick hs, hstep, ?_, ?_, ?_, ?_⟩
  · rw [a5, a4]
  · intro σ robot st rest d w hw
    simp only [StrategyTester.goThroughTicksPeriod, hw, if_false,
      handleTick_nonpositive H robot tm st tick hs]
  · intro σ robot st st0 pre rest tm0 hpre
    rw [goThroughTicks_append H robot pre _ tm0 tm st0 st hpre]
    exact hstep σ robot st rest
  · intro σ robot st st1 res hno hf
    simp only [StrategyTester.finish] at hf
    cases he : applyCalls H (tm.onTick H tick).2 (robot.end_ st (tm.onTick H tick).2).2 with
    | none => simp [he] at hf
    | some tm3 =>
      simp only [he, Option.some.injEq, Prod.mk.injEq] at hf
      have e3 := applyCalls_no_order H _ _ tm3 a2 g0 hno he
      rw [e3] at hf
      refine ⟨hf.1.symm, ?_, ?_⟩
      · rw [← hf.1]
        simp only [TradingManager.end_, a2, List.map_nil]
      · rw [← hf.1]
        rfl
  · intro σ robot st he
    simp only [StrategyTester.finish, he, applyCalls_nil]

/-! ## The scenario of a strategy that trades in its `end` hook -/

theorem tiny_onTick (H : StdHeap) :
    (TradingManager.init tinyAccount 0 tickAt1).onTick H tickAt1 =
      (AccountState.OK, TradingManager.init tinyAccount 0 tickAt1) := by
  have hE : (TradingManager.init tinyAccount 0 tickAt1).afterEvents H tickAt1 =
      (TradingManager.init tinyAccount 0 tickAt1).withTick tickAt1 :=
    afterEvents_of_no_queue H _ _ rfl rfl
  have hL : (TradingManager.init tinyAccount 0 tickAt1).afterLedger H tickAt1 =
      TradingManager.init tinyAccount 0 tickAt1 := by
    rw [afterLedger, hE]
    simp [AccountBalanceManager.onTick, AccountBalanceManager.updateOpenPositionEquity,
      withTick, TradingManager.init, AccountBalanceManager.ofProperties]
  have hc : (TradingManager.init tinyAccount 0 tickAt1)._account_manager.classify
      = AccountState.OK := by
    apply classify_ok_of_no_exposure
    · simp [TradingManager.init, AccountBalanceManager.ofProperties, tinyAccount]
    · simp [TradingManager.init, AccountBalanceManager.ofProperties, tinyAccount,
        AccountBalanceManager.getTotalEquity]
    · simp [TradingManager.init, AccountBalanceManager.ofProperties,
        AccountBalanceManager.getTotalExpenses]
  have h1 := onTick_fst H (TradingManager.init tinyAccount 0 tickAt1) tickAt1
  have h2 := onTick_snd H (TradingManager.init tinyAccount 0 tickAt1) tickAt1
  rw [hL, hc] at h1 h2
  exact Prod.ext h1 h2

theorem tinyBook1_open (H : StdHeap) :
    (TradingManager.init tinyAccount 0 tickAt1).tryCreatePosition H lossOrder =
      (true, some 0, tinyBook1) := by
  have hc : (TradingManager.init tinyAccount 0 tickAt1)._account_manager.canOrderBeProcessed
      lossOrder.volume (TradingManager.init tinyAccount 0 tickAt1)._current_tick.ask
      (TradingManager.init tinyAccount 0 tickAt1)._current_tick.bid = true := by
    rw [canOrderBeProcessed_eq]
    · simp [TradingManager.init, tickAt1, lossOrder, AccountBalanceManager.ofProperties,
        AccountBalanceManager.getTotalEquity, AccountBalanceManager.getTotalExpenses,
        tinyAccount]
      norm_num
    · simp [TradingManager.init, AccountBalanceManager.ofProperties, tinyAccount]
    · simp [TradingManager.init, tickAt1, lossOrder, AccountBalanceManager.ofProperties,
        AccountBalanceManager.getTotalExpenses, tinyAccount]
  simp only [tryCreatePosition, hc, Bool.not_true, Bool.false_eq_true, if_false]
  simp [registerPositionEvents, Position.hasStoploss, Position.hasTakeprofit, lossOrder,
    TradingManager.init, PriceEventManager.add, PositionIteratorQueue.push,
    StoplossManager, push_heap_singleton H strictWeak_longStoploss, freshAddr, lossPosition,
    tickAt1, mapAssign, AccountBalanceManager.addPosition, AccountBalanceManager.ofProperties,
    tinyBook1, tinyAccount]

theorem tinyBook2_open (H : StdHeap) :
    tinyBook1.tryCreatePosition H gainOrder = (true, some 1, tinyBook2) := by
  have hc : tinyBook1._account_manager.canOrderBeProcessed
      gainOrder.volume tinyBook1._current_tick.ask tinyBook1._current_tick.bid = true := by
    rw [canOrderBeProcessed_eq]
    · simp [tinyBook1, tickAt1, gainOrder, AccountBalanceManager.getTotalEquity,
        AccountBalanceManager.getTotalExpenses]
      norm_num
    · simp [tinyBook1]
    · simp [tinyBook1, tickAt1, gainOrder, AccountBalanceManager.getTotalExpenses]
  simp only [tryCreatePosition, hc, Bool.not_true, Bool.false_eq_true, if_false]
  rw [register_of_no_event H _ _ rfl rfl]
  simp [gainOrder, tinyBook1, freshAddr, gainPosition, tickAt1,
    mapAssign, AccountBalanceManager.addPosition, tinyBook2]

theorem tinyBookLate_open (H : StdHeap) :
    tinyBookEnd.tryCreatePosition H lateOrder = (true, some 2, tinyBookLate) := by
  have hc : tinyBookEnd._account_manager.canOrderBeProcessed
      lateOrder.volume tinyBookEnd._current_tick.ask tinyBookEnd._current_tick.bid = true := by
    rw [canOrderBeProcessed_eq]
    · simp [tinyBookEnd, tickHalf, lateOrder, AccountBalanceManager.getTotalEquity,
        AccountBalanceManager.getTotalExpenses]
      norm_num
    · simp [tinyBookEnd]
    · simp [tinyBookEnd, tickHalf, lateOrder, AccountBalanceManager.getTotalExpenses]
  simp only [tryCreatePosition, hc, Bool.not_true, Bool.false_eq_true, if_false]
  rw [register_of_no_event H _ _ rfl rfl]
  simp [lateOrder, tinyBookEnd, freshAddr, latePosition, tickHalf,
    mapAssign, AccountBalanceManager.addPosition, tinyBookLate]

theorem tinyBook2_afterEvents (H : StdHeap) :
    tinyBook2.afterEvents H tickHalf = tinyBookFired := by
  have e1 : checkEvents H .stoploss true tickHalf.bid (tinyBook2.withTick tickHalf)
      = handler H .stoploss ((tinyBook2.withTick tickHalf).setQueue .stoploss true [])
          ⟨1, lossPosition⟩ :=
    checkEvents_singleton H .stoploss true _ rfl
      (by
        simp only [EventKind.predicate, EventKind.traits, StoplossManager, if_true,
          LongStoplossPredicate, lossPosition, tickHalf]
        norm_num)
  have e2 : handler H .stoploss
      ((tinyBook2.withTick tickHalf).setQueue .stoploss true [])
      ⟨1, lossPosition⟩ = tinyBookFired := by
    simp only [handler, stoplossHandler, setQueue, withTick, tinyBook2,
      PriceEventManager.remove, lossPosition, if_true, TakeprofitManager,
      queue_remove_nil, closePosition, tradeOf, tickHalf,
      mapErase, AccountBalanceManager.realizePosition, Trade.calculateProfit,
      tinyBookFired, lossTrade]
    simp [gainPosition]
    norm_num
  have e3 : ∀ (k : EventKind) (s : Bool) (p : ℚ),
      checkEvents H k s p tinyBookFired = tinyBookFired := by
    intro k s p
    exact checkEvents_nil H k s p (by cases k <;> cases s <;> rfl)
  simp only [afterEvents, eventsOnTick, e1, e2, e3]

theorem tinyBook2_onTick (H : StdHeap) :
    tinyBook2.onTick H tickHalf =
      (AccountState.NONPOSITIVE_ACCOUNT_BALANCE, tinyBookEnd) := by
  have hc : (tinyBook2.afterLedger H tickHalf)._account_manager.classify
      = AccountState.NONPOSITIVE_ACCOUNT_BALANCE := by
    rw [afterLedger, tinyBook2_afterEvents]
    simp [AccountBalanceManager.classify, AccountBalanceManager.onTick,
      AccountBalanceManager.updateOpenPositionEquity, tinyBookFired]
  have h1 := onTick_fst H tinyBook2 tickHalf
  have h2 := onTick_snd H tinyBook2 tickHalf
  rw [hc] at h1 h2
  refine Prod.ext h1 ?_
  rw [h2, afterLedger, tinyBook2_afterEvents]
  simp only [closeAllPositionsWith, tinyBookFired, List.length_cons, List.length_nil,
    closeAllPositionsLoop]
  rw [unregister_of_no_event H _ _ rfl rfl]
  simp [closePosition, tradeOf, gainPosition, tickHalf, mapErase,
    AccountBalanceManager.realizePosition, Trade.calculateProfit,
    AccountBalanceManager.onTick, AccountBalanceManager.updateOpenPositionEquity,
    tinyBookEnd, gainTrade]
  norm_num

theorem handleTick_ok {σ : Type} (H : StdHeap) (robot : ATS σ) {tm tm1 tm2 : TradingManager}
    (st : σ) (tick : Tick) (h1 : tm.onTick H tick = (AccountState.OK, tm1))
    (h2 : applyCalls H tm1 (robot.onTick st tm1 tick).2.2 = some tm2) :
    StrategyTester.handleTick H robot tm st tick =
      some (decide ((robot.onTick st tm1 tick).1 ≠ ReturnCode.STOP.toInt), tm2,
        (robot.onTick st tm1 tick).2.1) := by
  unfold StrategyTester.handleTick
  simp [h1, h2]

theorem tiny_applyCalls (H : StdHeap) :
    applyCalls H (TradingManager.init tinyAccount 0 tickAt1)
      [BrokerCall.tryCreatePosition lossOrder, BrokerCall.tryCreatePosition gainOrder] =
      some tinyBook2 := by
  simp only [applyCalls, List.map_cons, List.map_nil, BrokerCall.toCall, after, Call.apply,
    tinyBook1_open, tinyBook2_open, Option.map_some']

theorem tinyBookEnd_applyCalls (H : StdHeap) :
    applyCalls H tinyBookEnd [BrokerCall.tryCreatePosition lateOrder] = some tinyBookLate := by
  simp only [applyCalls, List.map_cons, List.map_nil, BrokerCall.toCall, after, Call.apply,
    tinyBookLate_open, Option.map_some']

theorem tiny_goThroughTicks (H : StdHeap) :
    StrategyTester.goThroughTicks H reopenAtEnd [tickAt1] (TradingManager.init tinyAccount 0 tickAt1)
      () = some (true, tinyBook2, ()) := by
  have h := handleTick_ok H reopenAtEnd () tickAt1 (tiny_onTick H)
    (show applyCalls H _ (reopenAtEnd.onTick () _ tickAt1).2.2 = some tinyBook2 from
      tiny_applyCalls H)
  simp only [StrategyTester.goThroughTicks, h]
  rfl

theorem tiny_run (H : StdHeap) :
    StrategyTester.run H tinyTester reopenAtEnd () 0 tickAt1 = some (tinyBookLate.end_, ()) := by
  have hs : StrategyTester.goThroughTicks H reopenAtEnd [tickAt1, tickHalf]
      (TradingManager.init tinyAccount 0 tickAt1) () = some (false, tinyBookEnd, ()) := by
    have := goThroughTicks_append H reopenAtEnd [tickAt1] [tickHalf] _ _ _ _
      (tiny_goThroughTicks H)
    simp only [List.singleton_append] at this
    rw [this]
    simp only [StrategyTester.goThroughTicks,
      handleTick_nonpositive H reopenAtEnd tinyBook2 () tickHalf
        (by rw [tinyBook2_onTick]), tinyBook2_onTick]
  have hf : StrategyTester.finish H reopenAtEnd tinyBookEnd () = some (tinyBookLate.end_, ()) := by
    have := tinyBookEnd_applyCalls H
    simp only [StrategyTester.finish, reopenAtEnd, this]
  have h0 : applyCalls H (TradingManager.init tinyAccount 0 tickAt1) [] =
      some (TradingManager.init tinyAccount 0 tickAt1) := rfl
  simp only [StrategyTester.run, tinyTester, reopenAtEnd, h0]
  simp only [StrategyTester.goThrough, if_true]
  have hs' := hs
  simp only [reopenAtEnd] at hs' hf
  simp [hs', hf]

theorem tinyBook2_reachable (H : StdHeap) : Reachable H tinyBook2 := by
  have h1 : Reachable H tinyBook1 := by
    have := Reachable.tryCreatePosition (H := H) lossOrder
      (Reachable.init tinyAccount 0 tickAt1)
    rw [tinyBook1_open] at this
    exact this
  have := Reachable.tryCreatePosition (H := H) gainOrder h1
  rw [tinyBook2_open] at this
  exact this

/-- C13 as stated fails: on an account of balance 1 the strategy `reopenAtEnd`
opens a long position of volume 10 with stop-loss 0.9 and a short position of
volume 10 at the tick of bid 1 and ask 1; at the next tick, of bid 0.5 and ask
0.5, the stop-loss realizes a loss of 5, the tick is classified
NONPOSITIVE_ACCOUNT_BALANCE and the short position is force-closed with a
profit of 5; the run ends there, `end` places an order that is admitted, and the
results of the run list an open position. -/
theorem nonpositive_run_with_open_position :
    StrategyTester.goThroughTicks refHeap reopenAtEnd [tickAt1]
      (TradingManager.init tinyAccount 0 tickAt1) () = some (true, tinyBook2, ()) ∧
    tinyBook2.onTick refHeap tickHalf =
      (AccountState.NONPOSITIVE_ACCOUNT_BALANCE, tinyBookEnd) ∧
    tinyBookEnd._positions = [] ∧
    StrategyTester.run refHeap tinyTester reopenAtEnd () 0 tickAt1 =
      some (tinyBookLate.end_, ()) ∧
    tinyBookLate.end_.unclosed_positions = [latePosition] ∧
    tinyBookLate.end_.unclosed_positions ≠ [] :=
  ⟨tiny_goThroughTicks refHeap, tinyBook2_onTick refHeap, rfl, tiny_run refHeap, rfl,
    by simp [TradingManager.end_, tinyBookLate]⟩

/-- The claim C13, amended, at the manager holding the long position with
stop-loss 0.9 and the short position, and the tick of bid 0.5 and ask 0.5. -/
theorem nonpositive_balance_ends_run_witness :
    Reachable refHeap tinyBook2 ∧
    (tinyBook2.onTick refHeap tickHalf).1 = AccountState.NONPOSITIVE_ACCOUNT_BALANCE ∧
    (tinyBook2.onTick refHeap tickHalf).2._positions = [] ∧
    (∀ (σ : Type) (robot : ATS σ) (st : σ),
      StrategyTester.handleTick refHeap robot tinyBook2 st tickHalf =
        some (false, (tinyBook2.onTick refHeap tickHalf).2, st)) :=
  ⟨tinyBook2_reachable refHeap, by rw [tinyBook2_onTick],
    (nonpositive_balance_ends_run refHeap tinyBook2 (tinyBook2_reachable refHeap) tickHalf
      (by rw [tinyBook2_onTick])).1.1,
    (nonpositive_balance_ends_run refHeap tinyBook2 (tinyBook2_reachable refHeap) tickHalf
      (by rw [tinyBook2_onTick])).2.2.2.1⟩


/-! ## The equity after a close within the tick -/

theorem longBook_onTick_quiet (H : StdHeap) :
    (longBook 0).onTick H tickQuiet = (AccountState.OK, longBookQuiet) := by
  have e1 : checkEvents H .stoploss true tickQuiet.bid ((longBook 0).withTick tickQuiet)
      = (longBook 0).withTick tickQuiet :=
    checkEvents_top_false H .stoploss true _
      (show ((longBook 0).withTick tickQuiet).queue .stoploss true
        = (⟨1, longPosition 0⟩ : Node) :: [] from rfl)
      (by
        simp only [EventKind.predicate, EventKind.traits, StoplossManager, if_true,
          LongStoplossPredicate, longPosition, tickQuiet]
        norm_num)
  have e2 : checkEvents H .stoploss false tickQuiet.ask ((longBook 0).withTick tickQuiet)
      = (longBook 0).withTick tickQuiet :=
    checkEvents_nil H .stoploss false _ rfl
  have e3 : checkEvents H .takeprofit true tickQuiet.bid ((longBook 0).withTick tickQuiet)
      = (longBook 0).withTick tickQuiet :=
    checkEvents_top_false H .takeprofit true _
      (show ((longBook 0).withTick tickQuiet).queue .takeprofit true
        = (⟨1, longPosition 0⟩ : Node) :: [] from rfl)
      (by
        simp only [EventKind.predicate, EventKind.traits, TakeprofitManager, if_true,
          LongTakeprofitPredicate, longPosition, tickQuiet]
        norm_num)
  have e4 : checkEvents H .takeprofit false tickQuiet.ask ((longBook 0).withTick tickQuiet)
      = (longBook 0).withTick tickQuiet :=
    checkEvents_nil H .takeprofit false _ rfl
  have hE : (longBook 0).afterEvents H tickQuiet = (longBook 0).withTick tickQuiet := by
    simp only [afterEvents, eventsOnTick, e1, e2, e3, e4]
  have hL : (longBook 0).afterLedger H tickQuiet = longBookQuiet := by
    rw [afterLedger, hE]
    simp [AccountBalanceManager.onTick, AccountBalanceManager.updateOpenPositionEquity,
      withTick, longBook, tickQuiet, longBookQuiet]
    norm_num
  have hc : longBookQuiet._account_manager.classify = AccountState.OK := by
    rw [classify_of_used_margin]
    · simp [longBookQuiet, AccountBalanceManager.getTotalEquity,
        AccountBalanceManager.getTotalExpenses]
      norm_num
    · simp [longBookQuiet]
    · simp [longBookQuiet, AccountBalanceManager.getTotalExpenses]
  have h1 := onTick_fst H (longBook 0) tickQuiet
  have h2 := onTick_snd H (longBook 0) tickQuiet
  rw [hL, hc] at h1 h2
  exact Prod.ext h1 h2

theorem longBookQuiet_closePositionById (H : StdHeap) :
    longBookQuiet.closePositionById H 0 = some longBookQuietClosed := by
  have hf : mapFind longBookQuiet._position_iterators_by_id 0 = some ⟨1, longPosition 0⟩ := by
    simp [mapFind, longBookQuiet]
  have hu : longBookQuiet.unregisterPositionEvents H ⟨1, longPosition 0⟩ =
      { longBookQuiet with _stoploss_manager := {}, _takeprofit_manager := {} } := by
    have h1 : (longPosition 0).hasStoploss = true := by
      simp only [Position.hasStoploss, longPosition]; norm_num
    have h2 : (longPosition 0).hasTakeprofit = true := by
      simp only [Position.hasTakeprofit, longPosition]; norm_num
    have h3 : (longPosition 0).is_long = true := rfl
    simp only [unregisterPositionEvents, h1, h2, if_true, PriceEventManager.remove, h3,
      longBookQuiet, StoplossManager, TakeprofitManager,
      queue_remove_singleton H strictWeak_longStoploss,
      queue_remove_singleton H strictWeak_longTakeprofit]
  simp only [closePositionById, hf, hu]
  simp only [closePosition, tradeOf, longBookQuiet, longPosition, tickQuiet, mapErase,
    AccountBalanceManager.realizePosition, Trade.calculateProfit, longBookQuietClosed,
    longTradeQuiet]
  norm_num

/-- C15, the code at a close within the tick: a fresh default account opens the
long position of volume 100 at an ask of 1; the tick of bid 1.01 fires no event
and leaves an equity of 10001, the balance plus the unrealized profit 1; after
`closePosition(0)` within that tick no position is open and the balance is
10001, but `getEquity()`, and the `total_equity` of the results, is 10002. -/
theorem getEquity_stale_after_close :
    (TradingManager.init {} 0 tickAt1).tryCreatePosition refHeap longOrder =
      (true, some (0 % 2 ^ 64), longBook 0) ∧
    (longBook 0).onTick refHeap tickQuiet = (AccountState.OK, longBookQuiet) ∧
    longBookQuiet.getEquity = 10001 ∧
    longBookQuiet.closePositionById refHeap 0 = some longBookQuietClosed ∧
    longBookQuietClosed._positions = [] ∧
    longBookQuietClosed.getBalance = 10001 ∧
    longBookQuietClosed.getEquity = 10002 ∧
    longBookQuietClosed.end_.unclosed_positions = [] ∧
    longBookQuietClosed.end_.account_balance = 10001 ∧
    longBookQuietClosed.end_.total_equity = 10002 := by
  refine ⟨longBook_open refHeap 0, longBook_onTick_quiet refHeap, ?_,
    longBookQuiet_closePositionById refHeap, rfl, rfl, ?_, rfl, rfl, ?_⟩
  · simp [TradingManager.getEquity, AccountBalanceManager.getTotalEquity, longBookQuiet]
    norm_num
  · simp [TradingManager.getEquity, AccountBalanceManager.getTotalEquity, longBookQuietClosed]
    norm_num
  · simp [TradingManager.end_, AccountBalanceManager.getTotalEquity, longBookQuietClosed]
    norm_num


/-! ## Bars -/

theorem timeframe_durations_pos (timeframe : Timeframe) : 0 < timeframe_durations timeframe := by
  cases timeframe <;> simp [timeframe_durations]

theorem calculateBarsLoop_length (s : Int) (k : Nat) (hs : 0 < s) (hk : 0 < k) :
    ∀ (rest : List Tick) (bar : Bar) (bars : List Bar) (c : Nat), 1 ≤ c → c ≤ k →
      (∀ (j : Nat) (hj : j < rest.length),
        (rest.get ⟨j, hj⟩).timestamp = bar.open_timestamp + ((c + j : Nat) : Int) * s) →
      (calculateBarsLoop (k * s) rest bar bars).length =
        bars.length + 1 + (c + rest.length - 1) / k := by
  intro rest
  induction rest with
  | nil =>
    intro bar bars c hc1 hck _
    have : (c - 1) / k = 0 := Nat.div_eq_of_lt (by omega)
    simp [calculateBarsLoop, this]
  | cons tick rest ih =>
    intro bar bars c hc1 hck hts
    have h0 := hts 0 (by simp)
    simp only [List.get_eq_getElem, List.getElem_cons_zero, Nat.add_zero] at h0
    have hrest : ∀ (j : Nat) (hj : j < rest.length),
        (rest.get ⟨j, hj⟩).timestamp = bar.open_timestamp + ((c + (j + 1) : Nat) : Int) * s := by
      intro j hj
      have := hts (j + 1) (by simpa using hj)
      simpa using this
    by_cases hck' : c = k
    · have hcond : tick.timestamp - bar.open_timestamp ≥ (k : Int) * s := by
        rw [h0, hck']
        simp
      simp only [calculateBarsLoop, hcond, if_true]
      have hnew : ∀ (j : Nat) (hj : j < rest.length),
          (rest.get ⟨j, hj⟩).timestamp =
            (Bar.openBar tick).open_timestamp + ((1 + j : Nat) : Int) * s := by
        intro j hj
        rw [hrest j hj]
        simp only [Bar.openBar, h0]
        push_cast
        ring
      rw [ih (Bar.openBar tick) (bars ++ [bar]) 1 (le_refl 1) hk hnew]
      simp only [List.length_append, List.length_cons, List.length_nil]
      have e1 : (1 + rest.length - 1) / k + 1 = (c + (rest.length + 1) - 1) / k := by
        rw [hck']
        have : k + (rest.length + 1) - 1 = rest.length + k := by omega
        rw [this, Nat.add_div_right _ hk]
        have : 1 + rest.length - 1 = rest.length := by omega
        rw [this]
      omega
    · have hlt : c < k := lt_of_le_of_ne hck hck'
      have hcond : ¬ tick.timestamp - bar.open_timestamp ≥ (k : Int) * s := by
        rw [h0]
        simp only [add_sub_cancel_left, ge_iff_le, not_le]
        exact mul_lt_mul_of_pos_right (by exact_mod_cast hlt) hs
      simp only [calculateBarsLoop, hcond, if_false]
      have hnew : ∀ (j : Nat) (hj : j < rest.length),
          (rest.get ⟨j, hj⟩).timestamp =
            (bar.addTick tick).open_timestamp + ((c + 1 + j : Nat) : Int) * s := by
        intro j hj
        rw [hrest j hj]
        simp only [Bar.addTick]
        push_cast
        ring
      rw [ih (bar.addTick tick) bars (c + 1) (by omega) (by omega) hnew]
      simp only [List.length_cons]
      have : c + 1 + rest.length - 1 = c + (rest.length + 1) - 1 := by omega
      rw [this]

theorem calculateBars_uniform_length (timeframe : Timeframe) (ticks : List Tick) (t0 s : Int)
    (k : Nat) (hne : ticks ≠ []) (hk : 0 < k)
    (hd : timeframe_durations timeframe = (k : Int) * s)
    (hts : ∀ (i : Nat) (hi : i < ticks.length),
      (ticks.get ⟨i, hi⟩).timestamp = t0 + (i : Int) * s) :
    (calculateBars timeframe ticks).length = (ticks.length + k - 1) / k := by
  have hs : 0 < s := by
    have h1 := timeframe_durations_pos timeframe
    rw [hd] at h1
    have hk' : (0 : Int) < k := by exact_mod_cast hk
    exact (mul_pos_iff_of_pos_left hk').mp h1
  cases ticks with
  | nil => exact absurd rfl hne
  | cons front rest =>
    have h0 := hts 0 (by simp)
    simp only [List.get_eq_getElem, List.getElem_cons_zero, Nat.cast_zero, zero_mul,
      add_zero] at h0
    have hrest : ∀ (j : Nat) (hj : j < rest.length),
        (rest.get ⟨j, hj⟩).timestamp =
          (Bar.openBar front).open_timestamp + ((1 + j : Nat) : Int) * s := by
      intro j hj
      have := hts (j + 1) (by simpa using hj)
      simp only [List.get_eq_getElem, List.getElem_cons_succ] at this
      simp only [List.get_eq_getElem, this, Bar.openBar, h0]
      push_cast
      ring
    simp only [calculateBars, hd]
    rw [calculateBarsLoop_length s k hs hk rest (Bar.openBar front) [] 1 (le_refl 1) hk hrest]
    simp only [List.length_nil, List.length_cons, Nat.zero_add]
    have e1 : 1 + rest.length - 1 = rest.length := by omega
    have e2 : rest.length + 1 + k - 1 = rest.length + k := by omega
    rw [e1, e2, Nat.add_div_right _ hk]
    omega

theorem bucketTicks_timestamp (now : Int) (i : Nat) (hi : i < (bucketTicks now).length) :
    ((bucketTicks now).get ⟨i, hi⟩).timestamp = now + (i : Int) * 30000 := by
  simp only [bucketTicks, List.get_eq_getElem, List.getElem_map, List.getElem_range]
  ring

/-- C18 (bar count): `calculateBars` returns the empty series for an empty tick
list, for every timeframe; for `n >= 1` ticks whose timestamps are
`t0, t0 + s, t0 + 2 s, ...` and a timeframe whose duration is `k * s`, with `k`
a positive integer, it returns `(n + k - 1) / k` bars, the ceiling of `n / k`.
The 20 ticks 30 seconds apart of the bucketing test give 10 bars for MIN1, 2 for
MIN5 and 1 for MIN15. -/
theorem calculateBars_count (timeframe : Timeframe) :
    calculateBars timeframe [] = [] ∧
    (∀ (ticks : List Tick) (t0 s : Int) (k : Nat), ticks ≠ [] → 0 < k →
      timeframe_durations timeframe = (k : Int) * s →
      (∀ (i : Nat) (hi : i < ticks.length),
        (ticks.get ⟨i, hi⟩).timestamp = t0 + (i : Int) * s) →
      (calculateBars timeframe ticks).length = (ticks.length + k - 1) / k) ∧
    (∀ now : Int,
      (calculateBars Timeframe.MIN1 (bucketTicks now)).length = 10 ∧
      (calculateBars Timeframe.MIN5 (bucketTicks now)).length = 2 ∧
      (calculateBars Timeframe.MIN15 (bucketTicks now)).length = 1) := by
  refine ⟨rfl, fun ticks t0 s k hne hk hd hts =>
    calculateBars_uniform_length timeframe ticks t0 s k hne hk hd hts, fun now => ?_⟩
  have hne : bucketTicks now ≠ [] := by simp [bucketTicks]
  have hl : (bucketTicks now).length = 20 := by simp [bucketTicks]
  refine ⟨?_, ?_, ?_⟩
  · rw [calculateBars_uniform_length Timeframe.MIN1 (bucketTicks now) now 30000 2 hne
      (by norm_num) (by norm_num [timeframe_durations]) (bucketTicks_timestamp now), hl]
  · rw [calculateBars_uniform_length Timeframe.MIN5 (bucketTicks now) now 30000 10 hne
      (by norm_num) (by norm_num [timeframe_durations]) (bucketTicks_timestamp now), hl]
  · rw [calculateBars_uniform_length Timeframe.MIN15 (bucketTicks now) now 30000 30 hne
      (by norm_num) (by norm_num [timeframe_durations]) (bucketTicks_timestamp now), hl]

/-- The claim C18 at the 20 ticks of the bucketing test and the timeframe MIN1. -/
theorem calculateBars_count_witness :
    bucketTicks 0 ≠ [] ∧ 0 < 2 ∧ timeframe_durations Timeframe.MIN1 = ((2 : Nat) : Int) * 30000 ∧
    (calculateBars Timeframe.MIN1 (bucketTicks 0)).length = ((bucketTicks 0).length + 2 - 1) / 2 :=
  ⟨by simp [bucketTicks], by norm_num, by norm_num [timeframe_durations],
    (calculateBars_count Timeframe.MIN1).2.1 (bucketTicks 0) 0 30000 2 (by simp [bucketTicks])
      (by norm_num) (by norm_num [timeframe_durations]) (bucketTicks_timestamp 0)⟩


/-! ## The ticks folded into the bars -/

theorem foldedBarsLoop_fst (d : Int) :
    ∀ (rest : List Tick) (cur : Bar × List Tick) (done : List (Bar × List Tick)),
      (foldedBarsLoop d rest cur done).map Prod.fst =
        calculateBarsLoop d rest cur.1 (done.map Prod.fst) := by
  intro rest
  induction rest with
  | nil => intro cur done; simp [foldedBarsLoop, calculateBarsLoop]
  | cons tick rest ih =>
    intro cur done
    by_cases hc : tick.timestamp - cur.1.open_timestamp ≥ d
    · simp only [foldedBarsLoop, calculateBarsLoop, hc, if_true, ih]
      simp
    · simp only [foldedBarsLoop, calculateBarsLoop, hc, if_false, ih]

theorem foldedBars_fst (timeframe : Timeframe) (ticks : List Tick) :
    (foldedBars timeframe ticks).map Prod.fst = calculateBars timeframe ticks := by
  cases ticks with
  | nil => rfl
  | cons front rest =>
    simp only [foldedBars, calculateBars, foldedBarsLoop_fst]
    rfl

theorem foldedBarsLoop_flatten (d : Int) :
    ∀ (rest : List Tick) (cur : Bar × List Tick) (done : List (Bar × List Tick)),
      ((foldedBarsLoop d rest cur done).map Prod.snd).flatten =
        (done.map Prod.snd).flatten ++ cur.2 ++ rest := by
  intro rest
  induction rest with
  | nil => intro cur done; simp [foldedBarsLoop]
  | cons tick rest ih =>
    intro cur done
    by_cases hc : tick.timestamp - cur.1.open_timestamp ≥ d
    · simp only [foldedBarsLoop, hc, if_true, ih]
      simp
    · simp only [foldedBarsLoop, hc, if_false, ih]
      simp

theorem foldedBars_flatten (timeframe : Timeframe) (ticks : List Tick) :
    ((foldedBars timeframe ticks).map Prod.snd).flatten = ticks := by
  cases ticks with
  | nil => rfl
  | cons front rest =>
    simp only [foldedBars, foldedBarsLoop_flatten]
    simp

theorem isFold_openBar (tick : Tick) : IsFold (Bar.openBar tick, [tick]) := by
  simp [IsFold, Bar.openBar]

theorem isFold_addTick {e : Bar × List Tick} (h : IsFold e) (tick : Tick) :
    IsFold (e.1.addTick tick, e.2 ++ [tick]) := by
  obtain ⟨h1, h2, h3, h4, h5, h6, h7, h8⟩ := h
  obtain ⟨b, g⟩ := e
  cases g with
  | nil => simp at h1
  | cons t ts =>
    simp only [List.head?_cons, Option.map_some', Option.some.injEq] at h1 h2
    refine ⟨?_, ?_, ?_, ?_, ?_, ?_, ?_, ?_⟩
    · simpa [Bar.addTick] using h1
    · simpa [Bar.addTick] using h2
    · show ((t :: ts) ++ [tick]).getLast?.map (fun t => t.bid) = some tick.bid
      rw [List.getLast?_append]
      simp
    · simp only [Bar.addTick, List.length_append, List.length_cons, List.length_nil]
      simp only [List.length_cons] at h4
      omega
    · exact le_trans (min_le_left _ _) h5
    · exact le_trans h6 (le_max_left _ _)
    · exact min_le_right _ _
    · exact le_max_right _ _

theorem foldedBarsLoop_isFold (d : Int) :
    ∀ (rest : List Tick) (cur : Bar × List Tick) (done : List (Bar × List Tick)),
      (∀ e ∈ done, IsFold e) → IsFold cur →
      ∀ e ∈ foldedBarsLoop d rest cur done, IsFold e := by
  intro rest
  induction rest with
  | nil =>
    intro cur done hd hc e he
    simp only [foldedBarsLoop, List.mem_append, List.mem_singleton] at he
    rcases he with he | rfl
    · exact hd e he
    · exact hc
  | cons tick rest ih =>
    intro cur done hd hc
    by_cases hcond : tick.timestamp - cur.1.open_timestamp ≥ d
    · simp only [foldedBarsLoop, hcond, if_true]
      refine ih _ _ ?_ (isFold_openBar tick)
      intro e he
      simp only [List.mem_append, List.mem_singleton] at he
      rcases he with he | rfl
      · exact hd e he
      · exact hc
    · simp only [foldedBarsLoop, hcond, if_false]
      exact ih _ _ hd (isFold_addTick hc tick)

theorem foldedBars_isFold (timeframe : Timeframe) (ticks : List Tick) :
    ∀ e ∈ foldedBars timeframe ticks, IsFold e := by
  cases ticks with
  | nil => intro e he; simp [foldedBars] at he
  | cons front rest =>
    exact foldedBarsLoop_isFold _ rest _ [] (by simp) (isFold_openBar front)

theorem foldedBarsLoop_window (d : Int) (hd : 0 < d) :
    ∀ (rest : List Tick) (cur : Bar × List Tick) (done : List (Bar × List Tick)),
      rest.Pairwise (fun a b => a.timestamp ≤ b.timestamp) →
      (∀ t ∈ rest, cur.1.open_timestamp ≤ t.timestamp) →
      InWindow d cur → (∀ e ∈ done, InWindow d e) →
      done.Pairwise (fun a b => a.1.open_timestamp + d ≤ b.1.open_timestamp) →
      (∀ a ∈ done, a.1.open_timestamp + d ≤ cur.1.open_timestamp) →
      (foldedBarsLoop d rest cur done).Pairwise
          (fun a b => a.1.open_timestamp + d ≤ b.1.open_timestamp) ∧
        ∀ e ∈ foldedBarsLoop d rest cur done, InWindow d e := by
  intro rest
  induction rest with
  | nil =>
    intro cur done _ _ hw hdw hp hg
    simp only [foldedBarsLoop]
    refine ⟨?_, ?_⟩
    · rw [List.pairwise_append]
      refine ⟨hp, List.pairwise_singleton _ _, ?_⟩
      intro a ha b hb
      rw [List.mem_singleton.mp hb]
      exact hg a ha
    · intro e he
      simp only [List.mem_append, List.mem_singleton] at he
      rcases he with he | rfl
      · exact hdw e he
      · exact hw
  | cons tick rest ih =>
    intro cur done hs hle hw hdw hp hg
    have hs' := (List.pairwise_cons.mp hs).2
    have hfirst := (List.pairwise_cons.mp hs).1
    by_cases hcond : tick.timestamp - cur.1.open_timestamp ≥ d
    · simp only [foldedBarsLoop, hcond, if_true]
      refine ih _ _ hs' ?_ ?_ ?_ ?_ ?_
      · intro t ht
        exact hfirst t ht
      · intro t ht
        rw [List.mem_singleton.mp ht]
        simp only [Bar.openBar]
        constructor <;> omega
      · intro e he
        simp only [List.mem_append, List.mem_singleton] at he
        rcases he with he | rfl
        · exact hdw e he
        · exact hw
      · rw [List.pairwise_append]
        refine ⟨hp, List.pairwise_singleton _ _, ?_⟩
        intro a ha b hb
        rw [List.mem_singleton.mp hb]
        exact hg a ha
      · intro a ha
        simp only [List.mem_append, List.mem_singleton] at ha
        simp only [Bar.openBar]
        rcases ha with ha | rfl
        · have := hg a ha
          omega
        · omega
    · simp only [foldedBarsLoop, hcond, if_false]
      refine ih _ _ hs' ?_ ?_ hdw hp ?_
      · intro t ht
        exact hle t (List.mem_cons_of_mem _ ht)
      · intro t ht
        simp only [List.mem_append, List.mem_singleton] at ht
        rcases ht with ht | rfl
        · exact hw t ht
        · have := hle t (List.mem_cons_self _ _)
          simp only [Bar.addTick]
          constructor <;> omega
      · intro a ha
        exact hg a ha

theorem foldedBars_window (timeframe : Timeframe) (ticks : List Tick)
    (hs : ticks.Pairwise (fun a b => a.timestamp ≤ b.timestamp)) :
    (foldedBars timeframe ticks).Pairwise
        (fun a b => a.1.open_timestamp + timeframe_durations timeframe ≤ b.1.open_timestamp) ∧
      ∀ e ∈ foldedBars timeframe ticks, InWindow (timeframe_durations timeframe) e := by
  cases ticks with
  | nil => simp [foldedBars]
  | cons front rest =>
    have hd := timeframe_durations_pos timeframe
    refine foldedBarsLoop_window _ hd rest _ [] (List.pairwise_cons.mp hs).2 ?_ ?_ (by simp)
      List.Pairwise.nil (by simp)
    · intro t ht
      exact (List.pairwise_cons.mp hs).1 t ht
    · intro t ht
      rw [List.mem_singleton.mp ht]
      simp only [Bar.openBar]
      constructor <;> omega

/-- C19 (bar round-trip): for ticks with non-decreasing timestamps and every
timeframe, with `foldedBars` pairing every bar of `calculateBars` with the ticks
folded into it (every tick is in the list of one bar, in order): a bar's
interval `[open_timestamp, open_timestamp + duration)` ends before the interval
of every later bar begins, so the intervals are pairwise disjoint and the open
timestamps strictly increase; the timestamp of every tick lies in the interval
of the bar it was folded into, and in the interval of no other bar. -/
theorem calculateBars_intervals (timeframe : Timeframe) (ticks : List Tick)
    (hs : ticks.Pairwise (fun a b => a.timestamp ≤ b.timestamp)) :
    (foldedBars timeframe ticks).map Prod.fst = calculateBars timeframe ticks ∧
    ((foldedBars timeframe ticks).map Prod.snd).flatten = ticks ∧
    (calculateBars timeframe ticks).Pairwise
      (fun a b => a.open_timestamp + timeframe_durations timeframe ≤ b.open_timestamp) ∧
    (calculateBars timeframe ticks).Pairwise
      (fun a b => ∀ x : Int,
        ¬ ((a.open_timestamp ≤ x ∧ x < a.open_timestamp + timeframe_durations timeframe) ∧
          (b.open_timestamp ≤ x ∧ x < b.open_timestamp + timeframe_durations timeframe))) ∧
    (calculateBars timeframe ticks).Pairwise (fun a b => a.open_timestamp < b.open_timestamp) ∧
    (∀ e ∈ foldedBars timeframe ticks, ∀ t ∈ e.2,
      e.1.open_timestamp ≤ t.timestamp ∧
        t.timestamp < e.1.open_timestamp + timeframe_durations timeframe) ∧
    (∀ e ∈ foldedBars timeframe ticks, ∀ t ∈ e.2, ∀ b ∈ calculateBars timeframe ticks,
      b.open_timestamp ≤ t.timestamp →
      t.timestamp < b.open_timestamp + timeframe_durations timeframe → b = e.1) := by
  have hd := timeframe_durations_pos timeframe
  obtain ⟨hp, hw⟩ := foldedBars_window timeframe ticks hs
  have hgap : (calculateBars timeframe ticks).Pairwise
      (fun a b => a.open_timestamp + timeframe_durations timeframe ≤ b.open_timestamp) := by
    rw [← foldedBars_fst]
    exact List.pairwise_map.mpr hp
  refine ⟨foldedBars_fst timeframe ticks, foldedBars_flatten timeframe ticks, hgap,
    hgap.imp ?_, hgap.imp ?_, hw, ?_⟩
  · intro a b hab x hx
    omega
  · intro a b hab
    omega
  · intro e he t ht b hb h1 h2
    by_contra hne
    have he1 : e.1 ∈ calculateBars timeframe ticks := by
      rw [← foldedBars_fst]
      exact List.mem_map_of_mem _ he
    have hsym : (calculateBars timeframe ticks).Pairwise
        (fun a b => a.open_timestamp + timeframe_durations timeframe ≤ b.open_timestamp ∨
          b.open_timestamp + timeframe_durations timeframe ≤ a.open_timestamp) :=
      hgap.imp (fun h => Or.inl h)
    have := List.Pairwise.forall (fun a b h => Or.symm h) hsym hb he1 hne
    have hwt := hw e he t ht
    omega

/-- The claim C19 at the 20 ticks of the bucketing test and the timeframe MIN1. -/
theorem calculateBars_intervals_witness :
    (bucketTicks 0).Pairwise (fun a b => a.timestamp ≤ b.timestamp) ∧
    (calculateBars Timeframe.MIN1 (bucketTicks 0)).Pairwise
      (fun a b => a.open_timestamp < b.open_timestamp) :=
  have hs : (bucketTicks 0).Pairwise (fun a b => a.timestamp ≤ b.timestamp) := by
    unfold bucketTicks
    rw [List.pairwise_map]
    refine (List.pairwise_lt_range 20).imp ?_
    intro a b hab
    simp only
    omega
  ⟨hs, (calculateBars_intervals Timeframe.MIN1 (bucketTicks 0) hs).2.2.2.2.1⟩

/-- C20 (bar folding): with `foldedBars` pairing every bar of `calculateBars` with
the ticks folded into it, every bar has at least one tick, its low is at most its
open and its close, which are at most its high, its open is the price (the bid)
of the first tick folded into it and its close that of the last, and its
`tick_volume` is the number of ticks folded into it; the tick volumes of all
bars sum to the number of ticks. -/
theorem calculateBars_folding (timeframe : Timeframe) (ticks : List Tick) :
    (foldedBars timeframe ticks).map Prod.fst = calculateBars timeframe ticks ∧
    ((foldedBars timeframe ticks).map Prod.snd).flatten = ticks ∧
    (∀ e ∈ foldedBars timeframe ticks,
      e.2 ≠ [] ∧
      e.1.low ≤ e.1.open_ ∧ e.1.open_ ≤ e.1.high ∧
      e.1.low ≤ e.1.close ∧ e.1.close ≤ e.1.high ∧
      e.2.head?.map (fun t => t.bid) = some e.1.open_ ∧
      e.2.getLast?.map (fun t => t.bid) = some e.1.close ∧
      e.1.tick_volume = e.2.length) ∧
    (∀ b ∈ calculateBars timeframe ticks,
      b.low ≤ b.open_ ∧ b.open_ ≤ b.high ∧ b.low ≤ b.close ∧ b.close ≤ b.high) ∧
    ((calculateBars timeframe ticks).map (fun b => b.tick_volume)).sum = ticks.length := by
  have hf := foldedBars_isFold timeframe ticks
  refine ⟨foldedBars_fst timeframe ticks, foldedBars_flatten timeframe ticks, ?_, ?_, ?_⟩
  · intro e he
    obtain ⟨h1, h2, h3, h4, h5, h6, h7, h8⟩ := hf e he
    refine ⟨?_, h5, h6, h7, h8, h2, h3, h4⟩
    intro hnil
    rw [hnil] at h1
    simp at h1
  · intro b hb
    rw [← foldedBars_fst] at hb
    obtain ⟨e, he, rfl⟩ := List.mem_map.mp hb
    obtain ⟨_, _, _, _, h5, h6, h7, h8⟩ := hf e he
    exact ⟨h5, h6, h7, h8⟩
  · have e1 : ((calculateBars timeframe ticks).map (fun b => b.tick_volume)).sum =
        (((foldedBars timeframe ticks).map Prod.snd).map List.length).sum := by
      rw [← foldedBars_fst, List.map_map, List.map_map]
      congr 1
      apply List.map_congr_left
      intro e he
      exact (hf e he).2.2.2.1
    rw [e1, ← List.length_flatten, foldedBars_flatten]


/-! ## The bar lookup -/

theorem intOfSize_pred (k : Nat) (hk : k ≤ 2 ^ 31) :
    intOfSize ((k + (2 ^ 64 - 1)) % 2 ^ 64) = (k : Int) - 1 := by
  unfold intOfSize
  rcases Nat.eq_zero_or_pos k with h0 | hpos
  · subst h0
    norm_num
  · have e : (k + (2 ^ 64 - 1)) % 2 ^ 64 = k - 1 := by
      have : k + (2 ^ 64 - 1) = (k - 1) + 2 ^ 64 := by omega
      rw [this, Nat.add_mod_right, Nat.mod_eq_of_lt (by omega)]
    rw [e]
    have e2 : (k - 1) % 2 ^ 32 = k - 1 := Nat.mod_eq_of_lt (by omega)
    rw [e2]
    have : k - 1 < 2 ^ 31 := by omega
    simp only [this, if_true]
    omega

theorem find_index_of_bar_before_loop_eq (tp : Int) :
    ∀ (bars : List Bar) (i : Nat),
      find_index_of_bar_before_loop tp bars i =
        intOfSize ((i + (bars.takeWhile (fun b => decide (b.open_timestamp ≤ tp))).length
          + (2 ^ 64 - 1)) % 2 ^ 64) := by
  intro bars
  induction bars with
  | nil => intro i; simp [find_index_of_bar_before_loop]
  | cons bar rest ih =>
    intro i
    by_cases h : bar.open_timestamp > tp
    · have h' : ¬ bar.open_timestamp ≤ tp := not_le.mpr h
      simp [find_index_of_bar_before_loop, h, List.takeWhile_cons, h']
    · have h' : bar.open_timestamp ≤ tp := not_lt.mp h
      simp only [find_index_of_bar_before_loop, h, if_false, ih, List.takeWhile_cons, h',
        decide_True, if_true, List.length_cons]
      congr 2
      omega

/-- The scan returns one less than the number of leading bars that open at or
before `tp`. -/
theorem find_index_of_bar_before_eq (bars : List Bar) (tp : Int)
    (hlen : bars.length ≤ 2 ^ 31) :
    find_index_of_bar_before bars tp =
      ((bars.takeWhile (fun b => decide (b.open_timestamp ≤ tp))).length : Int) - 1 := by
  unfold find_index_of_bar_before
  rw [find_index_of_bar_before_loop_eq, Nat.zero_add]
  exact intOfSize_pred _ (le_trans (List.takeWhile_sublist _).length_le hlen)

theorem sorted_takeWhile_iff (tp : Int) :
    ∀ (bars : List Bar), bars.Pairwise (fun a b => a.open_timestamp ≤ b.open_timestamp) →
      ∀ (i : Nat) (hi : i < bars.length),
        ((bars.get ⟨i, hi⟩).open_timestamp ≤ tp ↔
          i < (bars.takeWhile (fun b => decide (b.open_timestamp ≤ tp))).length) := by
  intro bars
  induction bars with
  | nil => intro _ i hi; simp at hi
  | cons b rest ih =>
    intro hs i hi
    have hs' := (List.pairwise_cons.mp hs).2
    have hfirst := (List.pairwise_cons.mp hs).1
    by_cases hb : b.open_timestamp ≤ tp
    · cases i with
      | zero => simp [List.takeWhile_cons, hb]
      | succ j =>
        have hj : j < rest.length := by simpa using hi
        have := ih hs' j hj
        simp only [List.get_eq_getElem] at this
        simp [List.takeWhile_cons, hb, this]
    · cases i with
      | zero => simp [List.takeWhile_cons, hb]
      | succ j =>
        have hj : j < rest.length := by simpa using hi
        have hle := hfirst _ (List.getElem_mem hj)
        simp only [List.get_eq_getElem, List.getElem_cons_succ, List.takeWhile_cons, hb,
          decide_False, Bool.false_eq_true, if_false, List.length_nil, Nat.not_lt_zero,
          iff_false, not_le]
        omega

theorem upperBoundLoop_eq (bars : List Bar) (tp : Int)
    (hs : bars.Pairwise (fun a b => a.open_timestamp ≤ b.open_timestamp)) :
    ∀ (fuel lo hi : Nat),
      lo ≤ (bars.takeWhile (fun b => decide (b.open_timestamp ≤ tp))).length →
      (bars.takeWhile (fun b => decide (b.open_timestamp ≤ tp))).length ≤ hi →
      hi ≤ bars.length → hi - lo ≤ fuel →
      upperBoundLoop bars tp fuel lo hi =
        (bars.takeWhile (fun b => decide (b.open_timestamp ≤ tp))).length := by
  intro fuel
  induction fuel with
  | zero =>
    intro lo hi h1 h2 _ h4
    simp only [upperBoundLoop]
    omega
  | succ fuel ih =>
    intro lo hi h1 h2 h3 h4
    by_cases hlt : lo < hi
    · have hmid : lo + (hi - lo) / 2 < bars.length := by omega
      have hget : bars[lo + (hi - lo) / 2]? = some (bars.get ⟨lo + (hi - lo) / 2, hmid⟩) := by
        simp [List.getElem?_eq_getElem hmid]
      have hiff := sorted_takeWhile_iff tp bars hs (lo + (hi - lo) / 2) hmid
      simp only [upperBoundLoop, hlt, if_true, hget]
      by_cases hgt : (bars.get ⟨lo + (hi - lo) / 2, hmid⟩).open_timestamp > tp
      · simp only [hgt, if_true]
        have : ¬ lo + (hi - lo) / 2 <
            (bars.takeWhile (fun b => decide (b.open_timestamp ≤ tp))).length := by
          rw [← hiff]
          omega
        exact ih lo _ h1 (by omega) (by omega) (by omega)
      · simp only [hgt, if_false]
        have : lo + (hi - lo) / 2 <
            (bars.takeWhile (fun b => decide (b.open_timestamp ≤ tp))).length := by
          rw [← hiff]
          omega
        exact ih _ hi (by omega) h2 h3 (by omega)
    · simp only [upperBoundLoop, hlt, if_false]
      omega

/-- C23 (bar lookup): for a series sorted by `open_timestamp`, of at most `2^31`
bars so that its indices fit the `int` result, `find_index_of_bar_before`
returns the index `r` such that the bars that open at or before `tp` are those
of index at most `r`, that is the largest such index: -1 when no bar
qualifies, `size - 1` when all do; it is the index the binary search with the
same tie-breaking returns. -/
theorem find_index_of_bar_before_largest (bars : List Bar) (tp : Int)
    (hs : bars.Pairwise (fun a b => a.open_timestamp ≤ b.open_timestamp))
    (hlen : bars.length ≤ 2 ^ 31) :
    -1 ≤ find_index_of_bar_before bars tp ∧
    find_index_of_bar_before bars tp < bars.length ∧
    (∀ (i : Nat) (hi : i < bars.length),
      (bars.get ⟨i, hi⟩).open_timestamp ≤ tp ↔ (i : Int) ≤ find_index_of_bar_before bars tp) ∧
    ((∀ b ∈ bars, ¬ b.open_timestamp ≤ tp) → find_index_of_bar_before bars tp = -1) ∧
    ((∀ b ∈ bars, b.open_timestamp ≤ tp) →
      find_index_of_bar_before bars tp = (bars.length : Int) - 1) ∧
    find_index_of_bar_before bars tp = binarySearchBefore bars tp := by
  have e := find_index_of_bar_before_eq bars tp hlen
  have hle : (bars.takeWhile (fun b => decide (b.open_timestamp ≤ tp))).length ≤ bars.length :=
    (List.takeWhile_sublist _).length_le
  refine ⟨by rw [e]; omega, by rw [e]; omega, ?_, ?_, ?_, ?_⟩
  · intro i hi
    rw [e, sorted_takeWhile_iff tp bars hs i hi]
    omega
  · intro hnone
    rw [e]
    cases bars with
    | nil => simp
    | cons b rest =>
      have := hnone b (List.mem_cons_self _ _)
      simp [List.takeWhile_cons, this]
  · intro hall
    rw [e]
    have : bars.takeWhile (fun b => decide (b.open_timestamp ≤ tp)) = bars := by
      rw [List.takeWhile_eq_self_iff]
      intro b hb
      simpa using hall b hb
    rw [this]
  · rw [e, binarySearchBefore,
      upperBoundLoop_eq bars tp hs bars.length 0 bars.length (Nat.zero_le _) hle (le_refl _)
        (by omega)]

/-- The claim C23 at the series of the two bars that open one minute apart. -/
theorem find_index_of_bar_before_largest_witness :
    [Bar.openBar tickT0, Bar.openBar tickT1].Pairwise
      (fun a b => a.open_timestamp ≤ b.open_timestamp) ∧
    find_index_of_bar_before [Bar.openBar tickT0, Bar.openBar tickT1] 60000 =
      binarySearchBefore [Bar.openBar tickT0, Bar.openBar tickT1] 60000 :=
  ⟨by simp [Bar.openBar, tickT0, tickT1],
    (find_index_of_bar_before_largest [Bar.openBar tickT0, Bar.openBar tickT1] 60000
      (by simp [Bar.openBar, tickT0, tickT1]) (by simp)).2.2.2.2.2⟩


/-! ## `getLastBarsBefore` -/

theorem first_bar_index_eq (c count : Nat) (hc : c < 2 ^ 31) (hcount : count ≤ 2 ^ 31) :
    intOfSize ((sizeOfInt ((c : Int) - 1) + (2 ^ 64 - count % 2 ^ 64) + 1) % 2 ^ 64) =
      (c : Int) - count := by
  have hcm : count % 2 ^ 64 = count := Nat.mod_eq_of_lt (by omega)
  have hs : sizeOfInt ((c : Int) - 1) + 1 = c ∨ sizeOfInt ((c : Int) - 1) + 1 = c + 2 ^ 64 := by
    unfold sizeOfInt
    rcases Nat.eq_zero_or_pos c with h0 | hpos
    · right
      subst h0
      rfl
    · left
      have : ((c : Int) - 1) % 2 ^ 64 = (c : Int) - 1 := Int.emod_eq_of_lt (by omega) (by omega)
      rw [this]
      omega
  rw [hcm]
  have key : (sizeOfInt ((c : Int) - 1) + (2 ^ 64 - count) + 1) % 2 ^ 64 =
      (c + (2 ^ 64 - count)) % 2 ^ 64 := by
    rcases hs with h | h
    · congr 1
      omega
    · have : sizeOfInt ((c : Int) - 1) + (2 ^ 64 - count) + 1 = c + (2 ^ 64 - count) + 2 ^ 64 := by
        omega
      rw [this, Nat.add_mod_right]
  rw [key]
  unfold intOfSize
  by_cases hge : count ≤ c
  · have e : (c + (2 ^ 64 - count)) % 2 ^ 64 = c - count := by
      have : c + (2 ^ 64 - count) = (c - count) + 2 ^ 64 := by omega
      rw [this, Nat.add_mod_right, Nat.mod_eq_of_lt (by omega)]
    rw [e]
    have e2 : (c - count) % 2 ^ 32 = c - count := Nat.mod_eq_of_lt (by omega)
    rw [e2]
    have h : c - count < 2 ^ 31 := by omega
    simp only [h, if_true]
    omega
  · have hlt : c < count := not_le.mp hge
    have e : (c + (2 ^ 64 - count)) % 2 ^ 64 = 2 ^ 64 - (count - c) := by
      have : c + (2 ^ 64 - count) = 2 ^ 64 - (count - c) := by omega
      rw [this, Nat.mod_eq_of_lt (by omega)]
    rw [e]
    have e2 : (2 ^ 64 - (count - c)) % 2 ^ 32 = 2 ^ 32 - (count - c) := by
      have : 2 ^ 64 - (count - c) = (2 ^ 32 - (count - c)) + 2 ^ 32 * (2 ^ 32 - 1) := by omega
      rw [this, Nat.add_mul_mod_self_left, Nat.mod_eq_of_lt (by omega)]
    rw [e2]
    have : ¬ 2 ^ 32 - (count - c) < 2 ^ 31 := by omega
    simp only [this, if_false]
    omega

theorem bars_of_cache {m : MarketDataManager} (hc : CacheOk m) (tf : Timeframe) :
    (match m.try_get_existing_bars tf with
      | some bars => (bars, m)
      | none => m.create_bars tf).1 = calculateBars tf m._ticks ∧
    CacheOk (match m.try_get_existing_bars tf with
      | some bars => (bars, m)
      | none => m.create_bars tf).2 ∧
    (match m.try_get_existing_bars tf with
      | some bars => (bars, m)
      | none => m.create_bars tf).2._ticks = m._ticks := by
  unfold MarketDataManager.try_get_existing_bars MarketDataManager.create_bars
  cases hf : m._bars_by_timeframe.find? (fun e => e.1 == tf) with
  | some e =>
    have h1 := List.mem_of_find?_eq_some hf
    have h2 := List.find?_some hf
    simp only [beq_iff_eq] at h2
    refine ⟨?_, hc, rfl⟩
    show e.2 = calculateBars tf m._ticks
    rw [hc e h1, h2]
  | none =>
    refine ⟨rfl, ?_, rfl⟩
    intro e he
    have he2 : e ∈ (tf, calculateBars tf m._ticks) :: m._bars_by_timeframe := he
    simp only [List.mem_cons] at he2
    rcases he2 with rfl | he2
    · rfl
    · exact hc e he2

theorem drop_take_append {α : Type} (tw rest : List α) (count : Nat)
    (hcount : count ≤ tw.length) :
    ((tw ++ rest).drop (tw.length - count)).take count = tw.drop (tw.length - count) := by
  rw [List.drop_append_of_le_length (by omega),
    List.take_append_of_le_length (by rw [List.length_drop]; omega),
    List.take_of_length_le (by rw [List.length_drop]; omega)]

theorem vector_slice_at_end {α : Type} (data : List α) (start end_ : Int)
    (h : start ≥ (data.length : Nat)) :
    vector_slice data start end_ = Except.error "Invalid indices" := by
  unfold vector_slice
  rw [if_pos (Or.inr (Or.inl h))]

theorem vector_slice_takeWhile (bars : List Bar) (p : Bar → Bool) (count : Nat)
    (hcount : count ≤ (bars.takeWhile p).length)
    (hne : ¬ (count = 0 ∧ (bars.takeWhile p).length = bars.length)) :
    vector_slice bars (((bars.takeWhile p).length : Int) - count)
        ((((bars.takeWhile p).length : Int) - 1) + 1) =
      Except.ok ((bars.takeWhile p).drop ((bars.takeWhile p).length - count)) := by
  have hle : (bars.takeWhile p).length ≤ bars.length := (List.takeWhile_sublist _).length_le
  obtain ⟨rest, hrest⟩ := List.takeWhile_prefix (l := bars) p
  have hcond : ¬ ((((bars.takeWhile p).length : Int) - count < 0) ∨
      (((bars.takeWhile p).length : Int) - count ≥ (bars.length : Nat)) ∨
      ((((bars.takeWhile p).length : Int) - 1) + 1 < 0) ∨
      ((((bars.takeWhile p).length : Int) - 1) + 1 > (bars.length : Nat)) ∨
      (((bars.takeWhile p).length : Int) - count >
        (((bars.takeWhile p).length : Int) - 1) + 1)) := by
    omega
  unfold vector_slice
  rw [if_neg hcond]
  congr 1
  have e1 : (((bars.takeWhile p).length : Int) - count).toNat =
      (bars.takeWhile p).length - count := by omega
  have e2 : ((((bars.takeWhile p).length : Int) - 1) + 1 -
      (((bars.takeWhile p).length : Int) - count)).toNat = count := by omega
  rw [e1, e2]
  have h := drop_take_append (bars.takeWhile p) rest count hcount
  rw [hrest] at h
  exact h

/-- What `getLastBarsBefore` returns for a time point within the ticks, a series
of fewer than `2^31` bars and a count of at most `2^31`, in terms of the leading
bars that open at or before `before`. -/
theorem getLastBarsBefore_eq (m : MarketDataManager) (tf : Timeframe) (before : Int)
    (count : Nat) (hc : CacheOk m) (hlen : (calculateBars tf m._ticks).length < 2 ^ 31)
    (hcount : count ≤ 2 ^ 31)
    (hin : ¬ (before ≤ m._first_tick_time ∨ before > m._last_tick_time)) :
    (m.getLastBarsBefore tf before count).1 =
      if ((calculateBars tf m._ticks).takeWhile
          (fun b => decide (b.open_timestamp ≤ before))).length < count then Except.ok none
      else if count = 0 ∧
          ((calculateBars tf m._ticks).takeWhile
            (fun b => decide (b.open_timestamp ≤ before))).length =
            (calculateBars tf m._ticks).length then Except.error "Invalid indices"
      else Except.ok (some
        (((calculateBars tf m._ticks).takeWhile
            (fun b => decide (b.open_timestamp ≤ before))).drop
          (((calculateBars tf m._ticks).takeWhile
            (fun b => decide (b.open_timestamp ≤ before))).length - count))) := by
  obtain ⟨hb, _, _⟩ := bars_of_cache hc tf
  have hle : ((calculateBars tf m._ticks).takeWhile
      (fun b => decide (b.open_timestamp ≤ before))).length ≤
        (calculateBars tf m._ticks).length := (List.takeWhile_sublist _).length_le
  unfold MarketDataManager.getLastBarsBefore
  rw [if_neg hin]
  simp only [hb]
  rw [find_index_of_bar_before_eq _ _ (le_of_lt hlen),
    first_bar_index_eq _ count (lt_of_le_of_lt hle hlen) hcount]
  by_cases h1 : ((calculateBars tf m._ticks).takeWhile
      (fun b => decide (b.open_timestamp ≤ before))).length < count
  · have : (((calculateBars tf m._ticks).takeWhile
        (fun b => decide (b.open_timestamp ≤ before))).length : Int) - count < 0 := by omega
    simp only [this, if_true, h1]
  · have : ¬ (((calculateBars tf m._ticks).takeWhile
        (fun b => decide (b.open_timestamp ≤ before))).length : Int) - count < 0 := by omega
    simp only [this, if_false, h1]
    by_cases h2 : count = 0 ∧
        ((calculateBars tf m._ticks).takeWhile
          (fun b => decide (b.open_timestamp ≤ before))).length =
          (calculateBars tf m._ticks).length
    · rw [if_pos h2, vector_slice_at_end _ _ _ (by
        obtain ⟨h2a, h2b⟩ := h2
        rw [h2a, h2b]
        simp)]
    · rw [if_neg h2, vector_slice_takeWhile _ _ count (not_lt.mp h1) h2]

theorem getLastBarsBefore_cache (m : MarketDataManager) (tf : Timeframe) (before : Int)
    (count : Nat) (hc : CacheOk m) :
    CacheOk (m.getLastBarsBefore tf before count).2 ∧
      (m.getLastBarsBefore tf before count).2._ticks = m._ticks := by
  obtain ⟨_, h2, h3⟩ := bars_of_cache hc tf
  unfold MarketDataManager.getLastBarsBefore
  by_cases hin : before ≤ m._first_tick_time ∨ before > m._last_tick_time
  · rw [if_pos hin]
    exact ⟨hc, rfl⟩
  · rw [if_neg hin]
    simp only
    split_ifs
    · exact ⟨h2, h3⟩
    · split <;> exact ⟨h2, h3⟩

theorem calculateBars_sorted (timeframe : Timeframe) (ticks : List Tick)
    (hs : ticks.Pairwise (fun a b => a.timestamp ≤ b.timestamp)) :
    (calculateBars timeframe ticks).Pairwise (fun a b => a.open_timestamp < b.open_timestamp) := by
  have hd := timeframe_durations_pos timeframe
  have hp := (foldedBars_window timeframe ticks hs).1
  rw [← foldedBars_fst]
  refine List.pairwise_map.mpr (hp.imp ?_)
  intro a b hab
  omega

theorem takeWhile_length_le_filter {α : Type} (p : α → Bool) (l : List α) :
    (l.takeWhile p).length ≤ (l.filter p).length := by
  induction l with
  | nil => simp
  | cons a l ih =>
    by_cases h : p a = true
    · simp [List.takeWhile_cons, List.filter_cons, h, ih]
    · simp [List.takeWhile_cons, h]

theorem dropWhile_after (tp : Int) :
    ∀ bars : List Bar, bars.Pairwise (fun a b => a.open_timestamp < b.open_timestamp) →
      ∀ b ∈ bars.dropWhile (fun b => decide (b.open_timestamp ≤ tp)), tp < b.open_timestamp := by
  intro bars
  induction bars with
  | nil => intro _ b hb; simp at hb
  | cons a rest ih =>
    intro hs b hb
    obtain ⟨ha, hrest⟩ := List.pairwise_cons.mp hs
    by_cases h : a.open_timestamp ≤ tp
    · rw [List.dropWhile_cons_of_pos (by simpa using h)] at hb
      exact ih hrest b hb
    · rw [List.dropWhile_cons_of_neg (by simpa using h)] at hb
      rcases List.mem_cons.mp hb with rfl | hb
      · omega
      · have := ha b hb
        omega

theorem twoTick_bars :
    calculateBars Timeframe.MIN1 [tickT0, tickT1] = [Bar.openBar tickT0, Bar.openBar tickT1] := by
  simp [calculateBars, calculateBarsLoop, timeframe_durations, tickT0, tickT1, Bar.openBar]

theorem twoTick_cacheOk : CacheOk twoTickData := by
  intro e he
  simp [twoTickData] at he

theorem twoTick_sorted :
    twoTickData._ticks.Pairwise (fun a b => a.timestamp ≤ b.timestamp) := by
  simp [twoTickData, tickT0, tickT1]

theorem twoTick_length : (calculateBars Timeframe.MIN1 twoTickData._ticks).length < 2 ^ 31 := by
  show (calculateBars Timeframe.MIN1 [tickT0, tickT1]).length < 2 ^ 31
  rw [twoTick_bars]
  norm_num

theorem twoTick_eval (count : Nat) (first : Int)
    (h : intOfSize ((sizeOfInt 1 + (2 ^ 64 - count % 2 ^ 64) + 1) % 2 ^ 64) = first) :
    twoTickData.getLastBarsBefore Timeframe.MIN1 60000 count =
      if first < 0 then (Except.ok none, twoTickDataCached)
      else
        match vector_slice [Bar.openBar tickT0, Bar.openBar tickT1] first 2 with
        | Except.error e => (Except.error e, twoTickDataCached)
        | Except.ok view => (Except.ok (some view), twoTickDataCached) := by
  have hfind : find_index_of_bar_before [Bar.openBar tickT0, Bar.openBar tickT1] 60000 = 1 := by
    simp [find_index_of_bar_before, find_index_of_bar_before_loop, Bar.openBar, tickT0, tickT1,
      intOfSize]
  have hcreate : twoTickData.create_bars Timeframe.MIN1 =
      ([Bar.openBar tickT0, Bar.openBar tickT1], twoTickDataCached) := by
    simp only [MarketDataManager.create_bars, twoTickData, List.find?_nil, twoTick_bars,
      twoTickDataCached]
  have hget : twoTickData.try_get_existing_bars Timeframe.MIN1 = none := rfl
  have hrange : ¬ ((60000 : Int) ≤ twoTickData._first_tick_time ∨
      (60000 : Int) > twoTickData._last_tick_time) := by
    simp [twoTickData]
  unfold MarketDataManager.getLastBarsBefore
  rw [if_neg hrange]
  simp only [hget, hcreate, hfind, h]
  rfl

theorem twoTick_two :
    twoTickData.getLastBarsBefore Timeframe.MIN1 60000 2 =
      (Except.ok (some [Bar.openBar tickT0, Bar.openBar tickT1]), twoTickDataCached) := by
  rw [twoTick_eval 2 0 (by simp [intOfSize, sizeOfInt])]
  simp [vector_slice]

theorem twoTick_three :
    twoTickData.getLastBarsBefore Timeframe.MIN1 60000 3 =
      (Except.ok none, twoTickDataCached) := by
  rw [twoTick_eval 3 (-1) (by simp [intOfSize, sizeOfInt])]
  simp

theorem twoTick_zero :
    twoTickData.getLastBarsBefore Timeframe.MIN1 60000 0 =
      (Except.error "Invalid indices", twoTickDataCached) := by
  rw [twoTick_eval 0 2 (by simp [intOfSize, sizeOfInt])]
  simp [vector_slice]

theorem twoTick_wrapped :
    twoTickData.getLastBarsBefore Timeframe.MIN1 60000 (2 ^ 32 + 1) =
      (Except.ok (some [Bar.openBar tickT1]), twoTickDataCached) := by
  rw [twoTick_eval (2 ^ 32 + 1) 1 (by simp [intOfSize, sizeOfInt])]
  simp [vector_slice]

theorem twoTick_wrapped_error :
    twoTickData.getLastBarsBefore Timeframe.MIN1 60000 (2 ^ 32) =
      (Except.error "Invalid indices", twoTickDataCached) := by
  rw [twoTick_eval (2 ^ 32) 2 (by simp [intOfSize, sizeOfInt])]
  simp [vector_slice]

/-- C21 (counterexample): with the two ticks one minute apart and the timeframe
MIN1, one bar opens strictly before the time point 60000 and two bars open at or
before it; `getLastBarsBefore` with the count 2 is not absent, it returns both
bars; with the count `2^32 + 1`, whose start index wraps around to 1, it is not
absent either, it returns the second bar. -/
theorem getLastBarsBefore_counts_bar_at_before :
    ((calculateBars Timeframe.MIN1 twoTickData._ticks).filter
        (fun b => decide (b.open_timestamp < 60000))).length = 1 ∧
      (twoTickData.getLastBarsBefore Timeframe.MIN1 60000 2).1 =
        Except.ok (some [Bar.openBar tickT0, Bar.openBar tickT1]) ∧
      (twoTickData.getLastBarsBefore Timeframe.MIN1 60000 (2 ^ 32 + 1)).1 =
        Except.ok (some [Bar.openBar tickT1]) := by
  refine ⟨?_, by rw [twoTick_two], by rw [twoTick_wrapped]⟩
  show ((calculateBars Timeframe.MIN1 [tickT0, tickT1]).filter
    (fun b => decide (b.open_timestamp < 60000))).length = 1
  rw [twoTick_bars]
  simp [Bar.openBar, tickT0, tickT1, List.filter_cons]

/-- C21 (amended): for a manager whose cache holds the bars of `calculateBars`, a
series of fewer than `2^31` bars and a count of at most `2^31`,
`getLastBarsBefore` returns absent and leaves the manager as it was whenever
`before` is at or before the first tick time or after the last, and returns
absent whenever fewer than `count` bars of the timeframe have an
`open_timestamp` at or before `before`. -/
theorem getLastBarsBefore_absent (m : MarketDataManager) (tf : Timeframe) (before : Int)
    (count : Nat) (hc : CacheOk m) (hlen : (calculateBars tf m._ticks).length < 2 ^ 31)
    (hcount : count ≤ 2 ^ 31) :
    ((before ≤ m._first_tick_time ∨ before > m._last_tick_time) →
      m.getLastBarsBefore tf before count = (Except.ok none, m)) ∧
    (((calculateBars tf m._ticks).filter
        (fun b => decide (b.open_timestamp ≤ before))).length < count →
      (m.getLastBarsBefore tf before count).1 = Except.ok none) := by
  have hout : (before ≤ m._first_tick_time ∨ before > m._last_tick_time) →
      m.getLastBarsBefore tf before count = (Except.ok none, m) := by
    intro h
    unfold MarketDataManager.getLastBarsBefore
    rw [if_pos h]
  refine ⟨hout, ?_⟩
  intro hfew
  by_cases hin : before ≤ m._first_tick_time ∨ before > m._last_tick_time
  · rw [hout hin]
  · rw [getLastBarsBefore_eq m tf before count hc hlen hcount hin]
    have := takeWhile_length_le_filter (fun b : Bar => decide (b.open_timestamp ≤ before))
      (calculateBars tf m._ticks)
    rw [if_pos (by omega)]

/-- The amended claim C21 at the two ticks one minute apart: three bars are asked
for and two exist. -/
theorem getLastBarsBefore_absent_witness :
    CacheOk twoTickData ∧ (calculateBars Timeframe.MIN1 twoTickData._ticks).length < 2 ^ 31 ∧
    3 ≤ 2 ^ 31 ∧
    ((calculateBars Timeframe.MIN1 twoTickData._ticks).filter
        (fun b => decide (b.open_timestamp ≤ 60000))).length < 3 ∧
    (twoTickData.getLastBarsBefore Timeframe.MIN1 60000 3).1 = Except.ok none :=
  have hfew : ((calculateBars Timeframe.MIN1 twoTickData._ticks).filter
      (fun b => decide (b.open_timestamp ≤ 60000))).length < 3 := by
    show ((calculateBars Timeframe.MIN1 [tickT0, tickT1]).filter
      (fun b => decide (b.open_timestamp ≤ 60000))).length < 3
    rw [twoTick_bars]
    simp [Bar.openBar, tickT0, tickT1, List.filter_cons]
  ⟨twoTick_cacheOk, twoTick_length, by norm_num, hfew,
    (getLastBarsBefore_absent twoTickData Timeframe.MIN1 60000 3 twoTick_cacheOk twoTick_length
      (by norm_num)).2 hfew⟩

/-- C22 (counterexample): with the two ticks one minute apart and the timeframe
MIN1, `getLastBarsBefore` with the time point 60000 and the count 2 succeeds and
the last bar of the view opens at 60000, not strictly before it. -/
theorem getLastBarsBefore_last_opens_at_before :
    ∃ view : List Bar,
      (twoTickData.getLastBarsBefore Timeframe.MIN1 60000 2).1 = Except.ok (some view) ∧
      view.getLast?.map (fun b => b.open_timestamp) = some 60000 := by
  refine ⟨[Bar.openBar tickT0, Bar.openBar tickT1], by rw [twoTick_two], ?_⟩
  simp [Bar.openBar, tickT1]

/-- C22 (amended): for a manager whose cache holds the bars of `calculateBars`,
ticks with non-decreasing timestamps, a series of fewer than `2^31` bars and a
count of at most `2^31`, the view of a successful `getLastBarsBefore` holds
exactly `count` bars, consecutive in the series of the timeframe (the series is
`pre ++ view ++ post`) and in chronological order, every one of them with an
`open_timestamp` at or before `before`, while every bar after the view opens
after `before`: for a positive count the last bar of the view is the latest bar
of the series that opens at or before `before`. -/
theorem getLastBarsBefore_view (m : MarketDataManager) (tf : Timeframe) (before : Int)
    (count : Nat) (view : List Bar) (hc : CacheOk m)
    (hs : m._ticks.Pairwise (fun a b => a.timestamp ≤ b.timestamp))
    (hlen : (calculateBars tf m._ticks).length < 2 ^ 31) (hcount : count ≤ 2 ^ 31)
    (hv : (m.getLastBarsBefore tf before count).1 = Except.ok (some view)) :
    view.length = count ∧
    (∃ pre post : List Bar, calculateBars tf m._ticks = pre ++ view ++ post ∧
      ∀ b ∈ post, before < b.open_timestamp) ∧
    view.Pairwise (fun a b => a.open_timestamp < b.open_timestamp) ∧
    (∀ b ∈ view, b.open_timestamp ≤ before) ∧
    (0 < count → ∃ l : Bar, view.getLast? = some l ∧ l.open_timestamp ≤ before ∧
      ∀ b ∈ calculateBars tf m._ticks, b.open_timestamp ≤ before →
        b.open_timestamp ≤ l.open_timestamp) := by
  have hin : ¬ (before ≤ m._first_tick_time ∨ before > m._last_tick_time) := by
    intro h
    unfold MarketDataManager.getLastBarsBefore at hv
    rw [if_pos h] at hv
    cases hv
  rw [getLastBarsBefore_eq m tf before count hc hlen hcount hin] at hv
  have hsorted := calculateBars_sorted tf m._ticks hs
  have hafter := dropWhile_after before (calculateBars tf m._ticks) hsorted
  have hsplit := List.takeWhile_append_dropWhile
    (fun b : Bar => decide (b.open_timestamp ≤ before)) (calculateBars tf m._ticks)
  have htw : ∀ b ∈ (calculateBars tf m._ticks).takeWhile
      (fun b => decide (b.open_timestamp ≤ before)), b.open_timestamp ≤ before := by
    intro b hb
    simpa using List.mem_takeWhile_imp hb
  generalize (calculateBars tf m._ticks).takeWhile
    (fun b => decide (b.open_timestamp ≤ before)) = tw at hv hsplit htw
  generalize (calculateBars tf m._ticks).dropWhile
    (fun b => decide (b.open_timestamp ≤ before)) = post at hafter hsplit
  by_cases h1 : tw.length < count
  · rw [if_pos h1] at hv
    cases hv
  rw [if_neg h1] at hv
  by_cases h2 : count = 0 ∧ tw.length = (calculateBars tf m._ticks).length
  · rw [if_pos h2] at hv
    cases hv
  rw [if_neg h2] at hv
  have hview : view = tw.drop (tw.length - count) := by
    injection hv with hv
    injection hv with hv
    exact hv.symm
  have hdecomp : calculateBars tf m._ticks = tw.take (tw.length - count) ++ view ++ post := by
    rw [hview, List.take_append_drop, hsplit]
  have hmem : ∀ b ∈ view, b ∈ tw := by
    intro b hb
    rw [hview] at hb
    exact List.mem_of_mem_drop hb
  have hvs : view.Pairwise (fun a b => a.open_timestamp < b.open_timestamp) := by
    rw [hdecomp] at hsorted
    exact (List.pairwise_append.mp (List.pairwise_append.mp hsorted).1).2.1
  refine ⟨by rw [hview, List.length_drop]; omega, ⟨_, post, hdecomp, hafter⟩, hvs,
    fun b hb => htw b (hmem b hb), ?_⟩
  intro hpos
  have hne : view ≠ [] := by
    intro he
    have : view.length = count := by rw [hview, List.length_drop]; omega
    rw [he] at this
    simp at this
    omega
  obtain ⟨init, l, hl⟩ : ∃ init l, view = init ++ [l] :=
    ⟨view.dropLast, view.getLast hne, (List.dropLast_append_getLast hne).symm⟩
  have hlmem : l ∈ view := by rw [hl]; simp
  refine ⟨l, by rw [hl]; simp, htw l (hmem l hlmem), ?_⟩
  intro b hb hbb
  rw [hdecomp, hl] at hb hsorted
  simp only [List.mem_append, List.mem_singleton] at hb
  rcases hb with ((hb | (hb | hb)) | hb)
  · have := (List.pairwise_append.mp (List.pairwise_append.mp hsorted).1).2.2 b hb l (by simp)
    omega
  · have := (List.pairwise_append.mp (List.pairwise_append.mp (List.pairwise_append.mp
      hsorted).1).2.1).2.2 b hb l (by simp)
    omega
  · rw [hb]
  · have := hafter b hb
    omega

/-- The amended claim C22 at the two ticks one minute apart, the time point 60000
and the count 2. -/
theorem getLastBarsBefore_view_witness :
    CacheOk twoTickData ∧
    twoTickData._ticks.Pairwise (fun a b => a.timestamp ≤ b.timestamp) ∧
    (calculateBars Timeframe.MIN1 twoTickData._ticks).length < 2 ^ 31 ∧ 2 ≤ 2 ^ 31 ∧
    (twoTickData.getLastBarsBefore Timeframe.MIN1 60000 2).1 =
      Except.ok (some [Bar.openBar tickT0, Bar.openBar tickT1]) ∧
    [Bar.openBar tickT0, Bar.openBar tickT1].length = 2 ∧
    (∀ b ∈ [Bar.openBar tickT0, Bar.openBar tickT1], b.open_timestamp ≤ 60000) :=
  have hv : (twoTickData.getLastBarsBefore Timeframe.MIN1 60000 2).1 =
      Except.ok (some [Bar.openBar tickT0, Bar.openBar tickT1]) := by rw [twoTick_two]
  have h := getLastBarsBefore_view twoTickData Timeframe.MIN1 60000 2
    [Bar.openBar tickT0, Bar.openBar tickT1] twoTick_cacheOk twoTick_sorted twoTick_length
    (by norm_num) hv
  ⟨twoTick_cacheOk, twoTick_sorted, twoTick_length, by norm_num, hv, h.1, h.2.2.2.1⟩

/-- C24 (failing input): with the two ticks one minute apart, the timeframe MIN1
and the time point 60000, at or before which both bars open, `getLastBarsBefore`
with the count 0 reaches `vector_slice` with the start index 2, the size of the
series, and raises its out-of-range error; so it does with the count `2^32`,
whose start index wraps around to 2. -/
theorem getLastBarsBefore_raises :
    (twoTickData.getLastBarsBefore Timeframe.MIN1 60000 0).1 = Except.error "Invalid indices" ∧
    (twoTickData.getLastBarsBefore Timeframe.MIN1 60000 (2 ^ 32)).1 =
      Except.error "Invalid indices" := by
  rw [twoTick_zero, twoTick_wrapped_error]
  exact ⟨rfl, rfl⟩

/-- For a count between 1 and `2^31` and a series of fewer than `2^31` bars,
`getLastBarsBefore` does not raise the error of `vector_slice`. -/
theorem getLastBarsBefore_no_error (m : MarketDataManager) (tf : Timeframe) (before : Int)
    (count : Nat) (hc : CacheOk m) (hlen : (calculateBars tf m._ticks).length < 2 ^ 31)
    (hpos : 0 < count) (hcount : count ≤ 2 ^ 31) (e : String) :
    (m.getLastBarsBefore tf before count).1 ≠ Except.error e := by
  by_cases hin : before ≤ m._first_tick_time ∨ before > m._last_tick_time
  · unfold MarketDataManager.getLastBarsBefore
    rw [if_pos hin]
    intro h
    cases h
  · rw [getLastBarsBefore_eq m tf before count hc hlen hcount hin]
    have h2 : ¬ (count = 0 ∧
        ((calculateBars tf m._ticks).takeWhile
          (fun b => decide (b.open_timestamp ≤ before))).length =
          (calculateBars tf m._ticks).length) := by
      intro h
      omega
    rw [if_neg h2]
    split_ifs <;> intro h <;> cases h

/-! ## The stride of the simulation -/

theorem goThroughTicksPeriod_eq_delivered {σ : Type} (H : StdHeap) (robot : ATS σ) (d : Int) :
    ∀ (ticks : List Tick) (w : Int) (tm : TradingManager) (st : σ),
      StrategyTester.goThroughTicksPeriod H robot d ticks w tm st =
        StrategyTester.goThroughTicks H robot (StrategyTester.delivered d ticks w) tm st := by
  intro ticks
  induction ticks with
  | nil => intro w tm st; rfl
  | cons tick rest ih =>
    intro w tm st
    by_cases hw : tick.timestamp < w
    · simp only [StrategyTester.goThroughTicksPeriod, StrategyTester.delivered, hw, if_true, ih]
    · simp only [StrategyTester.goThroughTicksPeriod, StrategyTester.delivered, hw, if_false,
        StrategyTester.goThroughTicks]
      cases hh : StrategyTester.handleTick H robot tm st tick with
      | none => rfl
      | some r =>
        obtain ⟨b, tm1, st1⟩ := r
        cases b with
        | false => rfl
        | true => exact ih (w + d) tm1 st1

theorem goThrough_eq_delivered {σ : Type} (H : StdHeap) (robot : ATS σ) (tester : StrategyTester)
    (front : Tick) (rest : List Tick) (tm : TradingManager) (st : σ)
    (hp : tester._period ≠ SimulationPeriod.TICK) (ht : tester._ticks_ptr = front :: rest) :
    StrategyTester.goThrough H tester robot tm st =
      StrategyTester.goThroughTicks H robot
        (StrategyTester.delivered (Backtesting.timeframe_durations tester._period)
          (front :: rest) front.timestamp) tm st := by
  unfold StrategyTester.goThrough
  rw [if_neg hp, ht]
  exact goThroughTicksPeriod_eq_delivered H robot _ _ _ _ _

theorem goThroughTicks_step {σ : Type} (H : StdHeap) (robot : ATS σ) (pre rest : List Tick)
    (tick : Tick) (tm0 tm : TradingManager) (st0 st : σ)
    (h : StrategyTester.goThroughTicks H robot pre tm0 st0 = some (true, tm, st)) :
    StrategyTester.goThroughTicks H robot (pre ++ tick :: rest) tm0 st0 =
      match StrategyTester.handleTick H robot tm st tick with
      | none => none
      | some (false, tm1, st1) => some (false, tm1, st1)
      | some (true, tm1, st1) => StrategyTester.goThroughTicks H robot rest tm1 st1 := by
  rw [goThroughTicks_append H robot pre (tick :: rest) tm0 tm st0 st h]
  rfl

theorem delivered_sublist (d : Int) :
    ∀ (ticks : List Tick) (w : Int), (StrategyTester.delivered d ticks w).Sublist ticks := by
  intro ticks
  induction ticks with
  | nil => intro w; exact List.Sublist.slnil
  | cons tick rest ih =>
    intro w
    by_cases hw : tick.timestamp < w
    · simp only [StrategyTester.delivered, hw, if_true]
      exact (ih w).cons tick
    · simp only [StrategyTester.delivered, hw, if_false]
      exact (ih (w + d)).cons₂ tick

theorem delivered_ge (d : Int) :
    ∀ (ticks : List Tick) (w : Int) (k : Nat) (hk : k < (StrategyTester.delivered d ticks w).length),
      w + k * d ≤ ((StrategyTester.delivered d ticks w).get ⟨k, hk⟩).timestamp := by
  intro ticks
  induction ticks with
  | nil => intro w k hk; simp [StrategyTester.delivered] at hk
  | cons tick rest ih =>
    intro w k hk
    by_cases hw : tick.timestamp < w
    · have e : StrategyTester.delivered d (tick :: rest) w = StrategyTester.delivered d rest w := by
        simp only [StrategyTester.delivered, hw, if_true]
      have hk2 : k < (StrategyTester.delivered d rest w).length := by rw [← e]; exact hk
      have := ih w k hk2
      simp only [List.get_eq_getElem] at this ⊢
      simp only [e]
      exact this
    · have e : StrategyTester.delivered d (tick :: rest) w =
          tick :: StrategyTester.delivered d rest (w + d) := by
        simp only [StrategyTester.delivered, hw, if_false]
      cases k with
      | zero =>
        simp only [List.get_eq_getElem, e, List.getElem_cons_zero]
        push_cast
        omega
      | succ k =>
        have hk2 : k < (StrategyTester.delivered d rest (w + d)).length := by
          rw [e] at hk
          simpa using hk
        have := ih (w + d) k hk2
        simp only [List.get_eq_getElem] at this ⊢
        simp only [e, List.getElem_cons_succ]
        push_cast
        linarith

theorem delivered_head (d : Int) (front : Tick) (rest : List Tick) :
    (StrategyTester.delivered d (front :: rest) front.timestamp).head? = some front := by
  simp [StrategyTester.delivered]

theorem delivered_cons (d : Int) (tick : Tick) (rest : List Tick) (w : Int) :
    StrategyTester.delivered d (tick :: rest) w =
      if tick.timestamp ≥ w then tick :: StrategyTester.delivered d rest (w + d)
      else StrategyTester.delivered d rest w := by
  by_cases hw : tick.timestamp < w
  · simp only [StrategyTester.delivered, hw, if_true, ge_iff_le, not_le.mpr hw, if_false]
  · simp only [StrategyTester.delivered, hw, if_false, ge_iff_le, not_lt.mp hw, if_true]

/-! ## The hooks of a run -/

theorem init_onTick (H : StdHeap) (properties : AccountProperties) (new_id : Nat)
    (current_tick tick : Tick) (hb : 0 < properties.account_balance) :
    (TradingManager.init properties new_id current_tick).onTick H tick =
      (AccountState.OK, TradingManager.init properties new_id tick) := by
  have hE : (TradingManager.init properties new_id current_tick).afterEvents H tick =
      (TradingManager.init properties new_id current_tick).withTick tick :=
    afterEvents_of_no_queue H _ _ rfl rfl
  have hL : (TradingManager.init properties new_id current_tick).afterLedger H tick =
      TradingManager.init properties new_id tick := by
    rw [afterLedger, hE]
    simp [AccountBalanceManager.onTick, AccountBalanceManager.updateOpenPositionEquity,
      withTick, TradingManager.init, AccountBalanceManager.ofProperties]
  have hc : (TradingManager.init properties new_id tick)._account_manager.classify
      = AccountState.OK := by
    apply classify_ok_of_no_exposure
    · simpa [TradingManager.init, AccountBalanceManager.ofProperties] using hb
    · simpa [TradingManager.init, AccountBalanceManager.ofProperties,
        AccountBalanceManager.getTotalEquity] using hb
    · simp [TradingManager.init, AccountBalanceManager.ofProperties,
        AccountBalanceManager.getTotalExpenses]
  have h1 := onTick_fst H (TradingManager.init properties new_id current_tick) tick
  have h2 := onTick_snd H (TradingManager.init properties new_id current_tick) tick
  rw [hL, hc] at h1 h2
  exact Prod.ext h1 h2

theorem handleTick_init {σ : Type} (H : StdHeap) (robot : ATS σ) (properties : AccountProperties)
    (new_id : Nat) (current_tick tick : Tick) (st : σ) (hb : 0 < properties.account_balance)
    (hcalls : (robot.onTick st (TradingManager.init properties new_id tick) tick).2.2 = []) :
    StrategyTester.handleTick H robot (TradingManager.init properties new_id current_tick) st tick =
      some (decide ((robot.onTick st (TradingManager.init properties new_id tick) tick).1 ≠
          ReturnCode.STOP.toInt),
        TradingManager.init properties new_id tick,
        (robot.onTick st (TradingManager.init properties new_id tick) tick).2.1) :=
  handleTick_ok H robot st tick (init_onTick H properties new_id current_tick tick hb)
    (by rw [hcalls]; rfl)

theorem init_end (properties : AccountProperties) (new_id : Nat) (current_tick : Tick) :
    (TradingManager.init properties new_id current_tick).end_ =
      { account_balance := properties.account_balance
        total_equity := properties.account_balance
        unclosed_positions := []
        trades := [] } := by
  simp [TradingManager.end_, TradingManager.init, AccountBalanceManager.ofProperties,
    AccountBalanceManager.getBalance, AccountBalanceManager.getTotalEquity]

theorem handleTick_logged {σ : Type} (H : StdHeap) (robot : ATS σ) (tm : TradingManager)
    (s : σ × List Hook) (tick : Tick) :
    (StrategyTester.handleTick H robot.logged tm s tick = none ∧
      StrategyTester.handleTick H robot tm s.1 tick = none) ∨
    ∃ (b : Bool) (tm2 : TradingManager) (st2 : σ) (l : List Hook),
      StrategyTester.handleTick H robot.logged tm s tick = some (b, tm2, (st2, s.2 ++ l)) ∧
      StrategyTester.handleTick H robot tm s.1 tick = some (b, tm2, st2) ∧
      ((b = false ∧ l = []) ∨
        ∃ c : Int, b = decide (c ≠ ReturnCode.STOP.toInt) ∧
          (l = [Hook.onTick tick c] ∨ l = [Hook.onMarginCallWarning, Hook.onTick tick c])) := by
  unfold StrategyTester.handleTick
  cases hs : (tm.onTick H tick).1 with
  | NONPOSITIVE_ACCOUNT_BALANCE =>
    right
    refine ⟨false, (tm.onTick H tick).2, s.1, [], ?_, ?_, Or.inl ⟨rfl, rfl⟩⟩
    · simp only [hs, List.append_nil]
    · simp only [hs]
  | MARGIN_CALL_WARNING =>
    cases hw : applyCalls H (tm.onTick H tick).2
        (robot.onMarginCallWarning s.1 (tm.onTick H tick).2).2 with
    | none =>
      left
      simp [hs, ATS.logged, hw]
    | some tmW =>
      cases ho : applyCalls H tmW
          (robot.onTick (robot.onMarginCallWarning s.1 (tm.onTick H tick).2).1 tmW tick).2.2 with
      | none =>
        left
        simp [hs, ATS.logged, hw, ho]
      | some tm2 =>
        right
        refine ⟨decide ((robot.onTick (robot.onMarginCallWarning s.1 (tm.onTick H tick).2).1
            tmW tick).1 ≠ ReturnCode.STOP.toInt), tm2,
          (robot.onTick (robot.onMarginCallWarning s.1 (tm.onTick H tick).2).1 tmW tick).2.1,
          [Hook.onMarginCallWarning, Hook.onTick tick
            (robot.onTick (robot.onMarginCallWarning s.1 (tm.onTick H tick).2).1 tmW tick).1],
          ?_, ?_, Or.inr ⟨_, rfl, Or.inr rfl⟩⟩
        · simp [hs, ATS.logged, hw, ho]
        · simp [hs, hw, ho]
  | MARGIN_CALL =>
    cases ho : applyCalls H (tm.onTick H tick).2
        (robot.onTick s.1 (tm.onTick H tick).2 tick).2.2 with
    | none =>
      left
      simp [hs, ATS.logged, ho]
    | some tm2 =>
      right
      refine ⟨decide ((robot.onTick s.1 (tm.onTick H tick).2 tick).1 ≠ ReturnCode.STOP.toInt),
        tm2, (robot.onTick s.1 (tm.onTick H tick).2 tick).2.1,
        [Hook.onTick tick (robot.onTick s.1 (tm.onTick H tick).2 tick).1],
        ?_, ?_, Or.inr ⟨_, rfl, Or.inl rfl⟩⟩
      · simp [hs, ATS.logged, ho]
      · simp [hs, ho]
  | OK =>
    cases ho : applyCalls H (tm.onTick H tick).2
        (robot.onTick s.1 (tm.onTick H tick).2 tick).2.2 with
    | none =>
      left
      simp [hs, ATS.logged, ho]
    | some tm2 =>
      right
      refine ⟨decide ((robot.onTick s.1 (tm.onTick H tick).2 tick).1 ≠ ReturnCode.STOP.toInt),
        tm2, (robot.onTick s.1 (tm.onTick H tick).2 tick).2.1,
        [Hook.onTick tick (robot.onTick s.1 (tm.onTick H tick).2 tick).1],
        ?_, ?_, Or.inr ⟨_, rfl, Or.inl rfl⟩⟩
      · simp [hs, ATS.logged, ho]
      · simp [hs, ho]

theorem goThroughTicks_logged {σ : Type} (H : StdHeap) (robot : ATS σ) :
    ∀ (ticks : List Tick) (tm : TradingManager) (s : σ × List Hook),
      (StrategyTester.goThroughTicks H robot.logged ticks tm s = none ∧
        StrategyTester.goThroughTicks H robot ticks tm s.1 = none) ∨
      ∃ (b : Bool) (tm2 : TradingManager) (st2 : σ) (quiet tail : List Hook),
        StrategyTester.goThroughTicks H robot.logged ticks tm s =
          some (b, tm2, (st2, s.2 ++ quiet ++ tail)) ∧
        StrategyTester.goThroughTicks H robot ticks tm s.1 = some (b, tm2, st2) ∧
        QuietHooks quiet ∧
        (tail = [] ∨ (b = false ∧ ∃ t : Tick, tail = [Hook.onTick t ReturnCode.STOP.toInt])) := by
  intro ticks
  induction ticks with
  | nil =>
    intro tm s
    right
    refine ⟨true, tm, s.1, [], [], ?_, rfl, ?_, Or.inl rfl⟩
    · simp [StrategyTester.goThroughTicks]
    · intro h hh
      simp at hh
  | cons tick rest ih =>
    intro tm s
    rcases handleTick_logged H robot tm s tick with ⟨h1, h2⟩ | ⟨b, tm2, st2, l, h1, h2, hl⟩
    · left
      simp only [StrategyTester.goThroughTicks, h1, h2, and_self]
    · cases b with
      | false =>
        right
        rcases hl with ⟨_, rfl⟩ | ⟨c, hc, hl⟩
        · refine ⟨false, tm2, st2, [], [], ?_, ?_, ?_, Or.inl rfl⟩
          · simp only [StrategyTester.goThroughTicks, h1, List.append_nil]
          · simp only [StrategyTester.goThroughTicks, h2]
          · intro h hh
            simp at hh
        · have hc2 : c = ReturnCode.STOP.toInt := by
            by_contra hne
            simp [hne] at hc
          subst hc2
          rcases hl with rfl | rfl
          · refine ⟨false, tm2, st2, [], [Hook.onTick tick ReturnCode.STOP.toInt], ?_, ?_, ?_,
              Or.inr ⟨rfl, tick, rfl⟩⟩
            · simp only [StrategyTester.goThroughTicks, h1, List.append_nil]
            · simp only [StrategyTester.goThroughTicks, h2]
            · intro h hh
              simp at hh
          · refine ⟨false, tm2, st2, [Hook.onMarginCallWarning],
              [Hook.onTick tick ReturnCode.STOP.toInt], ?_, ?_, ?_, Or.inr ⟨rfl, tick, rfl⟩⟩
            · simp only [StrategyTester.goThroughTicks, h1, List.append_assoc,
                List.singleton_append]
            · simp only [StrategyTester.goThroughTicks, h2]
            · intro h hh
              left
              simpa using hh
      | true =>
        have hq : QuietHooks l := by
          rcases hl with ⟨hb, _⟩ | ⟨c, hc, hl⟩
          · cases hb
          · have hc2 : c ≠ ReturnCode.STOP.toInt := by
              intro he
              simp [he] at hc
            intro h hh
            rcases hl with rfl | rfl
            · right
              exact ⟨tick, c, by simpa using hh, hc2⟩
            · simp only [List.mem_cons, List.mem_singleton, List.not_mem_nil, or_false] at hh
              rcases hh with rfl | rfl
              · left; rfl
              · right; exact ⟨tick, c, rfl, hc2⟩
        rcases ih tm2 (st2, s.2 ++ l) with ⟨i1, i2⟩ | ⟨b, tm3, st3, quiet, tail, i1, i2, iq, it⟩
        · left
          simp only [StrategyTester.goThroughTicks, h1, h2, i1]
          exact ⟨trivial, i2⟩
        · right
          refine ⟨b, tm3, st3, l ++ quiet, tail, ?_, ?_, ?_, it⟩
          · simp only [StrategyTester.goThroughTicks, h1, i1, List.append_assoc]
          · simp only [StrategyTester.goThroughTicks, h2]
            exact i2
          · intro h hh
            rcases List.mem_append.mp hh with hh | hh
            · exact hq h hh
            · exact iq h hh

theorem goThrough_logged {σ : Type} (H : StdHeap) (tester : StrategyTester) (robot : ATS σ)
    (tm : TradingManager) (s : σ × List Hook) :
    (StrategyTester.goThrough H tester robot.logged tm s = none ∧
      StrategyTester.goThrough H tester robot tm s.1 = none) ∨
    ∃ (b : Bool) (tm2 : TradingManager) (st2 : σ) (quiet tail : List Hook),
      StrategyTester.goThrough H tester robot.logged tm s =
        some (b, tm2, (st2, s.2 ++ quiet ++ tail)) ∧
      StrategyTester.goThrough H tester robot tm s.1 = some (b, tm2, st2) ∧
      QuietHooks quiet ∧
      (tail = [] ∨ (b = false ∧ ∃ t : Tick, tail = [Hook.onTick t ReturnCode.STOP.toInt])) := by
  unfold StrategyTester.goThrough
  by_cases hp : tester._period = SimulationPeriod.TICK
  · rw [if_pos hp, if_pos hp]
    exact goThroughTicks_logged H robot _ tm s
  · rw [if_neg hp, if_neg hp]
    cases ht : tester._ticks_ptr with
    | nil =>
      left
      exact ⟨rfl, rfl⟩
    | cons front rest =>
      simp only [goThroughTicksPeriod_eq_delivered]
      exact goThroughTicks_logged H robot _ tm s

theorem run_logged {σ : Type} (H : StdHeap) (tester : StrategyTester) (robot : ATS σ)
    (s : σ × List Hook) (new_id : Nat) (current_tick : Tick) :
    (StrategyTester.run H tester robot.logged s new_id current_tick = none ∧
      StrategyTester.run H tester robot s.1 new_id current_tick = none) ∨
    ∃ (res : Results) (st2 : σ) (log : List Hook),
      StrategyTester.run H tester robot.logged s new_id current_tick =
        some (res, (st2, s.2 ++ log)) ∧
      StrategyTester.run H tester robot s.1 new_id current_tick = some (res, st2) ∧
      (((robot.start s.1
            (TradingManager.init tester._account_properties new_id current_tick)).1 =
          ReturnCode.STOP ∧ log = [Hook.start ReturnCode.STOP]) ∨
        ((robot.start s.1
            (TradingManager.init tester._account_properties new_id current_tick)).1 =
          ReturnCode.OK ∧
          ∃ quiet tail : List Hook,
            log = Hook.start ReturnCode.OK :: (quiet ++ tail ++ [Hook.end_]) ∧
            QuietHooks quiet ∧
            (tail = [] ∨ ∃ t : Tick, tail = [Hook.onTick t ReturnCode.STOP.toInt]))) := by
  unfold StrategyTester.run
  simp only
  have hstart : robot.logged.start s
      (TradingManager.init tester._account_properties new_id current_tick) =
      ((robot.start s.1
          (TradingManager.init tester._account_properties new_id current_tick)).1,
        ((robot.start s.1
          (TradingManager.init tester._account_properties new_id current_tick)).2.1,
          s.2 ++ [Hook.start (robot.start s.1
            (TradingManager.init tester._account_properties new_id current_tick)).1]),
        (robot.start s.1
          (TradingManager.init tester._account_properties new_id current_tick)).2.2) := rfl
  rw [hstart]
  simp only
  generalize robot.start s.1
    (TradingManager.init tester._account_properties new_id current_tick) = r
  obtain ⟨code, st1, calls⟩ := r
  simp only
  cases h0 : applyCalls H (TradingManager.init tester._account_properties new_id current_tick)
      calls with
  | none =>
    left
    exact ⟨rfl, rfl⟩
  | some tm1 =>
    simp only
    cases code with
    | STOP =>
      right
      exact ⟨tm1.end_, st1, [Hook.start ReturnCode.STOP], by simp, by simp, Or.inl ⟨rfl, rfl⟩⟩
    | OK =>
      simp only [reduceCtorEq, if_false]
      rcases goThrough_logged H tester robot tm1 (st1, s.2 ++ [Hook.start ReturnCode.OK]) with
        ⟨g1, g2⟩ | ⟨b, tm2, st2, quiet, tail, g1, g2, gq, gt⟩
      · left
        rw [g1]
        simp only at g2
        rw [g2]
        exact ⟨rfl, rfl⟩
      · rw [g1]
        simp only at g2
        rw [g2]
        simp only [StrategyTester.finish]
        have hend : ∀ (t : σ × List Hook) (tm : TradingManager),
            robot.logged.end_ t tm = (((robot.end_ t.1 tm).1, t.2 ++ [Hook.end_]),
              (robot.end_ t.1 tm).2) := fun _ _ => rfl
        rw [hend]
        simp only
        cases he : applyCalls H tm2 (robot.end_ st2 tm2).2 with
        | none =>
          left
          exact ⟨rfl, rfl⟩
        | some tm3 =>
          right
          refine ⟨tm3.end_, (robot.end_ st2 tm2).1,
            Hook.start ReturnCode.OK :: (quiet ++ tail ++ [Hook.end_]), ?_, rfl,
            Or.inr ⟨trivial, quiet, tail, rfl, gq, ?_⟩⟩
          · simp
          · rcases gt with h | ⟨_, h⟩
            · exact Or.inl h
            · exact Or.inr h

theorem delivered_ge_opt (d : Int) (ticks : List Tick) (w : Int) (k : Nat) (t : Tick)
    (h : (StrategyTester.delivered d ticks w)[k]? = some t) : w + k * d ≤ t.timestamp := by
  obtain ⟨hk, he⟩ := List.getElem?_eq_some.mp h
  have := delivered_ge d ticks w k hk
  simp only [List.get_eq_getElem, he] at this
  exact this

/-- C25 (stride policy): with the period TICK the tick loop of `run` is the loop
over all ticks, which hands every tick to `handleTick`, in order, until a call
of it returns false.  With any other period the loop is that same loop over the
ticks `delivered` selects: a tick is delivered iff its timestamp is at least the
current `wait_for_timestamp`, which starts at the timestamp of the first tick and
grows by the duration of the period at each delivery.  Hence the first tick is
delivered, the delivered ticks are a subsequence of the input, and the `k`-th
delivered tick has a timestamp of at least the first timestamp plus `k`
durations. -/
theorem stride_policy {σ : Type} (H : StdHeap) (robot : ATS σ) :
    (∀ (tester : StrategyTester) (tm : TradingManager) (st : σ),
      tester._period = SimulationPeriod.TICK →
      StrategyTester.goThrough H tester robot tm st =
        StrategyTester.goThroughTicks H robot tester._ticks_ptr tm st) ∧
    (∀ (pre rest : List Tick) (tick : Tick) (tm0 tm : TradingManager) (st0 st : σ),
      StrategyTester.goThroughTicks H robot pre tm0 st0 = some (true, tm, st) →
      StrategyTester.goThroughTicks H robot (pre ++ tick :: rest) tm0 st0 =
        match StrategyTester.handleTick H robot tm st tick with
        | none => none
        | some (false, tm1, st1) => some (false, tm1, st1)
        | some (true, tm1, st1) => StrategyTester.goThroughTicks H robot rest tm1 st1) ∧
    (∀ (tester : StrategyTester) (front : Tick) (rest : List Tick) (tm : TradingManager) (st : σ),
      tester._period ≠ SimulationPeriod.TICK → tester._ticks_ptr = front :: rest →
      StrategyTester.goThrough H tester robot tm st =
        StrategyTester.goThroughTicks H robot
          (StrategyTester.delivered (Backtesting.timeframe_durations tester._period)
            (front :: rest) front.timestamp) tm st) ∧
    (∀ (d : Int) (tick : Tick) (rest : List Tick) (w : Int),
      StrategyTester.delivered d (tick :: rest) w =
        if tick.timestamp ≥ w then tick :: StrategyTester.delivered d rest (w + d)
        else StrategyTester.delivered d rest w) ∧
    (∀ (d : Int) (front : Tick) (rest : List Tick),
      (StrategyTester.delivered d (front :: rest) front.timestamp).head? = some front) ∧
    (∀ (d : Int) (ticks : List Tick) (w : Int),
      (StrategyTester.delivered d ticks w).Sublist ticks) ∧
    (∀ (d : Int) (front : Tick) (rest : List Tick) (k : Nat) (t : Tick),
      (StrategyTester.delivered d (front :: rest) front.timestamp)[k]? = some t →
      t.timestamp ≥ front.timestamp + k * d) := by
  refine ⟨?_, ?_, ?_, delivered_cons, delivered_head, delivered_sublist, ?_⟩
  · intro tester tm st hp
    unfold StrategyTester.goThrough
    rw [if_pos hp]
  · intro pre rest tick tm0 tm st0 st h
    exact goThroughTicks_step H robot pre rest tick tm0 tm st0 st h
  · intro tester front rest tm st hp ht
    exact goThrough_eq_delivered H robot tester front rest tm st hp ht
  · intro d front rest k t hk
    exact delivered_ge_opt d (front :: rest) front.timestamp k t hk

theorem lateTicks_delivered :
    StrategyTester.delivered (Backtesting.timeframe_durations SimulationPeriod.S1) lateTicks 0 =
      lateTicks := by
  simp [StrategyTester.delivered, lateTicks, tickAt, Backtesting.timeframe_durations]

/-- The claim C25 at the tester of the three ticks with the period S1 and the
strategy that does nothing. -/
theorem stride_policy_witness :
    lateTester._period ≠ SimulationPeriod.TICK ∧
    lateTester._ticks_ptr = tickAt 0 :: [tickAt 10000, tickAt 10001] ∧
    StrategyTester.goThrough refHeap lateTester idleRobot
        (TradingManager.init lateTester._account_properties 0 (tickAt 0)) () =
      StrategyTester.goThroughTicks refHeap idleRobot
        (StrategyTester.delivered (Backtesting.timeframe_durations lateTester._period)
          (tickAt 0 :: [tickAt 10000, tickAt 10001]) (tickAt 0).timestamp)
        (TradingManager.init lateTester._account_properties 0 (tickAt 0)) () :=
  ⟨by decide, rfl,
    (stride_policy refHeap idleRobot).2.2.1 lateTester (tickAt 0) [tickAt 10000, tickAt 10001]
      (TradingManager.init lateTester._account_properties 0 (tickAt 0)) () (by decide) rfl⟩

theorem lateTester_goThrough (log : List Hook) :
    StrategyTester.goThrough refHeap lateTester idleRobot.logged
        (TradingManager.init {} 0 (tickAt 0)) ((), log) =
      some (true, TradingManager.init {} 0 (tickAt 10001),
        ((), log ++ [Hook.onTick (tickAt 0) 0, Hook.onTick (tickAt 10000) 0,
          Hook.onTick (tickAt 10001) 0])) := by
  have hb : (0 : ℚ) < ({} : AccountProperties).account_balance := by norm_num
  have hstep : ∀ (ct tick : Tick) (log : List Hook),
      StrategyTester.handleTick refHeap idleRobot.logged (TradingManager.init {} 0 ct) ((), log)
        tick = some (true, TradingManager.init {} 0 tick, ((), log ++ [Hook.onTick tick 0])) := by
    intro ct tick log
    rw [handleTick_init refHeap idleRobot.logged {} 0 ct tick ((), log) hb rfl]
    rfl
  rw [goThrough_eq_delivered refHeap idleRobot.logged lateTester (tickAt 0)
    [tickAt 10000, tickAt 10001] _ _ (by decide) rfl]
  have hd := lateTicks_delivered
  simp only [lateTicks] at hd
  have ht : (tickAt 0).timestamp = 0 := rfl
  have hp : lateTester._period = SimulationPeriod.S1 := rfl
  rw [ht, hp, hd]
  simp only [StrategyTester.goThroughTicks, hstep, List.append_assoc, List.singleton_append,
    List.cons_append, List.nil_append]

/-- C26 (counterexample): with the period S1, whose duration is 1000 ms, and
ticks at 0, 10000 and 10001 ms, every tick is delivered: the strategy that does
nothing has its `onTick` called at all three, and the last two are 1 ms apart. -/
theorem stride_delivers_closer_than_duration :
    StrategyTester.goThrough refHeap lateTester idleRobot.logged
        (TradingManager.init {} 0 (tickAt 0)) ((), []) =
      some (true, TradingManager.init {} 0 (tickAt 10001),
        ((), [Hook.onTick (tickAt 0) 0, Hook.onTick (tickAt 10000) 0,
          Hook.onTick (tickAt 10001) 0])) ∧
    StrategyTester.delivered (Backtesting.timeframe_durations lateTester._period)
      lateTester._ticks_ptr 0 = [tickAt 0, tickAt 10000, tickAt 10001] ∧
    (tickAt 10001).timestamp - (tickAt 10000).timestamp = 1 ∧
    Backtesting.timeframe_durations lateTester._period = 1000 :=
  ⟨lateTester_goThrough [], lateTicks_delivered, rfl, rfl⟩

/-- C26 (amended): with a fixed-duration period the loop is the loop over the
ticks `delivered` selects, and it skips ticks until the next point of a grid
that starts at the first timestamp and advances by the duration at each
delivery: the tick delivered after the `k`-th has a timestamp of at least the
first timestamp plus `k + 1` durations.  Two consecutively delivered ticks are
at least a duration apart when the earlier one was delivered exactly at its grid
point, and in general a duration less the delay of the earlier one behind its
grid point. -/
theorem stride_gap {σ : Type} (H : StdHeap) (robot : ATS σ) (tester : StrategyTester)
    (front : Tick) (rest : List Tick) (hp : tester._period ≠ SimulationPeriod.TICK)
    (ht : tester._ticks_ptr = front :: rest) :
    (∀ (tm : TradingManager) (st : σ),
      StrategyTester.goThrough H tester robot tm st =
        StrategyTester.goThroughTicks H robot
          (StrategyTester.delivered (Backtesting.timeframe_durations tester._period)
            (front :: rest) front.timestamp) tm st) ∧
    ∀ (k : Nat) (a b : Tick),
      (StrategyTester.delivered (Backtesting.timeframe_durations tester._period)
        (front :: rest) front.timestamp)[k]? = some a →
      (StrategyTester.delivered (Backtesting.timeframe_durations tester._period)
        (front :: rest) front.timestamp)[k + 1]? = some b →
      b.timestamp ≥
        front.timestamp + (k + 1) * Backtesting.timeframe_durations tester._period ∧
      b.timestamp - a.timestamp ≥
        Backtesting.timeframe_durations tester._period -
          (a.timestamp -
            (front.timestamp + k * Backtesting.timeframe_durations tester._period)) ∧
      (a.timestamp = front.timestamp + k * Backtesting.timeframe_durations tester._period →
        b.timestamp - a.timestamp ≥ Backtesting.timeframe_durations tester._period) := by
  refine ⟨fun tm st => goThrough_eq_delivered H robot tester front rest tm st hp ht, ?_⟩
  intro k a b _ hb
  have h1 := delivered_ge_opt (Backtesting.timeframe_durations tester._period) (front :: rest)
    front.timestamp (k + 1) b hb
  push_cast at h1
  refine ⟨by linarith, by linarith, ?_⟩
  intro he
  linarith

/-- The amended claim C26 at the tester of the three ticks with the period S1:
the second delivered tick is at least a duration after the first. -/
theorem stride_gap_witness :
    lateTester._period ≠ SimulationPeriod.TICK ∧
    lateTester._ticks_ptr = tickAt 0 :: [tickAt 10000, tickAt 10001] ∧
    (StrategyTester.delivered (Backtesting.timeframe_durations lateTester._period)
      (tickAt 0 :: [tickAt 10000, tickAt 10001]) (tickAt 0).timestamp)[0]? = some (tickAt 0) ∧
    (StrategyTester.delivered (Backtesting.timeframe_durations lateTester._period)
      (tickAt 0 :: [tickAt 10000, tickAt 10001]) (tickAt 0).timestamp)[0 + 1]? =
        some (tickAt 10000) ∧
    (tickAt 10000).timestamp - (tickAt 0).timestamp ≥
      Backtesting.timeframe_durations lateTester._period :=
  have h0 : (StrategyTester.delivered (Backtesting.timeframe_durations lateTester._period)
      (tickAt 0 :: [tickAt 10000, tickAt 10001]) (tickAt 0).timestamp)[0]? =
        some (tickAt 0) := by
    have h := lateTicks_delivered
    simp only [lateTicks] at h
    show (StrategyTester.delivered (Backtesting.timeframe_durations SimulationPeriod.S1)
      [tickAt 0, tickAt 10000, tickAt 10001] 0)[0]? = some (tickAt 0)
    rw [h]
    rfl
  have h1 : (StrategyTester.delivered (Backtesting.timeframe_durations lateTester._period)
      (tickAt 0 :: [tickAt 10000, tickAt 10001]) (tickAt 0).timestamp)[0 + 1]? =
        some (tickAt 10000) := by
    have h := lateTicks_delivered
    simp only [lateTicks] at h
    show (StrategyTester.delivered (Backtesting.timeframe_durations SimulationPeriod.S1)
      [tickAt 0, tickAt 10000, tickAt 10001] 0)[0 + 1]? = some (tickAt 10000)
    rw [h]
    rfl
  ⟨by decide, rfl, h0, h1,
    ((stride_gap refHeap idleRobot lateTester (tickAt 0) [tickAt 10000, tickAt 10001]
      (by decide) rfl).2 0 (tickAt 0) (tickAt 10000) h0 h1).2.2 rfl⟩

theorem applyCalls_closeAll_only (H : StdHeap) :
    ∀ (calls : List BrokerCall) (tm : TradingManager), tm._positions = [] →
      (∀ c ∈ calls, c = BrokerCall.closeAllPositions) → applyCalls H tm calls = some tm := by
  intro calls
  induction calls with
  | nil => intro tm _ _; exact applyCalls_nil H tm
  | cons c cs ih =>
    intro tm hp hall
    rw [applyCalls_cons, hall c (List.mem_cons_self _ _)]
    have e : tm.closeAllPositions H = tm := by
      simp only [closeAllPositions, closeAllPositionsWith, hp, List.length_nil,
        closeAllPositionsLoop]
    simp only [BrokerCall.toCall, Call.apply, Option.some_bind, e]
    exact ih tm hp (fun c hc => hall c (List.mem_cons_of_mem _ hc))

theorem run_of_stop {σ : Type} (H : StdHeap) (tester : StrategyTester) (robot : ATS σ) (st : σ)
    (new_id : Nat) (current_tick : Tick)
    (hs : (robot.start st
      (TradingManager.init tester._account_properties new_id current_tick)).1 =
        ReturnCode.STOP) :
    StrategyTester.run H tester robot st new_id current_tick =
      (applyCalls H (TradingManager.init tester._account_properties new_id current_tick)
        (robot.start st
          (TradingManager.init tester._account_properties new_id current_tick)).2.2).map
        (fun tm1 => (tm1.end_, (robot.start st
          (TradingManager.init tester._account_properties new_id current_tick)).2.1)) := by
  unfold StrategyTester.run
  simp only
  cases h0 : applyCalls H (TradingManager.init tester._account_properties new_id current_tick)
      (robot.start st
        (TradingManager.init tester._account_properties new_id current_tick)).2.2 with
  | none => rfl
  | some tm1 => simp only [hs, if_true, Option.map_some']

theorem stop_entry_last (quiet tail pre post : List Hook) (t : Tick) (hq : QuietHooks quiet)
    (ht : tail = [] ∨ ∃ t1 : Tick, tail = [Hook.onTick t1 ReturnCode.STOP.toInt])
    (h : Hook.start ReturnCode.OK :: (quiet ++ tail ++ [Hook.end_]) =
      pre ++ Hook.onTick t ReturnCode.STOP.toInt :: post) :
    post = [Hook.end_] ∧ pre = Hook.start ReturnCode.OK :: quiet := by
  have hnot : Hook.onTick t ReturnCode.STOP.toInt ∉ Hook.start ReturnCode.OK :: quiet := by
    intro hm
    rcases List.mem_cons.mp hm with he | hm
    · cases he
    · rcases hq _ hm with he | ⟨t1, c, he, hc⟩
      · cases he
      · injection he with _ he
        exact hc he.symm
  have h2 : (Hook.start ReturnCode.OK :: quiet) ++ (tail ++ [Hook.end_]) =
      pre ++ Hook.onTick t ReturnCode.STOP.toInt :: post := by
    rw [← h]
    simp
  rcases List.append_eq_append_iff.mp h2 with ⟨a, ha, hb⟩ | ⟨c, hc, hd⟩
  · rcases ht with rfl | ⟨t1, rfl⟩
    · cases a with
      | nil => simp at hb
      | cons x a => simp at hb
    · cases a with
      | nil =>
        simp at hb
        refine ⟨hb.2.symm, ?_⟩
        rw [ha]
        simp
      | cons x a =>
        cases a with
        | nil => simp at hb
        | cons y a => simp at hb
  · cases c with
    | nil =>
      simp only [List.nil_append] at hd
      rw [List.append_nil] at hc
      rcases ht with rfl | ⟨t1, rfl⟩
      · simp at hd
      · simp at hd
        exact ⟨hd.2, hc.symm⟩
    | cons x c =>
      simp only [List.cons_append, List.cons.injEq] at hd
      exfalso
      apply hnot
      rw [hc, ← hd.1]
      simp

/-- C27 (STOP ends the run): when `start` returns STOP, `run` returns the results
of the manager as the calls of `start` left it, whatever the ticks and the
period, and the only hook called is `start`; if `start` made no call, or calls
of `closeAllPositions` only, the results carry the initial balance as
`account_balance` and `total_equity`, no trade and no open position, and so they
do whenever `start` placed no order and the run returns.  In every run a call of
`onTick` that returned STOP is followed by the call of `end` only: `handleTick`
returns false at that tick and the tick loops, the loop over the delivered ticks
included, end there with the manager and the strategy as that call left them,
whatever ticks follow. -/
theorem stop_ends_run {σ : Type} (H : StdHeap) (robot : ATS σ) (tester : StrategyTester) (st : σ)
    (new_id : Nat) (current_tick : Tick) :
    ((robot.start st (TradingManager.init tester._account_properties new_id current_tick)).1 =
        ReturnCode.STOP →
      StrategyTester.run H tester robot st new_id current_tick =
        (applyCalls H (TradingManager.init tester._account_properties new_id current_tick)
          (robot.start st
            (TradingManager.init tester._account_properties new_id current_tick)).2.2).map
          (fun tm1 => (tm1.end_, (robot.start st
            (TradingManager.init tester._account_properties new_id current_tick)).2.1)) ∧
      ((∀ c ∈ (robot.start st
          (TradingManager.init tester._account_properties new_id current_tick)).2.2,
          c = BrokerCall.closeAllPositions) →
        StrategyTester.run H tester robot st new_id current_tick =
          some ({ account_balance := tester._account_properties.account_balance
                  total_equity := tester._account_properties.account_balance
                  unclosed_positions := []
                  trades := [] },
            (robot.start st
              (TradingManager.init tester._account_properties new_id current_tick)).2.1)) ∧
      (∀ (res : Results) (st1 : σ),
        (∀ c ∈ (robot.start st
          (TradingManager.init tester._account_properties new_id current_tick)).2.2,
          ∀ order : Order, c ≠ BrokerCall.tryCreatePosition order) →
        StrategyTester.run H tester robot st new_id current_tick = some (res, st1) →
        res = { account_balance := tester._account_properties.account_balance
                total_equity := tester._account_properties.account_balance
                unclosed_positions := []
                trades := [] }) ∧
      (∀ (res : Results) (s2 : σ × List Hook),
        StrategyTester.run H tester robot.logged (st, []) new_id current_tick = some (res, s2) →
        s2.2 = [Hook.start ReturnCode.STOP])) ∧
    (∀ (res : Results) (st1 : σ),
      StrategyTester.run H tester robot st new_id current_tick = some (res, st1) →
      ∃ log : List Hook,
        StrategyTester.run H tester robot.logged (st, []) new_id current_tick =
          some (res, (st1, log))) ∧
    (∀ (res : Results) (s2 : σ × List Hook) (pre post : List Hook) (t : Tick),
      StrategyTester.run H tester robot.logged (st, []) new_id current_tick = some (res, s2) →
      s2.2 = pre ++ Hook.onTick t ReturnCode.STOP.toInt :: post → post = [Hook.end_]) ∧
    (∀ (tm tm2 : TradingManager) (st0 : σ) (tick : Tick) (b : Bool) (s2 : σ × List Hook),
      StrategyTester.handleTick H robot.logged tm (st0, []) tick = some (b, tm2, s2) →
      Hook.onTick tick ReturnCode.STOP.toInt ∈ s2.2 → b = false) ∧
    (∀ (pre rest : List Tick) (tick : Tick) (tm0 tm tm2 : TradingManager) (st0 st1 st2 : σ),
      StrategyTester.goThroughTicks H robot pre tm0 st0 = some (true, tm, st1) →
      StrategyTester.handleTick H robot tm st1 tick = some (false, tm2, st2) →
      StrategyTester.goThroughTicks H robot (pre ++ tick :: rest) tm0 st0 =
        some (false, tm2, st2)) ∧
    (∀ (d : Int) (ticks : List Tick) (w : Int) (tm : TradingManager) (st0 : σ),
      StrategyTester.goThroughTicksPeriod H robot d ticks w tm st0 =
        StrategyTester.goThroughTicks H robot (StrategyTester.delivered d ticks w) tm st0) := by
  refine ⟨?_, ?_, ?_, ?_, ?_, goThroughTicksPeriod_eq_delivered H robot⟩
  · intro hs
    have hrun := run_of_stop H tester robot st new_id current_tick hs
    refine ⟨hrun, ?_, ?_, ?_⟩
    · intro hall
      rw [hrun, applyCalls_closeAll_only H _ _ rfl hall, Option.map_some', init_end]
    · intro res st1 hno h
      rw [hrun] at h
      cases h0 : applyCalls H
          (TradingManager.init tester._account_properties new_id current_tick)
          (robot.start st
            (TradingManager.init tester._account_properties new_id current_tick)).2.2 with
      | none => simp [h0] at h
      | some tm1 =>
        have e := applyCalls_no_order H _ _ tm1 rfl rfl hno h0
        rw [h0, Option.map_some', e, init_end] at h
        injection h with h
        injection h with h _
        exact h.symm
    · intro res s2 h
      rcases run_logged H tester robot (st, []) new_id current_tick with
        ⟨h1, _⟩ | ⟨res1, st2, log, h1, _, hl⟩
      · rw [h1] at h
        cases h
      · rw [h1] at h
        injection h with h
        injection h with _ h
        rw [← h]
        rcases hl with ⟨_, hl⟩ | ⟨hok, _⟩
        · simp [hl]
        · have hok2 : (robot.start st
              (TradingManager.init tester._account_properties new_id current_tick)).1 =
              ReturnCode.OK := hok
          rw [hs] at hok2
          cases hok2
  · intro res st1 h
    rcases run_logged H tester robot (st, []) new_id current_tick with
      ⟨_, h2⟩ | ⟨res1, st2, log, h1, h2, _⟩
    · have h3 : StrategyTester.run H tester robot st new_id current_tick = none := h2
      rw [h3] at h
      cases h
    · have h3 : StrategyTester.run H tester robot st new_id current_tick = some (res1, st2) := h2
      rw [h3] at h
      injection h with h
      injection h with ha hb
      subst ha
      subst hb
      exact ⟨[] ++ log, h1⟩
  · intro res s2 pre post t h hsplit
    rcases run_logged H tester robot (st, []) new_id current_tick with
      ⟨h1, _⟩ | ⟨res1, st2, log, h1, _, hl⟩
    · rw [h1] at h
      cases h
    · rw [h1] at h
      injection h with h
      injection h with _ h
      rw [← h] at hsplit
      simp only [List.nil_append] at hsplit
      rcases hl with ⟨_, hl⟩ | ⟨_, quiet, tail, hl, hq, ht⟩
      · rw [hl] at hsplit
        cases pre with
        | nil => simp at hsplit
        | cons x pre =>
          simp at hsplit
      · rw [hl] at hsplit
        exact (stop_entry_last quiet tail pre post t hq ht hsplit).1
  · intro tm tm2 st0 tick b s2 h hmem
    rcases handleTick_logged H robot tm (st0, []) tick with
      ⟨h1, _⟩ | ⟨b1, tm3, st3, l, h1, _, hl⟩
    · rw [h1] at h
      cases h
    · rw [h1] at h
      injection h with h
      injection h with hb h
      injection h with _ h
      rw [← h] at hmem
      simp only [List.nil_append] at hmem
      rw [← hb]
      rcases hl with ⟨hb1, _⟩ | ⟨c, hc, hl⟩
      · exact hb1
      · have hc2 : c = ReturnCode.STOP.toInt := by
          rcases hl with rfl | rfl
          · simp at hmem
            exact hmem.symm
          · simp at hmem
            exact hmem.symm
        rw [hc, hc2]
        simp
  · intro pre rest tick tm0 tm tm2 st0 st1 st2 h hh
    rw [goThroughTicks_step H robot pre rest tick tm0 tm st0 st1 h, hh]

/-- The claim C27 at the strategy whose `start` returns STOP, over the three
ticks: the results are those of the fresh default account. -/
theorem stop_ends_run_witness :
    (stopAtStart.start () (TradingManager.init lateTester._account_properties 0 (tickAt 0))).1 =
      ReturnCode.STOP ∧
    (∀ c ∈ (stopAtStart.start ()
        (TradingManager.init lateTester._account_properties 0 (tickAt 0))).2.2,
      c = BrokerCall.closeAllPositions) ∧
    StrategyTester.run refHeap lateTester stopAtStart () 0 (tickAt 0) =
      some ({ account_balance := 10000
              total_equity := 10000
              unclosed_positions := []
              trades := [] }, ()) :=
  have hall : ∀ c ∈ (stopAtStart.start ()
      (TradingManager.init lateTester._account_properties 0 (tickAt 0))).2.2,
      c = BrokerCall.closeAllPositions := by
    intro c hc
    simp [stopAtStart] at hc
  ⟨rfl, hall, ((stop_ends_run refHeap stopAtStart lateTester () 0 (tickAt 0)).1 rfl).2.1 hall⟩

theorem stopAtStart_run :
    StrategyTester.run refHeap lateTester stopAtStart.logged ((), []) 0 (tickAt 0) =
      some ({ account_balance := 10000
              total_equity := 10000
              unclosed_positions := []
              trades := [] }, ((), [Hook.start ReturnCode.STOP])) := by
  rw [run_of_stop refHeap lateTester stopAtStart.logged ((), []) 0 (tickAt 0) rfl]
  have h : applyCalls refHeap (TradingManager.init lateTester._account_properties 0 (tickAt 0))
      (stopAtStart.logged.start ((), [])
        (TradingManager.init lateTester._account_properties 0 (tickAt 0))).2.2 =
      some (TradingManager.init lateTester._account_properties 0 (tickAt 0)) := rfl
  rw [h, Option.map_some', init_end]
  rfl

theorem idleRobot_run :
    StrategyTester.run refHeap lateTester idleRobot.logged ((), []) 0 (tickAt 0) =
      some ({ account_balance := 10000
              total_equity := 10000
              unclosed_positions := []
              trades := [] },
        ((), [Hook.start ReturnCode.OK, Hook.onTick (tickAt 0) 0, Hook.onTick (tickAt 10000) 0,
          Hook.onTick (tickAt 10001) 0, Hook.end_])) := by
  have hg := lateTester_goThrough [Hook.start ReturnCode.OK]
  have hs : ∀ tm : TradingManager, idleRobot.logged.start ((), []) tm =
      (ReturnCode.OK, ((), [Hook.start ReturnCode.OK]), []) := fun _ => rfl
  have he : ∀ (log : List Hook) (tm : TradingManager),
      StrategyTester.finish refHeap idleRobot.logged tm ((), log) =
        some (tm.end_, ((), log ++ [Hook.end_])) := fun _ _ => rfl
  have hp : lateTester._account_properties = {} := rfl
  unfold StrategyTester.run
  simp only [hs, applyCalls_nil, reduceCtorEq, if_false, hp, hg, he, init_end]
  rfl

/-- C28 (counterexample): the run of the strategy whose `start` returns STOP
returns the results after the single hook call `start`; `end` is not called. -/
theorem stop_at_start_skips_end :
    StrategyTester.run refHeap lateTester stopAtStart.logged ((), []) 0 (tickAt 0) =
      some ({ account_balance := 10000
              total_equity := 10000
              unclosed_positions := []
              trades := [] }, ((), [Hook.start ReturnCode.STOP])) ∧
    Hook.end_ ∉ [Hook.start ReturnCode.STOP] :=
  ⟨stopAtStart_run, by decide⟩

/-- C28 (amended): in every run in which `start` returns OK, `end` is called
exactly once, as the last hook of the run, after the calls of `onTick` and
`onMarginCallWarning` of the tick loop, also when the loop stops early; in a run
in which `start` returns STOP, `start` is the only hook called and `end` is not
called.  The run of the strategy that logs its hooks returns whenever the run of
the strategy does, with the same results. -/
theorem end_called_once {σ : Type} (H : StdHeap) (tester : StrategyTester) (robot : ATS σ)
    (st : σ) (new_id : Nat) (current_tick : Tick) (res : Results) (st1 : σ)
    (h : StrategyTester.run H tester robot st new_id current_tick = some (res, st1)) :
    ∃ log : List Hook,
      StrategyTester.run H tester robot.logged (st, []) new_id current_tick =
        some (res, (st1, log)) ∧
      ((robot.start st (TradingManager.init tester._account_properties new_id current_tick)).1 =
          ReturnCode.OK →
        log.getLast? = some Hook.end_ ∧ log.count Hook.end_ = 1 ∧
        ∃ mid : List Hook, log = Hook.start ReturnCode.OK :: (mid ++ [Hook.end_]) ∧
          ∀ k ∈ mid, k = Hook.onMarginCallWarning ∨ ∃ (t : Tick) (c : Int), k = Hook.onTick t c) ∧
      ((robot.start st (TradingManager.init tester._account_properties new_id current_tick)).1 =
          ReturnCode.STOP →
        log = [Hook.start ReturnCode.STOP]) := by
  rcases run_logged H tester robot (st, []) new_id current_tick with
    ⟨_, h2⟩ | ⟨res1, st2, log, h1, h2, hl⟩
  · have h3 : StrategyTester.run H tester robot st new_id current_tick = none := h2
    rw [h3] at h
    cases h
  · have h3 : StrategyTester.run H tester robot st new_id current_tick = some (res1, st2) := h2
    rw [h3] at h
    injection h with h
    injection h with ha hb
    subst ha
    subst hb
    refine ⟨log, by simpa using h1, ?_, ?_⟩
    · intro hok
      rcases hl with ⟨hstop, _⟩ | ⟨_, quiet, tail, hl, hq, ht⟩
      · have hstop2 : (robot.start st
            (TradingManager.init tester._account_properties new_id current_tick)).1 =
            ReturnCode.STOP := hstop
        rw [hok] at hstop2
        cases hstop2
      · have hmid : ∀ k ∈ quiet ++ tail,
            k = Hook.onMarginCallWarning ∨ ∃ (t : Tick) (c : Int), k = Hook.onTick t c := by
          intro k hk
          rcases List.mem_append.mp hk with hk | hk
          · rcases hq k hk with hw | ⟨t, c, hc, _⟩
            · exact Or.inl hw
            · exact Or.inr ⟨t, c, hc⟩
          · rcases ht with rfl | ⟨t, rfl⟩
            · simp at hk
            · exact Or.inr ⟨t, _, by simpa using hk⟩
        have hnot : Hook.end_ ∉ quiet ++ tail := by
          intro hm
          rcases hmid _ hm with he | ⟨t, c, he⟩ <;> cases he
        refine ⟨?_, ?_, quiet ++ tail, hl, hmid⟩
        · rw [hl, show Hook.start ReturnCode.OK :: (quiet ++ tail ++ [Hook.end_]) =
            (Hook.start ReturnCode.OK :: (quiet ++ tail)) ++ [Hook.end_] from rfl,
            List.getLast?_append]
          rfl
        rw [hl, List.count_cons, List.count_append, List.count_eq_zero_of_not_mem hnot]
        simp
    · intro hstop
      rcases hl with ⟨_, hl⟩ | ⟨hok, _⟩
      · exact hl
      · have hok2 : (robot.start st
            (TradingManager.init tester._account_properties new_id current_tick)).1 =
            ReturnCode.OK := hok
        rw [hstop] at hok2
        cases hok2

/-- The amended claim C28 at the strategy that does nothing, over the three ticks
with the period S1. -/
theorem end_called_once_witness :
    StrategyTester.run refHeap lateTester idleRobot () 0 (tickAt 0) =
      some ({ account_balance := 10000
              total_equity := 10000
              unclosed_positions := []
              trades := [] }, ()) ∧
    ∃ log : List Hook,
      StrategyTester.run refHeap lateTester idleRobot.logged ((), []) 0 (tickAt 0) =
        some ({ account_balance := 10000
                total_equity := 10000
                unclosed_positions := []
                trades := [] }, ((), log)) ∧
      ((idleRobot.start () (TradingManager.init lateTester._account_properties 0 (tickAt 0))).1 =
          ReturnCode.OK → log.getLast? = some Hook.end_ ∧ log.count Hook.end_ = 1) :=
  have hrun : StrategyTester.run refHeap lateTester idleRobot () 0 (tickAt 0) =
      some ({ account_balance := 10000
              total_equity := 10000
              unclosed_positions := []
              trades := [] }, ()) := by
    rcases run_logged refHeap lateTester idleRobot ((), []) 0 (tickAt 0) with
      ⟨h1, _⟩ | ⟨res1, st2, log, h1, h2, _⟩
    · rw [idleRobot_run] at h1
      cases h1
    · rw [idleRobot_run] at h1
      injection h1 with h1
      injection h1 with ha _
      rw [ha]
      exact h2
  ⟨hrun,
    (end_called_once refHeap lateTester idleRobot () 0 (tickAt 0) _ () hrun).imp
      (fun _ hx => ⟨hx.1, fun hok => ⟨(hx.2.1 hok).1, (hx.2.1 hok).2.1⟩⟩)⟩

/-! ## The optimizer -/

theorem tinyBook1_onTick (H : StdHeap) :
    tinyBook1.onTick H tickHalf = (AccountState.NONPOSITIVE_ACCOUNT_BALANCE, tinyBookLost) := by
  have e1 : checkEvents H .stoploss true tickHalf.bid (tinyBook1.withTick tickHalf)
      = handler H .stoploss ((tinyBook1.withTick tickHalf).setQueue .stoploss true [])
          ⟨1, lossPosition⟩ :=
    checkEvents_singleton H .stoploss true _ rfl
      (by
        simp only [EventKind.predicate, EventKind.traits, StoplossManager, if_true,
          LongStoplossPredicate, lossPosition, tickHalf]
        norm_num)
  have e2 : handler H .stoploss
      ((tinyBook1.withTick tickHalf).setQueue .stoploss true [])
      ⟨1, lossPosition⟩ = tinyBookLost := by
    simp only [handler, stoplossHandler, setQueue, withTick, tinyBook1,
      PriceEventManager.remove, lossPosition, if_true, TakeprofitManager,
      queue_remove_nil, closePosition, tradeOf, tickHalf,
      mapErase, AccountBalanceManager.realizePosition, Trade.calculateProfit,
      tinyBookLost, lossTrade]
    simp
    norm_num
  have e3 : ∀ (k : EventKind) (s : Bool) (p : ℚ),
      checkEvents H k s p tinyBookLost = tinyBookLost := by
    intro k s p
    exact checkEvents_nil H k s p (by cases k <;> cases s <;> rfl)
  have hE : tinyBook1.afterEvents H tickHalf = tinyBookLost := by
    simp only [afterEvents, eventsOnTick, e1, e2, e3]
  have hL : tinyBook1.afterLedger H tickHalf = tinyBookLost := by
    rw [afterLedger, hE]
    simp [AccountBalanceManager.onTick, AccountBalanceManager.updateOpenPositionEquity,
      tinyBookLost]
  have hc : tinyBookLost._account_manager.classify
      = AccountState.NONPOSITIVE_ACCOUNT_BALANCE := by
    simp [AccountBalanceManager.classify, tinyBookLost]
  have h1 := onTick_fst H tinyBook1 tickHalf
  have h2 := onTick_snd H tinyBook1 tickHalf
  rw [hL, hc] at h1 h2
  refine Prod.ext h1 ?_
  rw [h2]
  simp only [closeAllPositionsWith, tinyBookLost, List.length_nil, closeAllPositionsLoop]

theorem loser_run (H : StdHeap) :
    StrategyTester.run H tinyTester (loser 10) () 0 tickAt1 = some (tinyBookLost.end_, ()) := by
  have ha : applyCalls H (TradingManager.init tinyAccount 0 tickAt1)
      [BrokerCall.tryCreatePosition lossOrder] = some tinyBook1 := by
    simp only [applyCalls, List.map_cons, List.map_nil, BrokerCall.toCall, after, Call.apply,
      tinyBook1_open, Option.map_some']
  have h1 : StrategyTester.goThroughTicks H (loser 10) [tickAt1]
      (TradingManager.init tinyAccount 0 tickAt1) () = some (true, tinyBook1, ()) := by
    have h := handleTick_ok H (loser 10) () tickAt1 (tiny_onTick H)
      (show applyCalls H _ ((loser 10).onTick () _ tickAt1).2.2 = some tinyBook1 from ha)
    simp only [StrategyTester.goThroughTicks, h]
    rfl
  have hs : StrategyTester.goThroughTicks H (loser 10) [tickAt1, tickHalf]
      (TradingManager.init tinyAccount 0 tickAt1) () = some (false, tinyBookLost, ()) := by
    have := goThroughTicks_append H (loser 10) [tickAt1] [tickHalf] _ _ _ _ h1
    simp only [List.singleton_append] at this
    rw [this]
    simp only [StrategyTester.goThroughTicks,
      handleTick_nonpositive H (loser 10) tinyBook1 () tickHalf
        (by rw [tinyBook1_onTick]), tinyBook1_onTick]
  have hf : StrategyTester.finish H (loser 10) tinyBookLost () =
      some (tinyBookLost.end_, ()) := rfl
  have h0 : applyCalls H (TradingManager.init tinyAccount 0 tickAt1) [] =
      some (TradingManager.init tinyAccount 0 tickAt1) := rfl
  have hst : ∀ tm : TradingManager, (loser 10).start () tm = (ReturnCode.OK, (), []) :=
    fun _ => rfl
  have hg : StrategyTester.goThrough H tinyTester (loser 10)
      (TradingManager.init tinyAccount 0 tickAt1) () = some (false, tinyBookLost, ()) := by
    simp only [StrategyTester.goThrough, tinyTester, if_true]
    exact hs
  have hp : tinyTester._account_properties = tinyAccount := rfl
  unfold StrategyTester.run
  simp only [hst, hp, h0, reduceCtorEq, if_false, hg, hf]

theorem tinyBookLost_end :
    tinyBookLost.end_ =
      { account_balance := -4, total_equity := -4, unclosed_positions := [],
        trades := [lossTrade] } := by
  simp [TradingManager.end_, tinyBookLost, AccountBalanceManager.getBalance,
    AccountBalanceManager.getTotalEquity]

/-- C29 (failing input): the optimizer of the strategies `loser` over the tester
of `tinyAccount`, with the single combination 10.  The run of `loser 10` ends
with the balance -4, and `findBestParametersSeq` returns the value-initialized
pair, of balance 0 and parameter 0, which is the pair of no combination of the
list. -/
theorem findBestParameters_returns_initial_pair :
    loserOptimizer.transform refHeap 0 tickAt1 10 =
      some ({ account_balance := -4, total_equity := -4, unclosed_positions := [],
              trades := [lossTrade] }, 10) ∧
    loserOptimizer.findBestParametersSeq refHeap 0 tickAt1 [10] =
      some ({ account_balance := 0, total_equity := 0, unclosed_positions := [],
              trades := [] }, 0) ∧
    (0 : ℚ) ∉ [(10 : ℚ)] := by
  have ht : loserOptimizer.transform refHeap 0 tickAt1 10 =
      some ({ account_balance := -4, total_equity := -4, unclosed_positions := [],
              trades := [lossTrade] }, 10) := by
    simp only [StrategyOptimizer.transform, loserOptimizer, loser_run, Option.map_some',
      tinyBookLost_end]
  refine ⟨ht, ?_, by norm_num⟩
  simp only [StrategyOptimizer.findBestParametersSeq, StrategyOptimizer.transform_reduce, ht,
    StrategyOptimizer.reduce]
  norm_num
  rfl

theorem reduce_keep {P : Type} (a b : Results × P)
    (h : b.1.account_balance < a.1.account_balance) : StrategyOptimizer.reduce a b = a := by
  unfold StrategyOptimizer.reduce
  rw [if_pos h]

theorem reduce_take {P : Type} (a b : Results × P)
    (h : a.1.account_balance ≤ b.1.account_balance) : StrategyOptimizer.reduce a b = b := by
  unfold StrategyOptimizer.reduce
  rw [if_neg (not_lt.mpr h)]

theorem transform_reduce_below {P : Type} (f : P → Option (Results × P)) (r : P → Results)
    (bound : ℚ) :
    ∀ (l : List P) (init : Results × P), (∀ q ∈ l, f q = some (r q, q)) →
      init.1.account_balance ≤ bound → (∀ q ∈ l, (r q).account_balance ≤ bound) →
      ∃ best : Results × P, StrategyOptimizer.transform_reduce f l init = some best ∧
        best.1.account_balance ≤ bound := by
  intro l
  induction l with
  | nil => intro init _ hi _; exact ⟨init, rfl, hi⟩
  | cons p rest ih =>
    intro init hf hi hb
    simp only [StrategyOptimizer.transform_reduce, hf p (List.mem_cons_self _ _)]
    apply ih _ (fun q hq => hf q (List.mem_cons_of_mem _ hq)) _
      (fun q hq => hb q (List.mem_cons_of_mem _ hq))
    unfold StrategyOptimizer.reduce
    split_ifs
    · exact hi
    · exact hb p (List.mem_cons_self _ _)

theorem transform_reduce_keep {P : Type} (f : P → Option (Results × P)) (r : P → Results) :
    ∀ (l : List P) (init : Results × P), (∀ q ∈ l, f q = some (r q, q)) →
      (∀ q ∈ l, (r q).account_balance < init.1.account_balance) →
      StrategyOptimizer.transform_reduce f l init = some init := by
  intro l
  induction l with
  | nil => intro init _ _; rfl
  | cons p rest ih =>
    intro init hf hb
    simp only [StrategyOptimizer.transform_reduce, hf p (List.mem_cons_self _ _)]
    rw [reduce_keep init (r p, p) (hb p (List.mem_cons_self _ _))]
    exact ih init (fun q hq => hf q (List.mem_cons_of_mem _ hq))
      (fun q hq => hb q (List.mem_cons_of_mem _ hq))

theorem transform_reduce_append {P : Type} (f : P → Option (Results × P)) :
    ∀ (l l2 : List P) (init best : Results × P),
      StrategyOptimizer.transform_reduce f l init = some best →
      StrategyOptimizer.transform_reduce f (l ++ l2) init =
        StrategyOptimizer.transform_reduce f l2 best := by
  intro l
  induction l with
  | nil =>
    intro l2 init best h
    simp only [StrategyOptimizer.transform_reduce, Option.some.injEq] at h
    rw [← h]
    rfl
  | cons p rest ih =>
    intro l2 init best h
    simp only [StrategyOptimizer.transform_reduce, List.cons_append] at h ⊢
    cases hp : f p with
    | none => simp [hp] at h
    | some b =>
      simp only [hp] at h ⊢
      exact ih l2 _ best h

theorem transform_reduce_last {P : Type} (f : P → Option (Results × P)) (r : P → Results)
    (pre post : List P) (p : P) (init : Results × P)
    (hf : ∀ q ∈ pre ++ p :: post, f q = some (r q, q))
    (hi : init.1.account_balance ≤ (r p).account_balance)
    (hpre : ∀ q ∈ pre, (r q).account_balance ≤ (r p).account_balance)
    (hpost : ∀ q ∈ post, (r q).account_balance < (r p).account_balance) :
    StrategyOptimizer.transform_reduce f (pre ++ p :: post) init = some (r p, p) := by
  obtain ⟨best, h1, h2⟩ := transform_reduce_below f r (r p).account_balance pre init
    (fun q hq => hf q (List.mem_append_left _ hq)) hi hpre
  rw [transform_reduce_append f pre (p :: post) init best h1]
  simp only [StrategyOptimizer.transform_reduce,
    hf p (List.mem_append_right _ (List.mem_cons_self _ _))]
  rw [reduce_take best (r p, p) h2]
  exact transform_reduce_keep f r post (r p, p)
    (fun q hq => hf q (List.mem_append_right _ (List.mem_cons_of_mem _ hq))) hpost

theorem idleRobot_run_plain :
    StrategyTester.run refHeap lateTester idleRobot () 0 (tickAt 0) =
      some ({ account_balance := 10000
              total_equity := 10000
              unclosed_positions := []
              trades := [] }, ()) := by
  rcases run_logged refHeap lateTester idleRobot ((), []) 0 (tickAt 0) with
    ⟨h1, _⟩ | ⟨res1, st2, log, h1, h2, _⟩
  · rw [idleRobot_run] at h1
    cases h1
  · rw [idleRobot_run] at h1
    injection h1 with h1
    injection h1 with ha _
    rw [ha]
    exact h2

theorem idleOptimizer_transform (params : Nat) :
    idleOptimizer.transform refHeap 0 (tickAt 0) params =
      some ({ account_balance := 10000
              total_equity := 10000
              unclosed_positions := []
              trades := [] }, params) := by
  simp only [StrategyOptimizer.transform, idleOptimizer, idleRobot_run_plain, Option.map_some']

/-- C30 (counterexample): both combinations 1 and 2 of the optimizer of the
strategy that does nothing end with the balance 10000, and
`findBestParametersSeq` returns the pair of the combination 2, the one that
occurs last. -/
theorem findBestParameters_returns_last_of_ties :
    (idleOptimizer.transform refHeap 0 (tickAt 0) 1).map (fun r => r.1.account_balance) =
      some 10000 ∧
    (idleOptimizer.transform refHeap 0 (tickAt 0) 2).map (fun r => r.1.account_balance) =
      some 10000 ∧
    idleOptimizer.findBestParametersSeq refHeap 0 (tickAt 0) [1, 2] =
      some ({ account_balance := 10000
              total_equity := 10000
              unclosed_positions := []
              trades := [] }, 2) := by
  refine ⟨by rw [idleOptimizer_transform]; rfl, by rw [idleOptimizer_transform]; rfl, ?_⟩
  simp only [StrategyOptimizer.findBestParametersSeq, StrategyOptimizer.transform_reduce,
    idleOptimizer_transform, StrategyOptimizer.reduce]
  norm_num

/-- C30 (amended): with the reduction performed in input order, when every run
returns, the maximum balance is not negative and several combinations reach it,
`findBestParametersSeq` returns the pair of the one that occurs last: the pair
of the combination `p` of `pre ++ p :: post` whose balance is not negative, at
least that of every combination of `pre` and greater than that of every
combination of `post`. -/
theorem findBestParameters_last_wins {σ P : Type} [Inhabited P] (H : StdHeap)
    (o : StrategyOptimizer σ P) (new_id : Nat) (current_tick : Tick) (r : P → Results)
    (pre post : List P) (p : P)
    (hf : ∀ q ∈ pre ++ p :: post, o.transform H new_id current_tick q = some (r q, q))
    (hi : 0 ≤ (r p).account_balance)
    (hpre : ∀ q ∈ pre, (r q).account_balance ≤ (r p).account_balance)
    (hpost : ∀ q ∈ post, (r q).account_balance < (r p).account_balance) :
    o.findBestParametersSeq H new_id current_tick (pre ++ p :: post) = some (r p, p) := by
  unfold StrategyOptimizer.findBestParametersSeq
  exact transform_reduce_last _ r pre post p _ hf hi hpre hpost

/-- The amended claim C30 at the combinations 1 and 2 of the optimizer of the
strategy that does nothing. -/
theorem findBestParameters_last_wins_witness :
    idleOptimizer.findBestParametersSeq refHeap 0 (tickAt 0) ([1] ++ 2 :: []) =
      some ({ account_balance := 10000
              total_equity := 10000
              unclosed_positions := []
              trades := [] }, 2) :=
  findBestParameters_last_wins refHeap idleOptimizer 0 (tickAt 0)
    (fun _ => { account_balance := 10000
                total_equity := 10000
                unclosed_positions := []
                trades := [] }) [1] [] 2
    (fun q _ => idleOptimizer_transform q) (by norm_num) (fun _ _ => le_refl _)
    (fun q hq => absurd hq (List.not_mem_nil q))

/-! ## The reduction operator of the optimizer -/

theorem reduce_balance {P : Type} (a b : Results × P) :
    (StrategyOptimizer.reduce a b).1.account_balance =
      max a.1.account_balance b.1.account_balance := by
  unfold StrategyOptimizer.reduce
  split_ifs with h
  · exact (max_eq_left (le_of_lt h)).symm
  · exact (max_eq_right (not_lt.mp h)).symm

theorem reduce_assoc {P : Type} (a b c : Results × P) :
    StrategyOptimizer.reduce (StrategyOptimizer.reduce a b) c =
      StrategyOptimizer.reduce a (StrategyOptimizer.reduce b c) := by
  unfold StrategyOptimizer.reduce
  by_cases hab : a.1.account_balance > b.1.account_balance
  · by_cases hbc : b.1.account_balance > c.1.account_balance
    · have hac : a.1.account_balance > c.1.account_balance := lt_trans hbc hab
      simp only [hab, hbc, hac, if_true]
    · by_cases hac : a.1.account_balance > c.1.account_balance
      · simp only [hab, hbc, hac, if_true, if_false]
      · simp only [hab, hbc, hac, if_true, if_false]
  · by_cases hbc : b.1.account_balance > c.1.account_balance
    · simp only [hab, hbc, if_true, if_false]
    · have hac : ¬ a.1.account_balance > c.1.account_balance := by
        intro h
        exact hab (lt_of_le_of_lt (not_lt.mp hbc) h)
      simp only [hab, hbc, hac, if_false]

theorem foldl_reduce_balance {P : Type} :
    ∀ (l : List (Results × P)) (init : Results × P),
      (l.foldl StrategyOptimizer.reduce init).1.account_balance =
        (l.map (fun x => x.1.account_balance)).foldl max init.1.account_balance := by
  intro l
  induction l with
  | nil => intro init; rfl
  | cons x l ih =>
    intro init
    simp only [List.foldl_cons, List.map_cons]
    rw [ih, reduce_balance]

theorem foldl_max_perm (l1 l2 : List ℚ) (h : l1.Perm l2) (m : ℚ) :
    l1.foldl max m = l2.foldl max m := by
  induction h generalizing m with
  | nil => rfl
  | cons x _ ih => simp only [List.foldl_cons]; exact ih _
  | swap x y l =>
    simp only [List.foldl_cons]
    rw [max_assoc, max_comm y x, ← max_assoc]
  | trans _ _ ih1 ih2 => exact (ih1 m).trans (ih2 m)

/-- On rational balances: two pairs of results of the same balance and of the
parameters 1 and 2: `reduce` returns its second operand, so swapping the operands
changes the result. -/
theorem reduce_not_commutative :
    StrategyOptimizer.reduce
        (({ account_balance := 10000, total_equity := 10000, unclosed_positions := [],
            trades := [] } : Results), (1 : Nat))
        ({ account_balance := 10000, total_equity := 10000, unclosed_positions := [],
           trades := [] }, 2) ≠
      StrategyOptimizer.reduce
        (({ account_balance := 10000, total_equity := 10000, unclosed_positions := [],
            trades := [] } : Results), (2 : Nat))
        ({ account_balance := 10000, total_equity := 10000, unclosed_positions := [],
           trades := [] }, 1) := by
  simp [StrategyOptimizer.reduce]

/-- On rational balances the reduction operator `reduce` is associative, and the
balance of `reduce a b` is the maximum of the two balances, whatever the order
of the operands; `reduce a b = reduce b a` when the balances differ, and on a tie
`reduce` returns its second operand.  So the balance of the result of the
reduction of a list of pairs is the same for every order of the pairs. -/
theorem reduce_assoc_max {P : Type} :
    (∀ a b c : Results × P,
      StrategyOptimizer.reduce (StrategyOptimizer.reduce a b) c =
        StrategyOptimizer.reduce a (StrategyOptimizer.reduce b c)) ∧
    (∀ a b : Results × P,
      (StrategyOptimizer.reduce a b).1.account_balance =
        max a.1.account_balance b.1.account_balance ∧
      (StrategyOptimizer.reduce a b).1.account_balance =
        (StrategyOptimizer.reduce b a).1.account_balance ∧
      (a.1.account_balance ≠ b.1.account_balance →
        StrategyOptimizer.reduce a b = StrategyOptimizer.reduce b a) ∧
      (a.1.account_balance = b.1.account_balance → StrategyOptimizer.reduce a b = b)) ∧
    (∀ (l1 l2 : List (Results × P)) (init : Results × P), l1.Perm l2 →
      (l1.foldl StrategyOptimizer.reduce init).1.account_balance =
        (l2.foldl StrategyOptimizer.reduce init).1.account_balance) := by
  refine ⟨reduce_assoc, ?_, ?_⟩
  · intro a b
    refine ⟨reduce_balance a b, ?_, ?_, ?_⟩
    · rw [reduce_balance, reduce_balance, max_comm]
    · intro hne
      rcases lt_or_gt_of_ne hne with h | h
      · rw [reduce_take a b (le_of_lt h), reduce_keep b a h]
      · rw [reduce_keep a b h, reduce_take b a (le_of_lt h)]
    · intro he
      exact reduce_take a b (le_of_eq he)
  · intro l1 l2 init h
    rw [foldl_reduce_balance, foldl_reduce_balance]
    exact foldl_max_perm _ _ (h.map _) _

/-! ## The margin level of an admitted order -/

theorem tryCreatePosition_account (H : StdHeap) (tm : TradingManager) (order : Order)
    (hs : (tm.tryCreatePosition H order).1 = true) :
    tm._account_manager.canOrderBeProcessed order.volume tm._current_tick.ask
        tm._current_tick.bid = true ∧
    (tm.tryCreatePosition H order).2.2._account_manager =
      tm._account_manager.addPosition
        { id := tm._new_id
          open_time := tm._current_tick.timestamp
          open_price := tm._current_tick.ask
          volume := order.volume
          is_long := order.is_long
          comment := order.comment
          stoploss := order.stoploss
          takeprofit := order.takeprofit } ∧
    (tm.tryCreatePosition H order).2.2._current_tick = tm._current_tick := by
  unfold tryCreatePosition at hs ⊢
  by_cases hc : tm._account_manager.canOrderBeProcessed order.volume tm._current_tick.ask
      tm._current_tick.bid = true
  · simp only [hc, Bool.not_true, Bool.false_eq_true, if_false]
    refine ⟨trivial, ?_, ?_⟩ <;>
    · unfold registerPositionEvents
      split_ifs <;> rfl
  · simp only [hc, Bool.not_false, if_true] at hs
    cases hs

theorem margin_sum (e va : ℚ) (l : Nat) (ne s : ℚ)
    (h : XNum.gt (XNum.div (.fin ne) (XNum.add (XNum.div (.fin e) (.fin l))
      (XNum.div (.fin va) (.fin l)))) (.fin s) = true) :
    XNum.div (.fin ne) (XNum.div (.fin (e + va)) (.fin l)) =
      XNum.div (.fin ne) (XNum.add (XNum.div (.fin e) (.fin l)) (XNum.div (.fin va) (.fin l))) := by
  by_cases hl : (l : ℚ) = 0
  · rcases lt_trichotomy e 0 with he | he | he <;> rcases lt_trichotomy va 0 with hv | hv | hv
    · have h1 : e + va < 0 := by linarith
      simp [XNum.div, XNum.add, hl, he, hv, h1, not_lt.mpr (le_of_lt he),
        not_lt.mpr (le_of_lt hv), not_lt.mpr (le_of_lt h1)]
    · simp [XNum.div, XNum.add, XNum.gt, hl, he, hv, not_lt.mpr (le_of_lt he)] at h
    · simp [XNum.div, XNum.add, XNum.gt, hl, he, hv, not_lt.mpr (le_of_lt he)] at h
    · simp [XNum.div, XNum.add, XNum.gt, hl, he] at h
    · simp [XNum.div, XNum.add, XNum.gt, hl, he] at h
    · simp [XNum.div, XNum.add, XNum.gt, hl, he] at h
    · simp [XNum.div, XNum.add, XNum.gt, hl, he, hv, not_lt.mpr (le_of_lt hv)] at h
    · simp [XNum.div, XNum.add, XNum.gt, hl, he, hv] at h
    · have h1 : 0 < e + va := by linarith
      simp [XNum.div, XNum.add, hl, he, hv, h1]
  · simp only [XNum.div, XNum.add, if_neg hl]
    rw [add_div]

theorem gt_not_le (x : XNum) (s : ℚ) (h : XNum.gt x (.fin s) = true) :
    XNum.le x (.fin s) = false := by
  cases x with
  | fin q =>
    simp only [XNum.gt, decide_eq_true_eq] at h
    simp only [XNum.le, decide_eq_false_iff_not, not_le]
    exact h
  | pinf => rfl
  | ninf => simp [XNum.gt] at h
  | nan => rfl

theorem canOrderBeProcessed_level (a : AccountBalanceManager)
    (volume open_price close_price : ℚ) :
    a.canOrderBeProcessed volume open_price close_price = true ↔
      XNum.gt
        (XNum.div (.fin (a.getTotalEquity - volume * |close_price - open_price|))
          (XNum.add a.getUsedMargin (XNum.div (.fin (volume * open_price)) (.fin a._leverage))))
        (.fin a._stop_out_level) = true := by
  have habs : (if close_price - open_price < 0 then (close_price - open_price) * -1
      else close_price - open_price) = |close_price - open_price| := by
    split_ifs with h
    · rw [abs_of_neg h]; ring
    · rw [abs_of_nonneg (not_lt.mp h)]
  simp only [AccountBalanceManager.canOrderBeProcessed,
    AccountBalanceManager.calculateRequiredMargin, habs]

/-- C35, amended (in exact arithmetic an admitted long order does not put the
account into a margin call at the prices it was opened at): with the numbers of
the ledger read as exact rationals, on a manager whose ledger holds the open-position
equity of the current tick, with a positive balance and `bid <= ask`, after a
successful `tryCreatePosition` of a long order the update of the ledger with the
same tick gives the margin level the admission check computed, which is greater
than the stop-out level, and a state that is neither MARGIN_CALL nor
NONPOSITIVE_ACCOUNT_BALANCE. -/
theorem admitted_order_no_margin_call (H : StdHeap) (tm : TradingManager) (order : Order)
    (hlong : order.is_long = true)
    (hcur : tm._account_manager.updateOpenPositionEquity tm._current_tick = tm._account_manager)
    (hbal : 0 < tm._account_manager._account_balance)
    (hba : tm._current_tick.bid ≤ tm._current_tick.ask)
    (hs : (tm.tryCreatePosition H order).1 = true) :
    (((tm.tryCreatePosition H order).2.2._account_manager.onTick tm._current_tick).2.getMarginLevel
      = XNum.div
          (.fin (tm._account_manager.getTotalEquity -
            order.volume * |tm._current_tick.bid - tm._current_tick.ask|))
          (XNum.add tm._account_manager.getUsedMargin
            (tm._account_manager.calculateRequiredMargin order.volume tm._current_tick.ask))) ∧
    XNum.gt
      ((tm.tryCreatePosition H order).2.2._account_manager.onTick tm._current_tick).2.getMarginLevel
      (.fin tm._account_manager._stop_out_level) = true ∧
    ((tm.tryCreatePosition H order).2.2._account_manager.onTick tm._current_tick).1 ≠
      AccountState.MARGIN_CALL ∧
    ((tm.tryCreatePosition H order).2.2._account_manager.onTick tm._current_tick).1 ≠
      AccountState.NONPOSITIVE_ACCOUNT_BALANCE := by
  obtain ⟨hadm, hacc, _⟩ := tryCreatePosition_account H tm order hs
  have hadm2 := (canOrderBeProcessed_level tm._account_manager order.volume tm._current_tick.ask
    tm._current_tick.bid).mp hadm
  have hope : tm._account_manager._open_position_equity =
      tm._current_tick.bid * tm._account_manager._long_volume -
        tm._account_manager._long_positions_expanses +
      (tm._account_manager._short_positions_expanses -
        tm._current_tick.ask * tm._account_manager._short_volume) := by
    have := congrArg AccountBalanceManager._open_position_equity hcur
    simp only [AccountBalanceManager.updateOpenPositionEquity] at this
    exact this.symm
  have habs : |tm._current_tick.bid - tm._current_tick.ask| =
      tm._current_tick.ask - tm._current_tick.bid := by
    rw [abs_of_nonpos (by linarith)]
    ring
  have hlevel : ((tm.tryCreatePosition H order).2.2._account_manager.onTick
      tm._current_tick).2.getMarginLevel =
      XNum.div
        (.fin (tm._account_manager.getTotalEquity -
          order.volume * |tm._current_tick.bid - tm._current_tick.ask|))
        (XNum.div (.fin (tm._account_manager.getTotalExpenses +
          order.volume * tm._current_tick.ask)) (.fin tm._account_manager._leverage)) := by
    rw [hacc]
    simp only [AccountBalanceManager.onTick, AccountBalanceManager.getMarginLevel,
      AccountBalanceManager.getUsedMargin, AccountBalanceManager.getTotalEquity,
      AccountBalanceManager.getTotalExpenses, AccountBalanceManager.updateOpenPositionEquity,
      AccountBalanceManager.addPosition, hlong, if_true, habs, hope]
    congr 2
    · congr 1
      ring
    · congr 1
      ring
  have hsum := margin_sum tm._account_manager.getTotalExpenses
    (order.volume * tm._current_tick.ask) tm._account_manager._leverage
    (tm._account_manager.getTotalEquity -
      order.volume * |tm._current_tick.bid - tm._current_tick.ask|)
    tm._account_manager._stop_out_level hadm2
  have heq : ((tm.tryCreatePosition H order).2.2._account_manager.onTick
      tm._current_tick).2.getMarginLevel =
      XNum.div
        (.fin (tm._account_manager.getTotalEquity -
          order.volume * |tm._current_tick.bid - tm._current_tick.ask|))
        (XNum.add tm._account_manager.getUsedMargin
          (tm._account_manager.calculateRequiredMargin order.volume tm._current_tick.ask)) := by
    rw [hlevel, hsum]
    rfl
  have hgt : XNum.gt
      ((tm.tryCreatePosition H order).2.2._account_manager.onTick
        tm._current_tick).2.getMarginLevel
      (.fin tm._account_manager._stop_out_level) = true := by
    rw [heq]
    exact hadm2
  have hstop : ((tm.tryCreatePosition H order).2.2._account_manager.onTick
      tm._current_tick).2._stop_out_level = tm._account_manager._stop_out_level := by
    rw [hacc]
    simp only [AccountBalanceManager.onTick, AccountBalanceManager.updateOpenPositionEquity,
      AccountBalanceManager.addPosition, hlong, if_true]
  have hbal2 : ((tm.tryCreatePosition H order).2.2._account_manager.onTick
      tm._current_tick).2._account_balance = tm._account_manager._account_balance := by
    rw [hacc]
    simp only [AccountBalanceManager.onTick, AccountBalanceManager.updateOpenPositionEquity,
      AccountBalanceManager.addPosition, hlong, if_true]
  have hcls : ((tm.tryCreatePosition H order).2.2._account_manager.onTick tm._current_tick).1 =
      ((tm.tryCreatePosition H order).2.2._account_manager.onTick
        tm._current_tick).2.classify := rfl
  have hnle := gt_not_le _ _ hgt
  refine ⟨heq, hgt, ?_, ?_⟩
  · rw [hcls]
    unfold AccountBalanceManager.classify
    rw [hbal2, if_neg (not_le.mpr hbal), hstop]
    simp only [hnle, Bool.false_eq_true, if_false]
    split_ifs <;> simp
  · rw [hcls]
    unfold AccountBalanceManager.classify
    rw [hbal2, if_neg (not_le.mpr hbal), hstop]
    simp only [hnle, Bool.false_eq_true, if_false]
    split_ifs <;> simp

/-- The claim C35, amended, at the long order of volume 100 placed on a fresh
default account at the tick of bid 1 and ask 1. -/
theorem admitted_order_no_margin_call_witness :
    longOrder.is_long = true ∧
    (TradingManager.init {} 0 tickAt1)._account_manager.updateOpenPositionEquity
        (TradingManager.init {} 0 tickAt1)._current_tick =
      (TradingManager.init {} 0 tickAt1)._account_manager ∧
    0 < (TradingManager.init {} 0 tickAt1)._account_manager._account_balance ∧
    (TradingManager.init {} 0 tickAt1)._current_tick.bid ≤
      (TradingManager.init {} 0 tickAt1)._current_tick.ask ∧
    ((TradingManager.init {} 0 tickAt1).tryCreatePosition refHeap longOrder).1 = true ∧
    (((TradingManager.init {} 0 tickAt1).tryCreatePosition refHeap
      longOrder).2.2._account_manager.onTick
        (TradingManager.init {} 0 tickAt1)._current_tick).1 ≠ AccountState.MARGIN_CALL :=
  have h1 : (TradingManager.init {} 0 tickAt1)._account_manager.updateOpenPositionEquity
      (TradingManager.init {} 0 tickAt1)._current_tick =
      (TradingManager.init {} 0 tickAt1)._account_manager := by
    simp [AccountBalanceManager.updateOpenPositionEquity, TradingManager.init,
      AccountBalanceManager.ofProperties]
  have h2 : 0 < (TradingManager.init {} 0 tickAt1)._account_manager._account_balance := by
    simp [TradingManager.init, AccountBalanceManager.ofProperties]
  have h3 : (TradingManager.init {} 0 tickAt1)._current_tick.bid ≤
      (TradingManager.init {} 0 tickAt1)._current_tick.ask := by
    simp [TradingManager.init, tickAt1]
  have h4 : ((TradingManager.init {} 0 tickAt1).tryCreatePosition refHeap longOrder).1 = true := by
    rw [longBook_open]
  ⟨rfl, h1, h2, h3, h4,
    (admitted_order_no_margin_call refHeap (TradingManager.init {} 0 tickAt1) longOrder rfl h1 h2
      h3 h4).2.2.1⟩

/-! ## The assertion of `PriceEventManager::remove` -/

theorem managerInv_remove_result (H : StdHeap) (k : EventKind) {P : List Node}
    {m : PriceEventManager} (h : ManagerInv k P m) (hnd : (P.map (fun n => n.addr)).Nodup)
    {x : Node} (hx : x ∈ P) : (m.remove H k.traits x).1 = k.has x.val := by
  obtain ⟨⟨hl1, hl2⟩, ⟨hs1, hs2⟩⟩ := h
  cases hside : x.val.is_long with
  | true =>
    obtain ⟨_, _, r3⟩ := queue_remove_spec H (strictWeak_comp k true) (queue_inj hnd hl2 hx) hl1
    have hmem : x ∈ m._long_positions ↔ k.has x.val = true := by
      rw [hl2.mem_iff, List.mem_filter, queued_iff]
      simp [hx, hside]
    have r4 : (PositionIteratorQueue.remove H k.traits.LongCompT m._long_positions x).1 = true ↔
        k.has x.val = true := by
      simpa [EventKind.comp] using r3.trans hmem
    simp only [PriceEventManager.remove, hside, if_true]
    exact Bool.eq_iff_iff.mpr r4
  | false =>
    obtain ⟨_, _, r3⟩ := queue_remove_spec H (strictWeak_comp k false) (queue_inj hnd hs2 hx) hs1
    have hmem : x ∈ m._short_positions ↔ k.has x.val = true := by
      rw [hs2.mem_iff, List.mem_filter, queued_iff]
      simp [hx, hside]
    have r4 : (PositionIteratorQueue.remove H k.traits.ShortCompT m._short_positions x).1 = true ↔
        k.has x.val = true := by
      simpa [EventKind.comp] using r3.trans hmem
    simp only [PriceEventManager.remove, hside, Bool.false_eq_true, if_false]
    exact Bool.eq_iff_iff.mpr r4

theorem tinyBook1_reachable (H : StdHeap) : Reachable H tinyBook1 := by
  have := Reachable.tryCreatePosition (H := H) lossOrder (Reachable.init tinyAccount 0 tickAt1)
  rw [tinyBook1_open] at this
  exact this

/-- C33 (the assertion of `remove` fails in the handlers): on every manager that
satisfies the invariant of the reachable managers, `remove` of an open position
returns to its assertion whether the position carries the price of the event
manager.  The removes of `unregisterPositionEvents` are guarded by
`hasStoploss` and `hasTakeprofit`, so their assertions hold.  The handler of the
stop-loss manager calls `_takeprofit_manager.remove` without a guard on the
position popped from the front of a stop-loss queue: the asserted value is
`hasTakeprofit` of the position, false when it carries no take-profit; and the
handler of the take-profit manager asserts `hasStoploss` of the position. -/
theorem remove_assertion_in_handlers (H : StdHeap) (tm : TradingManager) (h : Inv tm) :
    (∀ x ∈ tm._positions,
      (tm._stoploss_manager.remove H StoplossManager x).1 = x.val.hasStoploss ∧
      (tm._takeprofit_manager.remove H TakeprofitManager x).1 = x.val.hasTakeprofit) ∧
    (∀ (s : Bool) (top : Node) (rest : List Node), tm.queue .stoploss s = top :: rest →
      top ∈ tm._positions ∧ top.val.hasStoploss = true ∧
      ((tm.setQueue .stoploss s
        (PositionIteratorQueue.pop H (EventKind.stoploss.comp s)
          (top :: rest)))._takeprofit_manager.remove H TakeprofitManager top).1 =
        top.val.hasTakeprofit) ∧
    (∀ (s : Bool) (top : Node) (rest : List Node), tm.queue .takeprofit s = top :: rest →
      top ∈ tm._positions ∧ top.val.hasTakeprofit = true ∧
      ((tm.setQueue .takeprofit s
        (PositionIteratorQueue.pop H (EventKind.takeprofit.comp s)
          (top :: rest)))._stoploss_manager.remove H StoplossManager top).1 =
        top.val.hasStoploss) := by
  have hall : ∀ x ∈ tm._positions,
      (tm._stoploss_manager.remove H StoplossManager x).1 = x.val.hasStoploss ∧
      (tm._takeprofit_manager.remove H TakeprofitManager x).1 = x.val.hasTakeprofit :=
    fun x hx => ⟨managerInv_remove_result H .stoploss h.stoploss h.nodup hx,
      managerInv_remove_result H .takeprofit h.takeprofit h.nodup hx⟩
  refine ⟨hall, ?_, ?_⟩
  · intro s top rest hq
    obtain ⟨hx, hqd⟩ := mem_positions_of_mem_queue h (hq ▸ List.mem_cons_self top rest)
    refine ⟨hx, ((queued_iff _ _ _).mp hqd).2, ?_⟩
    have e : (tm.setQueue .stoploss s
        (PositionIteratorQueue.pop H (EventKind.stoploss.comp s)
          (top :: rest)))._takeprofit_manager = tm._takeprofit_manager := by
      cases s <;> rfl
    rw [e]
    exact (hall top hx).2
  · intro s top rest hq
    obtain ⟨hx, hqd⟩ := mem_positions_of_mem_queue h (hq ▸ List.mem_cons_self top rest)
    refine ⟨hx, ((queued_iff _ _ _).mp hqd).2, ?_⟩
    have e : (tm.setQueue .takeprofit s
        (PositionIteratorQueue.pop H (EventKind.takeprofit.comp s)
          (top :: rest)))._stoploss_manager = tm._stoploss_manager := by
      cases s <;> rfl
    rw [e]
    exact (hall top hx).1

/-- The claim C33 at the manager of `tinyAccount` that holds the position of
`lossOrder`, which carries a stop-loss and no take-profit: at the tick of bid 0.5
its stop-loss fires, and the `remove` of the handler asserts false. -/
theorem remove_assertion_in_handlers_witness :
    Inv tinyBook1 ∧
    tinyBook1.queue .stoploss true = (⟨1, lossPosition⟩ : Node) :: [] ∧
    LongStoplossPredicate tickHalf.bid lossPosition = true ∧
    ((tinyBook1.setQueue .stoploss true
      (PositionIteratorQueue.pop refHeap (EventKind.stoploss.comp true)
        ((⟨1, lossPosition⟩ : Node) :: [])))._takeprofit_manager.remove refHeap TakeprofitManager
          ⟨1, lossPosition⟩).1 = false :=
  have hinv : Inv tinyBook1 := reachable_inv refHeap (tinyBook1_reachable refHeap)
  have hp : LongStoplossPredicate tickHalf.bid lossPosition = true := by
    simp only [LongStoplossPredicate, lossPosition, tickHalf, decide_eq_true_eq]
    norm_num
  have ht : (⟨1, lossPosition⟩ : Node).val.hasTakeprofit = false := by
    simp [Position.hasTakeprofit, lossPosition]
  ⟨hinv, rfl, hp,
    (((remove_assertion_in_handlers refHeap tinyBook1 hinv).2.1 true ⟨1, lossPosition⟩ []
      rfl).2.2).trans ht⟩

/-! ## The id map and the open positions -/

theorem mapFind_mapErase_ne (m : List (Nat × PositionsIterator)) {id id2 : Nat} (h : id2 ≠ id) :
    mapFind (mapErase m id) id2 = mapFind m id2 := by
  unfold mapFind mapErase
  congr 1
  induction m with
  | nil => rfl
  | cons e m ih =>
    by_cases h1 : e.1 = id
    · have hb1 : (e.1 == id) = true := by simpa using h1
      have hb2 : (e.1 == id2) = false := by
        simpa using fun h3 : e.1 = id2 => h (h3.symm.trans h1)
      simp only [List.filter_cons, hb1, Bool.not_true, Bool.false_eq_true, if_false,
        List.find?_cons, hb2]
      exact ih
    · have hb1 : (e.1 == id) = false := by simpa using h1
      by_cases h2 : e.1 = id2
      · have hb2 : (e.1 == id2) = true := by simpa using h2
        simp only [List.filter_cons, hb1, Bool.not_false, if_true, List.find?_cons, hb2]
      · have hb2 : (e.1 == id2) = false := by simpa using h2
        simp only [List.filter_cons, hb1, Bool.not_false, if_true, List.find?_cons, hb2]
        exact ih

theorem mapFind_mapAssign_self (m : List (Nat × PositionsIterator)) (id : Nat)
    (x : PositionsIterator) : mapFind (mapAssign m id x) id = some x := by
  simp [mapFind, mapAssign, List.find?_cons]

theorem mapFind_mapAssign_ne (m : List (Nat × PositionsIterator)) {id id2 : Nat}
    (x : PositionsIterator) (h : id2 ≠ id) :
    mapFind (mapAssign m id x) id2 = mapFind m id2 := by
  have e := mapFind_mapErase_ne m h
  unfold mapFind mapErase at e
  unfold mapFind mapAssign
  rw [List.find?_cons]
  have hne : ((id, x).1 == id2) = false := by simpa using h.symm
  rw [hne]
  exact e

theorem mapErase_keys (m : List (Nat × PositionsIterator)) (id : Nat)
    (h : (m.map Prod.fst).Nodup) : ((mapErase m id).map Prod.fst).Nodup :=
  List.Nodup.sublist (List.Sublist.map _ (List.filter_sublist _)) h

theorem mapAssign_keys (m : List (Nat × PositionsIterator)) (id : Nat) (x : PositionsIterator)
    (h : (m.map Prod.fst).Nodup) : ((mapAssign m id x).map Prod.fst).Nodup := by
  unfold mapAssign
  rw [List.map_cons, List.nodup_cons]
  refine ⟨?_, mapErase_keys m id h⟩
  intro hm
  obtain ⟨e, he, hid⟩ := List.mem_map.mp hm
  have := (List.mem_filter.mp he).2
  simp at this
  exact this hid

theorem mapFind_isSome_iff (m : List (Nat × PositionsIterator)) (id : Nat) :
    (mapFind m id).isSome = true ↔ id ∈ m.map Prod.fst := by
  unfold mapFind
  rw [Option.isSome_map', List.find?_isSome]
  constructor
  · rintro ⟨e, he, h⟩
    exact List.mem_map.mpr ⟨e, he, by simpa using h⟩
  · intro h
    obtain ⟨e, he, h⟩ := List.mem_map.mp h
    exact ⟨e, he, by simpa using h⟩

theorem closes_mapComplete {tm tm1 : TradingManager} {x : Node} {ct : CloseType} (h : Inv tm)
    (hm : MapComplete tm) (hx : x ∈ tm._positions) (hc : Closes tm x ct tm1) :
    MapComplete tm1 := by
  have hP : tm._positions.Nodup := List.Nodup.of_map _ h.nodup
  refine ⟨?_, ?_⟩
  · intro n hn
    rw [hc.positions] at hn
    have hn1 : n ∈ tm._positions := List.mem_of_mem_erase hn
    have hne : n ≠ x := fun e => (List.Nodup.mem_erase_iff hP).mp hn |>.1 e
    have hid : n.val.id ≠ x.val.id := by
      intro e
      have h1 := hm.find n hn1
      have h2 := hm.find x hx
      rw [e, h2] at h1
      exact hne (Option.some.inj h1).symm
    rw [hc.map, mapFind_mapErase_ne _ hid]
    exact hm.find n hn1
  · rw [hc.map]
    exact mapErase_keys _ _ hm.keys

theorem checkEventsLoop_mapComplete (H : StdHeap) (k : EventKind) (s : Bool) (p : ℚ) :
    ∀ (fuel : Nat) (tm : TradingManager), Inv tm → MapComplete tm →
      MapComplete (checkEventsLoop H k s p fuel tm) := by
  intro fuel
  induction fuel with
  | zero => intro tm _ hm; exact hm
  | succ fuel ih =>
    intro tm h hm
    cases hq : tm.queue k s with
    | nil =>
      have hres : checkEventsLoop H k s p (fuel + 1) tm = tm := by
        simp only [checkEventsLoop, hq]
      rw [hres]
      exact hm
    | cons top rest =>
      cases hpred : k.predicate s p top.val with
      | false =>
        have hres : checkEventsLoop H k s p (fuel + 1) tm = tm := by
          simp only [checkEventsLoop, hq, hpred, Bool.false_eq_true, if_false]
        rw [hres]
        exact hm
      | true =>
        have hres : checkEventsLoop H k s p (fuel + 1) tm =
            checkEventsLoop H k s p fuel
              (handler H k
                (tm.setQueue k s (PositionIteratorQueue.pop H (k.comp s) (top :: rest))) top) := by
          simp only [checkEventsLoop, hq, hpred, if_true]
        obtain ⟨hc, hinv, _⟩ := handler_pop_spec H k s h hq
        have hx : top ∈ tm._positions :=
          (mem_positions_of_mem_queue h (hq ▸ List.mem_cons_self top rest)).1
        rw [hres]
        exact ih _ hinv (closes_mapComplete h hm hx hc)

theorem closeAllPositionsLoop_mapComplete (H : StdHeap) (ct : CloseType) :
    ∀ (fuel : Nat) (tm : TradingManager), Inv tm → MapComplete tm →
      MapComplete (closeAllPositionsLoop H ct fuel tm) := by
  intro fuel
  induction fuel with
  | zero => intro tm _ hm; exact hm
  | succ fuel ih =>
    intro tm h hm
    cases hq : tm._positions with
    | nil =>
      have hres : closeAllPositionsLoop H ct (fuel + 1) tm = tm := by
        simp only [closeAllPositionsLoop, hq]
      rw [hres]
      exact hm
    | cons x rest =>
      have hres : closeAllPositionsLoop H ct (fuel + 1) tm =
          closeAllPositionsLoop H ct fuel
            ((tm.unregisterPositionEvents H x).closePosition x ct) := by
        simp only [closeAllPositionsLoop, hq]
      have hx : x ∈ tm._positions := hq ▸ List.mem_cons_self x rest
      obtain ⟨hc, hinv⟩ := unregister_close_spec H h hx ct
      rw [hres]
      exact ih _ hinv (closes_mapComplete h hm hx hc)

theorem eventsOnTick_mapComplete (H : StdHeap) (k : EventKind) (tick : Tick)
    {tm : TradingManager} (h : Inv tm) (hm : MapComplete tm) :
    MapComplete (eventsOnTick H k tick tm) := by
  obtain ⟨_, _, h1, _⟩ := checkEvents_spec H k true tick.bid h
  exact checkEventsLoop_mapComplete H k false tick.ask _ _ h1
    (checkEventsLoop_mapComplete H k true tick.bid _ _ h hm)

theorem onTick_mapComplete (H : StdHeap) {tm : TradingManager} (h : Inv tm) (hm : MapComplete tm)
    (tick : Tick) : MapComplete (tm.onTick H tick).2 := by
  have h0 := withTick_inv h tick
  have hm0 : MapComplete (tm.withTick tick) := by
    refine ⟨?_, ?_⟩
    · intro n hn
      exact hm.find n hn
    · exact hm.keys
  obtain ⟨_, _, _, a2, _⟩ := eventsOnTick_spec H .stoploss tick h0
  have hm1 := eventsOnTick_mapComplete H .stoploss tick h0 hm0
  obtain ⟨_, _, _, b2, _⟩ := eventsOnTick_spec H .takeprofit tick a2
  have hm2 : MapComplete (tm.afterEvents H tick) :=
    eventsOnTick_mapComplete H .takeprofit tick a2 hm1
  have hL := afterLedger_inv H tick (show Inv (tm.afterEvents H tick) from b2)
  have e1 : (tm.afterLedger H tick)._positions = (tm.afterEvents H tick)._positions := by
    simp only [afterLedger]
  have e2 : (tm.afterLedger H tick)._position_iterators_by_id =
      (tm.afterEvents H tick)._position_iterators_by_id := by
    simp only [afterLedger]
  have hmL : MapComplete (tm.afterLedger H tick) := by
    refine ⟨?_, ?_⟩
    · intro n hn
      rw [e1] at hn
      rw [e2]
      exact hm2.find n hn
    · rw [e2]
      exact hm2.keys
  rw [onTick_snd]
  cases hcl : (tm.afterLedger H tick)._account_manager.classify with
  | OK => exact hmL
  | MARGIN_CALL_WARNING => exact hmL
  | NONPOSITIVE_ACCOUNT_BALANCE =>
    exact closeAllPositionsLoop_mapComplete H CloseType.FORCED _ _ hL hmL
  | MARGIN_CALL =>
    cases hp : (tm.afterLedger H tick)._positions with
    | nil => exact hmL
    | cons x rest =>
      have hx : x ∈ (tm.afterLedger H tick)._positions := hp ▸ List.mem_cons_self x rest
      obtain ⟨c1, _⟩ := unregister_close_spec H hL hx CloseType.FORCED
      exact closes_mapComplete hL hmL hx c1

theorem closePositionById_mapComplete (H : StdHeap) {tm tm1 : TradingManager} (h : Inv tm)
    (hm : MapComplete tm) {id : Nat} (hc : tm.closePositionById H id = some tm1) :
    MapComplete tm1 := by
  simp only [closePositionById] at hc
  cases hf : mapFind tm._position_iterators_by_id id with
  | none => rw [hf] at hc; simp at hc
  | some x =>
    rw [hf] at hc
    simp only [Option.some.injEq] at hc
    rw [← hc]
    have hx := (h.map_valid _ (mapFind_mem hf)).1
    exact closes_mapComplete h hm hx (unregister_close_spec H h hx _).1

theorem tryCreatePosition_mapComplete (H : StdHeap) {tm : TradingManager} (hm : MapComplete tm)
    (order : Order) (hfresh : ∀ n ∈ tm._positions, n.val.id ≠ tm._new_id) :
    MapComplete (tm.tryCreatePosition H order).2.2 := by
  cases hc : tm._account_manager.canOrderBeProcessed order.volume tm._current_tick.ask
      tm._current_tick.bid with
  | false =>
    have e : (tm.tryCreatePosition H order).2.2 = tm := by simp [tryCreatePosition, hc]
    rw [e]
    exact hm
  | true =>
    have hpos : (tm.tryCreatePosition H order).2.2._positions =
        ⟨freshAddr tm._positions, ⟨tm._new_id, tm._current_tick.timestamp,
          tm._current_tick.ask, order.volume, order.is_long, order.comment, order.stoploss,
          order.takeprofit⟩⟩ :: tm._positions := by
      simp only [tryCreatePosition, hc, Bool.not_true, Bool.false_eq_true, if_false,
        registerPositionEvents_positions]
    have hmap : (tm.tryCreatePosition H order).2.2._position_iterators_by_id =
        mapAssign tm._position_iterators_by_id tm._new_id
          ⟨freshAddr tm._positions, ⟨tm._new_id, tm._current_tick.timestamp,
            tm._current_tick.ask, order.volume, order.is_long, order.comment, order.stoploss,
            order.takeprofit⟩⟩ := by
      simp only [tryCreatePosition, hc, Bool.not_true, Bool.false_eq_true, if_false]
      unfold registerPositionEvents
      cases (Position.hasStoploss _) <;> cases (Position.hasTakeprofit _) <;> rfl
    refine ⟨?_, ?_⟩
    · intro n hn
      rw [hpos] at hn
      rw [hmap]
      rcases List.mem_cons.mp hn with rfl | hn
      · exact mapFind_mapAssign_self _ _ _
      · rw [mapFind_mapAssign_ne _ _ (hfresh n hn)]
        exact hm.find n hn
    · rw [hmap]
      exact mapAssign_keys _ _ _ hm.keys

theorem call_apply_mapComplete (H : StdHeap) {tm tm1 : TradingManager} {r : Option Nat}
    {c : Call} (h : Inv tm) (hm : MapComplete tm)
    (hfresh : r ≠ none → ∀ n ∈ tm._positions, n.val.id ≠ tm._new_id)
    (hc : c.apply H tm = some (r, tm1)) : MapComplete tm1 := by
  cases c with
  | tryCreatePosition order =>
    simp only [Call.apply, Option.some.injEq] at hc
    have h1 : (tm.tryCreatePosition H order).2.1 = r := congrArg Prod.fst hc
    have h2 : (tm.tryCreatePosition H order).2.2 = tm1 := congrArg Prod.snd hc
    rcases tryCreatePosition_outcome H tm order with ⟨_, a2⟩ | ⟨a1, _⟩
    · rw [← h2, a2]
      exact hm
    · rw [← h2]
      refine tryCreatePosition_mapComplete H hm order (hfresh ?_)
      rw [← h1, a1]
      simp
  | closePosition id =>
    simp only [Call.apply, Option.map_eq_some', Prod.mk.injEq] at hc
    obtain ⟨tm2, hc2, _, rfl⟩ := hc
    exact closePositionById_mapComplete H h hm hc2
  | closeAllPositions =>
    simp only [Call.apply, Option.some.injEq, Prod.mk.injEq] at hc
    rw [← hc.2]
    exact closeAllPositionsLoop_mapComplete H CloseType.FORCED _ _ h hm
  | onTick tick =>
    simp only [Call.apply, Option.some.injEq, Prod.mk.injEq] at hc
    rw [← hc.2]
    exact onTick_mapComplete H h hm tick

theorem window_fresh (base k i : Nat) (hi : i < k) (hk : k < 2 ^ 64) :
    (base + i) % 2 ^ 64 ≠ (base + k) % 2 ^ 64 := by
  omega

theorem after_mapComplete (H : StdHeap) :
    ∀ (cs : List Call) (tm tm1 : TradingManager) (ids : List Nat) (base k : Nat),
      Inv tm → MapComplete tm → tm._new_id = (base + k) % 2 ^ 64 →
      (∀ n ∈ tm._positions, ∃ i, i < k ∧ n.val.id = (base + i) % 2 ^ 64) →
      tm.after H cs = some (ids, tm1) → k + ids.length ≤ 2 ^ 64 →
      Inv tm1 ∧ MapComplete tm1 := by
  intro cs
  induction cs with
  | nil =>
    intro tm tm1 ids base k h hm _ _ ha _
    simp only [after, Option.some.injEq, Prod.mk.injEq] at ha
    obtain ⟨_, rfl⟩ := ha
    exact ⟨h, hm⟩
  | cons c cs ih =>
    intro tm tm1 ids base k h hm hid hw ha hlen
    simp only [after] at ha
    cases hc : c.apply H tm with
    | none => simp [hc] at ha
    | some r =>
      obtain ⟨r1, tmA⟩ := r
      simp only [hc] at ha
      cases hr : after H cs tmA with
      | none => simp [hr] at ha
      | some r2 =>
        obtain ⟨ids2, tmB⟩ := r2
        simp only [hr, Option.some.injEq, Prod.mk.injEq] at ha
        obtain ⟨rfl, rfl⟩ := ha
        obtain ⟨a1, _, a3⟩ := call_apply_spec H h hc
        rcases a3 with ⟨b1, b2, b3⟩ | ⟨b1, b2, x, b3, b4⟩
        · subst b1
          have hmA := call_apply_mapComplete H h hm (fun hne => absurd rfl hne) hc
          refine ih tmA tmB ids2 base k a1 hmA (b2.trans hid) ?_ hr (by simpa using hlen)
          intro n hn
          exact hw n (b3.subset hn)
        · subst b1
          have hk : k < 2 ^ 64 := by
            simp only [Option.toList, List.singleton_append, List.length_cons] at hlen
            omega
          have hmA := call_apply_mapComplete H h hm (fun _ n hn => by
            obtain ⟨i, hi, hni⟩ := hw n hn
            rw [hni, hid]
            exact window_fresh base k i hi hk) hc
          refine ih tmA tmB ids2 base (k + 1) a1 hmA ?_ ?_ hr ?_
          · rw [b2, hid, Nat.mod_add_mod]
            rfl
          · intro n hn
            rw [b4] at hn
            rcases List.mem_cons.mp hn with rfl | hn
            · exact ⟨k, Nat.lt_succ_self k, b3.trans hid⟩
            · obtain ⟨i, hi, hni⟩ := hw n hn
              exact ⟨i, Nat.lt_succ_of_lt hi, hni⟩
          · simp only [Option.toList, List.singleton_append, List.length_cons] at hlen
            omega

theorem mapErase_length (m : List (Nat × PositionsIterator)) (id : Nat)
    (hk : (m.map Prod.fst).Nodup) (hid : id ∈ m.map Prod.fst) :
    (mapErase m id).length + 1 = m.length := by
  induction m with
  | nil => simp at hid
  | cons e m ih =>
    rw [List.map_cons, List.nodup_cons] at hk
    by_cases h1 : e.1 = id
    · have hb1 : (e.1 == id) = true := by simpa using h1
      have hnone : mapErase m id = m := by
        unfold mapErase
        rw [List.filter_eq_self]
        intro a ha
        have : a.1 ≠ id := by
          intro h2
          exact hk.1 (List.mem_map.mpr ⟨a, ha, h2.trans h1.symm⟩)
        simpa using this
      unfold mapErase at hnone ⊢
      simp only [List.filter_cons, hb1, Bool.not_true, Bool.false_eq_true, if_false, hnone,
        List.length_cons]
    · have hb1 : (e.1 == id) = false := by simpa using h1
      have hid2 : id ∈ m.map Prod.fst := by
        rw [List.map_cons, List.mem_cons] at hid
        rcases hid with h2 | h2
        · exact absurd h2.symm h1
        · exact h2
      have := ih hk.2 hid2
      unfold mapErase at this ⊢
      simp only [List.filter_cons, hb1, Bool.not_false, if_true, List.length_cons]
      omega

theorem keys_eq_ids {tm : TradingManager}
    (hv : ∀ e ∈ tm._position_iterators_by_id, e.2 ∈ tm._positions ∧ e.1 = e.2.val.id)
    (hnd : tm._positions.Nodup) (hm : MapComplete tm) :
    (∀ id : Nat, id ∈ tm._position_iterators_by_id.map Prod.fst ↔
      id ∈ tm._positions.map (fun n => n.val.id)) ∧
    (tm._positions.map (fun n => n.val.id)).Nodup := by
  refine ⟨?_, ?_⟩
  · intro id
    constructor
    · intro hid
      obtain ⟨e, he, rfl⟩ := List.mem_map.mp hid
      obtain ⟨h1, h2⟩ := hv e he
      exact List.mem_map.mpr ⟨e.2, h1, h2.symm⟩
    · intro hid
      obtain ⟨n, hn, rfl⟩ := List.mem_map.mp hid
      rw [← mapFind_isSome_iff, hm.find n hn]
      rfl
  · refine List.Nodup.map_on ?_ hnd
    intro a ha b hb hab
    have h1 := hm.find a ha
    have h2 := hm.find b hb
    rw [hab, h2] at h1
    exact (Option.some.inj h1).symm

theorem closePosition_closes {tm : TradingManager} (h : Inv tm) {x : Node}
    (hx : x ∈ tm._positions) (ct : CloseType) : Closes tm x ct (tm.closePosition x ct) := by
  refine ⟨?_, rfl, rfl, rfl, rfl, rfl⟩
  show tm._positions.eraseP (fun n => n.addr == x.addr) = tm._positions.erase x
  exact eraseP_addr_eq_erase (fun n hn hab => addr_inj h.nodup hn hx hab)

theorem openCalls_after (H : StdHeap) :
    (TradingManager.init {} 0 tickAt1).after H openCalls = some ([0], longBook 0) := by
  have h1 := longBook_open H 0
  simp only [openCalls, after, Call.apply, h1, Option.toList]
  rfl

/-- C34 (every close finds the id in the map, and the source asserts the
opposite): on every manager reached from a fresh one by calls of which at most
`2^64` created a position, the keys of the id map are the ids of the open
positions, each once.  For every open position `x` the lookup of its id finds
the handle of `x`, so the value `closePosition(iter, ct)` asserts,
`by_id_iterator == end()`, is false; the erase removes that one entry, and the
keys of the map are again the ids of the open positions. -/
theorem close_finds_id (H : StdHeap) (properties : AccountProperties) (new_id : Nat)
    (current_tick : Tick) (calls : List Call) (ids : List Nat) (tm : TradingManager)
    (h : (TradingManager.init properties new_id current_tick).after H calls = some (ids, tm))
    (hlen : ids.length ≤ 2 ^ 64) :
    (∀ id : Nat, id ∈ tm._position_iterators_by_id.map Prod.fst ↔
      id ∈ tm._positions.map (fun n => n.val.id)) ∧
    (tm._position_iterators_by_id.map Prod.fst).Nodup ∧
    (tm._positions.map (fun n => n.val.id)).Nodup ∧
    (∀ x ∈ tm._positions,
      mapFind tm._position_iterators_by_id x.val.id = some x ∧
      tm.closePositionAssertion x = false ∧
      ∀ ct : CloseType,
        (tm.closePosition x ct)._position_iterators_by_id =
          tm._position_iterators_by_id.filter (fun e => !(e.1 == x.val.id)) ∧
        (tm.closePosition x ct)._position_iterators_by_id.length + 1 =
          tm._position_iterators_by_id.length ∧
        (tm.closePosition x ct)._positions = tm._positions.erase x ∧
        (∀ id : Nat, id ∈ (tm.closePosition x ct)._position_iterators_by_id.map Prod.fst ↔
          id ∈ (tm.closePosition x ct)._positions.map (fun n => n.val.id))) := by
  have h0 : (TradingManager.init properties new_id current_tick)._new_id =
      (new_id + 0) % 2 ^ 64 := rfl
  have hm0 : MapComplete (TradingManager.init properties new_id current_tick) :=
    ⟨fun n hn => by simp [TradingManager.init] at hn, by simp [TradingManager.init]⟩
  obtain ⟨hinv, hm⟩ := after_mapComplete H calls _ tm ids new_id 0
    (init_inv properties new_id current_tick) hm0 h0
    (fun n hn => by simp [TradingManager.init] at hn) h (by simpa using hlen)
  have hP : tm._positions.Nodup := List.Nodup.of_map _ hinv.nodup
  obtain ⟨k1, k2⟩ := keys_eq_ids hinv.map_valid hP hm
  refine ⟨k1, hm.keys, k2, ?_⟩
  intro x hx
  have hf := hm.find x hx
  refine ⟨hf, by simp [TradingManager.closePositionAssertion, hf], ?_⟩
  intro ct
  have hc := closePosition_closes hinv hx ct
  have hm1 := closes_mapComplete hinv hm hx hc
  have hv1 : ∀ e ∈ (tm.closePosition x ct)._position_iterators_by_id,
      e.2 ∈ (tm.closePosition x ct)._positions ∧ e.1 = e.2.val.id := by
    intro e he
    rw [hc.map] at he
    rw [hc.positions]
    obtain ⟨he1, he2⟩ := List.mem_filter.mp he
    obtain ⟨v1, v2⟩ := hinv.map_valid e he1
    refine ⟨(List.Nodup.mem_erase_iff hP).mpr ⟨?_, v1⟩, v2⟩
    intro hex
    rw [hex] at v2
    simp [v2] at he2
  have hP1 : (tm.closePosition x ct)._positions.Nodup := by
    rw [hc.positions]
    exact List.Nodup.sublist (List.erase_sublist x tm._positions) hP
  refine ⟨hc.map, ?_, hc.positions, (keys_eq_ids hv1 hP1 hm1).1⟩
  rw [hc.map]
  exact mapErase_length _ _ hm.keys ((k1 _).mpr (List.mem_map.mpr ⟨x, hx, rfl⟩))

/-- The claim C34 at the fresh default account after the long order of volume 100
was placed: the id 0 of the open position is found in the map, and the value the
close asserts is false. -/
theorem close_finds_id_witness :
    (TradingManager.init {} 0 tickAt1).after refHeap openCalls = some ([0], longBook 0) ∧
    [0].length ≤ 2 ^ 64 ∧
    (⟨1, longPosition 0⟩ : Node) ∈ (longBook 0)._positions ∧
    mapFind (longBook 0)._position_iterators_by_id (longPosition 0).id =
      some ⟨1, longPosition 0⟩ ∧
    (longBook 0).closePositionAssertion ⟨1, longPosition 0⟩ = false :=
  have hx : (⟨1, longPosition 0⟩ : Node) ∈ (longBook 0)._positions := List.mem_singleton.mpr rfl
  have hl : ([0] : List Nat).length ≤ 2 ^ 64 := by norm_num
  have h := (close_finds_id refHeap {} 0 tickAt1 openCalls [0] (longBook 0)
    (openCalls_after refHeap) hl).2.2.2 ⟨1, longPosition 0⟩ hx
  ⟨openCalls_after refHeap, hl, hx, h.1, h.2.1⟩

/-! ## Determinism of a run -/

theorem goThroughTicks_single {σ : Type} (H : StdHeap) (robot : ATS σ) (tick : Tick)
    (tm0 tm1 : TradingManager) (st0 st1 : σ) (b : Bool)
    (h : StrategyTester.handleTick H robot tm0 st0 tick = some (b, tm1, st1)) :
    StrategyTester.goThroughTicks H robot [tick] tm0 st0 = some (b, tm1, st1) := by
  cases b <;> simp only [StrategyTester.goThroughTicks, h]

theorem run_of_parts {σ : Type} (H : StdHeap) (tester : StrategyTester) (robot : ATS σ)
    (st st1 st2 : σ) (new_id : Nat) (current_tick : Tick) (b : Bool) (tm2 : TradingManager)
    (r : Results × σ)
    (hs : robot.start st (TradingManager.init tester._account_properties new_id current_tick) =
      (ReturnCode.OK, st1, []))
    (hp : tester._period = SimulationPeriod.TICK)
    (hg : StrategyTester.goThroughTicks H robot tester._ticks_ptr
      (TradingManager.init tester._account_properties new_id current_tick) st1 =
        some (b, tm2, st2))
    (hf : StrategyTester.finish H robot tm2 st2 = some r) :
    StrategyTester.run H tester robot st new_id current_tick = some r := by
  have hg2 : StrategyTester.goThrough H tester robot
      (TradingManager.init tester._account_properties new_id current_tick) st1 =
        some (b, tm2, st2) := by
    unfold StrategyTester.goThrough
    rw [if_pos hp]
    exact hg
  unfold StrategyTester.run
  simp only [hs, applyCalls_nil, reduceCtorEq, if_false, hg2, hf]

theorem opener_run (H : StdHeap) (new_id : Nat) :
    StrategyTester.run H oneTickTester opener () new_id tickAt1 =
      some ((longBook new_id).end_, ()) := by
  have hb : (0 : ℚ) < ({} : AccountProperties).account_balance := by norm_num
  have ha : applyCalls H (TradingManager.init {} new_id tickAt1)
      [BrokerCall.tryCreatePosition longOrder] = some (longBook new_id) := by
    simp only [applyCalls, List.map_cons, List.map_nil, BrokerCall.toCall, after, Call.apply,
      longBook_open, Option.map_some']
  have h1 : StrategyTester.handleTick H opener (TradingManager.init {} new_id tickAt1) ()
      tickAt1 = some (true, longBook new_id, ()) := by
    have h := handleTick_ok H opener () tickAt1 (init_onTick H {} new_id tickAt1 tickAt1 hb)
      (show applyCalls H _ (opener.onTick () _ tickAt1).2.2 = some (longBook new_id) from ha)
    rw [h]
    rfl
  exact run_of_parts H oneTickTester opener () () () new_id tickAt1 true (longBook new_id) _
    rfl rfl (goThroughTicks_single H opener tickAt1 _ _ () () true h1) rfl

theorem getLastBarsBefore_of_bars (m : MarketDataManager) (tf : Timeframe) (before : Int)
    (count : Nat) (hc : CacheOk m) :
    (m.getLastBarsBefore tf before count).1 =
      if before ≤ m._first_tick_time ∨ before > m._last_tick_time then Except.ok none
      else if intOfSize ((sizeOfInt (find_index_of_bar_before (calculateBars tf m._ticks) before) +
          (2 ^ 64 - count % 2 ^ 64) + 1) % 2 ^ 64) < 0 then Except.ok none
      else
        match vector_slice (calculateBars tf m._ticks)
          (intOfSize ((sizeOfInt (find_index_of_bar_before (calculateBars tf m._ticks) before) +
            (2 ^ 64 - count % 2 ^ 64) + 1) % 2 ^ 64))
          (find_index_of_bar_before (calculateBars tf m._ticks) before + 1) with
        | Except.error e => Except.error e
        | Except.ok view => Except.ok (some view) := by
  obtain ⟨hb, _, _⟩ := bars_of_cache hc tf
  unfold MarketDataManager.getLastBarsBefore
  by_cases hin : before ≤ m._first_tick_time ∨ before > m._last_tick_time
  · rw [if_pos hin, if_pos hin]
  · rw [if_neg hin, if_neg hin]
    simp only [hb]
    split_ifs
    · rfl
    · split <;> rfl

/-- The result of a bar query does not depend on what the cache already holds:
two managers over the same ticks whose caches hold series of `calculateBars`
answer every query alike. -/
theorem getLastBarsBefore_cache_independent (m1 m2 : MarketDataManager) (hc1 : CacheOk m1)
    (hc2 : CacheOk m2) (ht : m1._ticks = m2._ticks)
    (hf : m1._first_tick_time = m2._first_tick_time)
    (hl : m1._last_tick_time = m2._last_tick_time) (tf : Timeframe) (before : Int)
    (count : Nat) :
    (m1.getLastBarsBefore tf before count).1 = (m2.getLastBarsBefore tf before count).1 ∧
    CacheOk (m1.getLastBarsBefore tf before count).2 ∧
    (m1.getLastBarsBefore tf before count).2._ticks = m1._ticks := by
  refine ⟨?_, getLastBarsBefore_cache m1 tf before count hc1⟩
  rw [getLastBarsBefore_of_bars m1 tf before count hc1,
    getLastBarsBefore_of_bars m2 tf before count hc2, ht, hf, hl]

/-- C32 (a run depends on the uninitialized id counter): the run of the strategy
that opens `longOrder` at the single tick and leaves it open returns, for every
first value `new_id` of the field `_new_id`, which the constructor of
`TradingManager` does not initialize, the results of `longBook new_id`: the open
position they list has the id `new_id` modulo `2^64`.  Two runs with the same
ticks, period, account properties and strategy that find the values 0 and 1 in
the field return different results. -/
theorem run_depends_on_new_id (H : StdHeap) :
    (∀ new_id : Nat,
      StrategyTester.run H oneTickTester opener () new_id tickAt1 =
        some ((longBook new_id).end_, ()) ∧
      (longBook new_id).end_.unclosed_positions.map (fun p => p.id) = [new_id % 2 ^ 64]) ∧
    StrategyTester.run H oneTickTester opener () 0 tickAt1 ≠
      StrategyTester.run H oneTickTester opener () 1 tickAt1 := by
  have hids : ∀ new_id : Nat,
      (longBook new_id).end_.unclosed_positions.map (fun p => p.id) = [new_id % 2 ^ 64] := by
    intro new_id
    simp [TradingManager.end_, longBook, longPosition]
  refine ⟨fun new_id => ⟨opener_run H new_id, hids new_id⟩, ?_⟩
  rw [opener_run, opener_run]
  intro he
  have h0 := hids 0
  have h1 := hids 1
  injection he with he
  injection he with he _
  rw [he, h1] at h0
  simp at h0

/-! ## The rows of a CSV text -/

theorem takeWhile_line (line rest : List Char) (h : '\n' ∉ line) :
    (line ++ '\n' :: rest).takeWhile (fun c => c != '\n') = line := by
  induction line with
  | nil => simp
  | cons c l ih =>
    have hc : c ≠ '\n' := fun e => h (by simp [e])
    have hl : '\n' ∉ l := fun e => h (by simp [e])
    simp [List.takeWhile_cons, hc, ih hl]

theorem dropWhile_line (line rest : List Char) (h : '\n' ∉ line) :
    (line ++ '\n' :: rest).dropWhile (fun c => c != '\n') = '\n' :: rest := by
  induction line with
  | nil => simp
  | cons c l ih =>
    have hc : c ≠ '\n' := fun e => h (by simp [e])
    have hl : '\n' ∉ l := fun e => h (by simp [e])
    simp [List.dropWhile_cons, hc, ih hl]

/-- On a good stream `getline` gives the line before the first newline and leaves
the stream good, after that newline. -/
theorem getline_line (line rest str : List Char) (h : '\n' ∉ line) :
    getline { buf := line ++ '\n' :: rest } str = (line, { buf := rest }) := by
  simp only [getline, IStream.good, Bool.not_false, Bool.and_self, if_true,
    dropWhile_line line rest h, takeWhile_line line rest h]

theorem readAll_step (fuel : Nat) (rs rs1 rs2 : RowStream) (row : Row)
    (h1 : rs.toBool = (true, rs1)) (h2 : rs1.read = (row, rs2)) :
    RowStream.readAll (fuel + 1) rs =
      (RowStream.readAll fuel rs2).map fun out => (row :: out.1, out.2) := by
  simp only [RowStream.readAll, h1, h2, if_true]

theorem readAll_stop (fuel : Nat) (rs rs1 : RowStream) (h1 : rs.toBool = (false, rs1)) :
    RowStream.readAll (fuel + 1) rs = some ([], rs1) := by
  simp only [RowStream.readAll, h1, Bool.false_eq_true, if_false]

/-- The rows read from a good stream that holds newline-terminated non-empty
lines: one row for each line, and then one more read, which leaves the line read
last in place. -/
theorem readAll_lines (column_count : Nat) (delimiter : Char) (lines : List (List Char)) :
    ∀ (cur : List Char) (fuel : Nat), (∀ l ∈ lines, l ≠ [] ∧ '\n' ∉ l) →
      lines.length + 1 < fuel →
      RowStream.readAll fuel
        { _parser_ptr :=
            { _is := { buf := (lines.map fun l => l ++ ['\n']).flatten }
              _column_count := column_count
              _delimiter := delimiter }
          _current_line := cur } =
        some ((lines ++ [(cur :: lines).getLast (List.cons_ne_nil _ _)]).map
            (fun l => Row.ofSplit (viewsSplit l delimiter)),
          { _parser_ptr :=
              { _is := { buf := [], eofbit := true, failbit := true }
                _column_count := column_count
                _delimiter := delimiter }
            _current_line := (cur :: lines).getLast (List.cons_ne_nil _ _) }) := by
  induction lines with
  | nil =>
    intro cur fuel _ hf
    obtain ⟨f, rfl⟩ : ∃ f, fuel = f + 2 := ⟨fuel - 2, by simp at hf; omega⟩
    simp [RowStream.readAll, RowStream.toBool, RowStream.read, IStream.good, IStream.peek,
      getline]
  | cons l ls ih =>
    intro cur fuel hl hf
    obtain ⟨f, rfl⟩ : ∃ f, fuel = f + 1 := ⟨fuel - 1, by omega⟩
    have h1 := hl l (List.mem_cons_self _ _)
    obtain ⟨c, l1, rfl⟩ : ∃ c l1, l = c :: l1 := List.exists_cons_of_ne_nil h1.1
    have hc : c ≠ '\n' := fun e => h1.2 (by simp [e])
    have hg := getline_line (c :: l1) (ls.map fun l => l ++ ['\n']).flatten cur h1.2
    have ih1 := ih (c :: l1) f (fun x hx => hl x (List.mem_cons_of_mem _ hx))
      (by simp at hf ⊢; omega)
    have e1 : RowStream.toBool
        { _parser_ptr :=
            { _is := { buf := (((c :: l1) :: ls).map fun l => l ++ ['\n']).flatten }
              _column_count := column_count
              _delimiter := delimiter }
          _current_line := cur } = (true,
        { _parser_ptr :=
            { _is := { buf := (c :: l1) ++ '\n' :: (ls.map fun l => l ++ ['\n']).flatten }
              _column_count := column_count
              _delimiter := delimiter }
          _current_line := cur }) := by
      simp [RowStream.toBool, IStream.good, IStream.peek, hc]
    have e2 : RowStream.read
        { _parser_ptr :=
            { _is := { buf := (c :: l1) ++ '\n' :: (ls.map fun l => l ++ ['\n']).flatten }
              _column_count := column_count
              _delimiter := delimiter }
          _current_line := cur } = (Row.ofSplit (viewsSplit (c :: l1) delimiter),
        { _parser_ptr :=
            { _is := { buf := (ls.map fun l => l ++ ['\n']).flatten }
              _column_count := column_count
              _delimiter := delimiter }
          _current_line := c :: l1 }) := by
      simp only [RowStream.read, hg]
    rw [readAll_step f _ _ _ _ e1 e2, ih1]
    simp only [Option.map_some', List.getLast_cons_cons, List.cons_append, List.map_cons]

theorem viewsSplit_ne_nil (line : List Char) (delimiter : Char) (h : line ≠ []) :
    viewsSplit line delimiter ≠ [] := by
  simp only [viewsSplit, h, if_false]
  exact List.splitOnP_ne_nil _ _

/-- The rows read through a parser that skips the first line, over the text of a
header and newline-terminated non-empty data lines: the rows of the data lines, and
the row of the last data line once more. -/
theorem readAll_csvText (header : List Char) (lines : List (List Char)) (column_count : Nat)
    (delimiter : Char) (fuel : Nat) (hh : '\n' ∉ header)
    (hl : ∀ l ∈ lines, l ≠ [] ∧ '\n' ∉ l) (hn : lines ≠ []) (hf : lines.length + 1 < fuel) :
    (RowStream.readAll fuel
      (CSVParser.ofStream { buf := csvText header lines } column_count delimiter
        true).getRowStream).map Prod.fst =
      some ((lines ++ [lines.getLast hn]).map fun l => Row.ofSplit (viewsSplit l delimiter)) := by
  have hg := getline_line header (lines.map fun l => l ++ ['\n']).flatten [] hh
  have h := readAll_lines column_count delimiter lines [] fuel hl hf
  have e : ([] :: lines).getLast (List.cons_ne_nil _ _) = lines.getLast hn :=
    List.getLast_cons hn
  simp only [CSVParser.ofStream, csvText, if_true, hg, CSVParser.getRowStream]
  rw [h, Option.map_some', e]

/-- C36 (the last read does not yield an empty row): over the fixture of the test,
a header and seven data lines, the loop makes 8 reads, and the eighth read yields
the row of the seventh data line again, with its 7 cells: at the end of the text
`peek` sets `eofbit`, the condition of the loop still holds, and `getline` on the
stream that is no longer good leaves `_current_line` as it was. -/
theorem last_read_repeats_last_line :
    (RowStream.readAll 9
      (CSVParser.ofStream { buf := csvText csvTestHeader csvTestLines } 7 '\t'
        true).getRowStream).map (fun out => (out.1.length, out.1[6]?, out.1[7]?)) =
      some (8,
        some { _splitted_row := some ["2022.11.10".toList, "15:00:01.596".toList,
                "0.86682".toList, "0.86713".toList, [], [], "6".toList]
               _current_column_count := 7 },
        some { _splitted_row := some ["2022.11.10".toList, "15:00:01.596".toList,
                "0.86682".toList, "0.86713".toList, [], [], "6".toList]
               _current_column_count := 7 }) := by
  have hl : ∀ l ∈ csvTestLines, l ≠ [] ∧ '\n' ∉ l := by decide
  have hn : csvTestLines ≠ [] := by decide
  have h := readAll_csvText csvTestHeader csvTestLines 7 '\t' 9 (by decide) hl hn (by decide)
  rw [Option.map_eq_some'] at h
  obtain ⟨out, ho, h1⟩ := h
  have e : csvTestLines ++ [csvTestLines.getLast hn] =
      csvTestLines ++ ["2022.11.10\t15:00:01.596\t0.86682\t0.86713\t\t\t6".toList] := rfl
  rw [ho, Option.map_some', h1, e]
  decide

/-- C36, amended (the last read repeats the last data line): for a text made of a
header line followed by n >= 1 non-empty newline-terminated data lines, the loop
`while (row_stream) row_stream >> row` over a parser that skips the first line ends
after exactly n + 1 reads; the reads yield the rows of the data lines in order, and
the last read yields the row of the last data line once more, which has at least
one cell; every row read is the row of a data line, so the header is never
yielded; and `countRows` is n + 1. -/
theorem reads_data_lines_and_last_again (header : List Char) (lines : List (List Char))
    (column_count : Nat) (delimiter : Char) (fuel : Nat) (hh : '\n' ∉ header)
    (hl : ∀ l ∈ lines, l ≠ [] ∧ '\n' ∉ l) (hn : lines ≠ []) (hf : lines.length + 1 < fuel) :
    ∃ rows rs,
      RowStream.readAll fuel
        (CSVParser.ofStream { buf := csvText header lines } column_count delimiter
          true).getRowStream = some (rows, rs) ∧
      rows.length = lines.length + 1 ∧
      rows.take lines.length = lines.map (fun l => Row.ofSplit (viewsSplit l delimiter)) ∧
      rows.drop lines.length = [Row.ofSplit (viewsSplit (lines.getLast hn) delimiter)] ∧
      0 < (Row.ofSplit (viewsSplit (lines.getLast hn) delimiter))._current_column_count ∧
      (∀ row ∈ rows, ∃ l ∈ lines, row = Row.ofSplit (viewsSplit l delimiter)) ∧
      countRows fuel (csvText header lines) = some (lines.length + 1) := by
  have h := readAll_csvText header lines column_count delimiter fuel hh hl hn hf
  have h7 := readAll_csvText header lines 7 '\t' fuel hh hl hn hf
  rw [Option.map_eq_some'] at h h7
  obtain ⟨out, ho, h1⟩ := h
  obtain ⟨out7, ho7, h2⟩ := h7
  refine ⟨out.1, out.2, ho, ?_, ?_, ?_, ?_, ?_, ?_⟩
  · rw [h1]; simp
  · rw [h1, List.map_append, List.take_left' (by simp)]
  · rw [h1, List.map_append, List.drop_left' (by simp)]; rfl
  · have := viewsSplit_ne_nil (lines.getLast hn) delimiter (hl _ (List.getLast_mem hn)).1
    simp only [Row.ofSplit]
    exact_mod_cast List.length_pos.mpr this
  · intro row hr
    rw [h1, List.mem_map] at hr
    obtain ⟨l, hm, rfl⟩ := hr
    rcases List.mem_append.mp hm with hm | hm
    · exact ⟨l, hm, rfl⟩
    · exact ⟨l, by rw [List.mem_singleton.mp hm]; exact List.getLast_mem hn, rfl⟩
  · simp only [countRows, ho7, Option.map_some', h2]
    simp

/-- The claim C36, amended, at the fixture of the test: a header and 7 data lines
give 8 reads. -/
theorem reads_data_lines_and_last_again_witness :
    '\n' ∉ csvTestHeader ∧ (∀ l ∈ csvTestLines, l ≠ [] ∧ '\n' ∉ l) ∧
    csvTestLines.length = 7 ∧ csvTestLines.length + 1 < 9 ∧
    countRows 9 (csvText csvTestHeader csvTestLines) = some 8 :=
  have hh : '\n' ∉ csvTestHeader := by decide
  have hl : ∀ l ∈ csvTestLines, l ≠ [] ∧ '\n' ∉ l := by decide
  have hn : csvTestLines ≠ [] := by decide
  have hf : csvTestLines.length + 1 < 9 := by decide
  have h := reads_data_lines_and_last_again csvTestHeader csvTestLines 7 '\t' 9 hh hl hn hf
  ⟨hh, hl, rfl, hf, by
    obtain ⟨_, _, _, _, _, _, _, _, hc⟩ := h
    exact hc⟩

/-! ## The cells of a row -/

theorem toNumber_of_isNumber {T : Type} (from_chars : List Char → FromChars T) (cell : Cell)
    (value x : T) (h : cell.isNumber from_chars x) :
    cell.toNumber from_chars value = (true, x) ∧ cell.toNumberOrDefault from_chars value = x := by
  obtain ⟨h1, h2⟩ := h
  have he : cell._sv.isEmpty = false := by
    cases hc : cell._sv with
    | nil => exact absurd hc h1
    | cons c l => rfl
  simp [Cell.toNumber, Cell.toNumberOrDefault, he, h2]

theorem toNumber_of_not_isNumber {T : Type} (from_chars : List Char → FromChars T) (cell : Cell)
    (value : T) (h : ¬ ∃ x, cell.isNumber from_chars x) :
    (cell.toNumber from_chars value).1 = false ∧
      cell.toNumberOrDefault from_chars value = value := by
  by_cases he : cell._sv.isEmpty = true
  · simp [Cell.toNumber, Cell.toNumberOrDefault, he]
  · have hne : cell._sv ≠ [] := fun e => he (by rw [e]; rfl)
    cases hf : from_chars cell._sv with
    | ok v ptr =>
      have hp : ptr ≠ cell._sv.length := fun e => h ⟨v, hne, by rw [hf, e]⟩
      simp [Cell.toNumber, Cell.toNumberOrDefault, he, hf, hp]
    | invalid_argument => simp [Cell.toNumber, Cell.toNumberOrDefault, he, hf]
    | result_out_of_range ptr => simp [Cell.toNumber, Cell.toNumberOrDefault, he, hf]

theorem toNumberOrDefault_empty {T : Type} (from_chars : List Char → FromChars T)
    (default_value : T) : Cell.toNumberOrDefault from_chars { _sv := [] } default_value =
      default_value := by
  simp [Cell.toNumberOrDefault]

/-- The tick `createTick` makes of a row of at least seven cells whose time and flag
are accepted, and the parser it leaves. -/
theorem createTick_cells (L : TextLib) (p : TickParser)
    (date time bid ask last volume flags : List Char) (rest : List (List Char)) (tp : Int)
    (f : Nat) (ht : L.parse (date ++ ' ' :: time) = some tp)
    (hf : TickParser.getFlags L { _sv := flags } = Except.ok f) :
    p.createTick L
        (Row.ofSplit (date :: time :: bid :: ask :: last :: volume :: flags :: rest)) =
      (Except.ok
          { timestamp := tp
            bid := Cell.toNumberOrDefault L.from_chars_double { _sv := bid }
              p._intermediate_tick.bid
            ask := Cell.toNumberOrDefault L.from_chars_double { _sv := ask }
              p._intermediate_tick.ask
            volume := Cell.toNumberOrDefault L.from_chars_double { _sv := volume }
              p._intermediate_tick.volume
            flags := f },
        { _intermediate_tick :=
          { timestamp := tp
            bid := Cell.toNumberOrDefault L.from_chars_double { _sv := bid }
              p._intermediate_tick.bid
            ask := Cell.toNumberOrDefault L.from_chars_double { _sv := ask }
              p._intermediate_tick.ask
            volume := Cell.toNumberOrDefault L.from_chars_double { _sv := volume }
              p._intermediate_tick.volume
            flags := f } }) := by
  simp only [TickParser.createTick, Row.ofSplit, Row.getCellStream, CellStream.next,
    TickParser.convertToTime, ht, hf]

/-- A row that ends after the bid cell: `createTick` throws at the ask cell, after it
stored the time and the bid. -/
theorem createTick_short (L : TextLib) (p : TickParser) (date time bid : List Char) (tp : Int)
    (ht : L.parse (date ++ ' ' :: time) = some tp) :
    p.createTick L (Row.ofSplit [date, time, bid]) =
      (Except.error ParseError.EndOfStreamException,
        { _intermediate_tick :=
          { p._intermediate_tick with
            timestamp := tp
            bid := Cell.toNumberOrDefault L.from_chars_double { _sv := bid }
              p._intermediate_tick.bid } }) := by
  simp only [TickParser.createTick, Row.ofSplit, Row.getCellStream, CellStream.next,
    TickParser.convertToTime, ht]

/-- A call of `createTick` that returns a tick got a row of at least seven cells, and
the tick is the one of `createTick_cells`. -/
theorem createTick_ok_inv (L : TextLib) (p p1 : TickParser) (row : Row) (t : Tick)
    (h : p.createTick L row = (Except.ok t, p1)) :
    ∃ date time bid ask last volume flags rest,
      row._splitted_row =
        some (date :: time :: bid :: ask :: last :: volume :: flags :: rest) ∧
      t.bid = Cell.toNumberOrDefault L.from_chars_double { _sv := bid }
        p._intermediate_tick.bid ∧
      t.ask = Cell.toNumberOrDefault L.from_chars_double { _sv := ask }
        p._intermediate_tick.ask ∧
      t.volume = Cell.toNumberOrDefault L.from_chars_double { _sv := volume }
        p._intermediate_tick.volume ∧
      p1._intermediate_tick = t := by
  obtain ⟨sr, cnt⟩ := row
  cases sr with
  | none => simp [TickParser.createTick, Row.getCellStream] at h
  | some cells =>
    match cells with
    | [] => simp [TickParser.createTick, Row.getCellStream, CellStream.next] at h
    | [_] => simp [TickParser.createTick, Row.getCellStream, CellStream.next] at h
    | [date, time] =>
      simp only [TickParser.createTick, Row.getCellStream, CellStream.next] at h
      cases hc : TickParser.convertToTime L (date ++ ' ' :: time) <;> rw [hc] at h <;>
        simp at h
    | [date, time, _] =>
      simp only [TickParser.createTick, Row.getCellStream, CellStream.next] at h
      cases hc : TickParser.convertToTime L (date ++ ' ' :: time) <;> rw [hc] at h <;>
        simp at h
    | [date, time, _, _] =>
      simp only [TickParser.createTick, Row.getCellStream, CellStream.next] at h
      cases hc : TickParser.convertToTime L (date ++ ' ' :: time) <;> rw [hc] at h <;>
        simp at h
    | [date, time, _, _, _] =>
      simp only [TickParser.createTick, Row.getCellStream, CellStream.next] at h
      cases hc : TickParser.convertToTime L (date ++ ' ' :: time) <;> rw [hc] at h <;>
        simp at h
    | [date, time, _, _, _, _] =>
      simp only [TickParser.createTick, Row.getCellStream, CellStream.next] at h
      cases hc : TickParser.convertToTime L (date ++ ' ' :: time) <;> rw [hc] at h <;>
        simp at h
    | date :: time :: bid :: ask :: last :: volume :: flags :: rest =>
      refine ⟨date, time, bid, ask, last, volume, flags, rest, rfl, ?_⟩
      simp only [TickParser.createTick, Row.getCellStream, CellStream.next] at h
      cases hc : TickParser.convertToTime L (date ++ ' ' :: time) with
      | error e => rw [hc] at h; simp at h
      | ok tp =>
        cases hf : TickParser.getFlags L { _sv := flags } with
        | error e => rw [hc, hf] at h; simp at h
        | ok f =>
          rw [hc, hf] at h
          simp only [Prod.mk.injEq, Except.ok.injEq] at h
          obtain ⟨h1, h2⟩ := h
          subst h1
          subst h2
          exact ⟨rfl, rfl, rfl, rfl⟩
/-! ## The ticks of a CSV text -/

theorem toBool_line (column_count : Nat) (delimiter c : Char) (l1 rest cur : List Char)
    (hc : c ≠ '\n') :
    RowStream.toBool
        { _parser_ptr :=
            { _is := { buf := (c :: l1) ++ '\n' :: rest }
              _column_count := column_count
              _delimiter := delimiter }
          _current_line := cur } = (true,
        { _parser_ptr :=
            { _is := { buf := (c :: l1) ++ '\n' :: rest }
              _column_count := column_count
              _delimiter := delimiter }
          _current_line := cur }) := by
  simp [RowStream.toBool, IStream.good, IStream.peek, hc]

theorem read_line (column_count : Nat) (delimiter : Char) (line rest cur : List Char)
    (h : '\n' ∉ line) :
    RowStream.read
        { _parser_ptr :=
            { _is := { buf := line ++ '\n' :: rest }
              _column_count := column_count
              _delimiter := delimiter }
          _current_line := cur } = (Row.ofSplit (viewsSplit line delimiter),
        { _parser_ptr :=
            { _is := { buf := rest }
              _column_count := column_count
              _delimiter := delimiter }
          _current_line := line }) := by
  simp only [RowStream.read, getline_line line rest cur h]

/-- At the end of the text the condition of the loop holds once more, and `peek`
has set `eofbit`. -/
theorem toBool_end (column_count : Nat) (delimiter : Char) (cur : List Char) :
    RowStream.toBool
        { _parser_ptr :=
            { _is := { buf := [] }
              _column_count := column_count
              _delimiter := delimiter }
          _current_line := cur } = (true,
        { _parser_ptr :=
            { _is := { buf := [], eofbit := true }
              _column_count := column_count
              _delimiter := delimiter }
          _current_line := cur }) := by
  simp [RowStream.toBool, IStream.good, IStream.peek]

/-- The read after `eofbit` was set yields the row of the line read last. -/
theorem read_end (column_count : Nat) (delimiter : Char) (cur : List Char) :
    RowStream.read
        { _parser_ptr :=
            { _is := { buf := [], eofbit := true }
              _column_count := column_count
              _delimiter := delimiter }
          _current_line := cur } = (Row.ofSplit (viewsSplit cur delimiter),
        { _parser_ptr :=
            { _is := { buf := [], eofbit := true, failbit := true }
              _column_count := column_count
              _delimiter := delimiter }
          _current_line := cur }) := by
  simp [RowStream.read, getline, IStream.good]

theorem toBool_failed (column_count : Nat) (delimiter : Char) (cur : List Char) :
    RowStream.toBool
        { _parser_ptr :=
            { _is := { buf := [], eofbit := true, failbit := true }
              _column_count := column_count
              _delimiter := delimiter }
          _current_line := cur } = (false,
        { _parser_ptr :=
            { _is := { buf := [], eofbit := true, failbit := true }
              _column_count := column_count
              _delimiter := delimiter }
          _current_line := cur }) := by
  simp [RowStream.toBool, IStream.good]

theorem getTicksLoop_ok (L : TextLib) (fuel : Nat) (p p1 : TickParser) (rs rs1 rs2 : RowStream)
    (row : Row) (tick : Tick) (ticks : List Tick) (h1 : rs.toBool = (true, rs1))
    (h2 : rs1.read = (row, rs2)) (h3 : p.createTick L row = (Except.ok tick, p1)) :
    TickParser.getTicksLoop L (fuel + 1) p rs ticks =
      TickParser.getTicksLoop L fuel p1 rs2 (ticks ++ [tick]) := by
  simp only [TickParser.getTicksLoop, h1, h2, h3, if_true]

theorem getTicksLoop_error (L : TextLib) (fuel : Nat) (p p1 : TickParser)
    (rs rs1 rs2 : RowStream) (row : Row) (e : ParseError) (ticks : List Tick)
    (h1 : rs.toBool = (true, rs1)) (h2 : rs1.read = (row, rs2))
    (h3 : p.createTick L row = (Except.error e, p1)) :
    TickParser.getTicksLoop L (fuel + 1) p rs ticks =
      some (if e.isRuntimeError then Except.ok ticks else Except.error e, p1) := by
  simp only [TickParser.getTicksLoop, h1, h2, h3, if_true]

theorem getTicksLoop_stop (L : TextLib) (fuel : Nat) (p : TickParser) (rs rs1 : RowStream)
    (ticks : List Tick) (h1 : rs.toBool = (false, rs1)) :
    TickParser.getTicksLoop L (fuel + 1) p rs ticks = some (Except.ok ticks, p) := by
  simp only [TickParser.getTicksLoop, h1, Bool.false_eq_true, if_false]

theorem ticksOfRows_ok (L : TextLib) (p p1 : TickParser) (row : Row) (rows : List Row)
    (tick : Tick) (ticks : List Tick) (h : p.createTick L row = (Except.ok tick, p1)) :
    TickParser.ticksOfRows L p (row :: rows) ticks =
      TickParser.ticksOfRows L p1 rows (ticks ++ [tick]) := by
  simp only [TickParser.ticksOfRows, h]

theorem ticksOfRows_error (L : TextLib) (p p1 : TickParser) (row : Row) (rows : List Row)
    (e : ParseError) (ticks : List Tick) (h : p.createTick L row = (Except.error e, p1)) :
    TickParser.ticksOfRows L p (row :: rows) ticks =
      (if e.isRuntimeError then Except.ok ticks else Except.error e, p1) := by
  simp only [TickParser.ticksOfRows, h]

/-- The loop of `getTicks` over a good stream that holds newline-terminated
non-empty lines makes the ticks of the rows of the lines and of the row of the last
line once more, up to the first row at which `createTick` throws. -/
theorem getTicksLoop_lines (L : TextLib) (column_count : Nat) (delimiter : Char)
    (lines : List (List Char)) :
    ∀ (cur : List Char) (fuel : Nat) (p : TickParser) (ticks : List Tick),
      (∀ l ∈ lines, l ≠ [] ∧ '\n' ∉ l) → lines.length + 1 < fuel →
      TickParser.getTicksLoop L fuel p
        { _parser_ptr :=
            { _is := { buf := (lines.map fun l => l ++ ['\n']).flatten }
              _column_count := column_count
              _delimiter := delimiter }
          _current_line := cur } ticks =
        some (TickParser.ticksOfRows L p
          ((lines ++ [(cur :: lines).getLast (List.cons_ne_nil _ _)]).map
            (fun l => Row.ofSplit (viewsSplit l delimiter))) ticks) := by
  induction lines with
  | nil =>
    intro cur fuel p ticks _ hf
    obtain ⟨f, rfl⟩ : ∃ f, fuel = f + 2 := ⟨fuel - 2, by simp at hf; omega⟩
    have e1 := toBool_end column_count delimiter cur
    have e2 := read_end column_count delimiter cur
    have e3 := toBool_failed column_count delimiter cur
    simp only [List.map_nil, List.flatten_nil, List.nil_append, List.getLast_singleton,
      List.map_cons]
    rcases hc : p.createTick L (Row.ofSplit (viewsSplit cur delimiter)) with ⟨r, p1⟩
    cases r with
    | error e =>
      rw [getTicksLoop_error L (f + 1) p p1 _ _ _ _ e ticks e1 e2 hc,
        ticksOfRows_error L p p1 _ _ e ticks hc]
    | ok tick =>
      rw [getTicksLoop_ok L (f + 1) p p1 _ _ _ _ tick ticks e1 e2 hc,
        getTicksLoop_stop L f p1 _ _ _ e3, ticksOfRows_ok L p p1 _ _ tick ticks hc]
      rfl
  | cons l ls ih =>
    intro cur fuel p ticks hl hf
    obtain ⟨f, rfl⟩ : ∃ f, fuel = f + 1 := ⟨fuel - 1, by omega⟩
    have h1 := hl l (List.mem_cons_self _ _)
    obtain ⟨c, l1, rfl⟩ : ∃ c l1, l = c :: l1 := List.exists_cons_of_ne_nil h1.1
    have hc : c ≠ '\n' := fun e => h1.2 (by simp [e])
    have e1 := toBool_line column_count delimiter c l1
      (ls.map fun l => l ++ ['\n']).flatten cur hc
    have e2 := read_line column_count delimiter (c :: l1)
      (ls.map fun l => l ++ ['\n']).flatten cur h1.2
    have hb : (((c :: l1) :: ls).map fun l => l ++ ['\n']).flatten =
        (c :: l1) ++ '\n' :: (ls.map fun l => l ++ ['\n']).flatten := by simp
    have hlast : (cur :: (c :: l1) :: ls).getLast (List.cons_ne_nil _ _) =
        ((c :: l1) :: ls).getLast (List.cons_ne_nil _ _) := List.getLast_cons_cons ..
    have hm : (((c :: l1) :: ls) ++ [((c :: l1) :: ls).getLast (List.cons_ne_nil _ _)]).map
        (fun l => Row.ofSplit (viewsSplit l delimiter)) =
        Row.ofSplit (viewsSplit (c :: l1) delimiter) ::
          (ls ++ [((c :: l1) :: ls).getLast (List.cons_ne_nil _ _)]).map
            (fun l => Row.ofSplit (viewsSplit l delimiter)) := rfl
    rw [hb, hlast, hm]
    rcases hk : p.createTick L (Row.ofSplit (viewsSplit (c :: l1) delimiter)) with ⟨r, p1⟩
    cases r with
    | error e =>
      rw [getTicksLoop_error L f p p1 _ _ _ _ e ticks e1 e2 hk,
        ticksOfRows_error L p p1 _ _ e ticks hk]
    | ok tick =>
      rw [getTicksLoop_ok L f p p1 _ _ _ _ tick ticks e1 e2 hk,
        ih (c :: l1) f p1 (ticks ++ [tick]) (fun x hx => hl x (List.mem_cons_of_mem _ hx))
          (by simp at hf ⊢; omega),
        ticksOfRows_ok L p p1 _ _ tick ticks hk]

/-- `getTicks` over the text of a header and newline-terminated non-empty data
lines: the ticks of the rows of the data lines and of the last data line once more,
up to the first row at which `createTick` throws. -/
theorem getTicks_csvText (L : TextLib) (fuel : Nat) (p : TickParser) (header : List Char)
    (lines : List (List Char)) (hh : '\n' ∉ header) (hl : ∀ l ∈ lines, l ≠ [] ∧ '\n' ∉ l)
    (hn : lines ≠ []) (hf : lines.length + 1 < fuel) :
    p.getTicks L fuel (some (csvText header lines)) =
      some (TickParser.ticksOfRows L p
        ((lines ++ [lines.getLast hn]).map (fun l => Row.ofSplit (viewsSplit l '\t'))) []) := by
  have hg := getline_line header (lines.map fun l => l ++ ['\n']).flatten [] hh
  have h := getTicksLoop_lines L 6 '\t' lines [] fuel p [] hl hf
  have e : ([] :: lines).getLast (List.cons_ne_nil _ _) = lines.getLast hn :=
    List.getLast_cons hn
  simp only [TickParser.getTicks, CSVParser.ofPath, CSVParser.ofStream, csvText, if_true, hg,
    CSVParser.getRowStream]
  rw [h, e]
/-! ## The default of an empty cell -/

theorem refFromCharsDouble_one : refFromCharsDouble "1".toList = FromChars.ok 1 1 := by
  have h : refDecimal "1".toList = some (1, 0, 1) := by decide
  simp only [refFromCharsDouble, h]
  norm_num

theorem refFromCharsDouble_two : refFromCharsDouble "2".toList = FromChars.ok 2 1 := by
  have h : refDecimal "2".toList = some (2, 0, 1) := by decide
  simp only [refFromCharsDouble, h]
  norm_num

theorem refFromCharsDouble_123_456 :
    refFromCharsDouble "123.456".toList = FromChars.ok 123.456 7 := by
  have h : refDecimal "123.456".toList = some (123456, -3, 7) := by decide
  simp only [refFromCharsDouble, h]
  norm_num

theorem refBid_one (d : ℚ) :
    Cell.toNumberOrDefault refText.from_chars_double { _sv := "1".toList } d = 1 :=
  (toNumber_of_isNumber refText.from_chars_double { _sv := "1".toList } d 1
    ⟨by decide, refFromCharsDouble_one⟩).2

theorem refBid_two (d : ℚ) :
    Cell.toNumberOrDefault refText.from_chars_double { _sv := "2".toList } d = 2 :=
  (toNumber_of_isNumber refText.from_chars_double { _sv := "2".toList } d 2
    ⟨by decide, refFromCharsDouble_two⟩).2

theorem refFlags_six :
    TickParser.getFlags refText { _sv := "6".toList } = Except.ok 6 := by
  have h : Cell.toNumber refText.from_chars_int { _sv := "6".toList } 0 = (true, 6) := by
    decide
  simp only [TickParser.getFlags, h]
  rfl

theorem createTick_lineA (p : TickParser) (h0 : p._intermediate_tick.volume = 0) :
    p.createTick refText (Row.ofSplit (viewsSplit tickLineA '\t')) =
      (Except.ok tickOfLineA, { _intermediate_tick := tickOfLineA }) := by
  have hs : viewsSplit tickLineA '\t' = ["2022.11.10".toList, "15:00:00.017".toList,
      "1".toList, "1".toList, [], [], "6".toList] := by decide
  have ht : refText.parse ("2022.11.10".toList ++ ' ' :: "15:00:00.017".toList) =
      some 1668092400017 := by decide
  rw [hs, createTick_cells refText p _ _ _ _ _ _ _ _ _ _ ht refFlags_six, refBid_one,
    refBid_one, toNumberOrDefault_empty, h0]
  rfl

theorem createTick_lineB (p : TickParser) :
    p.createTick refText (Row.ofSplit (viewsSplit tickLineB '\t')) =
      (Except.error ParseError.EndOfStreamException,
        { _intermediate_tick :=
          { p._intermediate_tick with timestamp := 1668092400228, bid := 2 } }) := by
  have hs : viewsSplit tickLineB '\t' = ["2022.11.10".toList, "15:00:00.228".toList,
      "2".toList] := by decide
  have ht : refText.parse ("2022.11.10".toList ++ ' ' :: "15:00:00.228".toList) =
      some 1668092400228 := by decide
  rw [hs, createTick_short refText p _ _ _ _ ht, refBid_two]

theorem createTick_lineC (p : TickParser) (h0 : p._intermediate_tick.volume = 0) :
    p.createTick refText (Row.ofSplit (viewsSplit tickLineC '\t')) =
      (Except.ok (tickOfLineC p._intermediate_tick.bid),
        { _intermediate_tick := tickOfLineC p._intermediate_tick.bid }) := by
  have hs : viewsSplit tickLineC '\t' = ["2022.11.10".toList, "15:00:00.525".toList,
      [], "1".toList, [], [], "6".toList] := by decide
  have ht : refText.parse ("2022.11.10".toList ++ ' ' :: "15:00:00.525".toList) =
      some 1668092400525 := by decide
  rw [hs, createTick_cells refText p _ _ _ _ _ _ _ _ _ _ ht refFlags_six, refBid_one,
    toNumberOrDefault_empty, toNumberOrDefault_empty, h0]
  rfl

/-- The ticks of a file of the single line `tickLineC`: the tick of the line twice,
with the bid the parser held. -/
theorem getTicks_file2 (p : TickParser) (h0 : p._intermediate_tick.volume = 0) :
    p.getTicks refText 3 (some tickFile2) =
      some (Except.ok [tickOfLineC p._intermediate_tick.bid,
          tickOfLineC p._intermediate_tick.bid],
        { _intermediate_tick := tickOfLineC p._intermediate_tick.bid }) := by
  have h := getTicks_csvText refText 3 p csvTestHeader [tickLineC] (by decide) (by decide)
    (by decide) (by decide)
  have e : [tickLineC] ++ [[tickLineC].getLast (by decide)] = [tickLineC, tickLineC] := rfl
  rw [e] at h
  rw [show tickFile2 = csvText csvTestHeader [tickLineC] from rfl, h, List.map_cons,
    List.map_cons, List.map_nil,
    ticksOfRows_ok refText p _ _ _ _ [] (createTick_lineC p h0),
    ticksOfRows_ok refText _ _ _ _ _ _ (createTick_lineC _ rfl)]
  rfl

/-- The ticks of the file of `tickLineA` and `tickLineB` on a new parser: the tick of
`tickLineA`; the parser is left with the bid of `tickLineB`. -/
theorem getTicks_file1 :
    (TickParser.new refText 0).getTicks refText 4 (some tickFile1) =
      some (Except.ok [tickOfLineA], { _intermediate_tick := tickAfterLineB }) := by
  have h := getTicks_csvText refText 4 (TickParser.new refText 0) csvTestHeader
    [tickLineA, tickLineB] (by decide) (by decide) (by decide) (by decide)
  have e : [tickLineA, tickLineB] ++ [[tickLineA, tickLineB].getLast (by decide)] =
      [tickLineA, tickLineB, tickLineB] := rfl
  rw [e] at h
  rw [show tickFile1 = csvText csvTestHeader [tickLineA, tickLineB] from rfl, h, List.map_cons,
    List.map_cons,
    ticksOfRows_ok refText _ _ _ _ _ [] (createTick_lineA (TickParser.new refText 0) rfl),
    ticksOfRows_error refText _ _ _ _ _ _ (createTick_lineB _)]
  rfl

/-- C37 (an empty cell does not always take the value of the tick produced before):
on a new parser, the file of `tickLineA` (bid 1) and `tickLineB` (bid 2, cut short
after the bid) gives the one tick of bid 1, since `createTick` throws at
`tickLineB` after it stored the bid 2; the next file on the same parser, whose row
has an empty bid cell, gives ticks of bid 2, not 1. On a new parser, before which
no tick was produced, that row gives the bid 0. -/
theorem empty_bid_takes_failed_row_value :
    (TickParser.new refText 0).getTicks refText 4 (some tickFile1) =
      some (Except.ok [tickOfLineA], { _intermediate_tick := tickAfterLineB }) ∧
    tickOfLineA.bid = 1 ∧
    ({ _intermediate_tick := tickAfterLineB } : TickParser).getTicks refText 3
        (some tickFile2) =
      some (Except.ok [tickOfLineC 2, tickOfLineC 2],
        { _intermediate_tick := tickOfLineC 2 }) ∧
    (tickOfLineC 2).bid = 2 ∧
    (TickParser.new refText 0).getTicks refText 3 (some tickFile2) =
      some (Except.ok [tickOfLineC 0, tickOfLineC 0],
        { _intermediate_tick := tickOfLineC 0 }) ∧
    (tickOfLineC 0).bid = 0 :=
  ⟨getTicks_file1, rfl, getTicks_file2 { _intermediate_tick := tickAfterLineB } rfl, rfl,
    getTicks_file2 (TickParser.new refText 0) rfl, rfl⟩

/-- C37, amended (an empty cell takes the value the parser holds): `toNumber`
returns true exactly when the cell text is non-empty and `from_chars` matches all
of it as one number, and then it stores the value; `toNumberOrDefault(d)` returns
that value then and `d` otherwise; a new parser holds 0 for the bid, the ask and
the volume; and when `createTick` returns a tick, the parser holds that tick
afterwards, and for every empty BID, ASK or VOLUME cell of the row the tick carries
the value the parser held before the call; so after a call that returned a tick,
the next tick carries that tick's value for the field. -/
theorem empty_cell_takes_held_value (L : TextLib) :
    (∀ (T : Type) (from_chars : List Char → FromChars T) (cell : Cell) (value : T),
      ((cell.toNumber from_chars value).1 = true ↔ ∃ x, cell.isNumber from_chars x) ∧
      (∀ x, cell.isNumber from_chars x →
        cell.toNumber from_chars value = (true, x) ∧
        cell.toNumberOrDefault from_chars value = x) ∧
      ((¬ ∃ x, cell.isNumber from_chars x) →
        cell.toNumberOrDefault from_chars value = value)) ∧
    (∀ now : Int, (TickParser.new L now)._intermediate_tick.bid = 0 ∧
      (TickParser.new L now)._intermediate_tick.ask = 0 ∧
      (TickParser.new L now)._intermediate_tick.volume = 0) ∧
    (∀ (p p1 : TickParser) (row : Row) (t : Tick),
      p.createTick L row = (Except.ok t, p1) →
      p1._intermediate_tick = t ∧
      ∀ cells, row._splitted_row = some cells →
        (cells[2]? = some [] → t.bid = p._intermediate_tick.bid) ∧
        (cells[3]? = some [] → t.ask = p._intermediate_tick.ask) ∧
        (cells[5]? = some [] → t.volume = p._intermediate_tick.volume)) ∧
    (∀ (p p1 p2 : TickParser) (row row2 : Row) (t t2 : Tick),
      p.createTick L row = (Except.ok t, p1) →
      p1.createTick L row2 = (Except.ok t2, p2) →
      ∀ cells, row2._splitted_row = some cells →
        (cells[2]? = some [] → t2.bid = t.bid) ∧
        (cells[3]? = some [] → t2.ask = t.ask) ∧
        (cells[5]? = some [] → t2.volume = t.volume)) := by
  have key : ∀ (p p1 : TickParser) (row : Row) (t : Tick),
      p.createTick L row = (Except.ok t, p1) →
      p1._intermediate_tick = t ∧
      ∀ cells, row._splitted_row = some cells →
        (cells[2]? = some [] → t.bid = p._intermediate_tick.bid) ∧
        (cells[3]? = some [] → t.ask = p._intermediate_tick.ask) ∧
        (cells[5]? = some [] → t.volume = p._intermediate_tick.volume) := by
    intro p p1 row t h
    obtain ⟨date, time, bid, ask, last, volume, flags, rest, hr, hb, ha, hv, hp⟩ :=
      createTick_ok_inv L p p1 row t h
    refine ⟨hp, ?_⟩
    intro cells hcells
    rw [hr] at hcells
    obtain rfl := Option.some.inj hcells
    refine ⟨?_, ?_, ?_⟩
    · intro he
      obtain rfl : bid = [] := by simpa using he
      rw [hb, toNumberOrDefault_empty]
    · intro he
      obtain rfl : ask = [] := by simpa using he
      rw [ha, toNumberOrDefault_empty]
    · intro he
      obtain rfl : volume = [] := by simpa using he
      rw [hv, toNumberOrDefault_empty]
  refine ⟨?_, ?_, key, ?_⟩
  · intro T from_chars cell value
    refine ⟨⟨?_, ?_⟩, fun x hx => toNumber_of_isNumber from_chars cell value x hx,
      fun hn => (toNumber_of_not_isNumber from_chars cell value hn).2⟩
    · intro ht
      by_contra hn
      rw [(toNumber_of_not_isNumber from_chars cell value hn).1] at ht
      exact Bool.false_ne_true ht
    · rintro ⟨x, hx⟩
      rw [(toNumber_of_isNumber from_chars cell value x hx).1]
  · intro now
    exact ⟨rfl, rfl, rfl⟩
  · intro p p1 p2 row row2 t t2 h1 h2 cells hcells
    have k1 := (key p p1 row t h1).1
    have k2 := (key p1 p2 row2 t2 h2).2 cells hcells
    rw [k1] at k2
    exact k2

/-- The claim C37, amended, at the reference library: the cell `123.456` is a number
and `toNumber` stores 123.456; and after the tick of `tickLineA` the row of
`tickLineC`, whose bid cell is empty, gives a tick with the bid of that tick. -/
theorem empty_cell_takes_held_value_witness :
    Cell.isNumber refText.from_chars_double { _sv := "123.456".toList } 123.456 ∧
    Cell.toNumber refText.from_chars_double { _sv := "123.456".toList } 0 = (true, 123.456) ∧
    (TickParser.new refText 0).createTick refText (Row.ofSplit (viewsSplit tickLineA '\t')) =
      (Except.ok tickOfLineA, { _intermediate_tick := tickOfLineA }) ∧
    ({ _intermediate_tick := tickOfLineA } : TickParser).createTick refText
        (Row.ofSplit (viewsSplit tickLineC '\t')) =
      (Except.ok (tickOfLineC 1), { _intermediate_tick := tickOfLineC 1 }) ∧
    (tickOfLineC 1).bid = tickOfLineA.bid :=
  have hn : Cell.isNumber refText.from_chars_double { _sv := "123.456".toList } 123.456 :=
    ⟨by decide, refFromCharsDouble_123_456⟩
  have h1 := createTick_lineA (TickParser.new refText 0) rfl
  have h2 := createTick_lineC { _intermediate_tick := tickOfLineA } rfl
  have hs : viewsSplit tickLineC '\t' = ["2022.11.10".toList, "15:00:00.525".toList,
      [], "1".toList, [], [], "6".toList] := by decide
  ⟨hn, (((empty_cell_takes_held_value refText).1 ℚ refText.from_chars_double
      { _sv := "123.456".toList } 0).2.1 123.456 hn).1, h1, h2,
    ((empty_cell_takes_held_value refText).2.2.2 _ _ _ _ _ _ _ h1 h2 _
      (show (Row.ofSplit (viewsSplit tickLineC '\t'))._splitted_row = some _ from
        congrArg some hs)).1 rfl⟩

/-! ## The ledger in IEEE arithmetic, on examples -/

set_option maxRecDepth 20000 in
/-- C1, counterexample (in the arithmetic of the program the ledger does not hold
the sums over the book): on the ledger of an account of balance 10000 and leverage 50, the long
orders of volume 1000 at the asks 1.1990 and 1.1992 are admitted; after the close
of the second position the book holds the first alone, of
`volume * open_price = 1199.0`, and the ledger holds the long expense
1198.9999999999998, the result of `(1199.0 + 1199.2) - 1199.2` in `double`; after
the close of the first position too the book is empty and the ledger holds the
long expense `-2^-42`, about -2.27e-13, with the long volume 0. -/
theorem ieee_expense_differs_from_book :
    (IEEE.ledger0.onTick IEEE.tickA).2.canOrderBeProcessed IEEE.positionA.volume
      IEEE.tickA.ask IEEE.tickA.bid = true ∧
    (((IEEE.ledger0.onTick IEEE.tickA).2.addPosition IEEE.positionA).onTick
      IEEE.tickB).2.canOrderBeProcessed IEEE.positionB.volume IEEE.tickB.ask IEEE.tickB.bid =
        true ∧
    (IEEE.AccountBalanceManager.after IEEE.callsOpenOpenClose IEEE.ledger0)._long_volume =
      IEEE.positionA.volume ∧
    IEEE.Value.mul IEEE.binary64 IEEE.positionA.volume IEEE.positionA.open_price =
      IEEE.Value.fin false 1199 0 ∧
    (IEEE.AccountBalanceManager.after IEEE.callsOpenOpenClose
      IEEE.ledger0)._long_positions_expanses = IEEE.Value.fin false 5273257766813695 (-42) ∧
    (IEEE.AccountBalanceManager.after IEEE.callsOpenOpenClose
      IEEE.ledger0)._long_positions_expanses ≠
        IEEE.Value.mul IEEE.binary64 IEEE.positionA.volume IEEE.positionA.open_price ∧
    (IEEE.AccountBalanceManager.after IEEE.callsOpenOpenCloseClose IEEE.ledger0)._long_volume =
      IEEE.Value.zero ∧
    (IEEE.AccountBalanceManager.after IEEE.callsOpenOpenCloseClose
      IEEE.ledger0)._long_positions_expanses = IEEE.Value.fin true 1 (-42) := by
  decide

set_option maxRecDepth 20000 in
/-- C14, counterexample (an account with a positive balance and no open exposure
that is not classified OK): on the ledger of an account of balance 10000 and
leverage 50, after the long positions of volume 1000 opened at the asks 1.1990
and 1.1992 were both closed, second first, the balance is 10000 again and no
volume is left, but the long expense is `-2^-42`; the next `onTick` divides the
total equity by the used margin `-2^-42 / 50`: the margin level is about -2.2e18,
not +infinity, and the state is MARGIN_CALL. -/
theorem ieee_empty_book_margin_call :
    (IEEE.AccountBalanceManager.after IEEE.callsOpenOpenCloseClose IEEE.ledger0)._account_balance =
      IEEE.Value.ofNat 10000 ∧
    (IEEE.AccountBalanceManager.after IEEE.callsOpenOpenCloseClose IEEE.ledger0)._long_volume =
      IEEE.Value.zero ∧
    (IEEE.AccountBalanceManager.after IEEE.callsOpenOpenCloseClose IEEE.ledger0)._short_volume =
      IEEE.Value.zero ∧
    ((IEEE.AccountBalanceManager.after IEEE.callsOpenOpenCloseClose IEEE.ledger0).onTick
      IEEE.tickB).2.getMarginLevel = IEEE.Value.fin true 15625 47 ∧
    ((IEEE.AccountBalanceManager.after IEEE.callsOpenOpenCloseClose IEEE.ledger0).onTick
      IEEE.tickB).1 = AccountState.MARGIN_CALL := by
  decide

set_option maxRecDepth 20000 in
/-- C35, counterexample (in the arithmetic of the program an admitted order can
put the account into a margin call at the prices it was opened at): on the ledger of an account of
balance 1209.1000714719285, leverage 50 and stop-out level 0.5, updated at the
tick of bid 1.199 and ask 1.1991, `canOrderBeProcessed` admits a long order of
volume 100000: the level it computes is `0.5 + 2^-24` as `float`.  After
`addPosition` the update at the same tick gives the margin level 0.5 as `float`,
which is not above the stop-out level, and the state MARGIN_CALL. -/
theorem ieee_admitted_order_margin_call :
    IEEE.Value.lt IEEE.Value.zero IEEE.ledgerAtThreshold._account_balance = true ∧
    IEEE.Value.le IEEE.tickC.bid IEEE.tickC.ask = true ∧
    (IEEE.ledgerAtThreshold.onTick IEEE.tickC).2.updateOpenPositionEquity IEEE.tickC =
      (IEEE.ledgerAtThreshold.onTick IEEE.tickC).2 ∧
    (IEEE.ledgerAtThreshold.onTick IEEE.tickC).2.canOrderBeProcessed IEEE.positionC.volume
      IEEE.tickC.ask IEEE.tickC.bid = true ∧
    IEEE.Value.convert IEEE.binary32
      (IEEE.Value.div IEEE.binary64
        (IEEE.Value.sub IEEE.binary64 (IEEE.ledgerAtThreshold.onTick IEEE.tickC).2.getTotalEquity
          (IEEE.Value.mul IEEE.binary64 IEEE.positionC.volume
            (IEEE.Value.sub IEEE.binary64 IEEE.tickC.ask IEEE.tickC.bid)))
        (IEEE.Value.add IEEE.binary64 (IEEE.ledgerAtThreshold.onTick IEEE.tickC).2.getUsedMargin
          ((IEEE.ledgerAtThreshold.onTick IEEE.tickC).2.calculateRequiredMargin
            IEEE.positionC.volume IEEE.tickC.ask))) = IEEE.Value.fin false 8388609 (-24) ∧
    (((IEEE.ledgerAtThreshold.onTick IEEE.tickC).2.addPosition IEEE.positionC).onTick
      IEEE.tickC).2.getMarginLevel = IEEE.Value.fin false 1 (-1) ∧
    IEEE.Value.gt
      (((IEEE.ledgerAtThreshold.onTick IEEE.tickC).2.addPosition IEEE.positionC).onTick
        IEEE.tickC).2.getMarginLevel IEEE.ledgerAtThreshold._stop_out_level = false ∧
    (((IEEE.ledgerAtThreshold.onTick IEEE.tickC).2.addPosition IEEE.positionC).onTick
      IEEE.tickC).1 = AccountState.MARGIN_CALL := by
  decide

set_option maxRecDepth 20000 in
/-- C16, counterexample (in the arithmetic of the program the balance is not the
initial balance plus the sum of the profits): on the ledger of an account of balance 10000, after
the trades of profit 6.299999999999972 (1000 from 1.2917 to 1.2980) and
660.0000000000006 (10000 from 1.2039 to 1.2699) the balance is 10666.3, the
result of the two rounded additions in the order of the trades.  The exact sum of
the initial balance and the two profits is `3002296544088870245 * 2^-48`, which
no `double` holds, and the initial balance plus the `double` sum of the profits
is 10666.300000000001. -/
theorem ieee_balance_differs_from_sum :
    IEEE.tradeD.calculateProfit = IEEE.Value.fin false 1773292353277125 (-48) ∧
    IEEE.tradeE.calculateProfit = IEEE.Value.fin false 5805421394657285 (-43) ∧
    (IEEE.AccountBalanceManager.after IEEE.callsTwoTrades IEEE.ledger0)._account_balance =
      IEEE.Value.fin false 2931930218836787 (-38) ∧
    IEEE.Value.addExact IEEE.ledger0._account_balance
      (IEEE.Value.addExact IEEE.tradeD.calculateProfit IEEE.tradeE.calculateProfit) =
        IEEE.Value.fin false 3002296544088870245 (-48) ∧
    IEEE.Value.add IEEE.binary64 IEEE.ledger0._account_balance
      (IEEE.Value.add IEEE.binary64 IEEE.tradeD.calculateProfit IEEE.tradeE.calculateProfit) =
        IEEE.Value.fin false 5863860437673575 (-39) ∧
    (IEEE.AccountBalanceManager.after IEEE.callsTwoTrades IEEE.ledger0)._account_balance ≠
      IEEE.Value.addExact IEEE.ledger0._account_balance
        (IEEE.Value.addExact IEEE.tradeD.calculateProfit IEEE.tradeE.calculateProfit) ∧
    (IEEE.AccountBalanceManager.after IEEE.callsTwoTrades IEEE.ledger0)._account_balance ≠
      IEEE.Value.add IEEE.binary64 IEEE.ledger0._account_balance
        (IEEE.Value.add IEEE.binary64 IEEE.tradeD.calculateProfit
          IEEE.tradeE.calculateProfit) := by
  decide

/-! ## The classification of a tick in IEEE arithmetic -/

theorem ieee_normal_cases (neg : Bool) (m : Nat) (e : Int) :
    ∃ k g, IEEE.normal neg m e = IEEE.Value.fin neg k g := by
  unfold IEEE.normal
  split_ifs
  · exact ⟨0, 0, rfl⟩
  · exact ⟨_, _, rfl⟩

theorem ieee_round_cases (f : IEEE.Format) (neg : Bool) (n d : Nat) :
    f.round neg n d = IEEE.Value.inf neg ∨ ∃ m e, f.round neg n d = IEEE.Value.fin neg m e := by
  unfold IEEE.Format.round IEEE.Format.finish
  split_ifs
  · exact Or.inr ⟨0, 0, rfl⟩
  · exact Or.inl rfl
  · exact Or.inr (ieee_normal_cases _ _ _)

theorem ieee_add_nan_left (f : IEEE.Format) (x : IEEE.Value) :
    IEEE.Value.add f IEEE.Value.nan x = IEEE.Value.nan := by
  cases x <;> rfl

theorem ieee_add_nan_right (f : IEEE.Format) (x : IEEE.Value) :
    IEEE.Value.add f x IEEE.Value.nan = IEEE.Value.nan := by
  cases x <;> rfl

theorem ieee_div_nan_right (f : IEEE.Format) (x : IEEE.Value) :
    IEEE.Value.div f x IEEE.Value.nan = IEEE.Value.nan := by
  cases x <;> rfl

theorem ieee_le_nan_left (x : IEEE.Value) : IEEE.Value.le IEEE.Value.nan x = false := by
  cases x <;> rfl

theorem ieee_mul_zero_cases (f : IEEE.Format) (x : IEEE.Value) :
    IEEE.Value.mul f x IEEE.Value.zero = IEEE.Value.nan ∨
      ∃ s, IEEE.Value.mul f x IEEE.Value.zero = IEEE.Value.fin s 0 0 := by
  cases x with
  | nan => exact Or.inl rfl
  | inf s => exact Or.inl rfl
  | fin s m e =>
    right
    refine ⟨s != false, ?_⟩
    simp [IEEE.Value.mul, IEEE.Value.zero]

theorem ieee_sub_zero_of_zero (f : IEEE.Format) (s : Bool) :
    IEEE.Value.sub f (IEEE.Value.fin s 0 0) IEEE.Value.zero = IEEE.Value.fin s 0 0 := by
  cases s <;> rfl

theorem ieee_zero_sub_zero (f : IEEE.Format) (s : Bool) :
    IEEE.Value.sub f IEEE.Value.zero (IEEE.Value.fin s 0 0) = IEEE.Value.zero := by
  cases s <;> rfl

theorem ieee_add_zero_zero (f : IEEE.Format) (s : Bool) :
    IEEE.Value.add f (IEEE.Value.fin s 0 0) IEEE.Value.zero = IEEE.Value.zero := by
  cases s <;> rfl

/-- The open-position equity of a ledger without volume and expense is a positive
zero, or a NaN when a price of the tick is not finite. -/
theorem ieee_equity_of_no_exposure (a : IEEE.AccountBalanceManager) (tick : IEEE.Tick)
    (h1 : a._long_volume = IEEE.Value.zero) (h2 : a._short_volume = IEEE.Value.zero)
    (h3 : a._long_positions_expanses = IEEE.Value.zero)
    (h4 : a._short_positions_expanses = IEEE.Value.zero) :
    (a.updateOpenPositionEquity tick)._open_position_equity = IEEE.Value.nan ∨
      (a.updateOpenPositionEquity tick)._open_position_equity = IEEE.Value.zero := by
  simp only [IEEE.AccountBalanceManager.updateOpenPositionEquity, h1, h2, h3, h4]
  rcases ieee_mul_zero_cases IEEE.binary64 tick.bid with hb | ⟨s, hb⟩
  · left
    rw [hb]
    exact ieee_add_nan_left _ _
  · rcases ieee_mul_zero_cases IEEE.binary64 tick.ask with hk | ⟨t, hk⟩
    · left
      rw [hb, hk]
      exact ieee_add_nan_right _ _
    · right
      rw [hb, hk, ieee_sub_zero_of_zero, ieee_zero_sub_zero, ieee_add_zero_zero]

/-- The sum of a value above zero and a zero is a NaN, the positive infinity or a
finite value that is not negative. -/
theorem ieee_add_zero_of_pos (x : IEEE.Value) (h : IEEE.Value.le x IEEE.Value.zero = false) :
    IEEE.Value.add IEEE.binary64 x IEEE.Value.zero = IEEE.Value.nan ∨
      IEEE.Value.add IEEE.binary64 x IEEE.Value.zero = IEEE.Value.inf false ∨
      ∃ m e, IEEE.Value.add IEEE.binary64 x IEEE.Value.zero = IEEE.Value.fin false m e := by
  cases x with
  | nan => exact Or.inl rfl
  | inf s =>
    right; left
    have : s = false := by simpa [IEEE.Value.le, IEEE.Value.zero] using h
    subst this
    rfl
  | fin s m e =>
    right
    have hz : IEEE.scaled false 0 0 (min e 0) = 0 := by simp [IEEE.scaled]
    have hp : 0 < IEEE.scaled s m e (min e 0) := by
      have := h
      simp only [IEEE.Value.le, IEEE.Value.zero, hz, decide_eq_false_iff_not, not_le] at this
      exact this
    have hne : IEEE.scaled s m e (min e 0) + IEEE.scaled false 0 0 (min e 0) ≠ 0 := by
      rw [hz]; omega
    have hnn : ¬ IEEE.scaled s m e (min e 0) + IEEE.scaled false 0 0 (min e 0) < 0 := by
      rw [hz]; omega
    simp only [IEEE.Value.add, IEEE.Value.zero, IEEE.Format.ofScaled, hne, if_false, hnn,
      decide_False]
    rcases ieee_round_cases IEEE.binary64 false
      ((IEEE.scaled s m e (min e 0) + IEEE.scaled false 0 0 (min e 0)).natAbs *
        2 ^ (min e 0).toNat) (2 ^ (-(min e 0)).toNat) with h1 | ⟨k, g, h1⟩
    · exact Or.inl h1
    · exact Or.inr ⟨k, g, h1⟩

/-- The used margin of a ledger without expense is a positive zero, or a NaN when
the leverage is 0. -/
theorem ieee_used_margin_of_no_expense (a : IEEE.AccountBalanceManager)
    (h3 : a._long_positions_expanses = IEEE.Value.zero)
    (h4 : a._short_positions_expanses = IEEE.Value.zero) :
    a.getUsedMargin = IEEE.Value.nan ∨ a.getUsedMargin = IEEE.Value.zero := by
  have hz : IEEE.Value.add IEEE.binary64 IEEE.Value.zero IEEE.Value.zero = IEEE.Value.zero := rfl
  simp only [IEEE.AccountBalanceManager.getUsedMargin,
    IEEE.AccountBalanceManager.getTotalExpenses, h3, h4, hz, IEEE.Value.ofNat]
  rcases ieee_round_cases IEEE.binary64 false a._leverage 1 with h | ⟨k, g, h⟩
  · right
    rw [h]
    rfl
  · rw [h]
    by_cases hk : k = 0
    · left
      subst hk
      rfl
    · right
      simp [IEEE.Value.div, IEEE.Value.zero, hk, IEEE.Format.round]

/-- The margin level of a ledger above zero without volume and expense is a NaN or
the positive infinity. -/
theorem ieee_level_of_no_exposure (a : IEEE.AccountBalanceManager) (tick : IEEE.Tick)
    (hb : IEEE.Value.le a._account_balance IEEE.Value.zero = false)
    (h1 : a._long_volume = IEEE.Value.zero) (h2 : a._short_volume = IEEE.Value.zero)
    (h3 : a._long_positions_expanses = IEEE.Value.zero)
    (h4 : a._short_positions_expanses = IEEE.Value.zero) :
    (a.updateOpenPositionEquity tick).getMarginLevel = IEEE.Value.nan ∨
      (a.updateOpenPositionEquity tick).getMarginLevel = IEEE.Value.inf false := by
  have hu := ieee_used_margin_of_no_expense (a.updateOpenPositionEquity tick) h3 h4
  have he := ieee_equity_of_no_exposure a tick h1 h2 h3 h4
  have hq : (a.updateOpenPositionEquity tick).getTotalEquity =
      IEEE.Value.add IEEE.binary64 a._account_balance
        (a.updateOpenPositionEquity tick)._open_position_equity := rfl
  unfold IEEE.AccountBalanceManager.getMarginLevel
  rw [hq]
  rcases hu with hu | hu
  · left
    rw [hu, ieee_div_nan_right]
    rfl
  · rw [hu]
    rcases he with he | he
    · left
      rw [he, ieee_add_nan_right]
      rfl
    · rw [he]
      rcases ieee_add_zero_of_pos a._account_balance hb with h | h | ⟨m, e, h⟩
      · left
        rw [h]
        rfl
      · right
        rw [h]
        rfl
      · rw [h]
        by_cases hm : m = 0
        · left
          subst hm
          rfl
        · right
          simp [IEEE.Value.div, IEEE.Value.zero, hm, IEEE.Value.convert]

/-- C14, amended (the classification in the arithmetic of the program): `onTick`
updates the open-position equity and returns NONPOSITIVE_ACCOUNT_BALANCE exactly
when `balance <= 0`; otherwise MARGIN_CALL exactly when
`margin_level <= stop_out_level`; otherwise MARGIN_CALL_WARNING exactly when
`margin_level <= stop_out_warning_level`; otherwise OK, where `margin_level` is
the `double` quotient `total_equity / used_margin` converted to `float` and the
comparisons are those of IEEE, false for a NaN.  For a used margin of zero the
level is the infinity of the sign of the total equity, taken against the sign of
the zero, and a NaN for a total equity of zero.  A ledger with a balance above
zero, finite levels, and the volumes and expenses 0 it is constructed with is
classified OK on every tick. -/
theorem ieee_onTick_classification (a : IEEE.AccountBalanceManager) (tick : IEEE.Tick) :
    (a.onTick tick).2 = a.updateOpenPositionEquity tick ∧
    (a.onTick tick).2.getMarginLevel =
      IEEE.Value.convert IEEE.binary32
        (IEEE.Value.div IEEE.binary64 (a.onTick tick).2.getTotalEquity
          (a.onTick tick).2.getUsedMargin) ∧
    ((a.onTick tick).1 = AccountState.NONPOSITIVE_ACCOUNT_BALANCE ↔
      IEEE.Value.le a._account_balance IEEE.Value.zero = true) ∧
    ((a.onTick tick).1 = AccountState.MARGIN_CALL ↔
      IEEE.Value.le a._account_balance IEEE.Value.zero = false ∧
        IEEE.Value.le (a.onTick tick).2.getMarginLevel a._stop_out_level = true) ∧
    ((a.onTick tick).1 = AccountState.MARGIN_CALL_WARNING ↔
      IEEE.Value.le a._account_balance IEEE.Value.zero = false ∧
        IEEE.Value.le (a.onTick tick).2.getMarginLevel a._stop_out_level = false ∧
        IEEE.Value.le (a.onTick tick).2.getMarginLevel a._stop_out_warning_level = true) ∧
    ((a.onTick tick).1 = AccountState.OK ↔
      IEEE.Value.le a._account_balance IEEE.Value.zero = false ∧
        IEEE.Value.le (a.onTick tick).2.getMarginLevel a._stop_out_level = false ∧
        IEEE.Value.le (a.onTick tick).2.getMarginLevel a._stop_out_warning_level = false) ∧
    (∀ (s t : Bool) (m : Nat) (e : Int),
      (a.onTick tick).2.getUsedMargin = IEEE.Value.fin s 0 0 →
      (a.onTick tick).2.getTotalEquity = IEEE.Value.fin t m e →
      (a.onTick tick).2.getMarginLevel =
        if m = 0 then IEEE.Value.nan else IEEE.Value.inf (t != s)) ∧
    (IEEE.Value.le a._account_balance IEEE.Value.zero = false →
      (∃ s m e, a._stop_out_level = IEEE.Value.fin s m e) →
      (∃ s m e, a._stop_out_warning_level = IEEE.Value.fin s m e) →
      a._long_volume = IEEE.Value.zero → a._short_volume = IEEE.Value.zero →
      a._long_positions_expanses = IEEE.Value.zero →
      a._short_positions_expanses = IEEE.Value.zero →
      (a.onTick tick).1 = AccountState.OK) := by
  have hcl : (a.onTick tick).1 = (a.updateOpenPositionEquity tick).classify := rfl
  have hbal : (a.updateOpenPositionEquity tick)._account_balance = a._account_balance := rfl
  have hso : (a.updateOpenPositionEquity tick)._stop_out_level = a._stop_out_level := rfl
  have hsw : (a.updateOpenPositionEquity tick)._stop_out_warning_level =
      a._stop_out_warning_level := rfl
  have h2 : (a.onTick tick).2 = a.updateOpenPositionEquity tick := rfl
  have hok : (a.onTick tick).1 = AccountState.OK ↔
      IEEE.Value.le a._account_balance IEEE.Value.zero = false ∧
        IEEE.Value.le (a.onTick tick).2.getMarginLevel a._stop_out_level = false ∧
        IEEE.Value.le (a.onTick tick).2.getMarginLevel a._stop_out_warning_level = false := by
    rw [hcl, h2]
    unfold IEEE.AccountBalanceManager.classify
    rw [hbal, hso, hsw]
    cases IEEE.Value.le a._account_balance IEEE.Value.zero <;>
      cases IEEE.Value.le (a.updateOpenPositionEquity tick).getMarginLevel a._stop_out_level <;>
      cases IEEE.Value.le (a.updateOpenPositionEquity tick).getMarginLevel
        a._stop_out_warning_level <;> simp
  refine ⟨rfl, rfl, ?_, ?_, ?_, hok, ?_, ?_⟩
  · rw [hcl]
    unfold IEEE.AccountBalanceManager.classify
    rw [hbal, hso, hsw]
    cases IEEE.Value.le a._account_balance IEEE.Value.zero <;>
      cases IEEE.Value.le (a.updateOpenPositionEquity tick).getMarginLevel a._stop_out_level <;>
      cases IEEE.Value.le (a.updateOpenPositionEquity tick).getMarginLevel
        a._stop_out_warning_level <;> simp
  · rw [hcl, h2]
    unfold IEEE.AccountBalanceManager.classify
    rw [hbal, hso, hsw]
    cases IEEE.Value.le a._account_balance IEEE.Value.zero <;>
      cases IEEE.Value.le (a.updateOpenPositionEquity tick).getMarginLevel a._stop_out_level <;>
      cases IEEE.Value.le (a.updateOpenPositionEquity tick).getMarginLevel
        a._stop_out_warning_level <;> simp
  · rw [hcl, h2]
    unfold IEEE.AccountBalanceManager.classify
    rw [hbal, hso, hsw]
    cases IEEE.Value.le a._account_balance IEEE.Value.zero <;>
      cases IEEE.Value.le (a.updateOpenPositionEquity tick).getMarginLevel a._stop_out_level <;>
      cases IEEE.Value.le (a.updateOpenPositionEquity tick).getMarginLevel
        a._stop_out_warning_level <;> simp
  · intro s t m e hu he
    unfold IEEE.AccountBalanceManager.getMarginLevel
    rw [hu, he]
    by_cases hm : m = 0
    · subst hm
      rfl
    · simp [IEEE.Value.div, hm, IEEE.Value.convert]
  · intro hb ⟨s1, m1, e1, hs1⟩ ⟨s2, m2, e2, hs2⟩ h1 h2' h3 h4
    rw [hok, h2]
    refine ⟨hb, ?_, ?_⟩
    · rcases ieee_level_of_no_exposure a tick hb h1 h2' h3 h4 with h | h
      · rw [h, ieee_le_nan_left]
      · rw [h, hs1]
        rfl
    · rcases ieee_level_of_no_exposure a tick hb h1 h2' h3 h4 with h | h
      · rw [h, ieee_le_nan_left]
      · rw [h, hs2]
        rfl

set_option maxRecDepth 20000 in
/-- The claim C14, amended, at the ledger of a new account of balance 10000, which
is classified OK, and at the ledger that holds the long position of volume 100000
opened at the ask 1.1991, which is classified MARGIN_CALL at a margin level of 0.5
against the stop-out level 0.5. -/
theorem ieee_onTick_classification_witness :
    IEEE.Value.le IEEE.ledger0._account_balance IEEE.Value.zero = false ∧
    (IEEE.ledger0.onTick IEEE.tickA).1 = AccountState.OK ∧
    IEEE.Value.le
      (((IEEE.ledgerAtThreshold.onTick IEEE.tickC).2.addPosition IEEE.positionC).onTick
        IEEE.tickC).2.getMarginLevel
      ((IEEE.ledgerAtThreshold.onTick IEEE.tickC).2.addPosition IEEE.positionC)._stop_out_level =
        true ∧
    (((IEEE.ledgerAtThreshold.onTick IEEE.tickC).2.addPosition IEEE.positionC).onTick
      IEEE.tickC).1 = AccountState.MARGIN_CALL :=
  have hb : IEEE.Value.le IEEE.ledger0._account_balance IEEE.Value.zero = false := by decide
  have hl : IEEE.Value.le
      (((IEEE.ledgerAtThreshold.onTick IEEE.tickC).2.addPosition IEEE.positionC).onTick
        IEEE.tickC).2.getMarginLevel
      ((IEEE.ledgerAtThreshold.onTick IEEE.tickC).2.addPosition IEEE.positionC)._stop_out_level =
        true := by decide
  ⟨hb,
    (ieee_onTick_classification IEEE.ledger0 IEEE.tickA).2.2.2.2.2.2.2 hb
      ⟨false, 1, -1, by decide⟩ ⟨false, 9227469, -24, by decide⟩ rfl rfl rfl rfl,
    hl,
    (ieee_onTick_classification
      ((IEEE.ledgerAtThreshold.onTick IEEE.tickC).2.addPosition IEEE.positionC)
      IEEE.tickC).2.2.2.1.mpr ⟨by decide, hl⟩⟩

/-! ## The reduction operator on `double` balances -/

theorem ieee_scaled_cast (s : Bool) (m : Nat) (e e0 : Int) (h : e0 ≤ e) :
    ((IEEE.scaled s m e e0 : Int) : ℚ) =
      IEEE.Value.toRat (IEEE.Value.fin s m e) * ((2 : ℚ) ^ e0)⁻¹ := by
  have h2 : ((2 : ℚ) ^ e0) ≠ 0 := zpow_ne_zero _ (by norm_num)
  have hp : (2 : ℚ) ^ e = (2 : ℚ) ^ (e - e0).toNat * (2 : ℚ) ^ e0 := by
    rw [← zpow_natCast, Int.toNat_of_nonneg (by omega), ← zpow_add₀ (by norm_num)]
    congr 1
    omega
  simp only [IEEE.scaled, IEEE.Value.toRat]
  rw [hp]
  push_cast
  field_simp
  cases s <;> simp <;> ring

theorem ieee_lt_iff_key (a b : IEEE.Value) (ha : a ≠ IEEE.Value.nan)
    (hb : b ≠ IEEE.Value.nan) : IEEE.Value.lt a b = true ↔ a.key < b.key := by
  cases a with
  | nan => exact absurd rfl ha
  | inf s =>
    cases b with
    | nan => exact absurd rfl hb
    | inf t => cases s <;> cases t <;> simp [IEEE.Value.lt, IEEE.Value.key, Prod.Lex.lt_iff]
    | fin t k g => cases s <;> simp [IEEE.Value.lt, IEEE.Value.key, Prod.Lex.lt_iff]
  | fin s m e =>
    cases b with
    | nan => exact absurd rfl hb
    | inf t => cases t <;> simp [IEEE.Value.lt, IEEE.Value.key, Prod.Lex.lt_iff]
    | fin t k g =>
      have hc : (0 : ℚ) < ((2 : ℚ) ^ (min e g))⁻¹ := inv_pos.mpr (zpow_pos (by norm_num) _)
      have h1 := ieee_scaled_cast s m e (min e g) (min_le_left _ _)
      have h2 := ieee_scaled_cast t k g (min e g) (min_le_right _ _)
      simp only [IEEE.Value.lt, IEEE.Value.key, decide_eq_true_eq, Prod.Lex.lt_iff, lt_self_iff_false,
        true_and, false_or]
      rw [← Int.cast_lt (R := ℚ), h1, h2]
      exact mul_lt_mul_right hc

theorem ieee_gt_iff_key (a b : IEEE.Value) (ha : a ≠ IEEE.Value.nan)
    (hb : b ≠ IEEE.Value.nan) : IEEE.Value.gt a b = true ↔ b.key < a.key :=
  ieee_lt_iff_key b a hb ha

theorem ieee_gt_nan (a b : IEEE.Value) (h : a = IEEE.Value.nan ∨ b = IEEE.Value.nan) :
    IEEE.Value.gt a b = false := by
  rcases h with h | h
  · subst h
    cases b <;> rfl
  · subst h
    cases a <;> rfl

theorem ieee_reduce_key {R P : Type} (account_balance : R → IEEE.Value) (a b : R × P)
    (ha : account_balance a.1 ≠ IEEE.Value.nan) (hb : account_balance b.1 ≠ IEEE.Value.nan) :
    IEEE.reduce account_balance a b =
      if (account_balance b.1).key < (account_balance a.1).key then a else b := by
  unfold IEEE.reduce
  by_cases h : (account_balance b.1).key < (account_balance a.1).key
  · rw [if_pos h, if_pos ((ieee_gt_iff_key _ _ ha hb).mpr h)]
  · rw [if_neg h, if_neg (fun h1 => h ((ieee_gt_iff_key _ _ ha hb).mp h1))]

theorem ieee_reduce_not_nan {R P : Type} (account_balance : R → IEEE.Value) (a b : R × P)
    (ha : account_balance a.1 ≠ IEEE.Value.nan) (hb : account_balance b.1 ≠ IEEE.Value.nan) :
    account_balance (IEEE.reduce account_balance a b).1 ≠ IEEE.Value.nan := by
  unfold IEEE.reduce
  split_ifs
  · exact ha
  · exact hb

theorem ieee_reduce_key_max {R P : Type} (account_balance : R → IEEE.Value) (a b : R × P)
    (ha : account_balance a.1 ≠ IEEE.Value.nan) (hb : account_balance b.1 ≠ IEEE.Value.nan) :
    (account_balance (IEEE.reduce account_balance a b).1).key =
      max (account_balance a.1).key (account_balance b.1).key := by
  rw [ieee_reduce_key account_balance a b ha hb]
  split_ifs with h
  · exact (max_eq_left (le_of_lt h)).symm
  · exact (max_eq_right (not_lt.mp h)).symm

theorem ieee_reduce_assoc {R P : Type} (account_balance : R → IEEE.Value) (a b c : R × P)
    (ha : account_balance a.1 ≠ IEEE.Value.nan) (hb : account_balance b.1 ≠ IEEE.Value.nan)
    (hc : account_balance c.1 ≠ IEEE.Value.nan) :
    IEEE.reduce account_balance (IEEE.reduce account_balance a b) c =
      IEEE.reduce account_balance a (IEEE.reduce account_balance b c) := by
  rw [ieee_reduce_key account_balance _ c (ieee_reduce_not_nan account_balance a b ha hb) hc,
    ieee_reduce_key account_balance a _ ha (ieee_reduce_not_nan account_balance b c hb hc),
    ieee_reduce_key account_balance a b ha hb, ieee_reduce_key account_balance b c hb hc]
  by_cases hab : (account_balance b.1).key < (account_balance a.1).key
  · by_cases hbc : (account_balance c.1).key < (account_balance b.1).key
    · have hac : (account_balance c.1).key < (account_balance a.1).key := lt_trans hbc hab
      simp only [hab, hbc, hac, if_true]
    · by_cases hac : (account_balance c.1).key < (account_balance a.1).key
      · simp only [hab, hbc, hac, if_true, if_false]
      · simp only [hab, hbc, hac, if_true, if_false]
  · by_cases hbc : (account_balance c.1).key < (account_balance b.1).key
    · simp only [hab, hbc, if_true, if_false]
    · have hac : ¬ (account_balance c.1).key < (account_balance a.1).key := by
        intro h
        exact hab (lt_of_le_of_lt (not_lt.mp hbc) h)
      simp only [hab, hbc, hac, if_false]

theorem ieee_foldl_reduce_key {R P : Type} (account_balance : R → IEEE.Value) :
    ∀ (l : List (R × P)) (init : R × P),
      (∀ x ∈ init :: l, account_balance x.1 ≠ IEEE.Value.nan) →
      account_balance (l.foldl (IEEE.reduce account_balance) init).1 ≠ IEEE.Value.nan ∧
      (account_balance (l.foldl (IEEE.reduce account_balance) init).1).key =
        (l.map (fun x => (account_balance x.1).key)).foldl max (account_balance init.1).key := by
  intro l
  induction l with
  | nil =>
    intro init h
    exact ⟨h init (List.mem_cons_self _ _), rfl⟩
  | cons x l ih =>
    intro init h
    have hi := h init (List.mem_cons_self _ _)
    have hx := h x (List.mem_cons_of_mem _ (List.mem_cons_self _ _))
    have hr := ieee_reduce_not_nan account_balance init x hi hx
    have := ih (IEEE.reduce account_balance init x) (by
      intro y hy
      rcases List.mem_cons.mp hy with hy | hy
      · rw [hy]; exact hr
      · exact h y (List.mem_cons_of_mem _ (List.mem_cons_of_mem _ hy)))
    simp only [List.foldl_cons, List.map_cons]
    rw [← ieee_reduce_key_max account_balance init x hi hx]
    exact this

theorem foldl_max_perm_of_linearOrder {K : Type} [LinearOrder K] (l1 l2 : List K)
    (h : l1.Perm l2) (m : K) : l1.foldl max m = l2.foldl max m := by
  induction h generalizing m with
  | nil => rfl
  | cons x _ ih => simp only [List.foldl_cons]; exact ih _
  | swap x y l =>
    simp only [List.foldl_cons]
    rw [max_assoc, max_comm y x, ← max_assoc]
  | trans _ _ ih1 ih2 => exact (ih1 m).trans (ih2 m)

/-- C31, counterexample (the reduction is neither commutative nor associative on
all pairs): pairs
are given by the balance of their results and a parameter.  Two pairs of the
balance 10000 and the parameters 1 and 2: `reduce` returns its second operand, so
swapping the operands changes the result.  Pairs of the balances 5, NaN and 3:
`reduce(reduce(a, b), c)` is `c` and `reduce(a, reduce(b, c))` is `a`, since every
comparison with the NaN is false. -/
theorem ieee_reduce_not_commutative_nor_associative :
    IEEE.reduce id (IEEE.Value.ofNat 10000, (1 : Nat)) (IEEE.Value.ofNat 10000, 2) ≠
      IEEE.reduce id (IEEE.Value.ofNat 10000, (2 : Nat)) (IEEE.Value.ofNat 10000, 1) ∧
    IEEE.reduce id (IEEE.reduce id (IEEE.Value.ofNat 5, (1 : Nat)) (IEEE.Value.nan, 2))
      (IEEE.Value.ofNat 3, 3) = (IEEE.Value.ofNat 3, 3) ∧
    IEEE.reduce id (IEEE.Value.ofNat 5, (1 : Nat))
      (IEEE.reduce id (IEEE.Value.nan, 2) (IEEE.Value.ofNat 3, 3)) = (IEEE.Value.ofNat 5, 1) ∧
    IEEE.reduce id (IEEE.reduce id (IEEE.Value.ofNat 5, (1 : Nat)) (IEEE.Value.nan, 2))
      (IEEE.Value.ofNat 3, 3) ≠
      IEEE.reduce id (IEEE.Value.ofNat 5, (1 : Nat))
        (IEEE.reduce id (IEEE.Value.nan, 2) (IEEE.Value.ofNat 3, 3)) := by
  decide

/-- C31, amended (the reduction on pairs without a NaN balance): in the arithmetic
of the program, `reduce(a, b) = (a.balance > b.balance ? a : b)` is associative on
pairs whose balances are not NaN; `reduce(a, b) = reduce(b, a)` when one of the two
balances is greater than the other; when `a.balance > b.balance` is false, as for
equal balances and for a NaN, `reduce(a, b)` is `b`.  For pairs without a NaN
balance, the balances of the results of the reduction of a list in two orders are
equal as numbers: neither is greater than the other. -/
theorem ieee_reduce_assoc_without_nan {R P : Type} (account_balance : R → IEEE.Value) :
    (∀ a b c : R × P, account_balance a.1 ≠ IEEE.Value.nan →
      account_balance b.1 ≠ IEEE.Value.nan → account_balance c.1 ≠ IEEE.Value.nan →
      IEEE.reduce account_balance (IEEE.reduce account_balance a b) c =
        IEEE.reduce account_balance a (IEEE.reduce account_balance b c)) ∧
    (∀ a b : R × P,
      IEEE.Value.gt (account_balance a.1) (account_balance b.1) = true ∨
        IEEE.Value.gt (account_balance b.1) (account_balance a.1) = true →
      IEEE.reduce account_balance a b = IEEE.reduce account_balance b a) ∧
    (∀ a b : R × P, IEEE.Value.gt (account_balance a.1) (account_balance b.1) = false →
      IEEE.reduce account_balance a b = b) ∧
    (∀ a b : R × P,
      account_balance a.1 = IEEE.Value.nan ∨ account_balance b.1 = IEEE.Value.nan →
      IEEE.reduce account_balance a b = b) ∧
    (∀ (l1 l2 : List (R × P)) (init : R × P), l1.Perm l2 →
      (∀ x ∈ init :: l1, account_balance x.1 ≠ IEEE.Value.nan) →
      IEEE.Value.gt (account_balance (l1.foldl (IEEE.reduce account_balance) init).1)
        (account_balance (l2.foldl (IEEE.reduce account_balance) init).1) = false ∧
      IEEE.Value.gt (account_balance (l2.foldl (IEEE.reduce account_balance) init).1)
        (account_balance (l1.foldl (IEEE.reduce account_balance) init).1) = false) := by
  have htie : ∀ a b : R × P,
      IEEE.Value.gt (account_balance a.1) (account_balance b.1) = false →
      IEEE.reduce account_balance a b = b := by
    intro a b h
    unfold IEEE.reduce
    rw [h]
    rfl
  refine ⟨fun a b c => ieee_reduce_assoc account_balance a b c, ?_, htie,
    fun a b h => htie a b (ieee_gt_nan _ _ h), ?_⟩
  · intro a b h
    have key : ∀ x y : R × P,
        IEEE.Value.gt (account_balance x.1) (account_balance y.1) = true →
        IEEE.reduce account_balance x y = x ∧ IEEE.reduce account_balance y x = x := by
      intro x y hxy
      have hx : account_balance x.1 ≠ IEEE.Value.nan := by
        intro e
        rw [ieee_gt_nan _ _ (Or.inl e)] at hxy
        exact Bool.false_ne_true hxy
      have hy : account_balance y.1 ≠ IEEE.Value.nan := by
        intro e
        rw [ieee_gt_nan _ _ (Or.inr e)] at hxy
        exact Bool.false_ne_true hxy
      have hk := (ieee_gt_iff_key _ _ hx hy).mp hxy
      refine ⟨?_, ?_⟩
      · unfold IEEE.reduce
        rw [hxy]
        rfl
      · rw [ieee_reduce_key account_balance y x hy hx, if_neg (not_lt.mpr (le_of_lt hk))]
    rcases h with h | h
    · rw [(key a b h).1, (key a b h).2]
    · rw [(key b a h).1, (key b a h).2]
  · intro l1 l2 init hp hn
    have hn2 : ∀ x ∈ init :: l2, account_balance x.1 ≠ IEEE.Value.nan := by
      intro x hx
      rcases List.mem_cons.mp hx with hx | hx
      · exact hn x (by rw [hx]; exact List.mem_cons_self _ _)
      · exact hn x (List.mem_cons_of_mem _ (hp.mem_iff.mpr hx))
    obtain ⟨n1, k1⟩ := ieee_foldl_reduce_key account_balance l1 init hn
    obtain ⟨n2, k2⟩ := ieee_foldl_reduce_key account_balance l2 init hn2
    have hk : (account_balance (l1.foldl (IEEE.reduce account_balance) init).1).key =
        (account_balance (l2.foldl (IEEE.reduce account_balance) init).1).key := by
      rw [k1, k2]
      exact foldl_max_perm_of_linearOrder _ _ (hp.map _) _
    refine ⟨?_, ?_⟩
    · rw [Bool.eq_false_iff]
      intro h
      have := (ieee_gt_iff_key _ _ n1 n2).mp h
      rw [hk] at this
      exact lt_irrefl _ this
    · rw [Bool.eq_false_iff]
      intro h
      have := (ieee_gt_iff_key _ _ n2 n1).mp h
      rw [hk] at this
      exact lt_irrefl _ this

/-- The claim C31, amended, at three pairs of the balances 5, 7 and 3: both
groupings give the pair of the balance 7, and the two orders of the pairs of the
balances 5 and 7 give the same pair. -/
theorem ieee_reduce_assoc_without_nan_witness :
    IEEE.reduce id (IEEE.reduce id (IEEE.Value.ofNat 5, (1 : Nat)) (IEEE.Value.ofNat 7, 2))
      (IEEE.Value.ofNat 3, 3) = (IEEE.Value.ofNat 7, 2) ∧
    IEEE.reduce id (IEEE.Value.ofNat 5, (1 : Nat))
      (IEEE.reduce id (IEEE.Value.ofNat 7, 2) (IEEE.Value.ofNat 3, 3)) = (IEEE.Value.ofNat 7, 2) ∧
    IEEE.reduce id (IEEE.Value.ofNat 5, (1 : Nat)) (IEEE.Value.ofNat 7, 2) =
      IEEE.reduce id (IEEE.Value.ofNat 7, (2 : Nat)) (IEEE.Value.ofNat 5, 1) :=
  have h := (ieee_reduce_assoc_without_nan (P := Nat) (id : IEEE.Value → IEEE.Value)).1
    (IEEE.Value.ofNat 5, 1) (IEEE.Value.ofNat 7, 2) (IEEE.Value.ofNat 3, 3)
    (by decide) (by decide) (by decide)
  ⟨by decide, h ▸ (by decide),
    (ieee_reduce_assoc_without_nan (P := Nat) (id : IEEE.Value → IEEE.Value)).2.1
      (IEEE.Value.ofNat 5, 1) (IEEE.Value.ofNat 7, 2) (Or.inr (by decide))⟩

/-! ## The general statements at books of two positions and at a close with a profit -/

theorem marginCalls_after (H : StdHeap) :
    (TradingManager.init smallAccount 0 tickAt1).after H marginCalls =
      some ([0, 1], marginBook2) := by
  have h1 := marginBook1_open H
  have h2 := marginBook2_open H
  simp only [marginCalls, after, Call.apply, h1, h2, Option.toList, List.append_nil,
    List.singleton_append]

theorem openTickCalls_after (H : StdHeap) :
    (TradingManager.init {} 0 tickAt1).after H openTickCalls =
      some ([0], longBookAfterTickUp 0) := by
  have h1 := longBook_open H 0
  have h2 := longBook_onTick H 0
  simp only [Nat.zero_mod] at h1
  simp only [openTickCalls, after, Call.apply, h1, h2, Option.toList, List.append_nil,
    List.singleton_append, List.nil_append]

/-- The claim C17 at the two long orders of volume 20000 placed on the account of
balance 1000: they return the ids 0 and 1, which differ, and the open positions
carry the ids 1 and 0. -/
theorem created_ids_distinct_witness :
    (TradingManager.init smallAccount 0 tickAt1).after refHeap marginCalls =
      some ([0, 1], marginBook2) ∧
    ([0, 1] : List Nat) = (List.range 2).map (fun i => (0 + i) % 2 ^ 64) ∧
    ([0, 1] : List Nat).Nodup ∧
    marginBook2._positions.map (fun n => n.val.id) = [1, 0] ∧
    (marginBook2._positions.map (fun n => n.val.id)).Sublist [1, 0] ∧
    (marginBook2._positions.map (fun n => n.val.id)).Nodup :=
  have h := created_ids_distinct refHeap smallAccount 0 tickAt1 marginCalls [0, 1] marginBook2
    (marginCalls_after refHeap)
  ⟨marginCalls_after refHeap, h.1, h.2.1 (by norm_num), rfl, h.2.2.1, h.2.2.2 (by norm_num)⟩

theorem marginBookAfterTickDrop_reachable (H : StdHeap) :
    Reachable H marginBookAfterTickDrop := by
  have h := Reachable.onTick (H := H) tickDrop (marginBook2_reachable H)
  rw [marginBook2_onTick] at h
  exact h

/-- The claim C1, amended, at the manager that holds the two long positions of
volume 20000 opened at the ask 1, where the long volume and the long expense of
the ledger are 40000, the sums over the two positions, and at the manager after
the tick that closes the later of the two, where they are 20000, the volume and
the expense of the position that is left. -/
theorem ledger_consistency_witness :
    Reachable refHeap marginBook2 ∧
    marginBook2._positions.map (fun n => n.val.volume) = [20000, 20000] ∧
    marginBook2._account_manager._long_volume = 40000 ∧
    marginBook2._account_manager._long_positions_expanses = 40000 ∧
    (marginBook2._account_manager._long_volume =
      ((marginBook2._positions.filter (fun n => n.val.is_long)).map
        (fun n => n.val.volume)).sum ∧
    marginBook2._account_manager._short_volume =
      ((marginBook2._positions.filter (fun n => !n.val.is_long)).map
        (fun n => n.val.volume)).sum ∧
    marginBook2._account_manager._long_positions_expanses =
      ((marginBook2._positions.filter (fun n => n.val.is_long)).map
        (fun n => n.val.volume * n.val.open_price)).sum ∧
    marginBook2._account_manager._short_positions_expanses =
      ((marginBook2._positions.filter (fun n => !n.val.is_long)).map
        (fun n => n.val.volume * n.val.open_price)).sum) ∧
    Reachable refHeap marginBookAfterTickDrop ∧
    (marginBook2.onTick refHeap tickDrop).2 = marginBookAfterTickDrop ∧
    marginBookAfterTickDrop._positions.map (fun n => n.val.volume) = [20000] ∧
    marginBookAfterTickDrop._account_manager._long_volume = 20000 ∧
    marginBookAfterTickDrop._account_manager._long_positions_expanses = 20000 ∧
    (marginBookAfterTickDrop._account_manager._long_volume =
      ((marginBookAfterTickDrop._positions.filter (fun n => n.val.is_long)).map
        (fun n => n.val.volume)).sum ∧
    marginBookAfterTickDrop._account_manager._short_volume =
      ((marginBookAfterTickDrop._positions.filter (fun n => !n.val.is_long)).map
        (fun n => n.val.volume)).sum ∧
    marginBookAfterTickDrop._account_manager._long_positions_expanses =
      ((marginBookAfterTickDrop._positions.filter (fun n => n.val.is_long)).map
        (fun n => n.val.volume * n.val.open_price)).sum ∧
    marginBookAfterTickDrop._account_manager._short_positions_expanses =
      ((marginBookAfterTickDrop._positions.filter (fun n => !n.val.is_long)).map
        (fun n => n.val.volume * n.val.open_price)).sum) :=
  ⟨marginBook2_reachable refHeap, rfl, rfl, rfl,
    ledger_consistency refHeap marginBook2 (marginBook2_reachable refHeap),
    marginBookAfterTickDrop_reachable refHeap,
    congrArg Prod.snd (marginBook2_onTick refHeap), rfl, rfl, rfl,
    ledger_consistency refHeap marginBookAfterTickDrop
      (marginBookAfterTickDrop_reachable refHeap)⟩

/-! ## One tick at which positions of all four queues are due -/

theorem eq_of_perm_of_pairwise {α : Type} {r s : α → α → Prop}
    (hrs : ∀ a b, r a b → s b a → False) :
    ∀ {l A : List α}, l.Perm A → l.Pairwise r → A.Pairwise s → l = A
  | [], A, hp, _, _ => (List.nil_perm.mp hp).symm
  | x :: l, [], hp, _, _ => absurd hp.length_eq (by simp)
  | x :: l, a :: A, hp, hl, hA => by
    have hxa : x = a := by
      by_contra hne
      have h1 : a ∈ l := by
        have : a ∈ x :: l := hp.symm.subset (List.mem_cons_self a A)
        rcases List.mem_cons.mp this with h | h
        · exact absurd h.symm hne
        · exact h
      have h2 : x ∈ A := by
        have : x ∈ a :: A := hp.subset (List.mem_cons_self x l)
        rcases List.mem_cons.mp this with h | h
        · exact absurd h hne
        · exact h
      exact hrs x a ((List.pairwise_cons.mp hl).1 a h1) ((List.pairwise_cons.mp hA).1 x h2)
    subst hxa
    rw [eq_of_perm_of_pairwise hrs (List.Perm.cons_inv hp) (List.pairwise_cons.mp hl).2
      (List.pairwise_cons.mp hA).2]

theorem eq_of_mem_iff_of_pairwise {α : Type} {r s : α → α → Prop}
    (hrs : ∀ a b, r a b → s b a → False) (hs : ∀ a, ¬ s a a) {l A : List α}
    (hmem : ∀ x, x ∈ l ↔ x ∈ A) (hl : l.Nodup) (sl : l.Pairwise r) (sA : A.Pairwise s) :
    l = A := by
  have hA : A.Nodup := sA.imp (fun {a b} hab (he : a = b) => hs a (by rw [← he] at hab; exact hab))
  exact eq_of_perm_of_pairwise hrs ((List.perm_ext_iff_of_nodup hl hA).mpr hmem) sl sA

theorem registerPositionEvents_fields (H : StdHeap) (tm : TradingManager) (x : Node) :
    (tm.registerPositionEvents H x)._account_manager = tm._account_manager ∧
    (tm.registerPositionEvents H x)._current_tick = tm._current_tick ∧
    (tm.registerPositionEvents H x)._trades = tm._trades ∧
    (tm.registerPositionEvents H x)._new_id = tm._new_id := by
  unfold TradingManager.registerPositionEvents
  refine ⟨?_, ?_, ?_, ?_⟩ <;> (split_ifs <;> rfl)

theorem tryCreatePosition_of_admitted (H : StdHeap) (tm : TradingManager) (order : Order)
    (hc : tm._account_manager.canOrderBeProcessed order.volume tm._current_tick.ask
      tm._current_tick.bid = true) :
    (tm.tryCreatePosition H order).2.2._positions =
      ⟨freshAddr tm._positions, ⟨tm._new_id, tm._current_tick.timestamp, tm._current_tick.ask,
        order.volume, order.is_long, order.comment, order.stoploss, order.takeprofit⟩⟩ ::
        tm._positions ∧
    (tm.tryCreatePosition H order).2.2._account_manager =
      tm._account_manager.addPosition ⟨tm._new_id, tm._current_tick.timestamp,
        tm._current_tick.ask, order.volume, order.is_long, order.comment, order.stoploss,
        order.takeprofit⟩ ∧
    (tm.tryCreatePosition H order).2.2._current_tick = tm._current_tick ∧
    (tm.tryCreatePosition H order).2.2._trades = tm._trades ∧
    (tm.tryCreatePosition H order).2.2._new_id = (tm._new_id + 1) % 2 ^ 64 := by
  simp only [TradingManager.tryCreatePosition, hc, Bool.not_true, Bool.false_eq_true, if_false,
    registerPositionEvents_positions, registerPositionEvents_fields, and_self]

theorem parBook_init : ParBook (TradingManager.init {} 0 tickAt1) [] 0 := by
  refine ⟨rfl, rfl, rfl, rfl, rfl, rfl, rfl, rfl, ?_⟩
  simp [TradingManager.init, AccountBalanceManager.ofProperties,
    AccountBalanceManager.getTotalExpenses]

theorem parBook_step (H : StdHeap) {tm : TradingManager} {ps : List Node} {id : Nat}
    (h : ParBook tm ps id) (order : Order) (n : Node) (hv : order.volume = 100)
    (hnode : n = ⟨freshAddr ps, ⟨id, 0, 1, 100, order.is_long, order.comment, order.stoploss,
        order.takeprofit⟩⟩)
    (hl : ps.length < 1000) (hid : id + 1 < 2 ^ 64) :
    ParBook (tm.tryCreatePosition H order).2.2 (n :: ps) (id + 1) := by
  have hn : (0 : ℚ) ≤ (ps.length : ℚ) := Nat.cast_nonneg _
  have hn1 : (ps.length : ℚ) < 1000 := by exact_mod_cast hl
  have hc : tm._account_manager.canOrderBeProcessed order.volume tm._current_tick.ask
      tm._current_tick.bid = true := by
    rw [canOrderBeProcessed_eq]
    · simp only [AccountBalanceManager.getTotalEquity, h.balance, h.equity, h.expenses, h.tick,
        h.leverage, h.stop_out_level, hv, tickAt1, decide_eq_true_eq]
      norm_num
      rw [lt_div_iff (by linarith)]
      linarith
    · rw [h.leverage]; norm_num
    · simp only [h.expenses, h.leverage, h.tick, hv, tickAt1]
      norm_num
      intro h0
      linarith
  obtain ⟨e1, e2, e3, e4, e5⟩ := tryCreatePosition_of_admitted H tm order hc
  refine ⟨?_, ?_, ?_, ?_, ?_, ?_, ?_, ?_, ?_⟩
  · rw [e1, h.positions, h.new_id, h.tick, hv, hnode]; rfl
  · rw [e3, h.tick]
  · rw [e4, h.trades]
  · rw [e5, h.new_id, Nat.mod_eq_of_lt hid]
  · rw [e2]; unfold AccountBalanceManager.addPosition; split_ifs <;> exact h.leverage
  · rw [e2]; unfold AccountBalanceManager.addPosition; split_ifs <;> exact h.stop_out_level
  · rw [e2]; unfold AccountBalanceManager.addPosition; split_ifs <;> exact h.balance
  · rw [e2]; unfold AccountBalanceManager.addPosition; split_ifs <;> exact h.equity
  · have he := h.expenses
    rw [e2]
    simp only [AccountBalanceManager.getTotalExpenses] at he ⊢
    unfold AccountBalanceManager.addPosition
    split_ifs <;> simp only [hv, h.tick, tickAt1, List.length_cons, Nat.cast_add, Nat.cast_one] <;>
      linarith

theorem freshAddr_cons (x : Node) (l : List Node) :
    freshAddr (x :: l) = max x.addr (freshAddr l - 1) + 1 := by
  simp [freshAddr]

theorem parBook_placeOrders_cons (H : StdHeap) {tm : TradingManager} {ps : List Node} {id : Nat}
    (h : ParBook tm ps id) (order : Order) (rest : List Order) (n : Node)
    (hv : order.volume = 100)
    (hnode : n = ⟨freshAddr ps, ⟨id, 0, 1, 100, order.is_long, order.comment, order.stoploss,
        order.takeprofit⟩⟩)
    (hl : ps.length < 1000) (hid : id + 1 < 2 ^ 64) {qs : List Node} {id1 : Nat}
    (hrest : ∀ tm1 : TradingManager, ParBook tm1 (n :: ps) (id + 1) →
      ParBook (tm1.placeOrders H rest) qs id1) :
    ParBook (tm.placeOrders H (order :: rest)) qs id1 :=
  hrest _ (parBook_step H h order n hv hnode hl hid)

theorem eventBook_parBook (H : StdHeap) : ParBook (eventBook H) eventPositions 8 := by
  have hf : ∀ (x : Node) (l : List Node) (a : Nat), freshAddr l = a → x.addr = a →
      freshAddr (x :: l) = a + 1 := by
    intro x l a h1 h2
    rw [freshAddr_cons, h1, h2]
    omega
  have f0 : freshAddr [] = 1 := rfl
  have f1 := hf (eventNode 0 true (13 / 16) 0 "long stop 0.8125") _ _ f0 rfl
  have f2 := hf (eventNode 1 false 0 (11 / 8) "short take 1.375") _ _ f1 rfl
  have f3 := hf (eventNode 2 false (19 / 16) 0 "short stop 1.1875") _ _ f2 rfl
  have f4 := hf (eventNode 3 true 0 (11 / 16) "long take 0.6875") _ _ f3 rfl
  have f5 := hf (eventNode 4 true (7 / 8) 0 "long stop 0.875") _ _ f4 rfl
  have f6 := hf (eventNode 5 false 0 (3 / 2) "short take 1.5") _ _ f5 rfl
  have f7 := hf (eventNode 6 false (9 / 8) 0 "short stop 1.125") _ _ f6 rfl
  have f8 := hf (eventNode 7 true 0 (5 / 8) "long take 0.625") _ _ f7 rfl
  unfold eventBook eventOrders
  refine parBook_placeOrders_cons H parBook_init _ _ (eventNode 0 true (13 / 16) 0 "long stop 0.8125") rfl
    (by rw [f0]; rfl) (by simp) (by norm_num) ?_
  intro tm1 s1
  refine parBook_placeOrders_cons H s1 _ _ (eventNode 1 false 0 (11 / 8) "short take 1.375") rfl
    (by rw [f1]; rfl) (by simp) (by norm_num) ?_
  intro tm2 s2
  refine parBook_placeOrders_cons H s2 _ _ (eventNode 2 false (19 / 16) 0 "short stop 1.1875") rfl
    (by rw [f2]; rfl) (by simp) (by norm_num) ?_
  intro tm3 s3
  refine parBook_placeOrders_cons H s3 _ _ (eventNode 3 true 0 (11 / 16) "long take 0.6875") rfl
    (by rw [f3]; rfl) (by simp) (by norm_num) ?_
  intro tm4 s4
  refine parBook_placeOrders_cons H s4 _ _ (eventNode 4 true (7 / 8) 0 "long stop 0.875") rfl
    (by rw [f4]; rfl) (by simp) (by norm_num) ?_
  intro tm5 s5
  refine parBook_placeOrders_cons H s5 _ _ (eventNode 5 false 0 (3 / 2) "short take 1.5") rfl
    (by rw [f5]; rfl) (by simp) (by norm_num) ?_
  intro tm6 s6
  refine parBook_placeOrders_cons H s6 _ _ (eventNode 6 false (9 / 8) 0 "short stop 1.125") rfl
    (by rw [f6]; rfl) (by simp) (by norm_num) ?_
  intro tm7 s7
  refine parBook_placeOrders_cons H s7 _ _ (eventNode 7 true 0 (5 / 8) "long take 0.625") rfl
    (by rw [f7]; rfl) (by simp) (by norm_num) ?_
  intro tm8 s8
  exact s8

theorem placeOrders_reachable (H : StdHeap) (orders : List Order) :
    ∀ tm : TradingManager, Reachable H tm → Reachable H (tm.placeOrders H orders) := by
  induction orders with
  | nil => intro tm h; exact h
  | cons order rest ih =>
    intro tm h
    exact ih _ (Reachable.tryCreatePosition order h)

theorem eventBook_reachable (H : StdHeap) : Reachable H (eventBook H) :=
  placeOrders_reachable H eventOrders _ (Reachable.init {} 0 tickAt1)

theorem forcedOf_nil (state : AccountState) : forcedOf state [] = [] := by
  cases state <;> rfl

theorem onTick_all_due (H : StdHeap) {tm : TradingManager} (h : Inv tm) (tick : Tick)
    (A B C D : List Node)
    (hmem : ∀ n, n ∈ tm._positions ↔ n ∈ A ∨ n ∈ B ∨ n ∈ C ∨ n ∈ D)
    (hA : ∀ n ∈ A, n.val.is_long = true ∧ n.val.stoploss ≠ 0 ∧ n.val.takeprofit = 0 ∧
      tick.bid ≤ n.val.stoploss)
    (hB : ∀ n ∈ B, n.val.is_long = false ∧ n.val.stoploss ≠ 0 ∧ n.val.takeprofit = 0 ∧
      tick.ask ≥ n.val.stoploss)
    (hC : ∀ n ∈ C, n.val.is_long = true ∧ n.val.stoploss = 0 ∧ n.val.takeprofit ≠ 0 ∧
      tick.bid ≥ n.val.takeprofit)
    (hD : ∀ n ∈ D, n.val.is_long = false ∧ n.val.stoploss = 0 ∧ n.val.takeprofit ≠ 0 ∧
      tick.ask ≤ n.val.takeprofit)
    (sA : A.Pairwise (fun a b => a.val.stoploss > b.val.stoploss))
    (sB : B.Pairwise (fun a b => a.val.stoploss < b.val.stoploss))
    (sC : C.Pairwise (fun a b => a.val.takeprofit < b.val.takeprofit))
    (sD : D.Pairwise (fun a b => a.val.takeprofit > b.val.takeprofit)) :
    (tm.onTick H tick).2._trades = tm._trades ++
        ((A ++ B).map (fun n => (tm.withTick tick).tradeOf n.val CloseType.STOPLOSS) ++
          (C ++ D).map (fun n => (tm.withTick tick).tradeOf n.val CloseType.TAKEPROFIT)) ∧
      (tm.onTick H tick).2._positions = [] := by
  obtain ⟨sll, sls, tpl, tps, hc, hinv, a1, a2, a3, a4, s1, s2, s3, s4, _, _, hrest⟩ :=
    afterEvents_spec H h tick
  have hq : ∀ (k : EventKind) (s : Bool) (n : Node), n ∈ tm.queue k s →
      n ∈ tm._positions ∧ n.val.is_long = s ∧ k.has n.val = true := by
    intro k s n hn
    have := (mem_queue_iff h k s n).mp hn
    exact ⟨this.1, (queued_iff k s n).mp this.2⟩
  have hsl : ∀ p : Position, EventKind.stoploss.has p = true ↔ p.stoploss ≠ 0 := by
    intro p; simp [EventKind.has, Position.hasStoploss]
  have htp : ∀ p : Position, EventKind.takeprofit.has p = true ↔ p.takeprofit ≠ 0 := by
    intro p; simp [EventKind.has, Position.hasTakeprofit]
  have hfst : ((sll ++ sls).map (fun n => (n, CloseType.STOPLOSS)) ++
      (tpl ++ tps).map (fun n => (n, CloseType.TAKEPROFIT))).map Prod.fst =
      sll ++ sls ++ (tpl ++ tps) := by
    simp [List.map_append, List.map_map, Function.comp_def]
  have hnd : (sll ++ sls ++ (tpl ++ tps)).Nodup := hfst ▸ hc.nodup
  have hclosed : ∀ (k : EventKind) (s : Bool) (n : Node), n ∈ tm._positions →
      n.val.is_long = s → k.has n.val = true →
      k.predicate s (if s = true then tick.bid else tick.ask) n.val = true →
      n ∈ sll ∨ n ∈ sls ∨ n ∈ tpl ∨ n ∈ tps := by
    intro k s n hn hside hhas hp
    by_contra hne
    have hn1 : n ∈ (tm.afterEvents H tick)._positions := by
      rw [hc.positions, List.mem_filter, hfst]
      refine ⟨hn, ?_⟩
      simp only [List.mem_append, decide_eq_true_eq]
      tauto
    have hn2 : n ∈ (tm.afterEvents H tick).queue k s :=
      (mem_queue_iff hinv k s n).mpr ⟨hn1, (queued_iff k s n).mpr ⟨hside, hhas⟩⟩
    cases s
    · have := (hrest k n).2 hn2
      simp only [Bool.false_eq_true, if_false] at hp
      rw [this] at hp
      cases hp
    · have := (hrest k n).1 hn2
      simp only [if_true] at hp
      rw [this] at hp
      cases hp
  have hinA : ∀ n, n ∈ sll ↔ n ∈ A := by
    intro n
    constructor
    · intro hn
      obtain ⟨h1, h2, h3⟩ := hq _ _ n (a1 n hn).1
      rw [hsl] at h3
      rcases (hmem n).mp h1 with m | m | m | m
      · exact m
      · exact absurd h2 (by rw [(hB n m).1]; simp)
      · exact absurd (hC n m).2.1 h3
      · exact absurd (hD n m).2.1 h3
    · intro hn
      obtain ⟨h1, h2, h3, h4⟩ := hA n hn
      rcases hclosed .stoploss true n ((hmem n).mpr (Or.inl hn)) h1 ((hsl _).mpr h2)
        (by simpa [EventKind.predicate, EventKind.traits, StoplossManager,
          LongStoplossPredicate] using h4) with m | m | m | m
      · exact m
      · exact absurd h1 (by rw [(hq _ _ n (a2 n m).1).2.1]; simp)
      · exact absurd h3 ((htp _).mp (hq _ _ n (a3 n m).1).2.2)
      · exact absurd h3 ((htp _).mp (hq _ _ n (a4 n m).1).2.2)
  have hinB : ∀ n, n ∈ sls ↔ n ∈ B := by
    intro n
    constructor
    · intro hn
      obtain ⟨h1, h2, h3⟩ := hq _ _ n (a2 n hn).1
      rw [hsl] at h3
      rcases (hmem n).mp h1 with m | m | m | m
      · exact absurd h2 (by rw [(hA n m).1]; simp)
      · exact m
      · exact absurd (hC n m).2.1 h3
      · exact absurd (hD n m).2.1 h3
    · intro hn
      obtain ⟨h1, h2, h3, h4⟩ := hB n hn
      rcases hclosed .stoploss false n ((hmem n).mpr (Or.inr (Or.inl hn))) h1 ((hsl _).mpr h2)
        (by simpa [EventKind.predicate, EventKind.traits, StoplossManager,
          ShortStoplossPredicate] using h4) with m | m | m | m
      · exact absurd h1 (by rw [(hq _ _ n (a1 n m).1).2.1]; simp)
      · exact m
      · exact absurd h3 ((htp _).mp (hq _ _ n (a3 n m).1).2.2)
      · exact absurd h3 ((htp _).mp (hq _ _ n (a4 n m).1).2.2)
  have hinC : ∀ n, n ∈ tpl ↔ n ∈ C := by
    intro n
    constructor
    · intro hn
      obtain ⟨h1, h2, h3⟩ := hq _ _ n (a3 n hn).1
      rw [htp] at h3
      rcases (hmem n).mp h1 with m | m | m | m
      · exact absurd (hA n m).2.2.1 h3
      · exact absurd (hB n m).2.2.1 h3
      · exact m
      · exact absurd h2 (by rw [(hD n m).1]; simp)
    · intro hn
      obtain ⟨h1, h2, h3, h4⟩ := hC n hn
      rcases hclosed .takeprofit true n ((hmem n).mpr (Or.inr (Or.inr (Or.inl hn)))) h1
        ((htp _).mpr h3)
        (by simpa [EventKind.predicate, EventKind.traits, TakeprofitManager,
          LongTakeprofitPredicate] using h4) with m | m | m | m
      · exact absurd h2 ((hsl _).mp (hq _ _ n (a1 n m).1).2.2)
      · exact absurd h2 ((hsl _).mp (hq _ _ n (a2 n m).1).2.2)
      · exact m
      · exact absurd h1 (by rw [(hq _ _ n (a4 n m).1).2.1]; simp)
  have hinD : ∀ n, n ∈ tps ↔ n ∈ D := by
    intro n
    constructor
    · intro hn
      obtain ⟨h1, h2, h3⟩ := hq _ _ n (a4 n hn).1
      rw [htp] at h3
      rcases (hmem n).mp h1 with m | m | m | m
      · exact absurd (hA n m).2.2.1 h3
      · exact absurd (hB n m).2.2.1 h3
      · exact absurd h2 (by rw [(hC n m).1]; simp)
      · exact m
    · intro hn
      obtain ⟨h1, h2, h3, h4⟩ := hD n hn
      rcases hclosed .takeprofit false n ((hmem n).mpr (Or.inr (Or.inr (Or.inr hn)))) h1
        ((htp _).mpr h3)
        (by simpa [EventKind.predicate, EventKind.traits, TakeprofitManager,
          ShortTakeprofitPredicate] using h4) with m | m | m | m
      · exact absurd h2 ((hsl _).mp (hq _ _ n (a1 n m).1).2.2)
      · exact absurd h2 ((hsl _).mp (hq _ _ n (a2 n m).1).2.2)
      · exact absurd h1 (by rw [(hq _ _ n (a3 n m).1).2.1]; simp)
      · exact m
  have n1 : sll.Nodup := (List.nodup_append.mp (List.nodup_append.mp hnd).1).1
  have n2 : sls.Nodup := (List.nodup_append.mp (List.nodup_append.mp hnd).1).2.1
  have n3 : tpl.Nodup := (List.nodup_append.mp (List.nodup_append.mp hnd).2.1).1
  have n4 : tps.Nodup := (List.nodup_append.mp (List.nodup_append.mp hnd).2.1).2.1
  have eA : sll = A := by
    refine eq_of_mem_iff_of_pairwise ?_ ?_ hinA n1 s1 sA
    · intro a b hab hba
      simp only [EventKind.comp, EventKind.traits, StoplossManager,
        IteratorLongStoplossComparer, if_true, decide_eq_false_iff_not, not_lt] at hab
      exact absurd hba (not_lt.mpr hab)
    · intro a; exact lt_irrefl _
  have eB : sls = B := by
    refine eq_of_mem_iff_of_pairwise ?_ ?_ hinB n2 s2 sB
    · intro a b hab hba
      simp only [EventKind.comp, EventKind.traits, StoplossManager,
        IteratorShortStoplossComparer, Bool.false_eq_true, if_false, decide_eq_false_iff_not,
        not_lt, gt_iff_lt] at hab
      exact absurd hba (not_lt.mpr hab)
    · intro a; exact lt_irrefl _
  have eC : tpl = C := by
    refine eq_of_mem_iff_of_pairwise ?_ ?_ hinC n3 s3 sC
    · intro a b hab hba
      simp only [EventKind.comp, EventKind.traits, TakeprofitManager,
        IteratorLongTakeprofitComparer, if_true, decide_eq_false_iff_not, not_lt,
        gt_iff_lt] at hab
      exact absurd hba (not_lt.mpr hab)
    · intro a; exact lt_irrefl _
  have eD : tps = D := by
    refine eq_of_mem_iff_of_pairwise ?_ ?_ hinD n4 s4 sD
    · intro a b hab hba
      simp only [EventKind.comp, EventKind.traits, TakeprofitManager,
        IteratorShortTakeprofitComparer, Bool.false_eq_true, if_false, decide_eq_false_iff_not,
        not_lt] at hab
      exact absurd hba (not_lt.mpr hab)
    · intro a; exact lt_irrefl _
  subst eA eB eC eD
  have hL := afterLedger_closes H tick hc
  obtain ⟨f1, _⟩ := onTick_forced_spec H tick (afterLedger_inv H tick hinv)
  have hpos : (tm.afterLedger H tick)._positions = [] := by
    rw [hL.positions, List.filter_eq_nil_iff, hfst]
    intro n hn
    have := (hmem n).mp hn
    simp only [List.mem_append, decide_eq_true_eq, not_not]
    tauto
  rw [hpos, forcedOf_nil] at f1
  refine ⟨?_, ?_⟩
  · rw [f1.trades, hL.trades]
    simp only [List.map_nil, List.append_nil, List.map_append, List.map_map, List.append_assoc]
    rfl
  · rw [f1.positions, hpos]
    rfl

theorem eventBook_onTick (H : StdHeap) :
    ((eventBook H).onTick H tickWide).2._trades =
        (eventLongStops ++ eventShortStops).map
          (fun n => ((eventBook H).withTick tickWide).tradeOf n.val CloseType.STOPLOSS) ++
        (eventLongTakes ++ eventShortTakes).map
          (fun n => ((eventBook H).withTick tickWide).tradeOf n.val CloseType.TAKEPROFIT) ∧
      ((eventBook H).onTick H tickWide).2._positions = [] := by
  have hb := eventBook_parBook H
  have h := onTick_all_due H (reachable_inv H (eventBook_reachable H)) tickWide
    eventLongStops eventShortStops eventLongTakes eventShortTakes
    (by
      intro n
      rw [hb.positions]
      simp only [eventPositions, eventLongStops, eventShortStops, eventLongTakes,
        eventShortTakes, List.mem_cons, List.mem_singleton, List.not_mem_nil, or_false]
      tauto)
    (by
      intro n hn
      simp only [eventLongStops, List.mem_cons, List.mem_singleton, List.not_mem_nil,
        or_false] at hn
      rcases hn with rfl | rfl <;> simp [eventNode, tickWide] <;> norm_num)
    (by
      intro n hn
      simp only [eventShortStops, List.mem_cons, List.mem_singleton, List.not_mem_nil,
        or_false] at hn
      rcases hn with rfl | rfl <;> simp [eventNode, tickWide] <;> norm_num)
    (by
      intro n hn
      simp only [eventLongTakes, List.mem_cons, List.mem_singleton, List.not_mem_nil,
        or_false] at hn
      rcases hn with rfl | rfl <;> simp [eventNode, tickWide] <;> norm_num)
    (by
      intro n hn
      simp only [eventShortTakes, List.mem_cons, List.mem_singleton, List.not_mem_nil,
        or_false] at hn
      rcases hn with rfl | rfl <;> simp [eventNode, tickWide] <;> norm_num)
    (by simp [eventLongStops, eventNode]; norm_num)
    (by simp [eventShortStops, eventNode]; norm_num)
    (by simp [eventLongTakes, eventNode]; norm_num)
    (by simp [eventShortTakes, eventNode]; norm_num)
  rw [hb.trades, List.nil_append] at h
  exact h

theorem eventTrades_eq (tm : TradingManager) :
    (eventLongStops ++ eventShortStops).map
        (fun n => (tm.withTick tickWide).tradeOf n.val CloseType.STOPLOSS) ++
      (eventLongTakes ++ eventShortTakes).map
        (fun n => (tm.withTick tickWide).tradeOf n.val CloseType.TAKEPROFIT) = eventTrades :=
  rfl

/-- The claim C8 at a book of eight positions, two for each queue of the two event
managers, created in another order than their queues are drained: one `onTick`
at bid 0.75 and ask 1.25, where all eight are due, appends the trades
`eventTrades`, which are those of the two long stop-losses (0.875, then 0.8125),
of the two short stop-losses (1.125, then 1.1875), of the two long take-profits
(0.625, then 0.6875) and of the two short take-profits (1.5, then 1.375), and
leaves no position open. -/
theorem onTick_firing_order_witness :
    Reachable refHeap (eventBook refHeap) ∧
    (eventBook refHeap)._positions = eventPositions ∧
    (eventBook refHeap)._trades = [] ∧
    ((eventBook refHeap).onTick refHeap tickWide).2._trades = eventTrades ∧
    ((eventBook refHeap).onTick refHeap tickWide).2._positions = [] ∧
    ∃ sll sls tpl tps forced : List Node,
      ((eventBook refHeap).onTick refHeap tickWide).2._trades =
        (eventBook refHeap)._trades ++
          (sll.map
              (fun n => ((eventBook refHeap).withTick tickWide).tradeOf n.val
                CloseType.STOPLOSS) ++
            sls.map
              (fun n => ((eventBook refHeap).withTick tickWide).tradeOf n.val
                CloseType.STOPLOSS) ++
            tpl.map
              (fun n => ((eventBook refHeap).withTick tickWide).tradeOf n.val
                CloseType.TAKEPROFIT) ++
            tps.map
              (fun n => ((eventBook refHeap).withTick tickWide).tradeOf n.val
                CloseType.TAKEPROFIT) ++
            forced.map
              (fun n => ((eventBook refHeap).withTick tickWide).tradeOf n.val
                CloseType.FORCED)) ∧
      (∀ n ∈ sll, n ∈ (eventBook refHeap)._positions ∧ n.val.is_long = true ∧
        n.val.stoploss ≠ 0 ∧ tickWide.bid ≤ n.val.stoploss) ∧
      (∀ n ∈ sls, n ∈ (eventBook refHeap)._positions ∧ n.val.is_long = false ∧
        n.val.stoploss ≠ 0 ∧ tickWide.ask ≥ n.val.stoploss) ∧
      (∀ n ∈ tpl, n ∈ (eventBook refHeap)._positions ∧ n.val.is_long = true ∧
        n.val.takeprofit ≠ 0 ∧ tickWide.bid ≥ n.val.takeprofit) ∧
      (∀ n ∈ tps, n ∈ (eventBook refHeap)._positions ∧ n.val.is_long = false ∧
        n.val.takeprofit ≠ 0 ∧ tickWide.ask ≤ n.val.takeprofit) ∧
      (∀ n ∈ forced, n ∈ (eventBook refHeap)._positions) ∧
      sll.Pairwise (fun a b => a.val.stoploss ≥ b.val.stoploss) ∧
      sls.Pairwise (fun a b => a.val.stoploss ≤ b.val.stoploss) ∧
      tpl.Pairwise (fun a b => a.val.takeprofit ≤ b.val.takeprofit) ∧
      tps.Pairwise (fun a b => a.val.takeprofit ≥ b.val.takeprofit) ∧
      (∀ (n : Node) (ct : CloseType),
        (((eventBook refHeap).withTick tickWide).tradeOf n.val ct).close_price =
            (if (((eventBook refHeap).withTick tickWide).tradeOf n.val ct).is_long then
              tickWide.bid
              else tickWide.ask) ∧
          (((eventBook refHeap).withTick tickWide).tradeOf n.val ct).close_time =
            tickWide.timestamp ∧
          (((eventBook refHeap).withTick tickWide).tradeOf n.val ct).close_type = ct) :=
  ⟨eventBook_reachable refHeap, (eventBook_parBook refHeap).positions,
    (eventBook_parBook refHeap).trades,
    (eventBook_onTick refHeap).1.trans (eventTrades_eq _), (eventBook_onTick refHeap).2,
    onTick_firing_order refHeap (eventBook refHeap) (eventBook_reachable refHeap) tickWide⟩

/-! ## The balance as the running sum of the profits -/

theorem ieee_balance_after (calls : List IEEE.LedgerCall) :
    ∀ a : IEEE.AccountBalanceManager,
      (IEEE.AccountBalanceManager.after calls a)._account_balance =
        (IEEE.realizedTrades calls).foldl
          (fun b t => IEEE.Value.add IEEE.binary64 b t.calculateProfit) a._account_balance := by
  induction calls with
  | nil => intro a; rfl
  | cons c cs ih =>
    intro a
    cases c with
    | addPosition pos =>
      rw [IEEE.AccountBalanceManager.after, ih, IEEE.realizedTrades]
      · congr 1
        unfold IEEE.AccountBalanceManager.addPosition
        split_ifs <;> rfl
      · intro trade h; cases h
    | realizePosition trade =>
      rw [IEEE.AccountBalanceManager.after, ih, IEEE.realizedTrades, List.foldl_cons]
      congr 1
      unfold IEEE.AccountBalanceManager.realizePosition
      split_ifs <;> rfl
    | onTick tick =>
      rw [IEEE.AccountBalanceManager.after, ih, IEEE.realizedTrades]
      · rfl
      · intro trade h; cases h

/-- C16, amended (the balance is the initial balance with the profits of the
recorded trades added to it): in exact arithmetic, after every sequence of calls
on the manager of an account the balance is the initial `account_balance` plus
the sum of `calculateProfit` over the recorded trades, where the profit of a
trade is `(close_price - open_price) * volume` for a long and
`(open_price - close_price) * volume` for a short, and the results of every run
have this `account_balance` for their `trades`.  In the `double` arithmetic of
the program, after every sequence of calls on the ledger the balance is the
initial balance to which the profits of the trades handed to `realizePosition`
were added one after the other, in the order of the trades, every sum rounded. -/
theorem balance_is_running_sum_of_profits (H : StdHeap) (properties : AccountProperties)
    (new_id : Nat) (current_tick : Tick) :
    (∀ (calls : List Call) (ids : List Nat) (tm : TradingManager),
      (TradingManager.init properties new_id current_tick).after H calls = some (ids, tm) →
      tm.getBalance =
        properties.account_balance + (tm._trades.map Trade.calculateProfit).sum) ∧
    (∀ t : Trade, t.calculateProfit =
      if t.is_long then (t.close_price - t.open_price) * t.volume
      else (t.open_price - t.close_price) * t.volume) ∧
    (∀ (σ : Type) (tester : StrategyTester) (robot : ATS σ) (st st1 : σ) (res : Results),
      tester._account_properties = properties →
      StrategyTester.run H tester robot st new_id current_tick = some (res, st1) →
      res.account_balance =
        properties.account_balance + (res.trades.map Trade.calculateProfit).sum) ∧
    (∀ (calls : List IEEE.LedgerCall) (a : IEEE.AccountBalanceManager),
      (IEEE.AccountBalanceManager.after calls a)._account_balance =
        (IEEE.realizedTrades calls).foldl
          (fun b t => IEEE.Value.add IEEE.binary64 b t.calculateProfit) a._account_balance) ∧
    (∀ t : IEEE.Trade, t.calculateProfit =
      if t.is_long then
        IEEE.Value.mul IEEE.binary64 (IEEE.Value.sub IEEE.binary64 t.close_price t.open_price)
          t.volume
      else
        IEEE.Value.mul IEEE.binary64 (IEEE.Value.sub IEEE.binary64 t.open_price t.close_price)
          t.volume) :=
  ⟨(balance_of_calls_and_runs H properties new_id current_tick).1,
    (balance_of_calls_and_runs H properties new_id current_tick).2.1,
    (balance_of_calls_and_runs H properties new_id current_tick).2.2,
    fun calls a => ieee_balance_after calls a, fun _ => rfl⟩

set_option maxRecDepth 20000 in
/-- The claim C16, amended, at the calls that open the long position of volume 100
at the ask 1 and deliver the tick of bid 1.06, at which its take-profit closes it
with the profit 6, where the balance is 10006; and at the ledger calls that
realize the trades of profit 6.299999999999972 and 660.0000000000006 on the
balance 10000, where the balance is `(10000 + 6.299999999999972) +
660.0000000000006` in `double`, which is 10666.3. -/
theorem balance_is_running_sum_of_profits_witness :
    (TradingManager.init {} 0 tickAt1).after refHeap openTickCalls =
      some ([0], longBookAfterTickUp 0) ∧
    (longBookAfterTickUp 0)._trades.map Trade.calculateProfit = [6] ∧
    (longBookAfterTickUp 0).getBalance = 10006 ∧
    (longBookAfterTickUp 0).getBalance =
      ({} : AccountProperties).account_balance +
        ((longBookAfterTickUp 0)._trades.map Trade.calculateProfit).sum ∧
    IEEE.realizedTrades IEEE.callsTwoTrades = [IEEE.tradeD, IEEE.tradeE] ∧
    IEEE.Value.add IEEE.binary64
      (IEEE.Value.add IEEE.binary64 IEEE.ledger0._account_balance IEEE.tradeD.calculateProfit)
      IEEE.tradeE.calculateProfit = IEEE.Value.fin false 2931930218836787 (-38) ∧
    (IEEE.AccountBalanceManager.after IEEE.callsTwoTrades IEEE.ledger0)._account_balance =
      IEEE.Value.add IEEE.binary64
        (IEEE.Value.add IEEE.binary64 IEEE.ledger0._account_balance
          IEEE.tradeD.calculateProfit)
        IEEE.tradeE.calculateProfit :=
  ⟨openTickCalls_after refHeap,
    by
      simp only [longBookAfterTickUp, longTrade, List.map_cons, List.map_nil,
        Trade.calculateProfit, if_true]
      norm_num,
    rfl,
    (balance_is_running_sum_of_profits refHeap {} 0 tickAt1).1 openTickCalls [0]
      (longBookAfterTickUp 0) (openTickCalls_after refHeap),
    by decide, by decide,
    (balance_is_running_sum_of_profits refHeap {} 0 tickAt1).2.2.2.1 IEEE.callsTwoTrades
      IEEE.ledger0⟩

end BackTesting
